import Mathlib

/-!
# Channel dispatcher of telepathy-mission-control: filter matcher and pipeline

A shallow embedding of `src/mcd-dispatcher.c`.  Hash tables are lists of their
entries in iteration order, `GList`s are lists, `NULL`-able results are
`Option`s, and C integers are `Nat`/`Int` together with explicit range
predicates.
-/

namespace Mcd

/-! ## Values and property maps -/

/-- GValue as it occurs in channel property maps and in client filters: one
constructor per `GType` that `match_property` and the telepathy-glib accessors
distinguish, and `other` for every remaining type (doubles, arrays, ...). -/
inductive GValue where
  | string (s : String)
  | object_path (s : String)
  | boolean (b : Bool)
  | uchar (n : Nat)
  | int (i : Int)
  | uint (n : Nat)
  | int64 (i : Int)
  | uint64 (n : Nat)
  | other (type_name : String)
  deriving DecidableEq, Repr

/-- G_MAXINT64, the largest `gint64`. -/
def G_MAXINT64 : Nat := 2 ^ 63 - 1

/-- Range of the C type behind each integer `GType`: `guchar` is 8 bits wide,
`gint`/`guint` 32 bits and `gint64`/`guint64` 64 bits. Values of the other
types carry no range condition. -/
def GValue.in_range : GValue → Prop
  | .uchar n => n < 2 ^ 8
  | .int i => -(2 ^ 31 : Int) ≤ i ∧ i < 2 ^ 31
  | .uint n => n < 2 ^ 32
  | .int64 i => -(2 ^ 63 : Int) ≤ i ∧ i < 2 ^ 63
  | .uint64 n => n < 2 ^ 64
  | _ => True

instance (v : GValue) : Decidable v.in_range := by
  cases v <;> unfold GValue.in_range <;> infer_instance

/-- The four kinds of matcher value the filter matcher distinguishes; all the
integer types form one kind. -/
inductive ValueKind where
  | string
  | object_path
  | boolean
  | integer
  | unsupported
  deriving DecidableEq, Repr

/-- Kind of a value. -/
def GValue.kind : GValue → ValueKind
  | .string _ => .string
  | .object_path _ => .object_path
  | .boolean _ => .boolean
  | .uchar _ => .integer
  | .int _ => .integer
  | .uint _ => .integer
  | .int64 _ => .integer
  | .uint64 _ => .integer
  | .other _ => .unsupported

/-- Mathematical integer held by an integer value (`none` for the other
kinds). -/
def GValue.to_int : GValue → Option Int
  | .uchar n => some (n : Int)
  | .int i => some i
  | .uint n => some (n : Int)
  | .int64 i => some i
  | .uint64 n => some (n : Int)
  | _ => none

/-- Semantic equality of two values of the same kind: strings and object paths
exactly, booleans logically, integers numerically. -/
def GValue.same_kind_equal (a b : GValue) : Prop :=
  match a, b with
  | .string x, .string y => x = y
  | .object_path x, .object_path y => x = y
  | .boolean x, .boolean y => x = y
  | _, _ => a.kind = .integer ∧ b.kind = .integer ∧ a.to_int = b.to_int

/-- GHashTable from property names to values (a channel's property map, or one
filter of a client): the list of its entries in iteration order. -/
abbrev GHashTable := List (String × GValue)

/-- Number of entries of the table. -/
def g_hash_table_size (table : GHashTable) : Nat := table.length

/-- Value stored under a key, `none` for `NULL`. -/
def g_hash_table_lookup (table : GHashTable) (key : String) : Option GValue :=
  table.lookup key

/-- telepathy-glib `tp_strdiff`: true when the two strings differ. -/
def tp_strdiff (left right : String) : Bool := left != right

/-- telepathy-glib `tp_asv_get_string`: the string stored under the key, `NULL`
when the key is absent or its value is not a `G_TYPE_STRING`. -/
def tp_asv_get_string (asv : GHashTable) (key : String) : Option String :=
  match g_hash_table_lookup asv key with
  | some (.string s) => some s
  | _ => none

/-- telepathy-glib `tp_asv_get_object_path`: the object path stored under the
key, `NULL` when the key is absent or its value is not an object path. -/
def tp_asv_get_object_path (asv : GHashTable) (key : String) : Option String :=
  match g_hash_table_lookup asv key with
  | some (.object_path s) => some s
  | _ => none

/-- telepathy-glib `tp_asv_get_boolean`: `some b` stands for `*valid = TRUE`
with result `b`, `none` for `*valid = FALSE`. -/
def tp_asv_get_boolean (asv : GHashTable) (key : String) : Option Bool :=
  match g_hash_table_lookup asv key with
  | some (.boolean b) => some b
  | _ => none

/-- telepathy-glib `tp_asv_get_uint64`: every unsigned type is accepted, a
signed value is accepted when it is not negative; `none` is `*valid = FALSE`. -/
def tp_asv_get_uint64 (asv : GHashTable) (key : String) : Option Nat :=
  match g_hash_table_lookup asv key with
  | some (.uchar n) => some n
  | some (.uint n) => some n
  | some (.int i) => if i < 0 then none else some i.toNat
  | some (.int64 i) => if i < 0 then none else some i.toNat
  | some (.uint64 n) => some n
  | _ => none

/-- telepathy-glib `tp_asv_get_int64`: every signed type and the narrow
unsigned types are accepted, a `guint64` is accepted when it does not exceed
`G_MAXINT64`; `none` is `*valid = FALSE`. -/
def tp_asv_get_int64 (asv : GHashTable) (key : String) : Option Int :=
  match g_hash_table_lookup asv key with
  | some (.uchar n) => some (n : Int)
  | some (.int i) => some i
  | some (.uint n) => some (n : Int)
  | some (.int64 i) => some i
  | some (.uint64 n) => if n > G_MAXINT64 then none else some (n : Int)
  | _ => none

/-! ## Filter matcher -/

/-- Source `match_property`: true if the channel matches one property
criterion. -/
def match_property (channel_properties : GHashTable) (property_name : String)
    (filter_value : GValue) : Bool :=
  match filter_value with
  | .string s =>
    match tp_asv_get_string channel_properties property_name with
    | none => false
    | some string => !tp_strdiff string s
  | .object_path p =>
    match tp_asv_get_object_path channel_properties property_name with
    | none => false
    | some path => !tp_strdiff path p
  | .boolean fb =>
    match tp_asv_get_boolean channel_properties property_name with
    | none => false
    | some b => b == fb
  | .uchar v =>
    match tp_asv_get_uint64 channel_properties property_name with
    | none => false
    | some i => i == v
  | .uint v =>
    match tp_asv_get_uint64 channel_properties property_name with
    | none => false
    | some i => i == v
  | .uint64 v =>
    match tp_asv_get_uint64 channel_properties property_name with
    | none => false
    | some i => i == v
  | .int v =>
    match tp_asv_get_int64 channel_properties property_name with
    | none => false
    | some i => i == v
  | .int64 v =>
    match tp_asv_get_int64 channel_properties property_name with
    | none => false
    | some i => i == v
  | .other _ => false

/-- Modelled from the spec: the status of a channel, `McdChannelStatus` of
`mcd-channel.h`, with the values the data model of the specification lists. -/
inductive McdChannelStatus where
  | REQUEST
  | REQUESTED
  | DISPATCHING
  | HANDLER_INVOKED
  | DISPATCHED
  | FAILED
  deriving DecidableEq, Repr

/-- GError reduced to its code. -/
structure GError where
  code : Nat
  deriving DecidableEq, Repr

/-- Code of the cancellation error `TP_ERROR_CANCELLED` of telepathy-glib. -/
def TP_ERROR_CANCELLED : Nat := 11

/-- Code of `TP_ERROR_NOT_AVAILABLE` of telepathy-glib. -/
def TP_ERROR_NOT_AVAILABLE : Nat := 3

/-- McdChannel object, as far as the dispatcher reads and writes it. `id`
stands for the identity of the object (its address); two list entries with the
same `id` are the same channel. -/
structure McdChannel where
  id : Nat
  status : McdChannelStatus
  requested_properties : GHashTable
  immutable_properties : GHashTable
  account : Option String
  error : Option GError
  request_user_action_time : Nat
  satisfied_requests : List String
  deriving DecidableEq, Repr

/-- Property map `match_filters` reads: the requested properties while the
channel is a request, the immutable properties afterwards. -/
def match_filters_channel_properties (channel : McdChannel) : GHashTable :=
  if channel.status = McdChannelStatus.REQUEST ∨
      channel.status = McdChannelStatus.REQUESTED then
    channel.requested_properties
  else
    channel.immutable_properties

/-- Inner loop of `match_filters` over the entries of one filter: stops with
`filter_matched = FALSE` at the first entry that does not match. -/
def match_filters_entries (channel_properties : GHashTable) : GHashTable → Bool
  | [] => true
  | (property_name, filter_value) :: rest =>
    if !match_property channel_properties property_name filter_value then false
    else match_filters_entries channel_properties rest

/-- Outer loop of `match_filters` over the filter list, carrying
`best_quality`. The qualities are `guint`s; a filter holds far fewer than
2^32 - 1 entries, so `g_hash_table_size (filter) + 1` does not wrap and the
numbers are kept as naturals. -/
def match_filters_loop (channel_properties : GHashTable) :
    List GHashTable → Nat → Nat
  | [], best_quality => best_quality
  | filter :: rest, best_quality =>
    let quality := g_hash_table_size filter + 1
    if quality ≤ best_quality then
      match_filters_loop channel_properties rest best_quality
    else if match_filters_entries channel_properties filter then
      match_filters_loop channel_properties rest quality
    else
      match_filters_loop channel_properties rest best_quality

/-- Source `match_filters`: 0 when no filter of the list matches the channel,
otherwise a positive number that grows with the size of the matching filter. -/
def match_filters (channel : McdChannel) (filters : List GHashTable) : Nat :=
  match_filters_loop (match_filters_channel_properties channel) filters 0

/-- Specification side of the matcher: a filter matches when every one of its
entries matches. -/
def filter_matches (channel_properties : GHashTable) (filter : GHashTable) : Prop :=
  ∀ entry ∈ filter, match_property channel_properties entry.1 entry.2 = true

/-- Specification side of the matcher: the score of one filter, its number of
entries plus one when it matches and 0 when it does not. -/
def filter_score_spec (channel_properties : GHashTable) (filter : GHashTable) : Nat :=
  if filter.all (fun entry => match_property channel_properties entry.1 entry.2)
  then filter.length + 1 else 0

/-- Specification side of the matcher: a client's score is the maximum score
of its filters, computed without any early skip. -/
def match_filters_spec (channel_properties : GHashTable) (filters : List GHashTable) : Nat :=
  (filters.map (filter_score_spec channel_properties)).foldr max 0

/-! ## Clients and the ranking of possible handlers -/

/-- Bit of the Approver interface in `McdClientInterface`. -/
def MCD_CLIENT_APPROVER : Nat := 0x1

/-- Bit of the Handler interface in `McdClientInterface`. -/
def MCD_CLIENT_HANDLER : Nat := 0x2

/-- Bit of the Observer interface in `McdClientInterface`. -/
def MCD_CLIENT_OBSERVER : Nat := 0x4

/-- Bit of the Requests interface in `McdClientInterface`. -/
def MCD_CLIENT_INTERFACE_REQUESTS : Nat := 0x8

/-- Common start of the bus names of all clients, `MC_IFACE_CLIENT "."`. -/
def MC_CLIENT_BUS_NAME_BASE : String := "org.freedesktop.Telepathy.Client."

/-- McdClient record of the registry. `proxy` tells whether the `TpProxy`
pointer is set, `interfaces` is the bit set of `McdClientInterface` values and
`handled_channels` is `none` for `NULL`. -/
structure McdClient where
  proxy : Bool
  name : String
  interfaces : Nat
  handled_channels : Option (List String)
  bypass_approver : Bool
  activatable : Bool
  active : Bool
  got_handled_channels : Bool
  getting_handled_channels : Bool
  approver_filters : List GHashTable
  handler_filters : List GHashTable
  observer_filters : List GHashTable
  deriving DecidableEq, Repr

/-- The test `client->interfaces & flag` of the source. -/
def McdClient.implements (client : McdClient) (flag : Nat) : Bool :=
  (client.interfaces &&& flag) != 0

/-- Invariant of the registry that `create_mcd_client` establishes: every
client it inserts got its proxy from `create_client_proxy`. -/
def clients_have_proxy (clients : List McdClient) : Prop :=
  ∀ client ∈ clients, client.proxy = true

instance (clients : List McdClient) : Decidable (clients_have_proxy clients) := by
  unfold clients_have_proxy; infer_instance

/-- PossibleHandler of the source: a client and its total quality for a
batch. -/
structure PossibleHandler where
  client : McdClient
  quality : Nat
  deriving DecidableEq, Repr

/-- Source `possible_handler_cmp`: positive when `a` is the better handler,
negative when `b` is. -/
def possible_handler_cmp (a b : PossibleHandler) : Int :=
  if a.client.bypass_approver && !b.client.bypass_approver then 1
  else if !a.client.bypass_approver && b.client.bypass_approver then -1
  else if a.quality < b.quality then -1
  else if b.quality < a.quality then 1
  else 0

/-- GLib `g_list_sort_merge`: merges two sorted lists, taking from the first
one while `compare_func` is not positive. -/
def g_list_sort_merge {α : Type} (compare_func : α → α → Int) :
    List α → List α → List α
  | [], l2 => l2
  | a :: l1, [] => a :: l1
  | a :: l1, b :: l2 =>
    if compare_func a b ≤ 0 then a :: g_list_sort_merge compare_func l1 (b :: l2)
    else b :: g_list_sort_merge compare_func (a :: l1) l2

/-- GLib `g_list_sort`: the merge sort of `g_list_sort_real`, which cuts the
list after its first `length / 2` elements, sorts both parts and merges
them. -/
def g_list_sort {α : Type} (compare_func : α → α → Int) (list : List α) : List α :=
  if h : list.length < 2 then list
  else
    g_list_sort_merge compare_func
      (g_list_sort compare_func (list.take (list.length / 2)))
      (g_list_sort compare_func (list.drop (list.length / 2)))
termination_by list.length
decreasing_by
  · simp only [List.length_take]; omega
  · simp only [List.length_drop]; omega

/-- Loop of `mcd_dispatcher_get_possible_handlers` over the channels of the
batch for one client: adds up the per-channel qualities and stops with 0 at
the first channel the client's handler filters do not match. The sum is a
`gsize` of small terms and is kept as a natural. -/
def possible_handlers_total_quality (client : McdClient) :
    List McdChannel → Nat → Nat
  | [], total_quality => total_quality
  | channel :: rest, total_quality =>
    let quality := match_filters channel client.handler_filters
    if quality = 0 then 0
    else possible_handlers_total_quality client rest (total_quality + quality)

/-- Loop of `mcd_dispatcher_get_possible_handlers` over the registry: prepends
a `PossibleHandler` for every handler whose total quality is positive. -/
def possible_handlers_collect (channels : List McdChannel) :
    List McdClient → List PossibleHandler → List PossibleHandler
  | [], handlers => handlers
  | client :: rest, handlers =>
    if client.proxy = false || !client.implements MCD_CLIENT_HANDLER then
      possible_handlers_collect channels rest handlers
    else
      let total_quality := possible_handlers_total_quality client channels 0
      if total_quality > 0 then
        possible_handlers_collect channels rest
          ({ client := client, quality := total_quality } :: handlers)
      else
        possible_handlers_collect channels rest handlers

/-- The list `handlers` of `mcd_dispatcher_get_possible_handlers` after
`g_list_sort` and `g_list_reverse`: most preferred handler first. -/
def possible_handlers_ranked (clients : List McdClient) (channels : List McdChannel) :
    List PossibleHandler :=
  (g_list_sort possible_handler_cmp (possible_handlers_collect channels clients [])).reverse

/-- Source `mcd_dispatcher_get_possible_handlers`: the bus names of the
handlers that can take the whole batch, most preferred first, or `NULL`
(`none`) when there is none. -/
def mcd_dispatcher_get_possible_handlers (clients : List McdClient)
    (channels : List McdChannel) : Option (List String) :=
  match possible_handlers_collect channels clients [] with
  | [] => none
  | ph :: handlers =>
    some (((g_list_sort possible_handler_cmp (ph :: handlers)).reverse).map
      (fun ph => MC_CLIENT_BUS_NAME_BASE ++ ph.client.name))

/-! ## Dispatch contexts and the pipeline -/

/-- Calls to clients and signals the dispatcher emits, in the order in which
they happen. `run_handlers` marks an entry into `mcd_dispatcher_run_handlers`;
channels are named by their `id`. `mission_abort` carries the error the channel
object holds when it is aborted; `add_request` is the AddRequest call on a
client, with the path of the request and its preferred handler; and
`take_channels` is a batch handed to `_mcd_dispatcher_take_channels` by the
recovery of a channel. -/
inductive Action where
  | filter_func (func : Nat)
  | observe_channels (client : String) (channels : List Nat)
  | add_dispatch_operation (client : String)
  | run_handlers
  | handle_channels (client : String) (channels : List Nat)
      (satisfied_requests : List String) (user_action_time : Nat)
  | dispatched (channel : Nat)
  | dispatch_failed (channel : Nat) (error : GError)
  | dispatch_completed
  | mission_abort (channel : Nat) (error : Option GError)
  | undispatchable (channel : Nat)
  | new_dispatch_operation
  | dispatch_operation_finished
  | warning (message : String)
  | add_request (client : String) (request_path : String)
      (preferred_handler : Option String)
  | take_channels (channels : List Nat) (requested : Bool)
  deriving DecidableEq, Repr

/-- McdFilter, one in-process hook of the filter chain; `func` names the
function pointer. -/
structure McdFilter where
  func : Nat
  priority : Nat
  deriving DecidableEq, Repr

/-- Modelled from the spec: the McdDispatchOperation object of
`mcd-dispatch-operation.c`, whose source is not embedded here. It
carries the possible handlers it was created with, whether an approver has
claimed it, the handler an approver chose with HandleWith (`none` when no
handler was named) and the finish-blocked counter. -/
structure McdDispatchOperation where
  possible_handlers : List String
  claimed : Bool
  handler : Option String
  finish_blocked : Nat
  deriving DecidableEq, Repr

/-- Modelled from the spec: `_mcd_dispatch_operation_new`, a pending operation
that is neither claimed nor bound to a handler. -/
def _mcd_dispatch_operation_new (possible_handlers : List String) : McdDispatchOperation :=
  { possible_handlers := possible_handlers, claimed := false, handler := none,
    finish_blocked := 0 }

/-- Modelled from the spec: `_mcd_dispatch_operation_block_finished` adds one
to the finish-blocked counter. -/
def _mcd_dispatch_operation_block_finished (operation : McdDispatchOperation) :
    McdDispatchOperation :=
  { operation with finish_blocked := operation.finish_blocked + 1 }

/-- Modelled from the spec: `_mcd_dispatch_operation_unblock_finished` takes
one from the finish-blocked counter. -/
def _mcd_dispatch_operation_unblock_finished (operation : McdDispatchOperation) :
    McdDispatchOperation :=
  { operation with finish_blocked := operation.finish_blocked - 1 }

/-- What the read of the `next` field of a link of a channel list gives once
the link has been deleted from the list and freed. The source does not fix it:
`cleared` is the `NULL` that `g_list_delete_link` stores in the link before it
frees it, `stale` the successor the link had while it was in the list. Memory
that has been given out again and holds something else is not modelled. -/
inductive FreedLinkRead where
  | cleared
  | stale
  deriving DecidableEq, Repr

/-- McdDispatcherContext of the source. `operation` is `none` for `NULL`;
`log` records the calls and signals made on behalf of the context. The
reference count, the account and the connection are left out: every pending
call and every running callback holds a reference, so the context exists
whenever one of the functions below runs on it. `freed_link_next` is not a
field of the source: it stands for the memory of the links of `channels` that
were freed, which `_mcd_dispatcher_context_abort` reads. -/
structure McdDispatcherContext where
  finished : Bool
  cancelled : Bool
  skip_approval : Bool
  channels : List McdChannel
  operation : Option McdDispatchOperation
  possible_handlers : List String
  client_locks : Int
  approvers_invoked : Int
  chain : List McdFilter
  next_func_index : Nat
  log : List Action
  freed_link_next : FreedLinkRead := FreedLinkRead.cleared
  deriving DecidableEq, Repr

/-- McdDispatcherPrivate of the source, as far as the dispatching code uses
it: the live contexts, the filter chain, the client registry in iteration
order and the `operation_list_active` flag. `log` records what the dispatcher
does to channels outside any context. -/
structure McdDispatcherPrivate where
  contexts : List McdDispatcherContext
  filters : List McdFilter
  clients : List McdClient
  operation_list_active : Bool
  log : List Action
  deriving DecidableEq, Repr

/-- Number of entries into `mcd_dispatcher_run_handlers` recorded in a log. -/
def run_handlers_count (log : List Action) : Nat :=
  log.countP (fun action => action == Action.run_handlers)

/-- The effect of `_mcd_channel_set_status` on the channel objects of a
context: every entry of the context's list that is one of the given channels
gets the new status. -/
def set_status_in_context (context : McdDispatcherContext) (ids : List Nat)
    (status : McdChannelStatus) : McdDispatcherContext :=
  { context with
    channels := context.channels.map
      (fun channel => if channel.id ∈ ids then { channel with status := status } else channel) }

/-- Source `mcd_dispatcher_context_handler_done`. -/
def mcd_dispatcher_context_handler_done (context : McdDispatcherContext) :
    McdDispatcherContext :=
  if context.finished then context
  else
    let channels_left := context.channels.countP
      (fun channel => channel.status = McdChannelStatus.DISPATCHING ∨
        channel.status = McdChannelStatus.HANDLER_INVOKED)
    if channels_left = 0 then
      { context with finished := true, log := context.log ++ [Action.dispatch_completed] }
    else context

/-- Source `get_default_handler`: the first handler of the registry whose
handler filters match the channel. -/
def get_default_handler (clients : List McdClient) (channel : McdChannel) :
    Option McdClient :=
  match clients with
  | [] => none
  | client :: rest =>
    if !client.proxy || !client.implements MCD_CLIENT_HANDLER then
      get_default_handler rest channel
    else if match_filters channel client.handler_filters > 0 then some client
    else get_default_handler rest channel

/-- Loop of `mcd_dispatcher_handle_channels` that computes `user_action_time`:
the time of each channel with a non-zero time overwrites the one before. -/
def handle_channels_user_action_time : List McdChannel → Nat → Nat
  | [], user_action_time => user_action_time
  | channel :: rest, user_action_time =>
    let user_time := channel.request_user_action_time
    if user_time ≠ 0 then handle_channels_user_action_time rest user_time
    else handle_channels_user_action_time rest user_action_time

/-- Source `mcd_dispatcher_handle_channels`: marks the channels
`HANDLER_INVOKED` and calls HandleChannels on the handler. -/
def mcd_dispatcher_handle_channels (context : McdDispatcherContext)
    (channels : List McdChannel) (handler : McdClient) : McdDispatcherContext :=
  let user_action_time := handle_channels_user_action_time channels 0
  let satisfied_requests := (channels.map (fun channel => channel.satisfied_requests)).flatten
  let context := set_status_in_context context (channels.map (fun channel => channel.id))
    McdChannelStatus.HANDLER_INVOKED
  { context with
    log := context.log ++ [Action.handle_channels handler.name
      (channels.map (fun channel => channel.id)) satisfied_requests user_action_time] }

/-- Loop of `mcd_dispatcher_run_handler` over the channels for one client:
the channels its handler filters match, each one prepended to `handled`. -/
def run_handler_handled (client : McdClient) : List McdChannel → List McdChannel →
    List McdChannel
  | [], handled => handled
  | channel :: rest, handled =>
    if match_filters channel client.handler_filters ≠ 0 then
      run_handler_handled client rest (channel :: handled)
    else run_handler_handled client rest handled

/-- State of the search in `mcd_dispatcher_run_handler`: the best candidate so
far, the channels it can handle and their number. -/
structure HandlerChoice where
  handler : Option McdClient
  handled_best : List McdChannel
  num_channels_best : Int
  deriving DecidableEq, Repr

/-- Loop of `mcd_dispatcher_run_handler` over the registry; it stops at the
handler the approver chose. -/
def run_handler_select (approved_handler : Option String) (channels : List McdChannel) :
    List McdClient → HandlerChoice → HandlerChoice
  | [], best => best
  | client :: rest, best =>
    if !client.proxy || !client.implements MCD_CLIENT_HANDLER then
      run_handler_select approved_handler channels rest best
    else
      let handled := run_handler_handled client channels []
      let num_channels : Int := handled.length
      let the_chosen_one := decide (approved_handler = some client.name)
      if num_channels > best.num_channels_best || the_chosen_one then
        let best := { handler := some client, handled_best := handled,
                      num_channels_best := num_channels : HandlerChoice }
        if the_chosen_one then best
        else run_handler_select approved_handler channels rest best
      else run_handler_select approved_handler channels rest best

/-- Loop of `mcd_dispatcher_run_handler` that builds the list of unhandled
channels; `g_list_find` compares the channel objects by identity. -/
def run_handler_unhandled (handled_best : List McdChannel) :
    List McdChannel → List McdChannel → List McdChannel
  | [], unhandled => unhandled
  | channel :: rest, unhandled =>
    if handled_best.all (fun handled => handled.id != channel.id) then
      run_handler_unhandled handled_best rest (channel :: unhandled)
    else run_handler_unhandled handled_best rest unhandled

/-- The choice `mcd_dispatcher_run_handler` makes for a list of channels. -/
def run_handler_choice (priv : McdDispatcherPrivate) (context : McdDispatcherContext)
    (channels : List McdChannel) : HandlerChoice :=
  let approved_handler :=
    match context.operation with
    | some operation => operation.handler
    | none => none
  run_handler_select approved_handler channels priv.clients
    { handler := none, handled_best := [], num_channels_best := 0 }

/-- Source `mcd_dispatcher_run_handler`: finds a handler for the channels and
invokes it; returns the context and the list of channels still unhandled. -/
def mcd_dispatcher_run_handler (priv : McdDispatcherPrivate)
    (context : McdDispatcherContext) (channels : List McdChannel) :
    McdDispatcherContext × List McdChannel :=
  let choice := run_handler_choice priv context channels
  let unhandled := run_handler_unhandled choice.handled_best channels []
  match choice.handler with
  | some handler =>
    (mcd_dispatcher_handle_channels context choice.handled_best handler, unhandled)
  | none => (context, [])

/-- Loop of `mcd_dispatcher_run_handlers`: calls `mcd_dispatcher_run_handler`
until no channel is left or the number of unhandled channels stops
decreasing. `fuel` bounds the number of iterations; every iteration that
continues shortens the list, so the length of the list is enough fuel
(`run_handlers_loop_fuel_enough`). -/
def mcd_dispatcher_run_handlers_loop (priv : McdDispatcherPrivate) :
    Nat → McdDispatcherContext → List McdChannel → McdDispatcherContext
  | 0, context, _ => context
  | fuel + 1, context, channels =>
    if channels = [] then context
    else
      let result := mcd_dispatcher_run_handler priv context channels
      if result.2.length ≥ channels.length then
        { result.1 with
          log := result.1.log ++
            [Action.warning "Number of unhandled channels not decreasing!"] }
      else mcd_dispatcher_run_handlers_loop priv fuel result.1 result.2

/-- Source `mcd_dispatcher_run_handlers`. -/
def mcd_dispatcher_run_handlers (priv : McdDispatcherPrivate)
    (context : McdDispatcherContext) : McdDispatcherContext :=
  mcd_dispatcher_run_handlers_loop priv context.channels.length
    { context with log := context.log ++ [Action.run_handlers] } context.channels

/-- Source `mcd_dispatcher_context_release_client_lock`. -/
def mcd_dispatcher_context_release_client_lock (priv : McdDispatcherPrivate)
    (context : McdDispatcherContext) : McdDispatcherContext :=
  if ¬ context.client_locks > 0 then context
  else
    let context := { context with client_locks := context.client_locks - 1 }
    if context.client_locks = 0 then mcd_dispatcher_run_handlers priv context
    else context

/-- Source `observe_channels_cb`: the reply of an observer, with or without
error. -/
def observe_channels_cb (priv : McdDispatcherPrivate) (context : McdDispatcherContext)
    (_error : Bool) : McdDispatcherContext :=
  mcd_dispatcher_context_release_client_lock priv context

/-- Loop of `mcd_dispatcher_run_observers` over the channels for one client:
the channels its observer filters match, each one prepended to `observed`. -/
def run_observers_observed (client : McdClient) : List McdChannel → List McdChannel →
    List McdChannel
  | [], observed => observed
  | channel :: rest, observed =>
    if match_filters channel client.observer_filters ≠ 0 then
      run_observers_observed client rest (channel :: observed)
    else run_observers_observed client rest observed

/-- Loop of `mcd_dispatcher_run_observers` over the registry: every observer
that matches at least one channel is called and takes one client lock. -/
def mcd_dispatcher_run_observers_loop (channels : List McdChannel) :
    List McdClient → McdDispatcherContext → McdDispatcherContext
  | [], context => context
  | client :: rest, context =>
    if !client.proxy || !client.implements MCD_CLIENT_OBSERVER then
      mcd_dispatcher_run_observers_loop channels rest context
    else
      match run_observers_observed client channels [] with
      | [] => mcd_dispatcher_run_observers_loop channels rest context
      | channel :: observed =>
        mcd_dispatcher_run_observers_loop channels rest
          { context with
            client_locks := context.client_locks + 1
            log := context.log ++ [Action.observe_channels client.name
              ((channel :: observed).map (fun observed_channel => observed_channel.id))] }

/-- Source `mcd_dispatcher_run_observers`. -/
def mcd_dispatcher_run_observers (priv : McdDispatcherPrivate)
    (context : McdDispatcherContext) : McdDispatcherContext :=
  mcd_dispatcher_run_observers_loop context.channels priv.clients context

/-- Source `mcd_dispatcher_context_approver_not_invoked`. -/
def mcd_dispatcher_context_approver_not_invoked (priv : McdDispatcherPrivate)
    (context : McdDispatcherContext) : McdDispatcherContext :=
  if ¬ context.approvers_invoked > 0 then context
  else
    let context := { context with approvers_invoked := context.approvers_invoked - 1 }
    if context.approvers_invoked = 0 then
      mcd_dispatcher_context_release_client_lock priv context
    else context

/-- Source `add_dispatch_operation_cb`: the reply of an approver. -/
def add_dispatch_operation_cb (priv : McdDispatcherPrivate)
    (context : McdDispatcherContext) (error : Bool) : McdDispatcherContext :=
  let context :=
    if error then
      let context := { context with approvers_invoked := context.approvers_invoked - 1 }
      if context.approvers_invoked = 0 then
        mcd_dispatcher_context_release_client_lock priv context
      else context
    else context
  match context.operation with
  | some operation =>
    { context with operation := some (_mcd_dispatch_operation_unblock_finished operation) }
  | none => context

/-- Loop of `mcd_dispatcher_run_approvers` over the registry: every approver
whose filters match some channel of the context is called. -/
def mcd_dispatcher_run_approvers_loop (channels : List McdChannel) :
    List McdClient → McdDispatcherContext → McdDispatcherContext
  | [], context => context
  | client :: rest, context =>
    if !client.proxy || !client.implements MCD_CLIENT_APPROVER then
      mcd_dispatcher_run_approvers_loop channels rest context
    else if channels.any (fun channel => match_filters channel client.approver_filters != 0)
    then
      mcd_dispatcher_run_approvers_loop channels rest
        { context with
          approvers_invoked := context.approvers_invoked + 1
          operation := context.operation.map _mcd_dispatch_operation_block_finished
          log := context.log ++ [Action.add_dispatch_operation client.name] }
    else mcd_dispatcher_run_approvers_loop channels rest context

/-- Source `mcd_dispatcher_run_approvers`. -/
def mcd_dispatcher_run_approvers (priv : McdDispatcherPrivate)
    (context : McdDispatcherContext) : McdDispatcherContext :=
  match context.operation with
  | none => context
  | some _ =>
    let context := { context with approvers_invoked := 1 }
    let context := { context with client_locks := context.client_locks + 1 }
    let context := mcd_dispatcher_run_approvers_loop context.channels priv.clients context
    mcd_dispatcher_context_approver_not_invoked priv context

/-- Source `handlers_can_bypass_approval`. -/
def handlers_can_bypass_approval (priv : McdDispatcherPrivate) :
    List McdChannel → Bool
  | [] => true
  | channel :: rest =>
    match get_default_handler priv.clients channel with
    | none => false
    | some handler =>
      if !handler.bypass_approver then false
      else handlers_can_bypass_approval priv rest

/-- Source `mcd_dispatcher_run_clients`. -/
def mcd_dispatcher_run_clients (priv : McdDispatcherPrivate)
    (context : McdDispatcherContext) : McdDispatcherContext :=
  let context := { context with client_locks := 1 }
  let context := mcd_dispatcher_run_observers priv context
  let context :=
    match context.operation with
    | some _ =>
      if !context.skip_approval && !handlers_can_bypass_approval priv context.channels then
        mcd_dispatcher_run_approvers priv context
      else context
    | none => context
  mcd_dispatcher_context_release_client_lock priv context

/-- Modelled from the spec: `mcd_channel_take_error` of `mcd-channel.c`, whose
source is not embedded here, attaches the error to the channel object. -/
def mcd_channel_take_error (channel : McdChannel) (error : GError) : McdChannel :=
  { channel with error := some error }

/-- The effect of `mcd_channel_take_error` on the channel objects of a
context. -/
def take_error_in_context (context : McdDispatcherContext) (id : Nat) (error : GError) :
    McdDispatcherContext :=
  { context with
    channels := context.channels.map
      (fun channel => if channel.id = id then mcd_channel_take_error channel error
        else channel) }

/-- The list operation of `on_channel_abort_context`: `g_list_find` followed
by `g_list_delete_link` takes the first entry that is the given channel object
out of the list. -/
def g_list_remove_channel (channel : McdChannel) : List McdChannel → List McdChannel
  | [] => []
  | head :: rest =>
    if head.id = channel.id then rest else head :: g_list_remove_channel channel rest

/-- Source `on_channel_abort_context`: the handler of a channel's abort signal.
The context is flagged cancelled when the channel's error is the cancellation
error, and the channel leaves the context's list: with a dispatch operation
the list is owned by the operation and `_mcd_dispatch_operation_lose_channel`
takes the channel out of it, without one the context deletes the link
itself. -/
def on_channel_abort_context (channel : McdChannel) (context : McdDispatcherContext) :
    McdDispatcherContext :=
  let cancelled :=
    match channel.error with
    | some error => if error.code = TP_ERROR_CANCELLED then true else context.cancelled
    | none => context.cancelled
  { context with
    cancelled := cancelled
    channels := g_list_remove_channel channel context.channels }

/-- Modelled from the spec: `mcd_mission_abort` on a channel of the context
emits the channel's abort signal, to which `_mcd_dispatcher_enter_state_machine`
has connected `on_channel_abort_context`. -/
def mcd_mission_abort (channel : McdChannel) (context : McdDispatcherContext) :
    McdDispatcherContext :=
  on_channel_abort_context channel
    { context with log := context.log ++ [Action.mission_abort channel.id channel.error] }

/-- Source `on_operation_finished`: the handler of the operation's finished
signal. The signal carries the operation object, which is the one the context
points to. -/
def on_operation_finished (priv : McdDispatcherPrivate)
    (operation : McdDispatchOperation) (context : McdDispatcherContext) :
    McdDispatcherContext :=
  let context := { context with operation := some operation }
  let context :=
    if priv.operation_list_active then
      { context with log := context.log ++ [Action.dispatch_operation_finished] }
    else context
  if context.channels = [] then mcd_dispatcher_context_handler_done context
  else if operation.claimed then
    let ids := context.channels.map (fun channel => channel.id)
    let context := set_status_in_context context ids McdChannelStatus.DISPATCHED
    let context := { context with log := context.log ++ ids.map Action.dispatched }
    mcd_dispatcher_context_handler_done context
  else mcd_dispatcher_context_release_client_lock priv context

/-- Code of `MC_CHANNEL_REQUEST_GENERIC_ERROR` in the `MCError` enumeration of
libmcclient. -/
def MC_CHANNEL_REQUEST_GENERIC_ERROR : Nat := 9

/-- Loop of `handle_channels_cb` for a reply with an error: every channel of
the call gets the error, `dispatch-failed` is emitted and the channel is
aborted. -/
def handle_channels_cb_failed (mc_error : GError) :
    List McdChannel → McdDispatcherContext → McdDispatcherContext
  | [], context => context
  | channel :: rest, context =>
    let context := take_error_in_context context channel.id mc_error
    let context :=
      { context with log := context.log ++ [Action.dispatch_failed channel.id mc_error] }
    let context := mcd_mission_abort (mcd_channel_take_error channel mc_error) context
    handle_channels_cb_failed mc_error rest context

/-- Source `handle_channels_cb`: the reply of the handler to HandleChannels for
the channels of `call_data`; `error` tells whether the reply is an error. -/
def handle_channels_cb (context : McdDispatcherContext) (channels : List McdChannel)
    (error : Bool) : McdDispatcherContext :=
  let context :=
    if error then
      handle_channels_cb_failed { code := MC_CHANNEL_REQUEST_GENERIC_ERROR } channels context
    else
      let ids := channels.map (fun channel => channel.id)
      let context := set_status_in_context context ids McdChannelStatus.DISPATCHED
      { context with log := context.log ++ ids.map Action.dispatched }
  mcd_dispatcher_context_handler_done context

/-- Body of the loop of `_mcd_dispatcher_context_abort`: a channel without an
error takes a copy of the error, and the channel is aborted. -/
def _mcd_dispatcher_context_abort_channel (error : GError) (channel : McdChannel)
    (context : McdDispatcherContext) : McdDispatcherContext :=
  match channel.error with
  | none =>
    mcd_mission_abort (mcd_channel_take_error channel error)
      (take_error_in_context context channel.id error)
  | some _ => mcd_mission_abort channel context

/-- Loop of `_mcd_dispatcher_context_abort`; the list is the chain of links
from the one the loop stands on. `mcd_mission_abort` emits the abort signal of
the channel, and its handler `on_channel_abort_context` deletes that very link
from `context->channels` and frees it. The step `list = list->next` of the
loop then reads the freed link: the loop goes on with the successors the link
had, or ends as on `NULL`, as `freed_link_next` tells. -/
def _mcd_dispatcher_context_abort_loop (error : GError) :
    List McdChannel → McdDispatcherContext → McdDispatcherContext
  | [], context => context
  | channel :: rest, context =>
    let context := _mcd_dispatcher_context_abort_channel error channel context
    match context.freed_link_next with
    | .stale => _mcd_dispatcher_context_abort_loop error rest context
    | .cleared => context

/-- Source `_mcd_dispatcher_context_abort`: the loop starts at the head of
`context->channels`. -/
def _mcd_dispatcher_context_abort (context : McdDispatcherContext) (error : GError) :
    McdDispatcherContext :=
  _mcd_dispatcher_context_abort_loop error context.channels context

/-- Source `mcd_dispatcher_context_process`: the walker of the internal filter
chain, called with the result of the filter that ran last. -/
def mcd_dispatcher_context_process (priv : McdDispatcherPrivate)
    (context : McdDispatcherContext) (result : Bool) : McdDispatcherContext :=
  if result && !context.cancelled then
    match context.chain.get? context.next_func_index with
    | some filter =>
      { context with
        next_func_index := context.next_func_index + 1
        log := context.log ++ [Action.filter_func filter.func] }
    | none => mcd_dispatcher_run_clients priv context
  else
    let error : GError :=
      if context.cancelled then { code := TP_ERROR_CANCELLED }
      else { code := TP_ERROR_NOT_AVAILABLE }
    _mcd_dispatcher_context_abort context error

/-- Events that reach a context once `mcd_dispatcher_run_clients` has started:
the reply of an observer, the reply of an approver, the finished signal of the
dispatch operation (with the state of the operation at that moment), the abort
signal of a channel (with the state of the channel at that moment) and the
reply of a handler for the channels of its call. -/
inductive PipelineEvent where
  | observe_channels_reply (error : Bool)
  | add_dispatch_operation_reply (error : Bool)
  | operation_finished (operation : McdDispatchOperation)
  | channel_abort (channel : McdChannel)
  | handle_channels_reply (channels : List McdChannel) (error : Bool)
  deriving DecidableEq, Repr

/-- The callback each event runs. The finished signal exists only for a
context that has a dispatch operation. -/
def pipeline_step (priv : McdDispatcherPrivate) (context : McdDispatcherContext) :
    PipelineEvent → McdDispatcherContext
  | .observe_channels_reply error => observe_channels_cb priv context error
  | .add_dispatch_operation_reply error => add_dispatch_operation_cb priv context error
  | .operation_finished operation =>
    match context.operation with
    | some _ => on_operation_finished priv operation context
    | none => context
  | .channel_abort channel => on_channel_abort_context channel context
  | .handle_channels_reply channels error => handle_channels_cb context channels error

/-- The context after a sequence of events. -/
def pipeline_run (priv : McdDispatcherPrivate) (context : McdDispatcherContext)
    (events : List PipelineEvent) : McdDispatcherContext :=
  events.foldl (pipeline_step priv) context

/-! ## Entry point -/

/-- Modelled from the spec: `_mcd_channel_undispatchable` of `mcd-channel.c`,
whose source is not embedded here, aborts the channel as undispatchable; the
call is recorded in the dispatcher's log. -/
def _mcd_channel_undispatchable (priv : McdDispatcherPrivate) (channel : McdChannel) :
    McdDispatcherPrivate :=
  { priv with log := priv.log ++ [Action.undispatchable channel.id] }

/-- Source `_mcd_dispatcher_enter_state_machine`: creates the context of a
batch, with a dispatch operation unless the batch was requested, and starts
the pipeline on it. -/
def _mcd_dispatcher_enter_state_machine (priv : McdDispatcherPrivate)
    (channels : List McdChannel) (possible_handlers : List String) (requested : Bool) :
    McdDispatcherPrivate :=
  match channels with
  | [] => priv
  | first :: _ =>
    match first.account with
    | none =>
      { priv with
        log := priv.log ++ [Action.warning "_mcd_dispatcher_enter_state_machine called with no account"] }
    | some _ =>
      let context : McdDispatcherContext :=
        { finished := false, cancelled := false, skip_approval := false,
          channels := channels, operation := none,
          possible_handlers := possible_handlers,
          client_locks := 0, approvers_invoked := 0,
          chain := priv.filters, next_func_index := 0, log := [] }
      let context :=
        if !requested then
          let context :=
            { context with operation := some (_mcd_dispatch_operation_new possible_handlers) }
          if priv.operation_list_active then
            { context with log := context.log ++ [Action.new_dispatch_operation] }
          else context
        else context
      let context :=
        if priv.filters ≠ [] then mcd_dispatcher_context_process priv context true
        else mcd_dispatcher_run_clients priv context
      { priv with contexts := context :: priv.contexts }

/-- The loop of `_mcd_dispatcher_take_channels` that marks the channels of a
batch as dispatching. -/
def take_channels_set_dispatching (channels : List McdChannel) : List McdChannel :=
  channels.map (fun channel => { channel with status := McdChannelStatus.DISPATCHING })

/-- Source `_mcd_dispatcher_take_channels`: dispatches a batch of channels. A
batch no handler can take as a whole is split when it has two or more
channels, and its channel is undispatchable when it has one. -/
def _mcd_dispatcher_take_channels (priv : McdDispatcherPrivate)
    (channels : List McdChannel) (requested : Bool) : McdDispatcherPrivate :=
  match channels with
  | [] => priv
  | first :: next =>
    match mcd_dispatcher_get_possible_handlers priv.clients (first :: next) with
    | none =>
      match next with
      | [] => _mcd_channel_undispatchable priv first
      | second :: rest =>
        (first :: second :: rest).foldl
          (fun priv channel => _mcd_dispatcher_take_channels priv [channel] requested) priv
    | some possible_handlers =>
      _mcd_dispatcher_enter_state_machine priv
        (take_channels_set_dispatching (first :: next)) possible_handlers requested
termination_by channels.length
decreasing_by
  simp

/-! ## Filter chain -/

/-- Source `chain_add_filter`: the new filter goes before the first filter of
the chain whose priority is not lower than its own, and to the end when there
is none (`g_list_insert_before` with a `NULL` sibling appends). -/
def chain_add_filter (chain : List McdFilter) (filter : Nat) (priority : Nat) :
    List McdFilter :=
  match chain with
  | [] => [{ func := filter, priority := priority }]
  | elem :: rest =>
    if elem.priority ≥ priority then { func := filter, priority := priority } :: elem :: rest
    else elem :: chain_add_filter rest filter priority

/-- Source `mcd_dispatcher_add_filter`. -/
def mcd_dispatcher_add_filter (priv : McdDispatcherPrivate) (filter : Nat) (priority : Nat) :
    McdDispatcherPrivate :=
  { priv with filters := chain_add_filter priv.filters filter priority }

/-! ## Client descriptors and filter lists -/

/-- G_MAXUINT64, the largest `guint64`. -/
def G_MAXUINT64 : Nat := 2 ^ 64 - 1

/-- GLib `g_ascii_isspace`: space, form feed, newline, carriage return,
horizontal and vertical tab. -/
def g_ascii_isspace (c : Char) : Bool :=
  c.toNat = 32 || (9 ≤ c.toNat && c.toNat ≤ 13)

/-- The value of a character as a digit in `g_parse_long_long`: decimal digits
stand for themselves and letters, in either case, for 10 to 35. -/
def g_ascii_digit (c : Char) : Option Nat :=
  if c.isDigit then some (c.toNat - 48)
  else if c.isAlpha then some (c.toUpper.toNat - 65 + 10)
  else none

/-- Loop of `g_parse_long_long` over the digits: the number read so far and
whether any character was consumed. The loop stops at the first character that
is no digit of the base. The number is kept exact; the caller compares it with
`G_MAXUINT64`, which is what the `cutoff` test of the source amounts to. -/
def g_parse_digits (base : Nat) : List Char → Nat → Bool → Nat × Bool
  | [], value, any => (value, any)
  | c :: rest, value, any =>
    match g_ascii_digit c with
    | none => (value, any)
    | some digit =>
      if digit ≥ base then (value, any)
      else g_parse_digits base rest (value * base + digit) true

/-- The result of `g_parse_long_long`: the magnitude, whether a minus sign
came first, and whether `errno` was set to `ERANGE`. -/
structure ParsedNumber where
  magnitude : Nat
  negative : Bool
  range_error : Bool
  deriving DecidableEq, Repr

/-- GLib `g_parse_long_long` with base 0, as `g_ascii_strtoull` and
`g_ascii_strtoll` call it: skips white space, reads a sign, takes `0x` for base
16 and another leading `0` for base 8, and reads digits. Without any digit the
result is 0 and `errno` is left alone; a number above `G_MAXUINT64` gives
`G_MAXUINT64` and `ERANGE`. -/
def g_parse_long_long (nptr : String) : ParsedNumber :=
  let s := nptr.data.dropWhile g_ascii_isspace
  let negative := s.head? = some (Char.ofNat 45)
  let s := if s.head? = some (Char.ofNat 45) ∨ s.head? = some (Char.ofNat 43) then s.tail else s
  let hex := s.head? = some (Char.ofNat 48) ∧
    ((s.tail.head?).map Char.toUpper = some (Char.ofNat 88))
  let base : Nat :=
    if s.head? = some (Char.ofNat 48) then (if hex then 16 else 8) else 10
  let s := if hex then s.tail.tail else s
  let digits := g_parse_digits base s 0 false
  if !digits.2 then { magnitude := 0, negative := negative, range_error := false }
  else if digits.1 > G_MAXUINT64 then
    { magnitude := G_MAXUINT64, negative := negative, range_error := true }
  else { magnitude := digits.1, negative := negative, range_error := false }

/-- GLib `g_ascii_strtoull` with base 0: the `guint64` it returns and whether
it set `errno`. A number with a minus sign is negated modulo 2^64. -/
def g_ascii_strtoull (nptr : String) : Nat × Bool :=
  let result := g_parse_long_long nptr
  (if result.negative then (2 ^ 64 - result.magnitude) % 2 ^ 64 else result.magnitude,
   result.range_error)

/-- GLib `g_ascii_strtoll` with base 0: the `gint64` it returns and whether it
set `errno`. -/
def g_ascii_strtoll (nptr : String) : Int × Bool :=
  let result := g_parse_long_long nptr
  if result.range_error then
    (if result.negative then -(2 ^ 63 : Int) else (G_MAXINT64 : Int), true)
  else if result.negative ∧ result.magnitude > 2 ^ 63 then (-(2 ^ 63 : Int), true)
  else if ¬ result.negative ∧ result.magnitude > G_MAXINT64 then ((G_MAXINT64 : Int), true)
  else if result.negative then (-(result.magnitude : Int), false)
  else ((result.magnitude : Int), false)

/-- The conversion of a `guint64` to `guint`, which keeps the low 32 bits. -/
def guint_of_guint64 (x : Nat) : Nat := x % 2 ^ 32

/-- The conversion of a `gint64` to `gint`, which keeps the low 32 bits as a
number in two's complement. -/
def gint_of_gint64 (x : Int) : Int := (x + 2 ^ 31) % 2 ^ 32 - 2 ^ 31

/-- GLib `g_value_set_uint64`: sets a value of type `G_TYPE_UINT64`. For a
value of any other type its check
`g_return_if_fail (G_VALUE_HOLDS_UINT64 (value))` fails and the value is left
as it is. -/
def g_value_set_uint64 (value : GValue) (v_uint64 : Nat) : GValue :=
  match value with
  | .uint64 _ => .uint64 (v_uint64 % 2 ^ 64)
  | other => other

/-- GLib `g_hash_table_insert` on a table with `g_str_equal` keys: the value
replaces the one the key had, if any. -/
def g_hash_table_insert (table : GHashTable) (key : String) (value : GValue) : GHashTable :=
  table.filter (fun entry => entry.1 != key) ++ [(key, value)]

/-- GKeyFile of GLib, as far as the client files need it: the groups in the
order of the file, each with its keys and their values as strings. -/
structure GKeyFile where
  groups : List (String × List (String × String))
  deriving DecidableEq, Repr

/-- GLib `g_key_file_get_keys`: the keys of the group, in order; none when
the group does not exist. -/
def g_key_file_get_keys (file : GKeyFile) (group : String) : List String :=
  match file.groups.find? (fun entry => entry.1 == group) with
  | some entry => entry.2.map (fun pair => pair.1)
  | none => []

/-- GLib `g_key_file_get_string`: the value of the key, `NULL` (`none`) when
the group or the key does not exist. -/
def g_key_file_get_string (file : GKeyFile) (group key : String) : Option String :=
  match file.groups.find? (fun entry => entry.1 == group) with
  | some entry => (entry.2.find? (fun pair => pair.1 == key)).map (fun pair => pair.2)
  | none => none

/-- GLib `g_key_file_get_boolean` without an error location: `TRUE` for the
values `true` and `1`, `FALSE` for every other value and for a missing key. -/
def g_key_file_get_boolean (file : GKeyFile) (group key : String) : Bool :=
  match g_key_file_get_string file group key with
  | some value => value == "true" || value == "1"
  | none => false

/-- GLib `g_key_file_get_string_list`: the pieces of the value between the
separators `;`, `NULL` (`none`) when the key does not exist. Empty pieces,
which name no interface, are left out. -/
def g_key_file_get_string_list (file : GKeyFile) (group key : String) :
    Option (List String) :=
  (g_key_file_get_string file group key).map
    (fun value => (value.splitOn ";").filter (fun piece => piece != ""))

/-- The search `g_strrstr (key, " ")` of `parse_client_filter`: the text before
the last space of the key and the text after it, `none` when the key has no
space. -/
def g_strrstr_space : List Char → Option (List Char × List Char)
  | [] => none
  | c :: rest =>
    match g_strrstr_space rest with
    | some (before, after) => some (c :: before, after)
    | none => if c.toNat = 32 then some ([], rest) else none

/-- The test of `parse_client_filter` on a key: the key is valid when exactly
one character follows its last space; that character is the type code and the
text before the space is the name of the property. -/
def parse_client_filter_key (key : String) : Option (String × Char) :=
  match g_strrstr_space key.data with
  | some (before, [file_property_type]) => some (String.mk before, file_property_type)
  | _ => none

/-- One round of the loop of `parse_client_filter`: what the key does to the
filter. The numbers go through a `guint` or a `gint` variable, and the signed
ones are stored with `g_value_set_uint64`, as in the source. -/
def parse_client_filter_entry (file : GKeyFile) (group : String) (filter : GHashTable)
    (key : String) : GHashTable :=
  match parse_client_filter_key key with
  | none => filter
  | some (file_property, file_property_type) =>
    let str := (g_key_file_get_string file group key).getD ""
    if file_property_type = 'q' ∨ file_property_type = 'u' ∨ file_property_type = 't' then
      let parsed := g_ascii_strtoull str
      let x := guint_of_guint64 parsed.1
      if parsed.2 then filter
      else g_hash_table_insert filter file_property (g_value_set_uint64 (GValue.uint64 0) x)
    else if file_property_type = 'y' ∨ file_property_type = 'n' ∨ file_property_type = 'i' ∨
        file_property_type = 'x' then
      let parsed := g_ascii_strtoll str
      let x := gint_of_gint64 parsed.1
      if parsed.2 then filter
      else g_hash_table_insert filter file_property
        (g_value_set_uint64 (GValue.int64 0) (x % 2 ^ 64).toNat)
    else if file_property_type = 'b' then
      g_hash_table_insert filter file_property
        (GValue.boolean (g_key_file_get_boolean file group key))
    else if file_property_type = 's' then
      g_hash_table_insert filter file_property (GValue.string str)
    else if file_property_type = 'o' then
      g_hash_table_insert filter file_property (GValue.object_path str)
    else filter

/-- Source `parse_client_filter`: the filter a group of a client file stands
for. -/
def parse_client_filter (file : GKeyFile) (group : String) : GHashTable :=
  (g_key_file_get_keys file group).foldl (parse_client_filter_entry file group) []

/-- Name of the Client interface, `MC_IFACE_CLIENT` of the generated
libmcclient headers. -/
def MC_IFACE_CLIENT : String := "org.freedesktop.Telepathy.Client"

/-- Name of the Approver interface, `MC_IFACE_CLIENT_APPROVER`. -/
def MC_IFACE_CLIENT_APPROVER : String := "org.freedesktop.Telepathy.Client.Approver"

/-- Name of the Handler interface, `MC_IFACE_CLIENT_HANDLER`. -/
def MC_IFACE_CLIENT_HANDLER : String := "org.freedesktop.Telepathy.Client.Handler"

/-- Name of the Requests interface, `MC_IFACE_CLIENT_INTERFACE_REQUESTS`. -/
def MC_IFACE_CLIENT_INTERFACE_REQUESTS : String :=
  "org.freedesktop.Telepathy.Client.Interface.Requests"

/-- Name of the Observer interface, `MC_IFACE_CLIENT_OBSERVER`. -/
def MC_IFACE_CLIENT_OBSERVER : String := "org.freedesktop.Telepathy.Client.Observer"

/-- First loop of `parse_client_file`: the bits of the interfaces named in the
`Interfaces` key. -/
def parse_client_file_interfaces (interfaces : Nat) : List String → Nat
  | [] => interfaces
  | iface_name :: rest =>
    if iface_name = MC_IFACE_CLIENT_APPROVER then
      parse_client_file_interfaces (interfaces ||| MCD_CLIENT_APPROVER) rest
    else if iface_name = MC_IFACE_CLIENT_HANDLER then
      parse_client_file_interfaces (interfaces ||| MCD_CLIENT_HANDLER) rest
    else if iface_name = MC_IFACE_CLIENT_INTERFACE_REQUESTS then
      parse_client_file_interfaces (interfaces ||| MCD_CLIENT_INTERFACE_REQUESTS) rest
    else if iface_name = MC_IFACE_CLIENT_OBSERVER then
      parse_client_file_interfaces (interfaces ||| MCD_CLIENT_OBSERVER) rest
    else parse_client_file_interfaces interfaces rest

/-- Second loop of `parse_client_file`: every group whose name starts as the
filter groups of an interface of the client do gives one filter, prepended to
the list of that interface. -/
def parse_client_file_groups (file : GKeyFile) (client : McdClient) :
    List String → McdClient
  | [] => client
  | group :: rest =>
    if client.implements MCD_CLIENT_APPROVER ∧
        (MC_IFACE_CLIENT_APPROVER ++ ".ApproverChannelFilter ").data.isPrefixOf group.data
    then
      parse_client_file_groups file
        { client with
          approver_filters := parse_client_filter file group :: client.approver_filters } rest
    else if client.implements MCD_CLIENT_HANDLER ∧
        (MC_IFACE_CLIENT_HANDLER ++ ".HandlerChannelFilter ").data.isPrefixOf group.data
    then
      parse_client_file_groups file
        { client with
          handler_filters := parse_client_filter file group :: client.handler_filters } rest
    else if client.implements MCD_CLIENT_OBSERVER ∧
        (MC_IFACE_CLIENT_OBSERVER ++ ".ObserverChannelFilter ").data.isPrefixOf group.data
    then
      parse_client_file_groups file
        { client with
          observer_filters := parse_client_filter file group :: client.observer_filters } rest
    else parse_client_file_groups file client rest

/-- Source `parse_client_file`. -/
def parse_client_file (client : McdClient) (file : GKeyFile) : McdClient :=
  match g_key_file_get_string_list file MC_IFACE_CLIENT "Interfaces" with
  | none => client
  | some iface_names =>
    let client :=
      { client with interfaces := parse_client_file_interfaces client.interfaces iface_names }
    let client := parse_client_file_groups file client (file.groups.map (fun entry => entry.1))
    { client with
      bypass_approver := g_key_file_get_boolean file MC_IFACE_CLIENT_HANDLER "BypassApproval" }

/-- The conversion `get_channel_filter_cb` makes of one value of a filter:
booleans, strings and object paths are copied, the unsigned integer types
become `G_TYPE_UINT64` and the signed ones `G_TYPE_INT64` (`g_value_transform`
keeps the number); a value of another type is invalid. -/
def get_channel_filter_value (property_value : GValue) : Option GValue :=
  match property_value with
  | .boolean b => some (.boolean b)
  | .string s => some (.string s)
  | .object_path s => some (.object_path s)
  | .uchar n => some (.uint64 n)
  | .uint n => some (.uint64 n)
  | .uint64 n => some (.uint64 n)
  | .int i => some (.int64 i)
  | .int64 i => some (.int64 i)
  | .other _ => none

/-- Inner loop of `get_channel_filter_cb` over the entries of one filter of
the reply: the new filter, or `none` when an entry has an invalid type
(`valid_filter = FALSE`), at which the loop stops. -/
def get_channel_filter_class : List (String × GValue) → GHashTable → Option GHashTable
  | [], new_channel_class => some new_channel_class
  | (property_name, property_value) :: rest, new_channel_class =>
    match get_channel_filter_value property_value with
    | none => none
    | some filter_value =>
      get_channel_filter_class rest
        (g_hash_table_insert new_channel_class property_name filter_value)

/-- Outer loop of `get_channel_filter_cb` over the filters of the reply: every
valid filter is prepended to the list of the client. -/
def get_channel_filter_loop : List GHashTable → List GHashTable → List GHashTable
  | [], client_filters => client_filters
  | channel_class :: rest, client_filters =>
    match get_channel_filter_class channel_class [] with
    | some new_channel_class => get_channel_filter_loop rest (new_channel_class :: client_filters)
    | none => get_channel_filter_loop rest client_filters

/-- Source `get_channel_filter_cb`: the reply to the request for a filter list
of a client, `none` standing for a reply with an error. `client_filters` is the
list `user_data` points to, one of the three filter lists of the client. -/
def get_channel_filter_cb (client_filters : List GHashTable)
    (out_Value : Option (List GHashTable)) : List GHashTable :=
  match out_Value with
  | none => client_filters
  | some filters => get_channel_filter_loop filters client_filters

/-! ## Client registry -/

/-- The key under which `new_names_cb` stores a client in the `clients` hash
table: the well-known bus name, of which `client->name` is the part after
`MC_CLIENT_BUS_NAME_BASE`. -/
def client_bus_name (client : McdClient) : String :=
  MC_CLIENT_BUS_NAME_BASE ++ client.name

/-- The lookup `g_hash_table_lookup (priv->clients, name)`. -/
def clients_lookup (clients : List McdClient) (name : String) : Option McdClient :=
  clients.find? (fun client => client_bus_name client == name)

/-- The removal `g_hash_table_remove (priv->clients, name)`. -/
def clients_remove (clients : List McdClient) (name : String) : List McdClient :=
  clients.filter (fun client => client_bus_name client != name)

/-- The keys of the registry are distinct, as the keys of a hash table are. -/
def clients_keys_distinct (clients : List McdClient) : Prop :=
  (clients.map client_bus_name).Nodup

instance (clients : List McdClient) : Decidable (clients_keys_distinct clients) := by
  unfold clients_keys_distinct; infer_instance

/-- Source `create_mcd_client`. The client is named by the part of the bus
name after the common base, is active unless it was found among the
activatable names, and gets its proxy from `create_client_proxy`.
`descriptor` stands for the descriptor files on disk: for a client name it
gives the file that `find_client_file` finds and `g_key_file_load_from_file`
loads, and `none` when there is no such file or it does not load. Without a
file the interfaces are asked for over the bus and arrive later, in
`get_interfaces_cb`. -/
def create_mcd_client (descriptor : String → Option GKeyFile)
    (name : String) (activatable : Bool) : McdClient :=
  let client : McdClient :=
    { proxy := false, name := name.drop MC_CLIENT_BUS_NAME_BASE.length, interfaces := 0,
      handled_channels := none, bypass_approver := false, activatable := activatable,
      active := !activatable, got_handled_channels := false,
      getting_handled_channels := false, approver_filters := [], handler_filters := [],
      observer_filters := [] }
  let client :=
    match descriptor client.name with
    | some file => parse_client_file client file
    | none => client
  { client with proxy := true }

/-- Source `new_names_cb`: registers the names that are bus names of clients.
A name that is already known gets its activatable or its active bit set; a new
one gets a client from `create_mcd_client`. The keys of a hash table are
distinct, so the update of the entries under the name is the update of the
one client the lookup finds. Where the new entry comes in the iteration order
of the hash table is not determined; it is put first. -/
def new_names_cb (descriptor : String → Option GKeyFile)
    (priv : McdDispatcherPrivate) : List String → Bool → McdDispatcherPrivate
  | [], _ => priv
  | name :: names, activatable =>
    if !MC_CLIENT_BUS_NAME_BASE.data.isPrefixOf name.data then
      new_names_cb descriptor priv names activatable
    else
      match clients_lookup priv.clients name with
      | some _ =>
        new_names_cb descriptor
          { priv with
            clients := priv.clients.map (fun client =>
              if client_bus_name client = name then
                if activatable then { client with activatable := true }
                else { client with active := true }
              else client) }
          names activatable
      | none =>
        new_names_cb descriptor
          { priv with clients := create_mcd_client descriptor name activatable :: priv.clients }
          names activatable

/-- Source `name_owner_changed_cb`: the bus tells that the owner of the name
`arg0` changed from `arg1` to `arg2`; the empty string stands for no owner.
When the name lost its owner, a client that is not activatable is removed from
the table, and an activatable one is marked inactive and loses its list of
handled channels; the two warnings are recorded in the dispatcher's log. -/
def name_owner_changed_cb (descriptor : String → Option GKeyFile)
    (priv : McdDispatcherPrivate) (arg0 arg1 arg2 : String) : McdDispatcherPrivate :=
  if arg1 = "" ∧ arg2 ≠ "" then
    new_names_cb descriptor priv [arg0] false
  else if arg1 ≠ "" ∧ arg2 = "" then
    match clients_lookup priv.clients arg0 with
    | some client =>
      if !client.activatable then
        { priv with clients := clients_remove priv.clients arg0 }
      else
        { priv with
          clients := priv.clients.map (fun known =>
            if client_bus_name known = arg0 then
              { known with active := false, handled_channels := none }
            else known) }
    | none => priv
  else if arg1 ≠ "" ∧ arg2 ≠ "" then
    { priv with
      log := priv.log ++ [Action.warning "The ownership of a name changed"] }
  else
    { priv with
      log := priv.log ++ [Action.warning "Malformed message from the D-Bus daemon"] }

/-! ## Construction, properties, requests and recovery -/

/-- Source `mcd_dispatcher_init`: the private data of a new dispatcher. The
instance is zero-filled by GObject, the flag is cleared and the registry is an
empty table. -/
def mcd_dispatcher_init : McdDispatcherPrivate :=
  { contexts := [], filters := [], clients := [], operation_list_active := false, log := [] }

/-- The properties of the dispatcher object that `_mcd_dispatcher_get_property`
knows, and `invalid` for every other property id. -/
inductive McdDispatcherProperty where
  | PROP_DBUS_DAEMON
  | PROP_MCD_MASTER
  | PROP_INTERFACES
  | PROP_DISPATCH_OPERATIONS
  | invalid
  deriving DecidableEq, Repr

/-- Source `_mcd_dispatcher_get_property`: the dispatcher after the read and,
for `DispatchOperations`, the array put into the value: one entry for every
context that has a dispatch operation, in the order of the contexts. The
operation stands for the pair of its path and its properties. The other
properties do not depend on anything modelled here and read as `none`. -/
def _mcd_dispatcher_get_property (priv : McdDispatcherPrivate)
    (prop_id : McdDispatcherProperty) :
    McdDispatcherPrivate × Option (List McdDispatchOperation) :=
  match prop_id with
  | .PROP_DISPATCH_OPERATIONS =>
    ({ priv with operation_list_active := true },
      some (priv.contexts.filterMap (fun context => context.operation)))
  | _ => (priv, none)

/-- Source `_mcd_dispatcher_add_request`: AddRequest is called on the default
handler of the channel of the request, if there is one and it has the Requests
interface. `request_path` and `preferred_handler` are what
`_mcd_channel_get_request_path` and `_mcd_channel_get_request_preferred_handler`
of `mcd-channel.c` return for the channel; the preferred handler goes into the
properties of the call. -/
def _mcd_dispatcher_add_request (priv : McdDispatcherPrivate) (channel : McdChannel)
    (request_path : String) (preferred_handler : Option String) : McdDispatcherPrivate :=
  match get_default_handler priv.clients channel with
  | none => priv
  | some handler =>
    if !handler.implements MCD_CLIENT_INTERFACE_REQUESTS then priv
    else
      { priv with
        log := priv.log ++ [Action.add_request handler.name request_path preferred_handler] }

/-- McdChannelRecover of the source: the channel being recovered, the number
of handlers whose answer is awaited plus one while
`_mcd_dispatcher_recover_channel` runs, and whether a handler has the
channel. -/
structure McdChannelRecover where
  channel : McdChannel
  handler_locks : Int
  handled : Bool
  deriving DecidableEq, Repr

/-- The dispatcher together with one recovery that is under way. The record
is kept after the source frees it, so that the state of its channel can be
read. -/
structure RecoverState where
  priv : McdDispatcherPrivate
  cr : McdChannelRecover
  deriving DecidableEq, Repr

/-- Source `channel_recover_release_lock`: when the last lock goes, a channel
no handler has is handed to `_mcd_dispatcher_take_channels` as a batch of its
own. `is_requested` is `mcd_channel_is_requested` of `mcd-channel.c`. -/
def channel_recover_release_lock (is_requested : McdChannel → Bool) (state : RecoverState) :
    RecoverState :=
  let cr := { state.cr with handler_locks := state.cr.handler_locks - 1 }
  if cr.handler_locks = 0 then
    if !cr.handled then
      let requested := is_requested cr.channel
      let priv :=
        { state.priv with
          log := state.priv.log ++ [Action.take_channels [cr.channel.id] requested] }
      { priv := _mcd_dispatcher_take_channels priv [cr.channel] requested, cr := cr }
    else { state with cr := cr }
  else { state with cr := cr }

/-- Source `check_handled_channels`: the callback that runs once the handled
channels of a client are known; `error` tells whether they were got with an
error. `object_path` is `mcd_channel_get_object_path` of `mcd-channel.c`. -/
def check_handled_channels (object_path : McdChannel → String)
    (is_requested : McdChannel → Bool) (client : McdClient) (error : Bool)
    (state : RecoverState) : RecoverState :=
  let handled_here :=
    match client.handled_channels with
    | some handled_channels => !error && handled_channels.contains (object_path state.cr.channel)
    | none => false
  let state :=
    if handled_here then
      { state with
        cr := { state.cr with
                handled := true
                channel := { state.cr.channel with status := McdChannelStatus.DISPATCHED } } }
    else state
  channel_recover_release_lock is_requested state

/-- Loop of `_mcd_dispatcher_recover_channel` over the registry: every active
handler takes a lock. `mcd_client_call_when_got_handled_channels` runs
`check_handled_channels` at once for a client whose handled channels are
known; for another client it asks for them, unless that is under way, and
leaves the callback with the client, which is returned as waiting. -/
def recover_channel_loop (object_path : McdChannel → String)
    (is_requested : McdChannel → Bool) :
    List McdClient → RecoverState → List McdClient → RecoverState × List McdClient
  | [], state, waiting => (state, waiting)
  | client :: rest, state, waiting =>
    if !client.proxy || !client.active || !client.implements MCD_CLIENT_HANDLER then
      recover_channel_loop object_path is_requested rest state waiting
    else
      let state :=
        { state with cr := { state.cr with handler_locks := state.cr.handler_locks + 1 } }
      if client.got_handled_channels then
        recover_channel_loop object_path is_requested rest
          (check_handled_channels object_path is_requested client false state) waiting
      else
        let state :=
          { state with
            priv := { state.priv with
              clients := state.priv.clients.map (fun known =>
                if client_bus_name known = client_bus_name client then
                  { known with getting_handled_channels := true }
                else known) } }
        recover_channel_loop object_path is_requested rest state (waiting ++ [client])

/-- Source `_mcd_dispatcher_recover_channel`: the state of the recovery when
the function returns and the clients whose handled channels are awaited, in
the order in which they were asked. -/
def _mcd_dispatcher_recover_channel (object_path : McdChannel → String)
    (is_requested : McdChannel → Bool) (priv : McdDispatcherPrivate)
    (channel : McdChannel) : RecoverState × List McdClient :=
  let cr : McdChannelRecover := { channel := channel, handler_locks := 1, handled := false }
  let result := recover_channel_loop object_path is_requested priv.clients
    { priv := priv, cr := cr } []
  (channel_recover_release_lock is_requested result.1, result.2)

/-- Modelled from the spec: `_mcd_object_call_on_struct_when_ready` and
`_mcd_object_ready` of `mcd-misc.c`, whose source is not embedded here, keep
the callback of a waiting client and run it when the answer of the client has
come in ("as each handler's cached list returns"). Each answer runs
`check_handled_channels` on the client as it is once `get_handled_channels_cb`
has stored the answer, with the error of the answer. -/
def recover_channel_answers (object_path : McdChannel → String)
    (is_requested : McdChannel → Bool) (state : RecoverState)
    (answers : List (McdClient × Bool)) : RecoverState :=
  answers.foldl
    (fun state answer => check_handled_channels object_path is_requested answer.1 answer.2 state)
    state

/-- Number of calls of `mcd_dispatcher_run_handler` that the loop of
`mcd_dispatcher_run_handlers` makes: one for every round of
`mcd_dispatcher_run_handlers_loop`. -/
def mcd_dispatcher_run_handlers_calls (priv : McdDispatcherPrivate) :
    Nat → McdDispatcherContext → List McdChannel → Nat
  | 0, _, _ => 0
  | fuel + 1, context, channels =>
    if channels = [] then 0
    else
      let result := mcd_dispatcher_run_handler priv context channels
      if result.2.length ≥ channels.length then 1
      else 1 + mcd_dispatcher_run_handlers_calls priv fuel result.1 result.2

/-! ## Predicates used in the statements -/

/-- What the search of `mcd_dispatcher_run_handler` keeps true of its best
candidate: the candidate is a handler of the registry and `handled_best` holds
channels of the batch that its handler filters match. -/
def HandlerChoice.sound (clients : List McdClient) (channels : List McdChannel)
    (choice : HandlerChoice) : Prop :=
  ∀ handler, choice.handler = some handler →
    handler ∈ clients ∧ handler.implements MCD_CLIENT_HANDLER = true ∧
    ∀ c, c ∈ choice.handled_best ↔
      (c ∈ channels ∧ match_filters c handler.handler_filters ≠ 0)

/-- Relation between a context before and after a callback, as far as the
client locks and the runs of the handlers go: either both are untouched, or
one lock that was held is released and the handlers have run once more
exactly if that was the last lock. -/
def lock_step (before after : McdDispatcherContext) : Prop :=
  (after.client_locks = before.client_locks ∧
    run_handlers_count after.log = run_handlers_count before.log) ∨
  (0 < before.client_locks ∧ after.client_locks = before.client_locks - 1 ∧
    run_handlers_count after.log
      = run_handlers_count before.log + (if before.client_locks = 1 then 1 else 0))

/-- Number of ObserveChannels calls recorded in a log. -/
def observe_channels_count (log : List Action) : Nat :=
  log.countP (fun action =>
    match action with
    | Action.observe_channels _ _ => true
    | _ => false)

/-- The batch a context stands for: its possible handlers and the identities
of its channels, in order. -/
def context_batch (context : McdDispatcherContext) : List String × List Nat :=
  (context.possible_handlers, context.channels.map (fun channel => channel.id))

/-- The channel objects of a list are distinct. -/
def channels_distinct (channels : List McdChannel) : Prop :=
  (channels.map (fun channel => channel.id)).Nodup

instance (channels : List McdChannel) : Decidable (channels_distinct channels) := by
  unfold channels_distinct; infer_instance

/-- The action is a call of ObserveChannels. -/
def Action.is_observe_channels : Action → Bool
  | .observe_channels _ _ => true
  | _ => false

/-- The action is a call of AddDispatchOperation. -/
def Action.is_add_dispatch_operation : Action → Bool
  | .add_dispatch_operation _ => true
  | _ => false

/-- The action is a call of HandleChannels. -/
def Action.is_handle_channels : Action → Bool
  | .handle_channels _ _ _ _ => true
  | _ => false

/-- What `mcd_dispatcher_run_handlers` can do: its own entry, calls of
HandleChannels and the warning of its loop. -/
def Action.of_run_handlers : Action → Bool
  | .run_handlers => true
  | .handle_channels _ _ _ _ => true
  | .warning _ => true
  | _ => false

/-- What the reply of a handler can lead to: the signals on the channels of
the call and the completion of the context. -/
def Action.of_handler_reply : Action → Bool
  | .dispatched _ => true
  | .dispatch_failed _ _ => true
  | .mission_abort _ _ => true
  | .dispatch_completed => true
  | _ => false

/-- What can happen to a context after the observers and the approvers have
been called: everything but a call to an observer, a call to an approver, a
step of the filter chain, the announcement of a new operation and what the
dispatcher does outside any context. -/
def Action.after_clients : Action → Bool
  | .observe_channels _ _ => false
  | .add_dispatch_operation _ => false
  | .filter_func _ => false
  | .new_dispatch_operation => false
  | .undispatchable _ => false
  | .add_request _ _ _ => false
  | .take_channels _ _ => false
  | _ => true

/-- Number of AddDispatchOperation calls recorded in a log. -/
def add_dispatch_operation_count (log : List Action) : Nat :=
  log.countP Action.is_add_dispatch_operation

/-- Number of `dispatch-completed` signals recorded in a log. -/
def dispatch_completed_count (log : List Action) : Nat :=
  log.count Action.dispatch_completed

/-- The log of `after` is the log of `before` followed by actions that all
satisfy `p`. -/
def appends (p : Action → Bool) (before after : McdDispatcherContext) : Prop :=
  ∃ more : List Action, after.log = before.log ++ more ∧ ∀ action ∈ more, p action = true

/-- The fields of a context that only the callbacks of the approvers, of the
operation and of the handlers write are the same in both contexts. -/
def same_frame (before after : McdDispatcherContext) : Prop :=
  after.finished = before.finished ∧ after.cancelled = before.cancelled ∧
  after.skip_approval = before.skip_approval ∧ after.operation = before.operation ∧
  after.approvers_invoked = before.approvers_invoked

/-- Number of approver replies with an error in a sequence of events. -/
def approver_error_replies (events : List PipelineEvent) : Nat :=
  events.countP (fun event => event == PipelineEvent.add_dispatch_operation_reply true)

/-- Relation between a context before and after a callback, as far as its
completion goes: a finished context stays finished, and `dispatch-completed`
is emitted once if the context becomes finished and not at all otherwise. -/
def completion_step (before after : McdDispatcherContext) : Prop :=
  (before.finished = true → after.finished = true) ∧
  dispatch_completed_count after.log
    = dispatch_completed_count before.log
      + (if before.finished = false ∧ after.finished = true then 1 else 0)

/-- The approvers `mcd_dispatcher_run_approvers` calls for a list of channels:
the clients with the Approver interface whose approver filters match at least
one of the channels, in the order of the registry. -/
def matching_approvers (clients : List McdClient) (channels : List McdChannel) :
    List McdClient :=
  clients.filter (fun client =>
    client.proxy && client.implements MCD_CLIENT_APPROVER &&
      channels.any (fun channel => match_filters channel client.approver_filters != 0))

/-- The replies of approvers as events of the pipeline; `true` stands for a
reply with an error. -/
def approver_replies (errors : List Bool) : List PipelineEvent :=
  errors.map PipelineEvent.add_dispatch_operation_reply

/-- The filters of a chain come in the order of their priorities, lowest
first. -/
def chain_sorted (chain : List McdFilter) : Prop :=
  chain.Pairwise (fun first second => first.priority ≤ second.priority)

instance (chain : List McdFilter) : Decidable (chain_sorted chain) := by
  unfold chain_sorted; infer_instance

/-- The context after `mcd_dispatcher_context_process` has been called the
given number of times with a filter result that is a success. -/
def context_process_rounds (priv : McdDispatcherPrivate) :
    Nat → McdDispatcherContext → McdDispatcherContext
  | 0, context => context
  | rounds + 1, context =>
    context_process_rounds priv rounds (mcd_dispatcher_context_process priv context true)

/-- The action is one of the two signals of the list of dispatch operations,
NewDispatchOperation and DispatchOperationFinished. -/
def Action.is_operation_list_signal : Action → Bool
  | .new_dispatch_operation => true
  | .dispatch_operation_finished => true
  | _ => false

/-- The calls that reach the dispatcher from outside: a read of a property,
a batch of channels from a connection, the registration of an internal
filter, a channel request, names from the bus, a change of the owner of a
name, and the recovery of a channel together with the answers of the handlers
that were asked for their handled channels. -/
inductive DispatcherCall where
  | get_property (prop_id : McdDispatcherProperty)
  | take_channels (channels : List McdChannel) (requested : Bool)
  | add_filter (filter : Nat) (priority : Nat)
  | add_request (channel : McdChannel) (request_path : String)
      (preferred_handler : Option String)
  | new_names (names : List String) (activatable : Bool)
  | name_owner_changed (arg0 arg1 arg2 : String)
  | recover_channel (channel : McdChannel) (answers : List (McdClient × Bool))

/-- The call is a read of the DispatchOperations property. -/
def DispatcherCall.reads_operations : DispatcherCall → Bool
  | .get_property .PROP_DISPATCH_OPERATIONS => true
  | _ => false

/-- The dispatcher after a call. -/
def dispatcher_call (descriptor : String → Option GKeyFile)
    (object_path : McdChannel → String) (is_requested : McdChannel → Bool)
    (priv : McdDispatcherPrivate) : DispatcherCall → McdDispatcherPrivate
  | .get_property prop_id => (_mcd_dispatcher_get_property priv prop_id).1
  | .take_channels channels requested => _mcd_dispatcher_take_channels priv channels requested
  | .add_filter filter priority => mcd_dispatcher_add_filter priv filter priority
  | .add_request channel request_path preferred_handler =>
    _mcd_dispatcher_add_request priv channel request_path preferred_handler
  | .new_names names activatable => new_names_cb descriptor priv names activatable
  | .name_owner_changed arg0 arg1 arg2 => name_owner_changed_cb descriptor priv arg0 arg1 arg2
  | .recover_channel channel answers =>
    (recover_channel_answers object_path is_requested
      (_mcd_dispatcher_recover_channel object_path is_requested priv channel).1 answers).priv

/-- The dispatcher after a sequence of calls. -/
def dispatcher_run (descriptor : String → Option GKeyFile)
    (object_path : McdChannel → String) (is_requested : McdChannel → Bool)
    (priv : McdDispatcherPrivate) (calls : List DispatcherCall) : McdDispatcherPrivate :=
  calls.foldl (dispatcher_call descriptor object_path is_requested) priv

/-- The flag is clear and no context of the dispatcher has one of the signals
of the list of dispatch operations in its log. -/
def operation_list_quiet (priv : McdDispatcherPrivate) : Prop :=
  priv.operation_list_active = false ∧
  ∀ context ∈ priv.contexts, ∀ action ∈ context.log,
    Action.is_operation_list_signal action = false

/-- The handled channels of the client, got without an error, hold the object
path of the channel: the test of `check_handled_channels`. -/
def client_handles (object_path : McdChannel → String) (channel : McdChannel)
    (client : McdClient) (error : Bool) : Bool :=
  match client.handled_channels with
  | some handled_channels => !error && handled_channels.contains (object_path channel)
  | none => false

/-- The client is an active handler: the clients `_mcd_dispatcher_recover_channel`
asks. -/
def is_active_handler (client : McdClient) : Bool :=
  client.proxy && client.active && client.implements MCD_CLIENT_HANDLER

/-- The action is a batch handed to `_mcd_dispatcher_take_channels` by the
recovery of a channel. -/
def Action.is_take_channels : Action → Bool
  | .take_channels _ _ => true
  | _ => false

/-- The batches that the recovery of channels has handed to
`_mcd_dispatcher_take_channels`, in the order of the log. -/
def take_channels_calls (log : List Action) : List Action :=
  log.filter Action.is_take_channels

/-- The state of a recovery of `channel` that holds `locks` locks, with
`handled` telling whether a handler was found to have the channel: the
channel of the record is the one being recovered as long as no handler has
it and is dispatched afterwards, and the batches handed over so far are
`calls`. -/
def recover_invariant (channel : McdChannel) (calls : List Action) (state : RecoverState)
    (locks : Int) (handled : Bool) : Prop :=
  state.cr.handler_locks = locks ∧ state.cr.handled = handled ∧
  (handled = false → state.cr.channel = channel) ∧
  (handled = true → state.cr.channel.status = McdChannelStatus.DISPATCHED) ∧
  take_channels_calls state.priv.log = calls

/-! ## Concrete inputs used by the witnesses and counterexamples -/

/-- Example channel: a text channel that is being dispatched. -/
def example_channel (id : Nat) : McdChannel :=
  { id := id, status := McdChannelStatus.DISPATCHING,
    requested_properties := [("ChannelType", GValue.string "Text")],
    immutable_properties := [("ChannelType", GValue.string "Text")],
    account := some "account", error := none, request_user_action_time := 0,
    satisfied_requests := [] }

/-- Example channel as it is when the connection hands it to the dispatcher
after this process requested it. -/
def example_requested_channel (id : Nat) : McdChannel :=
  { example_channel id with status := McdChannelStatus.REQUESTED }

/-- Example channel of a type no example handler takes. -/
def example_call_channel (id : Nat) : McdChannel :=
  { example_channel id with immutable_properties := [("ChannelType", GValue.string "Call")] }

/-- Example client without interfaces and filters. -/
def example_client (name : String) : McdClient :=
  { proxy := true, name := name, interfaces := 0, handled_channels := none,
    bypass_approver := false, activatable := false, active := true,
    got_handled_channels := false, getting_handled_channels := false,
    approver_filters := [], handler_filters := [], observer_filters := [] }

/-- Example handler of text channels. -/
def example_handler : McdClient :=
  { example_client "Handler" with
    interfaces := MCD_CLIENT_HANDLER
    handler_filters := [[("ChannelType", GValue.string "Text")]] }

/-- Example approver of every channel. -/
def example_approver : McdClient :=
  { example_client "Approver" with
    interfaces := MCD_CLIENT_APPROVER
    approver_filters := [[]] }

/-- Example observer of every channel. -/
def example_observer : McdClient :=
  { example_client "Observer" with
    interfaces := MCD_CLIENT_OBSERVER
    observer_filters := [[]] }

/-- Example dispatcher without contexts and internal filters, over the given
registry. -/
def example_priv (clients : List McdClient) : McdDispatcherPrivate :=
  { contexts := [], filters := [], clients := clients, operation_list_active := false,
    log := [] }

/-- Example context as `_mcd_dispatcher_enter_state_machine` sets it up before
it starts the pipeline. -/
def example_context (channels : List McdChannel) (operation : Option McdDispatchOperation) :
    McdDispatcherContext :=
  { finished := false, cancelled := false, skip_approval := false, channels := channels,
    operation := operation,
    possible_handlers := ["org.freedesktop.Telepathy.Client.Handler"],
    client_locks := 0, approvers_invoked := 0, chain := [], next_func_index := 0, log := [] }

/-- Example of an inbound text channel with one handler and one approver: the
context of the channel, with its dispatch operation. -/
def claimed_context : McdDispatcherContext :=
  example_context [example_channel 1]
    (some (_mcd_dispatch_operation_new ["org.freedesktop.Telepathy.Client.Handler"]))

/-- Example of an inbound text channel with one handler and one approver: the
approver accepts the operation and then claims it. -/
def claimed_events : List PipelineEvent :=
  [PipelineEvent.add_dispatch_operation_reply false,
   PipelineEvent.operation_finished
     { possible_handlers := ["org.freedesktop.Telepathy.Client.Handler"],
       claimed := true, handler := none, finish_blocked := 0 }]

/-- Example of a requested batch of two text channels with one handler and one
observer: the context of the batch, which has no dispatch operation. -/
def cancelled_context : McdDispatcherContext :=
  example_context [example_channel 1, example_channel 2] none

/-- Example of a requested batch of two text channels: while the observer's
reply is pending the first channel is aborted with the cancellation error;
then the observer replies. -/
def cancelled_events : List PipelineEvent :=
  [PipelineEvent.channel_abort
     { example_channel 1 with error := some { code := TP_ERROR_CANCELLED } },
   PipelineEvent.observe_channels_reply false]

/-- Example channel whose request carries the given user action time. -/
def example_timed_channel (id : Nat) (user_action_time : Nat) : McdChannel :=
  { example_channel id with request_user_action_time := user_action_time }

/-- Example handler of text channels that has BypassApproval set. -/
def example_bypass_handler : McdClient :=
  { example_client "Bypass" with
    interfaces := MCD_CLIENT_HANDLER
    bypass_approver := true
    handler_filters := [[("ChannelType", GValue.string "Text")]] }

/-- Example of an inbound text channel whose approvers named no handler: the
context of the channel, with its dispatch operation. -/
def unnamed_context : McdDispatcherContext :=
  example_context [example_channel 1]
    (some (_mcd_dispatch_operation_new
      ["org.freedesktop.Telepathy.Client.Bypass", "org.freedesktop.Telepathy.Client.Handler"]))

/-- Example of an inbound batch of two text channels whose approver claims
the operation: the context while the approver's decision is awaited. -/
def awaiting_context : McdDispatcherContext :=
  { example_context [example_channel 1, example_channel 2]
      (some (_mcd_dispatch_operation_new ["org.freedesktop.Telepathy.Client.Handler"])) with
    client_locks := 1, approvers_invoked := 1,
    log := [Action.add_dispatch_operation "Approver"] }

/-- Example of a dispatch operation that an approver has claimed. -/
def claimed_operation : McdDispatchOperation :=
  { possible_handlers := ["org.freedesktop.Telepathy.Client.Handler"],
    claimed := true, handler := none, finish_blocked := 0 }

/-- Example observer that has a service file, so that the bus can start it,
and that has told which channels it handles. -/
def example_activatable_observer : McdClient :=
  { example_observer with activatable := true, handled_channels := some ["/channel/1"] }

/-- Example of a second approver of every channel. -/
def example_second_approver : McdClient :=
  { example_client "Second" with
    interfaces := MCD_CLIENT_APPROVER
    approver_filters := [[]] }

/-- Example of an inbound text channel at the moment `mcd_dispatcher_run_clients`
starts the approvers: the lock of that function is held. -/
def approval_context : McdDispatcherContext :=
  { claimed_context with client_locks := 1 }

/-- Example of an inbound text channel for a registry with a handler that has
BypassApproval: the context of the channel, with its dispatch operation. -/
def bypass_context : McdDispatcherContext :=
  example_context [example_channel 1]
    (some (_mcd_dispatch_operation_new ["org.freedesktop.Telepathy.Client.Bypass"]))

/-- Example of a filter chain with the priorities 1, 3 and 3. -/
def example_chain : List McdFilter :=
  [{ func := 10, priority := 1 }, { func := 11, priority := 3 },
   { func := 12, priority := 3 }]

/-- Example of a context that has gone through the first of the two filters
of its chain, with a channel that has an error of its own and one that has
none. -/
def filtering_context : McdDispatcherContext :=
  { example_context
      [{ example_channel 1 with error := some { code := TP_ERROR_CANCELLED } },
       example_channel 2] none with
    chain := [{ func := 10, priority := 1 }, { func := 11, priority := 3 }]
    next_func_index := 1
    log := [Action.filter_func 10] }

/-- Example of a reply of two filters, the first of which has a string
property and a property of a type that is not supported (an array of
strings), the second a property of type uint. -/
def example_filters_reply : List GHashTable :=
  [[("org.freedesktop.Telepathy.Channel.ChannelType", GValue.string "Text"),
    ("org.freedesktop.Telepathy.Channel.Interfaces", GValue.other "GStrv")],
   [("org.freedesktop.Telepathy.Channel.TargetHandleType", GValue.uint 1)]]

/-- Example of a client file with one filter group: a 64-bit unsigned
property of value 2^32, a signed property, a byte property and a string
property. -/
def example_filter_file : GKeyFile :=
  { groups :=
      [("org.freedesktop.Telepathy.Client.Handler.HandlerChannelFilter 0",
        [("Count t", "4294967296"), ("Level i", "5"), ("Small y", "200"),
         ("Name s", "Text")])] }

/-- Example handler of text channels that implements the Requests
interface. -/
def example_requests_handler (name : String) : McdClient :=
  { example_client name with
    interfaces := MCD_CLIENT_HANDLER ||| MCD_CLIENT_INTERFACE_REQUESTS
    handler_filters := [[("ChannelType", GValue.string "Text")]] }

/-- Example of an active handler of text channels whose handled channels are
not known yet. -/
def example_recovering_handler : McdClient :=
  { example_handler with got_handled_channels := false }

/-! ## Theorems: filter matcher -/

theorem match_filters_entries_eq_all (props : GHashTable) (filter : GHashTable) :
    match_filters_entries props filter
      = filter.all (fun entry => match_property props entry.1 entry.2) := by
  induction filter with
  | nil => rfl
  | cons e rest ih =>
    obtain ⟨name, value⟩ := e
    cases h : match_property props name value <;>
      simp [match_filters_entries, h, ih]

theorem match_filters_entries_iff (props : GHashTable) (filter : GHashTable) :
    match_filters_entries props filter = true ↔ filter_matches props filter := by
  rw [match_filters_entries_eq_all]
  simp [filter_matches, List.all_eq_true]

theorem filter_score_spec_le (props : GHashTable) (filter : GHashTable) :
    filter_score_spec props filter ≤ g_hash_table_size filter + 1 := by
  unfold filter_score_spec g_hash_table_size
  split <;> omega

theorem match_filters_loop_eq_max (props : GHashTable) (filters : List GHashTable)
    (best : Nat) :
    match_filters_loop props filters best = max best (match_filters_spec props filters) := by
  induction filters generalizing best with
  | nil => simp [match_filters_loop, match_filters_spec]
  | cons f rest ih =>
    have hle := filter_score_spec_le props f
    have hspec : match_filters_spec props (f :: rest)
        = max (filter_score_spec props f) (match_filters_spec props rest) := by
      simp [match_filters_spec]
    rw [hspec]
    simp only [match_filters_loop]
    by_cases hq : g_hash_table_size f + 1 ≤ best
    · rw [if_pos hq, ih]
      omega
    · rw [if_neg hq]
      by_cases hm : match_filters_entries props f = true
      · rw [if_pos hm, ih]
        have : filter_score_spec props f = g_hash_table_size f + 1 := by
          rw [match_filters_entries_eq_all] at hm
          simp [filter_score_spec, hm, g_hash_table_size]
        omega
      · rw [if_neg hm, ih]
        have : filter_score_spec props f = 0 := by
          rw [match_filters_entries_eq_all] at hm
          simp [filter_score_spec, hm]
        omega

theorem match_filters_eq_spec (channel : McdChannel) (filters : List GHashTable) :
    match_filters channel filters
      = match_filters_spec (match_filters_channel_properties channel) filters := by
  simp [match_filters, match_filters_loop_eq_max]

theorem filter_score_spec_of_matches (props : GHashTable) (filter : GHashTable)
    (h : filter_matches props filter) :
    filter_score_spec props filter = filter.length + 1 := by
  have : filter.all (fun entry => match_property props entry.1 entry.2) = true := by
    simpa [filter_matches, List.all_eq_true] using h
  simp [filter_score_spec, this]

theorem filter_score_spec_of_not_matches (props : GHashTable) (filter : GHashTable)
    (h : ¬ filter_matches props filter) :
    filter_score_spec props filter = 0 := by
  have : ¬ filter.all (fun entry => match_property props entry.1 entry.2) = true := by
    simpa [filter_matches, List.all_eq_true] using h
  simp [filter_score_spec, this]

theorem match_filters_spec_upper (props : GHashTable) (filters : List GHashTable)
    (f : GHashTable) (hf : f ∈ filters) (hm : filter_matches props f) :
    f.length + 1 ≤ match_filters_spec props filters := by
  induction filters with
  | nil => cases hf
  | cons g rest ih =>
    have hspec : match_filters_spec props (g :: rest)
        = max (filter_score_spec props g) (match_filters_spec props rest) := by
      simp [match_filters_spec]
    rw [hspec]
    rcases List.mem_cons.mp hf with h | h
    · subst h
      rw [filter_score_spec_of_matches props f hm]
      omega
    · have := ih h
      omega

theorem match_filters_spec_attained (props : GHashTable) (filters : List GHashTable) :
    (∃ f ∈ filters, filter_matches props f ∧
        match_filters_spec props filters = f.length + 1) ∨
    ((∀ f ∈ filters, ¬ filter_matches props f) ∧ match_filters_spec props filters = 0) := by
  induction filters with
  | nil => right; simp [match_filters_spec]
  | cons g rest ih =>
    have hspec : match_filters_spec props (g :: rest)
        = max (filter_score_spec props g) (match_filters_spec props rest) := by
      simp [match_filters_spec]
    rw [hspec]
    by_cases hg : filter_matches props g
    · rw [filter_score_spec_of_matches props g hg]
      rcases ih with ⟨f, hf, hfm, hfe⟩ | ⟨_, h0⟩
      · by_cases hcmp : f.length + 1 ≤ g.length + 1
        · left
          exact ⟨g, List.mem_cons_self _ _, hg, by rw [hfe]; omega⟩
        · left
          exact ⟨f, List.mem_cons_of_mem _ hf, hfm, by rw [hfe]; omega⟩
      · left
        exact ⟨g, List.mem_cons_self _ _, hg, by rw [h0]; omega⟩
    · rw [filter_score_spec_of_not_matches props g hg]
      rcases ih with ⟨f, hf, hfm, hfe⟩ | ⟨hall, h0⟩
      · left
        exact ⟨f, List.mem_cons_of_mem _ hf, hfm, by rw [hfe]; omega⟩
      · right
        refine ⟨?_, by rw [h0]; omega⟩
        intro f hf
        rcases List.mem_cons.mp hf with h | h
        · subst h; exact hg
        · exact hall f h

/-- C1: `match_filters` returns 1 + the number of entries of the largest filter
of the list all of whose entries match the channel, and 0 when no filter
matches; this is the maximum of the per-filter scores, so the early skip of
filters that cannot beat the best score changes nothing. A list holding only
the empty filter scores 1, and a list holding one N-entry filter scores N+1
when all N entries match and 0 otherwise. -/
theorem C1_match_filters_largest_matching (channel : McdChannel)
    (filters : List GHashTable) :
    (∀ f ∈ filters, filter_matches (match_filters_channel_properties channel) f →
        f.length + 1 ≤ match_filters channel filters) ∧
    ((∃ f ∈ filters, filter_matches (match_filters_channel_properties channel) f ∧
        match_filters channel filters = f.length + 1) ∨
      ((∀ f ∈ filters, ¬ filter_matches (match_filters_channel_properties channel) f) ∧
        match_filters channel filters = 0)) ∧
    match_filters channel filters
      = match_filters_spec (match_filters_channel_properties channel) filters ∧
    match_filters channel [[]] = 1 ∧
    (∀ f : GHashTable,
      (filter_matches (match_filters_channel_properties channel) f →
        match_filters channel [f] = f.length + 1) ∧
      (¬ filter_matches (match_filters_channel_properties channel) f →
        match_filters channel [f] = 0)) := by
  refine ⟨?_, ?_, match_filters_eq_spec channel filters, ?_, ?_⟩
  · intro f hf hm
    rw [match_filters_eq_spec]
    exact match_filters_spec_upper _ filters f hf hm
  · rw [match_filters_eq_spec]
    exact match_filters_spec_attained _ filters
  · simp [match_filters, match_filters_loop, match_filters_entries, g_hash_table_size]
  · intro f
    constructor
    · intro hm
      rw [match_filters_eq_spec]
      simp [match_filters_spec, filter_score_spec_of_matches _ f hm]
    · intro hm
      rw [match_filters_eq_spec]
      simp [match_filters_spec, filter_score_spec_of_not_matches _ f hm]

theorem tp_asv_get_uint64_eq_some (asv : GHashTable) (key : String) (pv : GValue)
    (r : Nat) (h : g_hash_table_lookup asv key = some pv) :
    tp_asv_get_uint64 asv key = some r ↔ pv.to_int = some (r : Int) := by
  cases pv <;> simp [tp_asv_get_uint64, h, GValue.to_int]
  all_goals omega

theorem tp_asv_get_int64_eq_some (asv : GHashTable) (key : String) (pv : GValue)
    (r : Int) (hr : r ≤ (G_MAXINT64 : Int))
    (h : g_hash_table_lookup asv key = some pv) :
    tp_asv_get_int64 asv key = some r ↔ pv.to_int = some r := by
  cases pv <;> simp [tp_asv_get_int64, h, GValue.to_int]
  intro hn
  omega

theorem tp_asv_get_int64_some_imp (asv : GHashTable) (key : String) (pv : GValue)
    (r : Int) (h : g_hash_table_lookup asv key = some pv)
    (hg : tp_asv_get_int64 asv key = some r) : pv.to_int = some r := by
  cases pv <;> simp_all [tp_asv_get_int64, GValue.to_int]

theorem match_property_uchar_iff (props : GHashTable) (name : String) (v : Nat) :
    match_property props name (GValue.uchar v) = true
      ↔ tp_asv_get_uint64 props name = some v := by
  unfold match_property
  cases tp_asv_get_uint64 props name <;> simp

theorem match_property_uint_iff (props : GHashTable) (name : String) (v : Nat) :
    match_property props name (GValue.uint v) = true
      ↔ tp_asv_get_uint64 props name = some v := by
  unfold match_property
  cases tp_asv_get_uint64 props name <;> simp

theorem match_property_uint64_iff (props : GHashTable) (name : String) (v : Nat) :
    match_property props name (GValue.uint64 v) = true
      ↔ tp_asv_get_uint64 props name = some v := by
  unfold match_property
  cases tp_asv_get_uint64 props name <;> simp

theorem match_property_int_iff (props : GHashTable) (name : String) (v : Int) :
    match_property props name (GValue.int v) = true
      ↔ tp_asv_get_int64 props name = some v := by
  unfold match_property
  cases tp_asv_get_int64 props name <;> simp

theorem match_property_int64_iff (props : GHashTable) (name : String) (v : Int) :
    match_property props name (GValue.int64 v) = true
      ↔ tp_asv_get_int64 props name = some v := by
  unfold match_property
  cases tp_asv_get_int64 props name <;> simp

theorem to_int_some_kind (pv : GValue) (r : Int) (h : pv.to_int = some r) :
    pv.kind = ValueKind.integer := by
  cases pv <;> simp_all [GValue.to_int, GValue.kind]

theorem match_property_absent (props : GHashTable) (name : String) (fv : GValue)
    (h : g_hash_table_lookup props name = none) :
    match_property props name fv = false := by
  cases fv <;>
    simp [match_property, tp_asv_get_string, tp_asv_get_object_path, tp_asv_get_boolean,
      tp_asv_get_uint64, tp_asv_get_int64, h]

theorem match_property_kind_mismatch (props : GHashTable) (name : String)
    (fv pv : GValue) (h : g_hash_table_lookup props name = some pv)
    (hk : pv.kind ≠ fv.kind) :
    match_property props name fv = false := by
  cases fv <;> cases pv <;>
    simp_all [match_property, tp_asv_get_string, tp_asv_get_object_path,
      tp_asv_get_boolean, tp_asv_get_uint64, tp_asv_get_int64, GValue.kind]

theorem match_property_true_equal (props : GHashTable) (name : String)
    (fv pv : GValue) (h : g_hash_table_lookup props name = some pv)
    (hm : match_property props name fv = true) :
    pv.kind = fv.kind ∧ GValue.same_kind_equal pv fv := by
  cases fv with
  | string s =>
    cases pv <;>
      simp_all [match_property, tp_asv_get_string, GValue.kind, GValue.same_kind_equal,
        tp_strdiff]
  | object_path s =>
    cases pv <;>
      simp_all [match_property, tp_asv_get_object_path, GValue.kind,
        GValue.same_kind_equal, tp_strdiff]
  | boolean b =>
    cases pv <;>
      simp_all [match_property, tp_asv_get_boolean, GValue.kind, GValue.same_kind_equal]
  | uchar v =>
    rw [match_property_uchar_iff] at hm
    have hi := (tp_asv_get_uint64_eq_some props name pv v h).mp hm
    have hk := to_int_some_kind pv _ hi
    cases pv <;> simp_all [GValue.kind, GValue.same_kind_equal, GValue.to_int]
  | uint v =>
    rw [match_property_uint_iff] at hm
    have hi := (tp_asv_get_uint64_eq_some props name pv v h).mp hm
    have hk := to_int_some_kind pv _ hi
    cases pv <;> simp_all [GValue.kind, GValue.same_kind_equal, GValue.to_int]
  | uint64 v =>
    rw [match_property_uint64_iff] at hm
    have hi := (tp_asv_get_uint64_eq_some props name pv v h).mp hm
    have hk := to_int_some_kind pv _ hi
    cases pv <;> simp_all [GValue.kind, GValue.same_kind_equal, GValue.to_int]
  | int v =>
    rw [match_property_int_iff] at hm
    have hi := tp_asv_get_int64_some_imp props name pv v h hm
    have hk := to_int_some_kind pv _ hi
    cases pv <;> simp_all [GValue.kind, GValue.same_kind_equal, GValue.to_int]
  | int64 v =>
    rw [match_property_int64_iff] at hm
    have hi := tp_asv_get_int64_some_imp props name pv v h hm
    have hk := to_int_some_kind pv _ hi
    cases pv <;> simp_all [GValue.kind, GValue.same_kind_equal, GValue.to_int]
  | other t => simp [match_property] at hm

/-- C2: `match_property` returns false when the property is absent from the
channel's map and when its value is of another kind than the filter value
(string, object path, boolean, integer); it returns true only if the property
is present with an equal value of the same kind. -/
theorem C2_match_property_absent_or_mismatch (props : GHashTable) (name : String)
    (fv : GValue) :
    (g_hash_table_lookup props name = none → match_property props name fv = false) ∧
    (∀ pv, g_hash_table_lookup props name = some pv → pv.kind ≠ fv.kind →
      match_property props name fv = false) ∧
    (match_property props name fv = true →
      ∃ pv, g_hash_table_lookup props name = some pv ∧ pv.kind = fv.kind ∧
        GValue.same_kind_equal pv fv) := by
  refine ⟨match_property_absent props name fv, ?_, ?_⟩
  · intro pv h hk
    exact match_property_kind_mismatch props name fv pv h hk
  · intro hm
    cases h : g_hash_table_lookup props name with
    | none => rw [match_property_absent props name fv h] at hm; cases hm
    | some pv => exact ⟨pv, rfl, match_property_true_equal props name fv pv h hm⟩

/-- C3: for a filter value of the unsigned-64 or signed-64 variant and a
channel property holding an integer of any signedness and width,
`match_property` is true exactly when the two are equal as mathematical
integers; an unsigned filter value v matches a signed property holding v, and
a negative property never matches an unsigned filter value. -/
theorem C3_match_property_integers_numeric (props : GHashTable) (name : String)
    (fv pv : GValue)
    (hf : (∃ v, fv = GValue.uint64 v) ∨ (∃ v, fv = GValue.int64 v))
    (hr : fv.in_range)
    (hp : pv.kind = ValueKind.integer)
    (hl : g_hash_table_lookup props name = some pv) :
    (match_property props name fv = true ↔ pv.to_int = fv.to_int) ∧
    (∀ v : Nat, fv = GValue.uint64 v →
      (pv = GValue.int64 (v : Int) ∨ pv = GValue.int (v : Int)) →
      match_property props name fv = true) ∧
    (∀ (v : Nat) (i : Int), fv = GValue.uint64 v → i < 0 →
      (pv = GValue.int64 i ∨ pv = GValue.int i) →
      match_property props name fv = false) := by
  have main : match_property props name fv = true ↔ pv.to_int = fv.to_int := by
    rcases hf with ⟨v, rfl⟩ | ⟨v, rfl⟩
    · rw [match_property_uint64_iff]
      simp only [GValue.to_int]
      exact tp_asv_get_uint64_eq_some props name pv v hl
    · rw [match_property_int64_iff]
      simp only [GValue.to_int]
      have hv : v ≤ (G_MAXINT64 : Int) := by
        simp only [GValue.in_range] at hr
        simp only [G_MAXINT64]
        omega
      exact tp_asv_get_int64_eq_some props name pv v hv hl
  refine ⟨main, ?_, ?_⟩
  · intro v hv hpv
    rw [main]
    rcases hpv with h | h <;> subst h <;> subst hv <;> simp [GValue.to_int]
  · intro v i hv hi hpv
    have hne : ¬ (pv.to_int = fv.to_int) := by
      rcases hpv with h | h <;> subst h <;> subst hv <;> simp [GValue.to_int] <;> omega
    cases hmp : match_property props name fv with
    | false => rfl
    | true => exact absurd (main.mp hmp) hne

/-- C3 at a concrete input: the unsigned filter value 5 matches a property
stored as the signed 32-bit integer 5. -/
theorem C3_match_property_integers_numeric_witness :
    (match_property [("n", GValue.int 5)] "n" (GValue.uint64 5) = true
      ↔ (GValue.int 5).to_int = (GValue.uint64 5).to_int) ∧
    (∀ v : Nat, GValue.uint64 5 = GValue.uint64 v →
      (GValue.int 5 = GValue.int64 (v : Int) ∨ GValue.int 5 = GValue.int (v : Int)) →
      match_property [("n", GValue.int 5)] "n" (GValue.uint64 5) = true) ∧
    (∀ (v : Nat) (i : Int), GValue.uint64 5 = GValue.uint64 v → i < 0 →
      (GValue.int 5 = GValue.int64 i ∨ GValue.int 5 = GValue.int i) →
      match_property [("n", GValue.int 5)] "n" (GValue.uint64 5) = false) :=
  C3_match_property_integers_numeric [("n", GValue.int 5)] "n" (GValue.uint64 5)
    (GValue.int 5) (Or.inl ⟨5, rfl⟩) (by decide) (by decide) (by decide)

/-! ## Theorems: GLib merge sort -/

theorem g_list_sort_merge_perm {α : Type} (cmp : α → α → Int) (l1 l2 : List α) :
    (g_list_sort_merge cmp l1 l2).Perm (l1 ++ l2) := by
  induction l1 generalizing l2 with
  | nil => simp [g_list_sort_merge]
  | cons a l1 ih1 =>
    induction l2 with
    | nil => simp [g_list_sort_merge]
    | cons b l2 ih2 =>
      simp only [g_list_sort_merge]
      split
      · exact (ih1 (b :: l2)).cons a
      · have h1 : (b :: g_list_sort_merge cmp (a :: l1) l2).Perm (b :: (a :: l1 ++ l2)) :=
          ih2.cons b
        have h2 : (b :: (a :: l1 ++ l2)).Perm (a :: l1 ++ b :: l2) :=
          (@List.perm_middle _ b (a :: l1) l2).symm
        exact h1.trans h2

theorem g_list_sort_merge_pairwise {α : Type} (cmp : α → α → Int)
    (htotal : ∀ a b, cmp a b ≤ 0 ∨ cmp b a ≤ 0)
    (htrans : ∀ a b c, cmp a b ≤ 0 → cmp b c ≤ 0 → cmp a c ≤ 0)
    (l1 l2 : List α)
    (h1 : l1.Pairwise (fun a b => cmp a b ≤ 0))
    (h2 : l2.Pairwise (fun a b => cmp a b ≤ 0)) :
    (g_list_sort_merge cmp l1 l2).Pairwise (fun a b => cmp a b ≤ 0) := by
  induction l1 generalizing l2 with
  | nil => simpa [g_list_sort_merge] using h2
  | cons a l1 ih1 =>
    induction l2 with
    | nil => simpa [g_list_sort_merge] using h1
    | cons b l2 ih2 =>
      simp only [g_list_sort_merge]
      have ha := List.pairwise_cons.mp h1
      have hb := List.pairwise_cons.mp h2
      split
      · rename_i hab
        refine List.pairwise_cons.mpr ⟨?_, ih1 (b :: l2) ha.2 h2⟩
        intro x hx
        have hx2 : x ∈ l1 ++ b :: l2 := (g_list_sort_merge_perm cmp l1 (b :: l2)).mem_iff.mp hx
        rcases List.mem_append.mp hx2 with h | h
        · exact ha.1 x h
        · rcases List.mem_cons.mp h with h | h
          · subst h; exact hab
          · exact htrans a b x hab (hb.1 x h)
      · rename_i hab
        have hba : cmp b a ≤ 0 := by
          rcases htotal a b with h | h
          · exact absurd h hab
          · exact h
        refine List.pairwise_cons.mpr ⟨?_, ih2 hb.2⟩
        intro x hx
        have hx2 : x ∈ (a :: l1) ++ l2 :=
          (g_list_sort_merge_perm cmp (a :: l1) l2).mem_iff.mp hx
        rcases List.mem_append.mp hx2 with h | h
        · rcases List.mem_cons.mp h with h | h
          · subst h; exact hba
          · exact htrans b a x hba (ha.1 x h)
        · exact hb.1 x h

theorem g_list_sort_perm_aux {α : Type} (cmp : α → α → Int) (n : Nat) :
    ∀ list : List α, list.length = n → (g_list_sort cmp list).Perm list := by
  induction n using Nat.strong_induction_on with
  | _ n ih =>
    intro list hn
    rw [g_list_sort]
    split
    · exact List.Perm.refl _
    · rename_i hlen
      have ht : (list.take (list.length / 2)).length < n := by
        simp only [List.length_take]; omega
      have hd : (list.drop (list.length / 2)).length < n := by
        simp only [List.length_drop]; omega
      have p1 := ih _ ht (list.take (list.length / 2)) rfl
      have p2 := ih _ hd (list.drop (list.length / 2)) rfl
      have p3 := g_list_sort_merge_perm cmp
        (g_list_sort cmp (list.take (list.length / 2)))
        (g_list_sort cmp (list.drop (list.length / 2)))
      have p4 := p3.trans (p1.append p2)
      rwa [List.take_append_drop] at p4

theorem g_list_sort_perm {α : Type} (cmp : α → α → Int) (list : List α) :
    (g_list_sort cmp list).Perm list :=
  g_list_sort_perm_aux cmp list.length list rfl

theorem g_list_sort_pairwise_aux {α : Type} (cmp : α → α → Int)
    (htotal : ∀ a b, cmp a b ≤ 0 ∨ cmp b a ≤ 0)
    (htrans : ∀ a b c, cmp a b ≤ 0 → cmp b c ≤ 0 → cmp a c ≤ 0)
    (n : Nat) :
    ∀ list : List α, list.length = n →
      (g_list_sort cmp list).Pairwise (fun a b => cmp a b ≤ 0) := by
  induction n using Nat.strong_induction_on with
  | _ n ih =>
    intro list hn
    rw [g_list_sort]
    split
    · rename_i hlen
      match list, hlen with
      | [], _ => exact List.Pairwise.nil
      | [a], _ => exact List.pairwise_singleton _ a
      | _ :: _ :: _, h => exact absurd h (by simp)
    · rename_i hlen
      have ht : (list.take (list.length / 2)).length < n := by
        simp only [List.length_take]; omega
      have hd : (list.drop (list.length / 2)).length < n := by
        simp only [List.length_drop]; omega
      exact g_list_sort_merge_pairwise cmp htotal htrans _ _
        (ih _ ht (list.take (list.length / 2)) rfl)
        (ih _ hd (list.drop (list.length / 2)) rfl)

theorem g_list_sort_pairwise {α : Type} (cmp : α → α → Int)
    (htotal : ∀ a b, cmp a b ≤ 0 ∨ cmp b a ≤ 0)
    (htrans : ∀ a b c, cmp a b ≤ 0 → cmp b c ≤ 0 → cmp a c ≤ 0)
    (list : List α) :
    (g_list_sort cmp list).Pairwise (fun a b => cmp a b ≤ 0) :=
  g_list_sort_pairwise_aux cmp htotal htrans list.length list rfl

/-! ## Theorems: possible handlers -/

theorem possible_handler_cmp_le_iff (a b : PossibleHandler) :
    possible_handler_cmp a b ≤ 0 ↔
      ((a.client.bypass_approver = false ∧ b.client.bypass_approver = true) ∨
       (a.client.bypass_approver = b.client.bypass_approver ∧ a.quality ≤ b.quality)) := by
  unfold possible_handler_cmp
  cases a.client.bypass_approver <;> cases b.client.bypass_approver <;> simp <;>
    (split <;> [skip; split]) <;> omega

theorem possible_handler_cmp_total (a b : PossibleHandler) :
    possible_handler_cmp a b ≤ 0 ∨ possible_handler_cmp b a ≤ 0 := by
  rw [possible_handler_cmp_le_iff, possible_handler_cmp_le_iff]
  cases a.client.bypass_approver <;> cases b.client.bypass_approver <;> simp <;> omega

theorem possible_handler_cmp_trans (a b c : PossibleHandler)
    (hab : possible_handler_cmp a b ≤ 0) (hbc : possible_handler_cmp b c ≤ 0) :
    possible_handler_cmp a c ≤ 0 := by
  rw [possible_handler_cmp_le_iff] at hab hbc ⊢
  revert hab hbc
  cases a.client.bypass_approver <;> cases b.client.bypass_approver <;>
    cases c.client.bypass_approver <;> simp <;> omega

theorem possible_handlers_total_quality_all (client : McdClient)
    (channels : List McdChannel) (acc : Nat)
    (h : ∀ ch ∈ channels, 0 < match_filters ch client.handler_filters) :
    possible_handlers_total_quality client channels acc
      = acc + (channels.map (fun ch => match_filters ch client.handler_filters)).sum := by
  induction channels generalizing acc with
  | nil => simp [possible_handlers_total_quality]
  | cons ch rest ih =>
    have h0 : 0 < match_filters ch client.handler_filters := h ch (List.mem_cons_self _ _)
    have hrest : ∀ c ∈ rest, 0 < match_filters c client.handler_filters :=
      fun c hc => h c (List.mem_cons_of_mem _ hc)
    simp only [possible_handlers_total_quality, List.map_cons, List.sum_cons]
    rw [if_neg (by omega), ih _ hrest]
    omega

theorem possible_handlers_total_quality_some_zero (client : McdClient)
    (channels : List McdChannel) (acc : Nat)
    (h : ∃ ch ∈ channels, match_filters ch client.handler_filters = 0) :
    possible_handlers_total_quality client channels acc = 0 := by
  induction channels generalizing acc with
  | nil => obtain ⟨ch, hch, _⟩ := h; cases hch
  | cons ch rest ih =>
    simp only [possible_handlers_total_quality]
    by_cases h0 : match_filters ch client.handler_filters = 0
    · rw [if_pos h0]
    · rw [if_neg h0]
      obtain ⟨c, hc, hc0⟩ := h
      rcases List.mem_cons.mp hc with hh | hh
      · subst hh; exact absurd hc0 h0
      · exact ih _ ⟨c, hh, hc0⟩

theorem possible_handlers_total_quality_pos_iff (client : McdClient)
    (channels : List McdChannel) (hne : channels ≠ []) :
    0 < possible_handlers_total_quality client channels 0 ↔
      ∀ ch ∈ channels, 0 < match_filters ch client.handler_filters := by
  constructor
  · intro hpos ch hch
    by_contra hz
    have : possible_handlers_total_quality client channels 0 = 0 :=
      possible_handlers_total_quality_some_zero client channels 0 ⟨ch, hch, by omega⟩
    omega
  · intro hall
    rw [possible_handlers_total_quality_all client channels 0 hall]
    cases channels with
    | nil => exact absurd rfl hne
    | cons ch rest =>
      have := hall ch (List.mem_cons_self _ _)
      simp only [List.map_cons, List.sum_cons]
      omega

theorem mem_possible_handlers_collect (channels : List McdChannel)
    (clients : List McdClient) (acc : List PossibleHandler) (ph : PossibleHandler) :
    ph ∈ possible_handlers_collect channels clients acc ↔
      ph ∈ acc ∨
      (ph.client ∈ clients ∧ ph.client.proxy = true ∧
        ph.client.implements MCD_CLIENT_HANDLER = true ∧
        0 < possible_handlers_total_quality ph.client channels 0 ∧
        ph.quality = possible_handlers_total_quality ph.client channels 0) := by
  induction clients generalizing acc with
  | nil => simp [possible_handlers_collect]
  | cons c rest ih =>
    simp only [possible_handlers_collect]
    by_cases hskip : (c.proxy = false || !c.implements MCD_CLIENT_HANDLER) = true
    · rw [if_pos hskip, ih]
      constructor
      · rintro (h | ⟨h1, h2⟩)
        · exact Or.inl h
        · exact Or.inr ⟨List.mem_cons_of_mem _ h1, h2⟩
      · rintro (h | ⟨h1, h2, h3, h4⟩)
        · exact Or.inl h
        · rcases List.mem_cons.mp h1 with hh | hh
          · rw [hh] at h2 h3
            simp [h2, h3] at hskip
          · exact Or.inr ⟨hh, h2, h3, h4⟩
    · rw [if_neg hskip]
      have hc : c.proxy = true ∧ c.implements MCD_CLIENT_HANDLER = true := by
        cases hp : c.proxy <;> cases hi : c.implements MCD_CLIENT_HANDLER <;>
          simp [hp, hi] at hskip ⊢
      by_cases hq : possible_handlers_total_quality c channels 0 > 0
      · simp only [hq, if_true]
        rw [ih]
        constructor
        · rintro (h | ⟨h1, h2⟩)
          · rcases List.mem_cons.mp h with hh | hh
            · right
              subst hh
              exact ⟨List.mem_cons_self _ _, hc.1, hc.2, hq, rfl⟩
            · exact Or.inl hh
          · exact Or.inr ⟨List.mem_cons_of_mem _ h1, h2⟩
        · rintro (h | ⟨h1, h2, h3, h4, h5⟩)
          · exact Or.inl (List.mem_cons_of_mem _ h)
          · rcases List.mem_cons.mp h1 with hh | hh
            · left
              have : ph = { client := c, quality := possible_handlers_total_quality c channels 0 } := by
                cases ph
                simp only [PossibleHandler.mk.injEq]
                simp only at hh h5
                exact ⟨hh, by rw [h5, hh]⟩
              rw [this]
              exact List.mem_cons_self _ _
            · exact Or.inr ⟨hh, h2, h3, h4, h5⟩
      · simp only [hq, if_false]
        rw [ih]
        constructor
        · rintro (h | ⟨h1, h2⟩)
          · exact Or.inl h
          · exact Or.inr ⟨List.mem_cons_of_mem _ h1, h2⟩
        · rintro (h | ⟨h1, h2, h3, h4, h5⟩)
          · exact Or.inl h
          · rcases List.mem_cons.mp h1 with hh | hh
            · rw [hh] at h4
              exact absurd h4 hq
            · exact Or.inr ⟨hh, h2, h3, h4, h5⟩

theorem mem_possible_handlers_ranked (clients : List McdClient)
    (channels : List McdChannel) (ph : PossibleHandler) :
    ph ∈ possible_handlers_ranked clients channels ↔
      ph ∈ possible_handlers_collect channels clients [] := by
  unfold possible_handlers_ranked
  rw [List.mem_reverse]
  exact (g_list_sort_perm possible_handler_cmp _).mem_iff

theorem mcd_dispatcher_get_possible_handlers_eq (clients : List McdClient)
    (channels : List McdChannel) :
    mcd_dispatcher_get_possible_handlers clients channels
      = if possible_handlers_ranked clients channels = [] then none
        else some ((possible_handlers_ranked clients channels).map
          (fun ph => MC_CLIENT_BUS_NAME_BASE ++ ph.client.name)) := by
  unfold mcd_dispatcher_get_possible_handlers possible_handlers_ranked
  cases hcol : possible_handlers_collect channels clients [] with
  | nil => simp [g_list_sort]
  | cons ph rest =>
    have hne : g_list_sort possible_handler_cmp (ph :: rest) ≠ [] := by
      intro h
      have hp := g_list_sort_perm possible_handler_cmp (ph :: rest)
      rw [h] at hp
      exact absurd hp.symm.eq_nil (by simp)
    simp [hne]

/-- C4 (amended): for a non-empty batch, `mcd_dispatcher_get_possible_handlers`
lists a client exactly when it has its proxy, has the Handler capability and
`match_filters` of its handler filters is positive on every channel of the
batch; the total score it is ranked by is the sum of the per-channel scores;
the result is `NULL` exactly when no client qualifies. On a registry in which
every client has its proxy the condition on the proxy is void. -/
theorem C4_possible_handlers_membership (clients : List McdClient)
    (channels : List McdChannel) (hne : channels ≠ []) :
    (∀ ph : PossibleHandler, ph ∈ possible_handlers_ranked clients channels ↔
      (ph.client ∈ clients ∧ ph.client.proxy = true ∧
        ph.client.implements MCD_CLIENT_HANDLER = true ∧
        (∀ ch ∈ channels, 0 < match_filters ch ph.client.handler_filters) ∧
        ph.quality
          = (channels.map (fun ch => match_filters ch ph.client.handler_filters)).sum)) ∧
    (∀ names, mcd_dispatcher_get_possible_handlers clients channels = some names →
      names = (possible_handlers_ranked clients channels).map
        (fun ph => MC_CLIENT_BUS_NAME_BASE ++ ph.client.name)) ∧
    (mcd_dispatcher_get_possible_handlers clients channels = none ↔
      ∀ client ∈ clients, ¬ (client.proxy = true ∧
        client.implements MCD_CLIENT_HANDLER = true ∧
        ∀ ch ∈ channels, 0 < match_filters ch client.handler_filters)) ∧
    (clients_have_proxy clients →
      (∀ ph : PossibleHandler, ph ∈ possible_handlers_ranked clients channels ↔
        (ph.client ∈ clients ∧ ph.client.implements MCD_CLIENT_HANDLER = true ∧
          (∀ ch ∈ channels, 0 < match_filters ch ph.client.handler_filters) ∧
          ph.quality
            = (channels.map (fun ch => match_filters ch ph.client.handler_filters)).sum)) ∧
      (mcd_dispatcher_get_possible_handlers clients channels = none ↔
        ∀ client ∈ clients, ¬ (client.implements MCD_CLIENT_HANDLER = true ∧
          ∀ ch ∈ channels, 0 < match_filters ch client.handler_filters))) := by
  have hmem : ∀ ph : PossibleHandler, ph ∈ possible_handlers_ranked clients channels ↔
      (ph.client ∈ clients ∧ ph.client.proxy = true ∧
        ph.client.implements MCD_CLIENT_HANDLER = true ∧
        (∀ ch ∈ channels, 0 < match_filters ch ph.client.handler_filters) ∧
        ph.quality
          = (channels.map (fun ch => match_filters ch ph.client.handler_filters)).sum) := by
    intro ph
    rw [mem_possible_handlers_ranked, mem_possible_handlers_collect]
    constructor
    · rintro (h | ⟨h1, h2, h3, h4, h5⟩)
      · cases h
      · have hall := (possible_handlers_total_quality_pos_iff ph.client channels hne).mp h4
        refine ⟨h1, h2, h3, hall, ?_⟩
        rw [h5, possible_handlers_total_quality_all ph.client channels 0 hall]
        omega
    · rintro ⟨h1, h2, h3, hall, h5⟩
      right
      refine ⟨h1, h2, h3,
        (possible_handlers_total_quality_pos_iff ph.client channels hne).mpr hall, ?_⟩
      rw [h5, possible_handlers_total_quality_all ph.client channels 0 hall]
      omega
  have hnone : mcd_dispatcher_get_possible_handlers clients channels = none ↔
      ∀ client ∈ clients, ¬ (client.proxy = true ∧
        client.implements MCD_CLIENT_HANDLER = true ∧
        ∀ ch ∈ channels, 0 < match_filters ch client.handler_filters) := by
    rw [mcd_dispatcher_get_possible_handlers_eq]
    constructor
    · intro hnone client hc hq
      have hnil : possible_handlers_ranked clients channels = [] := by
        by_contra hcon
        rw [if_neg hcon] at hnone
        cases hnone
      have hin : PossibleHandler.mk client
          ((channels.map (fun ch => match_filters ch client.handler_filters)).sum)
          ∈ possible_handlers_ranked clients channels :=
        (hmem _).mpr ⟨hc, hq.1, hq.2.1, hq.2.2, rfl⟩
      rw [hnil] at hin
      cases hin
    · intro hall
      have hnil : possible_handlers_ranked clients channels = [] := by
        cases hr : possible_handlers_ranked clients channels with
        | nil => rfl
        | cons ph rest =>
          have hin : ph ∈ possible_handlers_ranked clients channels := by
            rw [hr]; exact List.mem_cons_self _ _
          have := (hmem ph).mp hin
          exact absurd ⟨this.2.1, this.2.2.1, this.2.2.2.1⟩ (hall ph.client this.1)
      rw [if_pos hnil]
  refine ⟨hmem, ?_, hnone, ?_⟩
  · intro names hnames
    rw [mcd_dispatcher_get_possible_handlers_eq] at hnames
    split at hnames
    · cases hnames
    · exact (Option.some.inj hnames).symm
  · intro hproxy
    refine ⟨?_, ?_⟩
    · intro ph
      rw [hmem ph]
      constructor
      · rintro ⟨h1, _, h3, h4, h5⟩
        exact ⟨h1, h3, h4, h5⟩
      · rintro ⟨h1, h3, h4, h5⟩
        exact ⟨h1, hproxy _ h1, h3, h4, h5⟩
    · rw [hnone]
      constructor
      · intro h client hc hq
        exact h client hc ⟨hproxy client hc, hq.1, hq.2⟩
      · intro h client hc hq
        exact h client hc ⟨hq.2.1, hq.2.2⟩

/-- C5: in the list `mcd_dispatcher_get_possible_handlers` returns, every
handler with bypass-approval comes before every handler without it, and among
handlers with the same bypass-approval flag one with a higher total score
comes before one with a lower total score. -/
theorem C5_possible_handlers_order (clients : List McdClient)
    (channels : List McdChannel) :
    (possible_handlers_ranked clients channels).Pairwise
      (fun first second =>
        ¬ (first.client.bypass_approver = false ∧ second.client.bypass_approver = true) ∧
        (first.client.bypass_approver = second.client.bypass_approver →
          second.quality ≤ first.quality)) ∧
    mcd_dispatcher_get_possible_handlers clients channels
      = (if possible_handlers_ranked clients channels = [] then none
        else some ((possible_handlers_ranked clients channels).map
          (fun ph => MC_CLIENT_BUS_NAME_BASE ++ ph.client.name))) := by
  refine ⟨?_, mcd_dispatcher_get_possible_handlers_eq clients channels⟩
  unfold possible_handlers_ranked
  rw [List.pairwise_reverse]
  refine (g_list_sort_pairwise possible_handler_cmp possible_handler_cmp_total
    possible_handler_cmp_trans _).imp ?_
  intro a b hab
  rw [possible_handler_cmp_le_iff] at hab
  revert hab
  cases a.client.bypass_approver <;> cases b.client.bypass_approver <;> simp

/-! ## Theorems: choice of the handler -/

theorem mem_run_handler_handled (client : McdClient) (channels acc : List McdChannel)
    (c : McdChannel) :
    c ∈ run_handler_handled client channels acc ↔
      c ∈ acc ∨ (c ∈ channels ∧ match_filters c client.handler_filters ≠ 0) := by
  induction channels generalizing acc with
  | nil => simp [run_handler_handled]
  | cons ch rest ih =>
    simp only [run_handler_handled]
    by_cases hm : match_filters ch client.handler_filters ≠ 0
    · rw [if_pos hm, ih]
      constructor
      · rintro (h | ⟨h1, h2⟩)
        · rcases List.mem_cons.mp h with hh | hh
          · subst hh; exact Or.inr ⟨List.mem_cons_self _ _, hm⟩
          · exact Or.inl hh
        · exact Or.inr ⟨List.mem_cons_of_mem _ h1, h2⟩
      · rintro (h | ⟨h1, h2⟩)
        · exact Or.inl (List.mem_cons_of_mem _ h)
        · rcases List.mem_cons.mp h1 with hh | hh
          · subst hh; exact Or.inl (List.mem_cons_self _ _)
          · exact Or.inr ⟨hh, h2⟩
    · rw [if_neg hm, ih]
      constructor
      · rintro (h | ⟨h1, h2⟩)
        · exact Or.inl h
        · exact Or.inr ⟨List.mem_cons_of_mem _ h1, h2⟩
      · rintro (h | ⟨h1, h2⟩)
        · exact Or.inl h
        · rcases List.mem_cons.mp h1 with hh | hh
          · subst hh; exact absurd h2 hm
          · exact Or.inr ⟨hh, h2⟩

theorem run_handler_select_sound (approved : Option String) (channels : List McdChannel)
    (all_clients clients : List McdClient) (best : HandlerChoice)
    (hsub : ∀ c ∈ clients, c ∈ all_clients)
    (hbest : best.sound all_clients channels) :
    (run_handler_select approved channels clients best).sound all_clients channels := by
  induction clients generalizing best with
  | nil => simpa [run_handler_select] using hbest
  | cons client rest ih =>
    have hrest : ∀ c ∈ rest, c ∈ all_clients := fun c hc => hsub c (List.mem_cons_of_mem _ hc)
    have hclient : client ∈ all_clients := hsub client (List.mem_cons_self _ _)
    simp only [run_handler_select]
    split
    · exact ih best hrest hbest
    · rename_i hskip
      have himpl : client.implements MCD_CLIENT_HANDLER = true := by
        cases hp : client.proxy <;> cases hi : client.implements MCD_CLIENT_HANDLER <;>
          simp [hp, hi] at hskip ⊢
      have hnew : HandlerChoice.sound all_clients channels
          { handler := some client,
            handled_best := run_handler_handled client channels [],
            num_channels_best := ((run_handler_handled client channels []).length : Int) } := by
        intro handler hh
        simp only [Option.some.injEq] at hh
        subst hh
        refine ⟨hclient, himpl, ?_⟩
        intro c
        simp [mem_run_handler_handled]
      split
      · split
        · exact hnew
        · exact ih _ hrest hnew
      · exact ih best hrest hbest

theorem run_handler_choice_sound (priv : McdDispatcherPrivate)
    (context : McdDispatcherContext) (channels : List McdChannel) :
    (run_handler_choice priv context channels).sound priv.clients channels := by
  unfold run_handler_choice
  apply run_handler_select_sound
  · intro c hc; exact hc
  · intro handler hh
    cases hh

/-- C7: for every handler `mcd_dispatcher_run_handler` selects for a batch,
the handler named by the approver included, every channel handed to it in the
HandleChannels call is a channel of the batch on which `match_filters` of the
handler's filters is positive. -/
theorem C7_selected_handler_matches (priv : McdDispatcherPrivate)
    (context : McdDispatcherContext) (channels : List McdChannel)
    (handler : McdClient)
    (hsel : (run_handler_choice priv context channels).handler = some handler) :
    (mcd_dispatcher_run_handler priv context channels).1
      = mcd_dispatcher_handle_channels context
          (run_handler_choice priv context channels).handled_best handler ∧
    (mcd_dispatcher_handle_channels context
        (run_handler_choice priv context channels).handled_best handler).log
      = context.log ++ [Action.handle_channels handler.name
          ((run_handler_choice priv context channels).handled_best.map
            (fun channel => channel.id))
          (((run_handler_choice priv context channels).handled_best.map
            (fun channel => channel.satisfied_requests)).flatten)
          (handle_channels_user_action_time
            (run_handler_choice priv context channels).handled_best 0)] ∧
    ∀ c ∈ (run_handler_choice priv context channels).handled_best,
      c ∈ channels ∧ 0 < match_filters c handler.handler_filters := by
  refine ⟨?_, ?_, ?_⟩
  · simp [mcd_dispatcher_run_handler, hsel]
  · simp [mcd_dispatcher_handle_channels, set_status_in_context]
  · intro c hc
    have h := (run_handler_choice_sound priv context channels handler hsel).2.2 c
    have h2 := h.mp hc
    exact ⟨h2.1, Nat.pos_of_ne_zero h2.2⟩

/-! ## Theorems: client locks and runs of the handlers -/

theorem run_handlers_count_append (log more : List Action) :
    run_handlers_count (log ++ more) = run_handlers_count log + run_handlers_count more := by
  simp [run_handlers_count, List.countP_append]

theorem run_handlers_count_map_dispatched (ids : List Nat) :
    run_handlers_count (ids.map Action.dispatched) = 0 := by
  induction ids with
  | nil => rfl
  | cons i rest ih =>
    simp only [List.map_cons, run_handlers_count, List.countP_cons] at ih ⊢
    rw [ih]
    rfl

theorem run_handlers_count_single (action : Action) :
    run_handlers_count [action] = if action = Action.run_handlers then 1 else 0 := by
  simp [run_handlers_count, List.countP_cons]

theorem set_status_in_context_locks (context : McdDispatcherContext) (ids : List Nat)
    (status : McdChannelStatus) :
    (set_status_in_context context ids status).client_locks = context.client_locks := rfl

theorem set_status_in_context_log (context : McdDispatcherContext) (ids : List Nat)
    (status : McdChannelStatus) :
    (set_status_in_context context ids status).log = context.log := rfl

theorem take_error_in_context_locks (context : McdDispatcherContext) (id : Nat)
    (error : GError) :
    (take_error_in_context context id error).client_locks = context.client_locks := rfl

theorem take_error_in_context_log (context : McdDispatcherContext) (id : Nat)
    (error : GError) :
    (take_error_in_context context id error).log = context.log := rfl

theorem handle_channels_locks (context : McdDispatcherContext)
    (channels : List McdChannel) (handler : McdClient) :
    (mcd_dispatcher_handle_channels context channels handler).client_locks
        = context.client_locks := rfl

theorem handle_channels_runs (context : McdDispatcherContext)
    (channels : List McdChannel) (handler : McdClient) :
    run_handlers_count (mcd_dispatcher_handle_channels context channels handler).log
        = run_handlers_count context.log := by
  simp [mcd_dispatcher_handle_channels, set_status_in_context, run_handlers_count_append,
    run_handlers_count_single]

theorem run_handler_locks (priv : McdDispatcherPrivate) (context : McdDispatcherContext)
    (channels : List McdChannel) :
    (mcd_dispatcher_run_handler priv context channels).1.client_locks
        = context.client_locks := by
  unfold mcd_dispatcher_run_handler
  dsimp only
  split <;> rfl

theorem run_handler_runs (priv : McdDispatcherPrivate) (context : McdDispatcherContext)
    (channels : List McdChannel) :
    run_handlers_count (mcd_dispatcher_run_handler priv context channels).1.log
        = run_handlers_count context.log := by
  unfold mcd_dispatcher_run_handler
  dsimp only
  split
  · exact handle_channels_runs context _ _
  · rfl

theorem run_handlers_loop_locks_aux (priv : McdDispatcherPrivate) (fuel : Nat) :
    ∀ (context : McdDispatcherContext) (channels : List McdChannel),
      (mcd_dispatcher_run_handlers_loop priv fuel context channels).client_locks
          = context.client_locks ∧
      run_handlers_count (mcd_dispatcher_run_handlers_loop priv fuel context channels).log
          = run_handlers_count context.log := by
  induction fuel with
  | zero => intro context channels; exact ⟨rfl, rfl⟩
  | succ fuel ih =>
    intro context channels
    simp only [mcd_dispatcher_run_handlers_loop]
    have hl := run_handler_locks priv context channels
    have hr := run_handler_runs priv context channels
    split
    · exact ⟨rfl, rfl⟩
    · split
      · constructor
        · exact hl
        · simp only [run_handlers_count_append]
          rw [hr]
          simp [run_handlers_count_single]
      · have := ih (mcd_dispatcher_run_handler priv context channels).1
          (mcd_dispatcher_run_handler priv context channels).2
        exact ⟨this.1.trans hl, this.2.trans hr⟩

/-- The length of the list is enough fuel for the loop of
`mcd_dispatcher_run_handlers`: more fuel gives the same result. -/
theorem run_handlers_loop_fuel_enough (priv : McdDispatcherPrivate) (fuel : Nat) :
    ∀ (context : McdDispatcherContext) (channels : List McdChannel),
      channels.length ≤ fuel →
      mcd_dispatcher_run_handlers_loop priv fuel context channels
        = mcd_dispatcher_run_handlers_loop priv channels.length context channels := by
  induction fuel using Nat.strong_induction_on with
  | _ fuel ih =>
    intro context channels hlen
    cases channels with
    | nil =>
      cases fuel with
      | zero => rfl
      | succ f => simp [mcd_dispatcher_run_handlers_loop]
    | cons ch rest =>
      cases fuel with
      | zero => simp at hlen
      | succ f =>
        simp only [mcd_dispatcher_run_handlers_loop, List.length_cons]
        split
        · rfl
        · split
          · rfl
          · rename_i hlt
            simp only [List.length_cons] at hlt hlen
            have h1 : (mcd_dispatcher_run_handler priv context (ch :: rest)).2.length ≤ f := by
              omega
            have h2 : (mcd_dispatcher_run_handler priv context (ch :: rest)).2.length
                ≤ rest.length := by omega
            rw [ih f (by omega) _ _ h1]
            by_cases hf : rest.length < f + 1
            · rw [ih rest.length hf _ _ h2]
            · have : rest.length = f + 1 := by omega
              omega

theorem run_handlers_locks (priv : McdDispatcherPrivate) (context : McdDispatcherContext) :
    (mcd_dispatcher_run_handlers priv context).client_locks = context.client_locks := by
  unfold mcd_dispatcher_run_handlers
  exact (run_handlers_loop_locks_aux priv context.channels.length
    { context with log := context.log ++ [Action.run_handlers] } context.channels).1

theorem run_handlers_runs (priv : McdDispatcherPrivate) (context : McdDispatcherContext) :
    run_handlers_count (mcd_dispatcher_run_handlers priv context).log
        = run_handlers_count context.log + 1 := by
  unfold mcd_dispatcher_run_handlers
  rw [(run_handlers_loop_locks_aux priv context.channels.length
    { context with log := context.log ++ [Action.run_handlers] } context.channels).2]
  simp [run_handlers_count_append, run_handlers_count_single]

theorem release_client_lock_locks (priv : McdDispatcherPrivate)
    (context : McdDispatcherContext) :
    (mcd_dispatcher_context_release_client_lock priv context).client_locks
      = if 0 < context.client_locks then context.client_locks - 1
        else context.client_locks := by
  unfold mcd_dispatcher_context_release_client_lock
  dsimp only
  split_ifs <;> first | rfl | omega | (rw [run_handlers_locks])

theorem release_client_lock_runs (priv : McdDispatcherPrivate)
    (context : McdDispatcherContext) :
    run_handlers_count (mcd_dispatcher_context_release_client_lock priv context).log
      = run_handlers_count context.log + (if context.client_locks = 1 then 1 else 0) := by
  unfold mcd_dispatcher_context_release_client_lock
  dsimp only
  split_ifs <;> first | rfl | omega | (rw [run_handlers_runs])

theorem run_handlers_count_map_dispatched_comp {α : Type} (f : α → Nat) (l : List α) :
    run_handlers_count (l.map (Action.dispatched ∘ f)) = 0 := by
  rw [← List.map_map]
  exact run_handlers_count_map_dispatched _

theorem handler_done_locks (context : McdDispatcherContext) :
    (mcd_dispatcher_context_handler_done context).client_locks = context.client_locks := by
  unfold mcd_dispatcher_context_handler_done
  dsimp only
  split_ifs <;> rfl

theorem handler_done_runs (context : McdDispatcherContext) :
    run_handlers_count (mcd_dispatcher_context_handler_done context).log
        = run_handlers_count context.log := by
  unfold mcd_dispatcher_context_handler_done
  dsimp only
  split_ifs <;> simp [run_handlers_count_append, run_handlers_count_single]

theorem on_channel_abort_context_locks (channel : McdChannel)
    (context : McdDispatcherContext) :
    (on_channel_abort_context channel context).client_locks = context.client_locks := rfl

theorem on_channel_abort_context_log (channel : McdChannel)
    (context : McdDispatcherContext) :
    (on_channel_abort_context channel context).log = context.log := rfl

theorem mission_abort_locks (channel : McdChannel) (context : McdDispatcherContext) :
    (mcd_mission_abort channel context).client_locks = context.client_locks := rfl

theorem mission_abort_runs (channel : McdChannel) (context : McdDispatcherContext) :
    run_handlers_count (mcd_mission_abort channel context).log
        = run_handlers_count context.log := by
  simp [mcd_mission_abort, on_channel_abort_context_log, run_handlers_count_append,
    run_handlers_count_single]

theorem handle_channels_cb_failed_locks (mc_error : GError) (channels : List McdChannel)
    (context : McdDispatcherContext) :
    (handle_channels_cb_failed mc_error channels context).client_locks
        = context.client_locks := by
  induction channels generalizing context with
  | nil => rfl
  | cons ch rest ih =>
    simp only [handle_channels_cb_failed]
    rw [ih, mission_abort_locks]
    rfl

theorem handle_channels_cb_failed_runs (mc_error : GError) (channels : List McdChannel)
    (context : McdDispatcherContext) :
    run_handlers_count (handle_channels_cb_failed mc_error channels context).log
        = run_handlers_count context.log := by
  induction channels generalizing context with
  | nil => rfl
  | cons ch rest ih =>
    simp only [handle_channels_cb_failed]
    rw [ih, mission_abort_runs]
    simp [take_error_in_context_log, run_handlers_count_append, run_handlers_count_single]

theorem handle_channels_cb_locks (context : McdDispatcherContext)
    (channels : List McdChannel) (error : Bool) :
    (handle_channels_cb context channels error).client_locks = context.client_locks := by
  unfold handle_channels_cb
  dsimp only
  rw [handler_done_locks]
  split_ifs
  · rw [handle_channels_cb_failed_locks]
  · rfl

theorem handle_channels_cb_runs (context : McdDispatcherContext)
    (channels : List McdChannel) (error : Bool) :
    run_handlers_count (handle_channels_cb context channels error).log
        = run_handlers_count context.log := by
  unfold handle_channels_cb
  dsimp only
  rw [handler_done_runs]
  split_ifs
  · rw [handle_channels_cb_failed_runs]
  · simp [set_status_in_context_log, run_handlers_count_append,
      run_handlers_count_map_dispatched_comp]

theorem add_dispatch_operation_cb_step (priv : McdDispatcherPrivate)
    (context : McdDispatcherContext) (error : Bool) :
    lock_step context (add_dispatch_operation_cb priv context error) := by
  unfold add_dispatch_operation_cb lock_step
  dsimp only
  split <;> (try dsimp only) <;> split_ifs <;>
    (try simp only [release_client_lock_locks, release_client_lock_runs]) <;>
    (try split_ifs) <;> first | omega | simp_all

theorem on_operation_finished_step (priv : McdDispatcherPrivate)
    (operation : McdDispatchOperation) (context : McdDispatcherContext) :
    lock_step context (on_operation_finished priv operation context) := by
  unfold on_operation_finished lock_step
  dsimp only
  split_ifs <;>
    (try simp only [release_client_lock_locks, release_client_lock_runs, handler_done_locks,
      handler_done_runs, set_status_in_context_locks, set_status_in_context_log,
      run_handlers_count_append, run_handlers_count_map_dispatched,
      run_handlers_count_map_dispatched_comp,
      run_handlers_count_single]) <;>
    (try split_ifs) <;> first | omega | simp_all

theorem pipeline_step_lock_step (priv : McdDispatcherPrivate)
    (context : McdDispatcherContext) (event : PipelineEvent) :
    lock_step context (pipeline_step priv context event) := by
  cases event with
  | observe_channels_reply error =>
    unfold pipeline_step observe_channels_cb lock_step
    simp only [release_client_lock_locks, release_client_lock_runs]
    split_ifs <;> first | omega | simp_all
  | add_dispatch_operation_reply error =>
    exact add_dispatch_operation_cb_step priv context error
  | operation_finished operation =>
    simp only [pipeline_step]
    split
    · exact on_operation_finished_step priv operation context
    · exact Or.inl ⟨rfl, rfl⟩
  | channel_abort channel =>
    exact Or.inl ⟨rfl, rfl⟩
  | handle_channels_reply channels error =>
    exact Or.inl ⟨handle_channels_cb_locks context channels error,
      handle_channels_cb_runs context channels error⟩

theorem observe_channels_count_append (log more : List Action) :
    observe_channels_count (log ++ more)
      = observe_channels_count log + observe_channels_count more := by
  simp [observe_channels_count, List.countP_append]

theorem run_observers_loop_effect (channels : List McdChannel) (clients : List McdClient)
    (context : McdDispatcherContext) :
    ∃ calls : Nat,
      (mcd_dispatcher_run_observers_loop channels clients context).client_locks
        = context.client_locks + calls ∧
      observe_channels_count (mcd_dispatcher_run_observers_loop channels clients context).log
        = observe_channels_count context.log + calls ∧
      run_handlers_count (mcd_dispatcher_run_observers_loop channels clients context).log
        = run_handlers_count context.log := by
  induction clients generalizing context with
  | nil => exact ⟨0, by simp [mcd_dispatcher_run_observers_loop]⟩
  | cons client rest ih =>
    simp only [mcd_dispatcher_run_observers_loop]
    split
    · exact ih context
    · split
      · exact ih context
      · rename_i ch observed hobs
        obtain ⟨calls, h1, h2, h3⟩ := ih
          { context with
            client_locks := context.client_locks + 1
            log := context.log ++ [Action.observe_channels client.name
              ((ch :: observed).map (fun observed_channel => observed_channel.id))] }
        refine ⟨calls + 1, ?_, ?_, ?_⟩
        · rw [h1]; push_cast; ring
        · rw [h2, observe_channels_count_append]
          simp [observe_channels_count]
          omega
        · rw [h3, run_handlers_count_append]
          simp [run_handlers_count_single]

theorem run_approvers_loop_effect (channels : List McdChannel) (clients : List McdClient)
    (context : McdDispatcherContext) :
    (mcd_dispatcher_run_approvers_loop channels clients context).client_locks
        = context.client_locks ∧
    run_handlers_count (mcd_dispatcher_run_approvers_loop channels clients context).log
        = run_handlers_count context.log := by
  induction clients generalizing context with
  | nil => exact ⟨rfl, rfl⟩
  | cons client rest ih =>
    simp only [mcd_dispatcher_run_approvers_loop]
    split
    · exact ih context
    · split
      · have h := ih
          { context with
            approvers_invoked := context.approvers_invoked + 1
            operation := context.operation.map _mcd_dispatch_operation_block_finished
            log := context.log ++ [Action.add_dispatch_operation client.name] }
        refine ⟨h.1, ?_⟩
        rw [h.2, run_handlers_count_append]
        simp [run_handlers_count_single]
      · exact ih context

theorem approver_not_invoked_step (priv : McdDispatcherPrivate)
    (context : McdDispatcherContext) :
    lock_step context (mcd_dispatcher_context_approver_not_invoked priv context) := by
  unfold mcd_dispatcher_context_approver_not_invoked lock_step
  dsimp only
  split_ifs <;>
    (try simp only [release_client_lock_locks, release_client_lock_runs]) <;>
    (try split_ifs) <;> first | omega | simp_all

theorem run_approvers_effect (priv : McdDispatcherPrivate)
    (context : McdDispatcherContext) :
    ((mcd_dispatcher_run_approvers priv context).client_locks = context.client_locks ∨
      (mcd_dispatcher_run_approvers priv context).client_locks
        = context.client_locks + 1) ∧
    (context.operation = none →
      (mcd_dispatcher_run_approvers priv context).client_locks = context.client_locks) ∧
    (1 ≤ context.client_locks →
      run_handlers_count (mcd_dispatcher_run_approvers priv context).log
        = run_handlers_count context.log) := by
  unfold mcd_dispatcher_run_approvers
  cases hop : context.operation with
  | none => simp
  | some op =>
    dsimp only
    rw [← hop]
    have hloop := run_approvers_loop_effect context.channels priv.clients
      { context with approvers_invoked := 1, client_locks := context.client_locks + 1 }
    have hstep := approver_not_invoked_step priv
      (mcd_dispatcher_run_approvers_loop context.channels priv.clients
        { context with approvers_invoked := 1, client_locks := context.client_locks + 1 })
    rw [lock_step, hloop.1, hloop.2] at hstep
    dsimp only at hstep
    refine ⟨?_, fun hnone => absurd (hop.symm.trans hnone) (by simp), ?_⟩
    · rcases hstep with ⟨h1, _⟩ | ⟨_, h1, _⟩
      · right; exact h1
      · left; rw [h1]; ring
    · intro h1
      rcases hstep with ⟨_, h2⟩ | ⟨_, _, h2⟩
      · exact h2
      · rw [h2]
        have : ¬ context.client_locks + 1 = 1 := by omega
        simp [this]

/-- The context `mcd_dispatcher_run_clients` has built when it reaches its
last statement, the release of the lock it took at its start. -/
theorem run_clients_before_release (priv : McdDispatcherPrivate)
    (context : McdDispatcherContext) :
    ∃ before : McdDispatcherContext,
      mcd_dispatcher_run_clients priv context
        = mcd_dispatcher_context_release_client_lock priv before ∧
      1 ≤ before.client_locks ∧
      run_handlers_count before.log = run_handlers_count context.log := by
  obtain ⟨calls, h1, _, h3⟩ := run_observers_loop_effect
    ({ context with client_locks := 1 } : McdDispatcherContext).channels priv.clients
    { context with client_locks := 1 }
  have hobs1 : 1 ≤ (mcd_dispatcher_run_observers priv
      { context with client_locks := 1 }).client_locks := by
    unfold mcd_dispatcher_run_observers
    rw [h1]
    simp
  have hobs2 : run_handlers_count (mcd_dispatcher_run_observers priv
      { context with client_locks := 1 }).log = run_handlers_count context.log := by
    unfold mcd_dispatcher_run_observers
    rw [h3]
  unfold mcd_dispatcher_run_clients
  dsimp only
  refine ⟨_, rfl, ?_, ?_⟩
  · split
    · split
      · have h := (run_approvers_effect priv (mcd_dispatcher_run_observers priv
          { context with client_locks := 1 })).1
        rcases h with h | h <;> omega
      · exact hobs1
    · exact hobs1
  · split
    · split
      · rw [(run_approvers_effect priv (mcd_dispatcher_run_observers priv
          { context with client_locks := 1 })).2.2 hobs1]
        exact hobs2
      · exact hobs2
    · exact hobs2

/-- What holds of a context from `mcd_dispatcher_run_clients` on: the lock
counter is not negative, and the handlers have run once if it is 0 and not at
all otherwise. -/
theorem pipeline_run_invariant (priv : McdDispatcherPrivate) (base : Nat)
    (events : List PipelineEvent) :
    ∀ context : McdDispatcherContext,
      0 ≤ context.client_locks →
      run_handlers_count context.log
        = base + (if context.client_locks = 0 then 1 else 0) →
      0 ≤ (pipeline_run priv context events).client_locks ∧
      run_handlers_count (pipeline_run priv context events).log
        = base + (if (pipeline_run priv context events).client_locks = 0 then 1 else 0) := by
  induction events with
  | nil => intro context h0 h1; exact ⟨h0, h1⟩
  | cons event rest ih =>
    intro context h0 h1
    have hstep := pipeline_step_lock_step priv context event
    simp only [pipeline_run, List.foldl_cons]
    apply ih
    · rcases hstep with ⟨h, _⟩ | ⟨_, h, _⟩ <;> omega
    · rcases hstep with ⟨h, h2⟩ | ⟨hp, h, h2⟩
      · rw [h2, h1, h]
      · rw [h2, h1, h]
        have hne : ¬ context.client_locks = 0 := by omega
        rw [if_neg hne]
        by_cases hc : context.client_locks = 1
        · have : context.client_locks - 1 = 0 := by omega
          rw [if_pos hc, if_pos this]
        · have : ¬ context.client_locks - 1 = 0 := by omega
          rw [if_neg hc, if_neg this]

theorem run_clients_invariant (priv : McdDispatcherPrivate)
    (context : McdDispatcherContext) :
    0 ≤ (mcd_dispatcher_run_clients priv context).client_locks ∧
    run_handlers_count (mcd_dispatcher_run_clients priv context).log
      = run_handlers_count context.log
        + (if (mcd_dispatcher_run_clients priv context).client_locks = 0 then 1 else 0) := by
  obtain ⟨before, heq, h1, h2⟩ := run_clients_before_release priv context
  rw [heq, release_client_lock_locks, release_client_lock_runs, h2]
  have hpos : 0 < before.client_locks := by omega
  rw [if_pos hpos]
  refine ⟨by omega, ?_⟩
  by_cases hc : before.client_locks = 1
  · have : before.client_locks - 1 = 0 := by omega
    rw [if_pos hc, if_pos this]
  · have : ¬ before.client_locks - 1 = 0 := by omega
    rw [if_neg hc, if_neg this]

/-- C8: from the start of `mcd_dispatcher_run_clients` on and through every
sequence of observer replies, approver replies, finished operations, channel
aborts and handler replies, `client_locks` is never negative: it is set to 1,
incremented once per ObserveChannels call and once for the approver phase, and
`mcd_dispatcher_context_release_client_lock` decrements it only when it is
greater than 0; inside `mcd_dispatcher_run_clients` it stays at 1 or above
until the release at the end of that function. -/
theorem C8_client_locks_never_negative (priv : McdDispatcherPrivate)
    (context : McdDispatcherContext) (events : List PipelineEvent) :
    0 ≤ (pipeline_run priv (mcd_dispatcher_run_clients priv context) events).client_locks ∧
    ((mcd_dispatcher_run_observers priv { context with client_locks := 1 }).client_locks
      = 1 + ((observe_channels_count
              (mcd_dispatcher_run_observers priv { context with client_locks := 1 }).log
            - observe_channels_count context.log : Nat) : Int)) ∧
    (∀ c : McdDispatcherContext,
      ((mcd_dispatcher_run_approvers priv c).client_locks = c.client_locks ∨
       (mcd_dispatcher_run_approvers priv c).client_locks = c.client_locks + 1)) ∧
    (∀ c : McdDispatcherContext,
      (mcd_dispatcher_context_release_client_lock priv c).client_locks
        = if 0 < c.client_locks then c.client_locks - 1 else c.client_locks) ∧
    (∃ before : McdDispatcherContext,
      mcd_dispatcher_run_clients priv context
        = mcd_dispatcher_context_release_client_lock priv before ∧
      1 ≤ before.client_locks) := by
  refine ⟨?_, ?_, ?_, ?_, ?_⟩
  · have h := run_clients_invariant priv context
    exact (pipeline_run_invariant priv (run_handlers_count context.log) events _ h.1 h.2).1
  · obtain ⟨calls, h1, h2, _⟩ := run_observers_loop_effect
      ({ context with client_locks := 1 } : McdDispatcherContext).channels priv.clients
      { context with client_locks := 1 }
    unfold mcd_dispatcher_run_observers
    rw [h1, h2]
    simp
  · intro c
    exact (run_approvers_effect priv c).1
  · intro c
    exact release_client_lock_locks priv c
  · obtain ⟨before, h1, h2, _⟩ := run_clients_before_release priv context
    exact ⟨before, h1, h2⟩

/-- C9, as amended: over the life of a context that enters
`mcd_dispatcher_run_clients` the handlers (`mcd_dispatcher_run_handlers`)
run at most once, and at no moment other than the release that takes
`client_locks` from 1 to 0, so not at all while the counter stays above 0;
for a context that is not flagged cancelled they do run at that release; a
later release on a counter that is already 0 neither changes the counter nor
runs the handlers again. -/
theorem C9_handlers_run_at_the_release_to_zero (priv : McdDispatcherPrivate)
    (context : McdDispatcherContext) (events : List PipelineEvent) :
    run_handlers_count
        (pipeline_run priv (mcd_dispatcher_run_clients priv context) events).log
      ≤ run_handlers_count context.log + 1 ∧
    ((pipeline_run priv (mcd_dispatcher_run_clients priv context) events).client_locks ≠ 0 →
      run_handlers_count
          (pipeline_run priv (mcd_dispatcher_run_clients priv context) events).log
        = run_handlers_count context.log) ∧
    ((pipeline_run priv (mcd_dispatcher_run_clients priv context) events).cancelled = false →
      (pipeline_run priv (mcd_dispatcher_run_clients priv context) events).client_locks = 0 →
      run_handlers_count
          (pipeline_run priv (mcd_dispatcher_run_clients priv context) events).log
        = run_handlers_count context.log + 1) ∧
    (∀ (c : McdDispatcherContext) (event : PipelineEvent),
      run_handlers_count (pipeline_step priv c event).log = run_handlers_count c.log ∨
      (run_handlers_count (pipeline_step priv c event).log = run_handlers_count c.log + 1 ∧
        c.client_locks = 1 ∧ (pipeline_step priv c event).client_locks = 0)) ∧
    (∀ (c : McdDispatcherContext) (event : PipelineEvent),
      (pipeline_step priv c event).cancelled = false →
      c.client_locks = 1 → (pipeline_step priv c event).client_locks = 0 →
      run_handlers_count (pipeline_step priv c event).log = run_handlers_count c.log + 1) ∧
    (∀ c : McdDispatcherContext, c.client_locks = 0 →
      mcd_dispatcher_context_release_client_lock priv c = c) := by
  have hinv := (pipeline_run_invariant priv (run_handlers_count context.log) events _
    (run_clients_invariant priv context).1 (run_clients_invariant priv context).2).2
  have hstep : ∀ (c : McdDispatcherContext) (event : PipelineEvent),
      run_handlers_count (pipeline_step priv c event).log
        = run_handlers_count c.log
          + (if c.client_locks = 1 ∧ (pipeline_step priv c event).client_locks = 0
             then 1 else 0) := by
    intro c event
    rcases pipeline_step_lock_step priv c event with ⟨h, h2⟩ | ⟨hp, h, h2⟩
    · rw [h2, h]
      have : ¬ (c.client_locks = 1 ∧ c.client_locks = 0) := by omega
      rw [if_neg this, Nat.add_zero]
    · rw [h2, h]
      by_cases hc : c.client_locks = 1
      · have : c.client_locks = 1 ∧ c.client_locks - 1 = 0 := ⟨hc, by omega⟩
        rw [if_pos hc, if_pos this]
      · have : ¬ (c.client_locks = 1 ∧ c.client_locks - 1 = 0) := fun h => hc h.1
        rw [if_neg hc, if_neg this]
  refine ⟨?_, ?_, ?_, ?_, ?_, ?_⟩
  · rw [hinv]
    split <;> omega
  · intro hne
    rw [hinv, if_neg hne, Nat.add_zero]
  · intro _ hzero
    rw [hinv, if_pos hzero]
  · intro c event
    have h := hstep c event
    by_cases hc : c.client_locks = 1 ∧ (pipeline_step priv c event).client_locks = 0
    · rw [if_pos hc] at h
      exact Or.inr ⟨h, hc.1, hc.2⟩
    · rw [if_neg hc, Nat.add_zero] at h
      exact Or.inl h
  · intro c event _ h1 h0
    rw [hstep c event, if_pos ⟨h1, h0⟩]
  · intro c hc
    unfold mcd_dispatcher_context_release_client_lock
    have : ¬ c.client_locks > 0 := by omega
    rw [if_pos this]

/-! ## Theorems: the batch of a context -/

theorem set_status_in_context_batch (context : McdDispatcherContext) (ids : List Nat)
    (status : McdChannelStatus) :
    context_batch (set_status_in_context context ids status) = context_batch context := by
  unfold context_batch set_status_in_context
  simp only [List.map_map, Prod.mk.injEq, true_and]
  apply List.map_congr_left
  intro ch _
  simp only [Function.comp]
  split <;> rfl

theorem handle_channels_batch (context : McdDispatcherContext)
    (channels : List McdChannel) (handler : McdClient) :
    context_batch (mcd_dispatcher_handle_channels context channels handler)
      = context_batch context := by
  have h := set_status_in_context_batch context (channels.map (fun channel => channel.id))
    McdChannelStatus.HANDLER_INVOKED
  unfold mcd_dispatcher_handle_channels
  exact h

theorem run_handler_batch (priv : McdDispatcherPrivate) (context : McdDispatcherContext)
    (channels : List McdChannel) :
    context_batch (mcd_dispatcher_run_handler priv context channels).1
      = context_batch context := by
  unfold mcd_dispatcher_run_handler
  dsimp only
  split
  · exact handle_channels_batch context _ _
  · rfl

theorem run_handlers_loop_batch (priv : McdDispatcherPrivate) (fuel : Nat) :
    ∀ (context : McdDispatcherContext) (channels : List McdChannel),
      context_batch (mcd_dispatcher_run_handlers_loop priv fuel context channels)
        = context_batch context := by
  induction fuel with
  | zero => intro context channels; rfl
  | succ fuel ih =>
    intro context channels
    simp only [mcd_dispatcher_run_handlers_loop]
    split
    · rfl
    · split
      · exact run_handler_batch priv context channels
      · rw [ih]
        exact run_handler_batch priv context channels

theorem run_handlers_batch (priv : McdDispatcherPrivate) (context : McdDispatcherContext) :
    context_batch (mcd_dispatcher_run_handlers priv context) = context_batch context := by
  unfold mcd_dispatcher_run_handlers
  rw [run_handlers_loop_batch]
  rfl

theorem release_client_lock_batch (priv : McdDispatcherPrivate)
    (context : McdDispatcherContext) :
    context_batch (mcd_dispatcher_context_release_client_lock priv context)
      = context_batch context := by
  unfold mcd_dispatcher_context_release_client_lock
  dsimp only
  split_ifs <;> first | rfl | (rw [run_handlers_batch]; rfl)

theorem run_observers_loop_batch (channels : List McdChannel) (clients : List McdClient)
    (context : McdDispatcherContext) :
    context_batch (mcd_dispatcher_run_observers_loop channels clients context)
      = context_batch context := by
  induction clients generalizing context with
  | nil => rfl
  | cons client rest ih =>
    simp only [mcd_dispatcher_run_observers_loop]
    split
    · exact ih context
    · split
      · exact ih context
      · rw [ih]; rfl

theorem run_approvers_loop_batch (channels : List McdChannel) (clients : List McdClient)
    (context : McdDispatcherContext) :
    context_batch (mcd_dispatcher_run_approvers_loop channels clients context)
      = context_batch context := by
  induction clients generalizing context with
  | nil => rfl
  | cons client rest ih =>
    simp only [mcd_dispatcher_run_approvers_loop]
    split
    · exact ih context
    · split
      · rw [ih]; rfl
      · exact ih context

theorem approver_not_invoked_batch (priv : McdDispatcherPrivate)
    (context : McdDispatcherContext) :
    context_batch (mcd_dispatcher_context_approver_not_invoked priv context)
      = context_batch context := by
  unfold mcd_dispatcher_context_approver_not_invoked
  dsimp only
  split_ifs <;> first | rfl | (rw [release_client_lock_batch]; rfl)

theorem run_approvers_batch (priv : McdDispatcherPrivate)
    (context : McdDispatcherContext) :
    context_batch (mcd_dispatcher_run_approvers priv context) = context_batch context := by
  unfold mcd_dispatcher_run_approvers
  split
  · rfl
  · dsimp only
    rw [approver_not_invoked_batch, run_approvers_loop_batch]
    rfl

theorem run_clients_batch (priv : McdDispatcherPrivate)
    (context : McdDispatcherContext) :
    context_batch (mcd_dispatcher_run_clients priv context) = context_batch context := by
  have hobs : context_batch (mcd_dispatcher_run_observers priv
      { context with client_locks := 1 }) = context_batch context := by
    unfold mcd_dispatcher_run_observers
    rw [run_observers_loop_batch]
    rfl
  unfold mcd_dispatcher_run_clients
  dsimp only
  rw [release_client_lock_batch]
  split
  · split
    · rw [run_approvers_batch]; exact hobs
    · exact hobs
  · exact hobs

theorem context_process_batch (priv : McdDispatcherPrivate)
    (context : McdDispatcherContext) (hc : context.cancelled = false) :
    context_batch (mcd_dispatcher_context_process priv context true)
      = context_batch context := by
  unfold mcd_dispatcher_context_process
  simp only [hc, Bool.not_false, Bool.and_self, if_true]
  split
  · rfl
  · exact run_clients_batch priv context

/-! ## Theorems: taking channels -/

theorem possible_handlers_none_iff (clients : List McdClient) (channels : List McdChannel) :
    mcd_dispatcher_get_possible_handlers clients channels = none ↔
      ∀ client ∈ clients, ¬ (client.proxy = true ∧
        client.implements MCD_CLIENT_HANDLER = true ∧
        0 < possible_handlers_total_quality client channels 0) := by
  unfold mcd_dispatcher_get_possible_handlers
  constructor
  · intro h client hc hq
    have hin : PossibleHandler.mk client (possible_handlers_total_quality client channels 0)
        ∈ possible_handlers_collect channels clients [] :=
      (mem_possible_handlers_collect channels clients [] _).mpr
        (Or.inr ⟨hc, hq.1, hq.2.1, hq.2.2, rfl⟩)
    cases hcol : possible_handlers_collect channels clients [] with
    | nil => rw [hcol] at hin; cases hin
    | cons ph rest => rw [hcol] at h; cases h
  · intro h
    cases hcol : possible_handlers_collect channels clients [] with
    | nil => rfl
    | cons ph rest =>
      exfalso
      have hin : ph ∈ possible_handlers_collect channels clients [] := by
        rw [hcol]; exact List.mem_cons_self _ _
      rcases (mem_possible_handlers_collect channels clients [] ph).mp hin with h0 | h1
      · cases h0
      · exact h ph.client h1.1 ⟨h1.2.1, h1.2.2.1, h1.2.2.2.1⟩

theorem possible_handlers_single_of_batch (clients : List McdClient)
    (channels : List McdChannel) (c : McdChannel) (hc : c ∈ channels)
    (hsingle : mcd_dispatcher_get_possible_handlers clients [c] = none) :
    mcd_dispatcher_get_possible_handlers clients channels = none := by
  rw [possible_handlers_none_iff] at hsingle ⊢
  intro client hclient hq
  apply hsingle client hclient
  refine ⟨hq.1, hq.2.1, ?_⟩
  have hne : channels ≠ [] := by
    intro h; rw [h] at hc; cases hc
  have hall := (possible_handlers_total_quality_pos_iff client channels hne).mp hq.2.2
  rw [possible_handlers_total_quality_pos_iff client [c] (by simp)]
  intro ch hch
  rcases List.mem_singleton.mp hch with rfl
  exact hall ch hc

theorem possible_handlers_some_ne_nil (clients : List McdClient)
    (channels : List McdChannel) (names : List String)
    (h : mcd_dispatcher_get_possible_handlers clients channels = some names) :
    names ≠ [] := by
  rw [mcd_dispatcher_get_possible_handlers_eq] at h
  split at h
  · cases h
  · rename_i hne
    have := Option.some.inj h
    rw [← this]
    intro hmap
    exact hne (List.map_eq_nil_iff.mp hmap)

theorem take_channels_nil (priv : McdDispatcherPrivate) (requested : Bool) :
    _mcd_dispatcher_take_channels priv [] requested = priv := by
  rw [_mcd_dispatcher_take_channels]

theorem take_channels_single (priv : McdDispatcherPrivate) (c : McdChannel)
    (requested : Bool) :
    _mcd_dispatcher_take_channels priv [c] requested
      = match mcd_dispatcher_get_possible_handlers priv.clients [c] with
        | none => _mcd_channel_undispatchable priv c
        | some possible_handlers =>
          _mcd_dispatcher_enter_state_machine priv (take_channels_set_dispatching [c])
            possible_handlers requested := by
  rw [_mcd_dispatcher_take_channels]

theorem take_channels_batch (priv : McdDispatcherPrivate) (a b : McdChannel)
    (rest : List McdChannel) (requested : Bool) :
    _mcd_dispatcher_take_channels priv (a :: b :: rest) requested
      = match mcd_dispatcher_get_possible_handlers priv.clients (a :: b :: rest) with
        | none =>
          (a :: b :: rest).foldl
            (fun priv channel => _mcd_dispatcher_take_channels priv [channel] requested) priv
        | some possible_handlers =>
          _mcd_dispatcher_enter_state_machine priv
            (take_channels_set_dispatching (a :: b :: rest)) possible_handlers requested := by
  rw [_mcd_dispatcher_take_channels]

theorem take_channels_set_dispatching_ids (channels : List McdChannel) :
    (take_channels_set_dispatching channels).map (fun channel => channel.id)
      = channels.map (fun channel => channel.id) := by
  simp [take_channels_set_dispatching, List.map_map, Function.comp]

/-- What `_mcd_dispatcher_enter_state_machine` does to the dispatcher: the
registry stays, the log only gets warnings, and at most one context is added,
which stands for the batch it was given. -/
theorem enter_state_machine_effect (priv : McdDispatcherPrivate)
    (channels : List McdChannel) (possible_handlers : List String) (requested : Bool) :
    (_mcd_dispatcher_enter_state_machine priv channels possible_handlers requested).clients
      = priv.clients ∧
    (∃ more, (_mcd_dispatcher_enter_state_machine priv channels possible_handlers
        requested).log = priv.log ++ more ∧ ∀ action ∈ more, ∃ text, action = Action.warning text) ∧
    ((_mcd_dispatcher_enter_state_machine priv channels possible_handlers requested).contexts
        = priv.contexts ∨
      ∃ context,
        (_mcd_dispatcher_enter_state_machine priv channels possible_handlers
          requested).contexts = context :: priv.contexts ∧
        context_batch context
          = (possible_handlers, channels.map (fun channel => channel.id))) := by
  unfold _mcd_dispatcher_enter_state_machine
  cases channels with
  | nil => exact ⟨rfl, ⟨[], by simp, by simp⟩, Or.inl rfl⟩
  | cons first rest =>
    dsimp only
    cases hacc : first.account with
    | none =>
      dsimp only
      exact ⟨rfl, ⟨_, rfl, by simp⟩, Or.inl rfl⟩
    | some account =>
      dsimp only
      refine ⟨rfl, ⟨[], by simp, by simp⟩, Or.inr ⟨_, rfl, ?_⟩⟩
      split
      · rw [context_process_batch]
        · cases requested
          · simp only [Bool.not_false, if_true]
            split <;> rfl
          · rfl
        · cases requested
          · simp only [Bool.not_false, if_true]
            split <;> rfl
          · rfl
      · rw [run_clients_batch]
        cases requested
        · simp only [Bool.not_false, if_true]
          split <;> rfl
        · rfl

/-- What taking the channels of a list one by one does to the dispatcher: the
registry stays; every context added has possible handlers and holds one
channel, one that some handler matches; every channel no handler matches is
recorded as undispatchable. -/
theorem take_channels_one_by_one_effect (clients : List McdClient) (requested : Bool)
    (channels : List McdChannel) :
    ∀ priv : McdDispatcherPrivate, priv.clients = clients →
      (channels.foldl
          (fun priv channel => _mcd_dispatcher_take_channels priv [channel] requested)
          priv).clients = clients ∧
      ∃ new more,
        (channels.foldl
          (fun priv channel => _mcd_dispatcher_take_channels priv [channel] requested)
          priv).contexts = new ++ priv.contexts ∧
        (channels.foldl
          (fun priv channel => _mcd_dispatcher_take_channels priv [channel] requested)
          priv).log = priv.log ++ more ∧
        (∀ context ∈ new, context.possible_handlers ≠ [] ∧
          ∃ c ∈ channels, context.channels.map (fun channel => channel.id) = [c.id] ∧
            mcd_dispatcher_get_possible_handlers clients [c] ≠ none) ∧
        (∀ c ∈ channels, mcd_dispatcher_get_possible_handlers clients [c] = none →
          Action.undispatchable c.id ∈ more) := by
  induction channels with
  | nil =>
    intro priv hcl
    exact ⟨hcl, [], [], by simp, by simp, by simp, by simp⟩
  | cons c rest ih =>
    intro priv hcl
    simp only [List.foldl_cons]
    -- the effect of taking `c` alone
    have hone : (_mcd_dispatcher_take_channels priv [c] requested).clients = clients ∧
        ∃ new more,
          (_mcd_dispatcher_take_channels priv [c] requested).contexts = new ++ priv.contexts ∧
          (_mcd_dispatcher_take_channels priv [c] requested).log = priv.log ++ more ∧
          (∀ context ∈ new, context.possible_handlers ≠ [] ∧
            context.channels.map (fun channel => channel.id) = [c.id] ∧
            mcd_dispatcher_get_possible_handlers clients [c] ≠ none) ∧
          (mcd_dispatcher_get_possible_handlers clients [c] = none →
            Action.undispatchable c.id ∈ more) := by
      rw [take_channels_single, hcl]
      cases hget : mcd_dispatcher_get_possible_handlers clients [c] with
      | none =>
        dsimp only
        refine ⟨hcl, [], [Action.undispatchable c.id], by simp [_mcd_channel_undispatchable],
          by simp [_mcd_channel_undispatchable], by simp, by simp⟩
      | some names =>
        dsimp only
        obtain ⟨h1, ⟨more, h2, _⟩, h3⟩ := enter_state_machine_effect priv
          (take_channels_set_dispatching [c]) names requested
        refine ⟨h1.trans hcl, ?_⟩
        rcases h3 with h3 | ⟨context, h3, h4⟩
        · exact ⟨[], more, by simpa using h3, h2, by simp, by simp⟩
        · refine ⟨[context], more, by simpa using h3, h2, ?_, by simp⟩
          intro ctx hctx
          rcases List.mem_singleton.mp hctx with rfl
          have hb : ctx.possible_handlers = names ∧
              ctx.channels.map (fun channel => channel.id) = [c.id] := by
            have := h4
            simp only [context_batch, take_channels_set_dispatching_ids, List.map_cons,
              List.map_nil, Prod.mk.injEq] at this
            exact this
          refine ⟨?_, hb.2, by simp⟩
          rw [hb.1]
          exact possible_handlers_some_ne_nil clients [c] names hget
    obtain ⟨hcl1, new1, more1, hctx1, hlog1, hnew1, hund1⟩ := hone
    obtain ⟨hcl2, new2, more2, hctx2, hlog2, hnew2, hund2⟩ :=
      ih (_mcd_dispatcher_take_channels priv [c] requested) hcl1
    refine ⟨hcl2, new2 ++ new1, more1 ++ more2, ?_, ?_, ?_, ?_⟩
    · rw [hctx2, hctx1, List.append_assoc]
    · rw [hlog2, hlog1, List.append_assoc]
    · intro context hcontext
      rcases List.mem_append.mp hcontext with h | h
      · obtain ⟨hp, c', hc', hrest⟩ := hnew2 context h
        exact ⟨hp, c', List.mem_cons_of_mem _ hc', hrest⟩
      · obtain ⟨hp, hrest⟩ := hnew1 context h
        exact ⟨hp, c, List.mem_cons_self _ _, hrest⟩
    · intro c' hc' hnone
      rcases List.mem_cons.mp hc' with h | h
      · subst h
        exact List.mem_append_left _ (hund1 hnone)
      · exact List.mem_append_right _ (hund2 c' h hnone)

theorem channels_distinct_eq_of_id (channels : List McdChannel)
    (hdistinct : channels_distinct channels) (a b : McdChannel)
    (ha : a ∈ channels) (hb : b ∈ channels) (hid : a.id = b.id) : a = b :=
  List.inj_on_of_nodup_map hdistinct ha hb hid

/-- C6: a non-empty batch that no single handler matches as a whole gets no
context of its own: a one-channel batch is marked undispatchable, a batch of
two or more channels is split and each channel is taken again as a
one-channel batch. Every channel of a batch that no handler matches ends up
undispatchable and in no context, and every context `_mcd_dispatcher_take_channels`
creates has a non-empty list of possible handlers. -/
theorem C6_take_channels_without_handler (priv : McdDispatcherPrivate)
    (channels : List McdChannel) (requested : Bool)
    (hdistinct : channels_distinct channels) :
    (∀ c, channels = [c] →
      mcd_dispatcher_get_possible_handlers priv.clients channels = none →
      _mcd_dispatcher_take_channels priv channels requested
        = _mcd_channel_undispatchable priv c) ∧
    (2 ≤ channels.length →
      mcd_dispatcher_get_possible_handlers priv.clients channels = none →
      _mcd_dispatcher_take_channels priv channels requested
        = channels.foldl
            (fun priv channel => _mcd_dispatcher_take_channels priv [channel] requested)
            priv) ∧
    ∃ new more,
      (_mcd_dispatcher_take_channels priv channels requested).contexts
        = new ++ priv.contexts ∧
      (_mcd_dispatcher_take_channels priv channels requested).log = priv.log ++ more ∧
      (∀ context ∈ new, context.possible_handlers ≠ []) ∧
      (mcd_dispatcher_get_possible_handlers priv.clients channels = none →
        ∀ context ∈ new,
          context.channels.map (fun channel => channel.id)
            ≠ channels.map (fun channel => channel.id)) ∧
      (∀ c ∈ channels, mcd_dispatcher_get_possible_handlers priv.clients [c] = none →
        Action.undispatchable c.id ∈ more ∧
        ∀ context ∈ new, ∀ channel ∈ context.channels, channel.id ≠ c.id) := by
  refine ⟨?_, ?_, ?_⟩
  · intro c hc hnone
    subst hc
    rw [take_channels_single, hnone]
  · intro hlen hnone
    match channels, hlen with
    | a :: b :: rest, _ =>
      rw [take_channels_batch, hnone]
  · -- the contexts created and the channels marked undispatchable
    cases hget : mcd_dispatcher_get_possible_handlers priv.clients channels with
    | some names =>
      -- the batch is dispatched as a whole
      have hne : names ≠ [] := possible_handlers_some_ne_nil priv.clients channels names hget
      have hsingle : ∀ c ∈ channels,
          mcd_dispatcher_get_possible_handlers priv.clients [c] ≠ none := by
        intro c hc hnone
        rw [possible_handlers_single_of_batch priv.clients channels c hc hnone] at hget
        cases hget
      have htake : _mcd_dispatcher_take_channels priv channels requested
          = _mcd_dispatcher_enter_state_machine priv (take_channels_set_dispatching channels)
              names requested := by
        match channels, hget with
        | [], hget =>
          have hnone : mcd_dispatcher_get_possible_handlers priv.clients [] = none :=
            (possible_handlers_none_iff priv.clients []).mpr
              (fun client _ h => by simp [possible_handlers_total_quality] at h)
          rw [hnone] at hget
          cases hget
        | [c], hget => rw [take_channels_single, hget]
        | a :: b :: rest, hget => rw [take_channels_batch, hget]
      rw [htake]
      obtain ⟨_, ⟨more, h2, _⟩, h3⟩ := enter_state_machine_effect priv
        (take_channels_set_dispatching channels) names requested
      rcases h3 with h3 | ⟨context, h3, h4⟩
      · refine ⟨[], more, by simpa using h3, h2, by simp, by simp, ?_⟩
        intro c hc hnone
        exact absurd hnone (hsingle c hc)
      · refine ⟨[context], more, by simpa using h3, h2, ?_, by simp, ?_⟩
        · intro ctx hctx
          rcases List.mem_singleton.mp hctx with rfl
          have : ctx.possible_handlers = names := by
            have := h4
            simp only [context_batch, Prod.mk.injEq] at this
            exact this.1
          rw [this]
          exact hne
        · intro c hc hnone
          exact absurd hnone (hsingle c hc)
    | none =>
      match channels, hdistinct, hget with
      | [], _, _ =>
        refine ⟨[], [], by simp [take_channels_nil], by simp [take_channels_nil],
          by simp, by simp, by simp⟩
      | [c], _, hget =>
        rw [take_channels_single, hget]
        refine ⟨[], [Action.undispatchable c.id], by simp [_mcd_channel_undispatchable],
          by simp [_mcd_channel_undispatchable], by simp, by simp, by simp⟩
      | a :: b :: rest, hdistinct, hget =>
        rw [take_channels_batch, hget]
        dsimp only
        obtain ⟨_, new, more, hctx, hlog, hnew, hund⟩ :=
          take_channels_one_by_one_effect priv.clients requested (a :: b :: rest) priv rfl
        refine ⟨new, more, hctx, hlog, fun context hc => (hnew context hc).1, ?_, ?_⟩
        · intro _ context hc
          obtain ⟨_, c, _, hids, _⟩ := hnew context hc
          rw [hids]
          simp
        · intro c hc hnone
          refine ⟨hund c hc hnone, ?_⟩
          intro context hcontext channel hchannel hid
          obtain ⟨_, c', hc', hids, hsome⟩ := hnew context hcontext
          have hmem : channel.id ∈ context.channels.map (fun channel => channel.id) :=
            List.mem_map_of_mem _ hchannel
          rw [hids] at hmem
          have hid' : c'.id = c.id := by
            rw [← List.mem_singleton.mp hmem, hid]
          have := channels_distinct_eq_of_id _ hdistinct c' c hc' hc hid'
          rw [this] at hsome
          exact hsome hnone

/-! ## Theorems: what the callbacks append to the log and what they leave alone -/

theorem appends_refl (p : Action → Bool) (context : McdDispatcherContext) :
    appends p context context :=
  ⟨[], by simp, by simp⟩

theorem appends_trans {p : Action → Bool} {a b c : McdDispatcherContext}
    (hab : appends p a b) (hbc : appends p b c) : appends p a c := by
  obtain ⟨m1, h1, hp1⟩ := hab
  obtain ⟨m2, h2, hp2⟩ := hbc
  refine ⟨m1 ++ m2, by rw [h2, h1, List.append_assoc], ?_⟩
  intro action hmem
  rcases List.mem_append.mp hmem with h | h
  · exact hp1 action h
  · exact hp2 action h

theorem appends_mono {p q : Action → Bool} {a b : McdDispatcherContext}
    (hpq : ∀ action, p action = true → q action = true) (hab : appends p a b) :
    appends q a b := by
  obtain ⟨more, h1, hp⟩ := hab
  exact ⟨more, h1, fun action hmem => hpq action (hp action hmem)⟩

theorem appends_of_log_eq {p : Action → Bool} {a b : McdDispatcherContext}
    (h : b.log = a.log) : appends p a b :=
  ⟨[], by simp [h], by simp⟩

theorem appends_single {p : Action → Bool} {a b : McdDispatcherContext} (action : Action)
    (h : b.log = a.log ++ [action]) (hp : p action = true) : appends p a b :=
  ⟨[action], h, by simpa using hp⟩

theorem same_frame_refl (context : McdDispatcherContext) : same_frame context context :=
  ⟨rfl, rfl, rfl, rfl, rfl⟩

theorem same_frame_trans {a b c : McdDispatcherContext}
    (hab : same_frame a b) (hbc : same_frame b c) : same_frame a c := by
  obtain ⟨h1, h2, h3, h4, h5⟩ := hab
  obtain ⟨k1, k2, k3, k4, k5⟩ := hbc
  exact ⟨k1.trans h1, k2.trans h2, k3.trans h3, k4.trans h4, k5.trans h5⟩

theorem handle_channels_appends (context : McdDispatcherContext)
    (channels : List McdChannel) (handler : McdClient) :
    appends Action.of_run_handlers context
      (mcd_dispatcher_handle_channels context channels handler) :=
  appends_single _ rfl rfl

theorem handle_channels_frame (context : McdDispatcherContext)
    (channels : List McdChannel) (handler : McdClient) :
    same_frame context (mcd_dispatcher_handle_channels context channels handler) :=
  ⟨rfl, rfl, rfl, rfl, rfl⟩

theorem run_handler_appends (priv : McdDispatcherPrivate) (context : McdDispatcherContext)
    (channels : List McdChannel) :
    appends Action.of_run_handlers context
      (mcd_dispatcher_run_handler priv context channels).1 := by
  unfold mcd_dispatcher_run_handler
  dsimp only
  split
  · exact handle_channels_appends context _ _
  · exact appends_refl _ _

theorem run_handler_frame (priv : McdDispatcherPrivate) (context : McdDispatcherContext)
    (channels : List McdChannel) :
    same_frame context (mcd_dispatcher_run_handler priv context channels).1 := by
  unfold mcd_dispatcher_run_handler
  dsimp only
  split
  · exact handle_channels_frame context _ _
  · exact same_frame_refl _

theorem run_handlers_loop_appends (priv : McdDispatcherPrivate) (fuel : Nat) :
    ∀ (context : McdDispatcherContext) (channels : List McdChannel),
      appends Action.of_run_handlers context
        (mcd_dispatcher_run_handlers_loop priv fuel context channels) ∧
      same_frame context (mcd_dispatcher_run_handlers_loop priv fuel context channels) := by
  induction fuel with
  | zero => intro context channels; exact ⟨appends_refl _ _, same_frame_refl _⟩
  | succ fuel ih =>
    intro context channels
    simp only [mcd_dispatcher_run_handlers_loop]
    have ha := run_handler_appends priv context channels
    have hf := run_handler_frame priv context channels
    split
    · exact ⟨appends_refl _ _, same_frame_refl _⟩
    · split
      · exact ⟨appends_trans ha (appends_single _ rfl rfl), hf⟩
      · have h := ih (mcd_dispatcher_run_handler priv context channels).1
          (mcd_dispatcher_run_handler priv context channels).2
        exact ⟨appends_trans ha h.1, same_frame_trans hf h.2⟩

theorem run_handlers_appends (priv : McdDispatcherPrivate) (context : McdDispatcherContext) :
    appends Action.of_run_handlers context (mcd_dispatcher_run_handlers priv context) := by
  unfold mcd_dispatcher_run_handlers
  have h := (run_handlers_loop_appends priv context.channels.length
    { context with log := context.log ++ [Action.run_handlers] } context.channels).1
  exact appends_trans (appends_single Action.run_handlers rfl rfl) h

theorem run_handlers_frame (priv : McdDispatcherPrivate) (context : McdDispatcherContext) :
    same_frame context (mcd_dispatcher_run_handlers priv context) := by
  unfold mcd_dispatcher_run_handlers
  exact (run_handlers_loop_appends priv context.channels.length
    { context with log := context.log ++ [Action.run_handlers] } context.channels).2

theorem release_client_lock_appends (priv : McdDispatcherPrivate)
    (context : McdDispatcherContext) :
    appends Action.of_run_handlers context
      (mcd_dispatcher_context_release_client_lock priv context) := by
  unfold mcd_dispatcher_context_release_client_lock
  dsimp only
  split_ifs <;>
    first
    | exact appends_refl _ _
    | exact appends_of_log_eq rfl
    | exact appends_trans (appends_of_log_eq rfl) (run_handlers_appends priv _)

theorem release_client_lock_frame (priv : McdDispatcherPrivate)
    (context : McdDispatcherContext) :
    same_frame context (mcd_dispatcher_context_release_client_lock priv context) := by
  unfold mcd_dispatcher_context_release_client_lock
  dsimp only
  split_ifs <;>
    first
    | exact same_frame_refl _
    | exact ⟨rfl, rfl, rfl, rfl, rfl⟩
    | exact same_frame_trans ⟨rfl, rfl, rfl, rfl, rfl⟩ (run_handlers_frame priv _)

theorem handler_done_appends (context : McdDispatcherContext) :
    appends Action.of_handler_reply context (mcd_dispatcher_context_handler_done context) := by
  unfold mcd_dispatcher_context_handler_done
  dsimp only
  split_ifs
  · exact appends_refl _ _
  · exact appends_single Action.dispatch_completed rfl rfl
  · exact appends_refl _ _

theorem mission_abort_appends (channel : McdChannel) (context : McdDispatcherContext) :
    appends Action.of_handler_reply context (mcd_mission_abort channel context) :=
  appends_single (Action.mission_abort channel.id channel.error) rfl rfl

theorem handle_channels_cb_failed_appends (mc_error : GError) (channels : List McdChannel)
    (context : McdDispatcherContext) :
    appends Action.of_handler_reply context
      (handle_channels_cb_failed mc_error channels context) := by
  induction channels generalizing context with
  | nil => exact appends_refl _ _
  | cons ch rest ih =>
    simp only [handle_channels_cb_failed]
    refine appends_trans ?_ (ih _)
    exact appends_trans (appends_single (Action.dispatch_failed ch.id mc_error) rfl rfl)
      (mission_abort_appends _ _)

theorem map_dispatched_of_handler_reply (ids : List Nat) :
    ∀ action ∈ ids.map Action.dispatched, Action.of_handler_reply action = true := by
  intro action hmem
  obtain ⟨id, _, rfl⟩ := List.mem_map.mp hmem
  rfl

theorem handle_channels_cb_appends (context : McdDispatcherContext)
    (channels : List McdChannel) (error : Bool) :
    appends Action.of_handler_reply context (handle_channels_cb context channels error) := by
  unfold handle_channels_cb
  dsimp only
  refine appends_trans ?_ (handler_done_appends _)
  split_ifs
  · exact handle_channels_cb_failed_appends _ _ _
  · exact ⟨_, rfl, map_dispatched_of_handler_reply _⟩

theorem of_run_handlers_after_clients (action : Action)
    (h : Action.of_run_handlers action = true) : Action.after_clients action = true := by
  cases action <;> simp_all [Action.of_run_handlers, Action.after_clients]

theorem of_handler_reply_after_clients (action : Action)
    (h : Action.of_handler_reply action = true) : Action.after_clients action = true := by
  cases action <;> simp_all [Action.of_handler_reply, Action.after_clients]

theorem run_observers_loop_appends (channels : List McdChannel) (clients : List McdClient)
    (context : McdDispatcherContext) :
    appends Action.is_observe_channels context
        (mcd_dispatcher_run_observers_loop channels clients context) ∧
      same_frame context (mcd_dispatcher_run_observers_loop channels clients context) := by
  induction clients generalizing context with
  | nil => exact ⟨appends_refl _ _, same_frame_refl _⟩
  | cons client rest ih =>
    simp only [mcd_dispatcher_run_observers_loop]
    split
    · exact ih context
    · split
      · exact ih context
      · rename_i ch observed hobs
        have h := ih
          { context with
            client_locks := context.client_locks + 1
            log := context.log ++ [Action.observe_channels client.name
              ((ch :: observed).map (fun observed_channel => observed_channel.id))] }
        exact ⟨appends_trans (appends_single (Action.observe_channels client.name
            ((ch :: observed).map (fun observed_channel => observed_channel.id))) rfl rfl) h.1,
          same_frame_trans ⟨rfl, rfl, rfl, rfl, rfl⟩ h.2⟩

theorem run_approvers_loop_appends (channels : List McdChannel) (clients : List McdClient)
    (context : McdDispatcherContext) :
    appends Action.is_add_dispatch_operation context
        (mcd_dispatcher_run_approvers_loop channels clients context) ∧
      (mcd_dispatcher_run_approvers_loop channels clients context).finished
        = context.finished ∧
      (mcd_dispatcher_run_approvers_loop channels clients context).approvers_invoked
        = context.approvers_invoked
          + ((add_dispatch_operation_count
                (mcd_dispatcher_run_approvers_loop channels clients context).log : Int)
              - add_dispatch_operation_count context.log) := by
  induction clients generalizing context with
  | nil => exact ⟨appends_refl _ _, rfl, by simp [mcd_dispatcher_run_approvers_loop]⟩
  | cons client rest ih =>
    simp only [mcd_dispatcher_run_approvers_loop]
    split
    · exact ih context
    · split
      · have h := ih
          { context with
            approvers_invoked := context.approvers_invoked + 1
            operation := context.operation.map _mcd_dispatch_operation_block_finished
            log := context.log ++ [Action.add_dispatch_operation client.name] }
        refine ⟨appends_trans
          (appends_single (Action.add_dispatch_operation client.name) rfl rfl) h.1, h.2.1, ?_⟩
        rw [h.2.2]
        simp [add_dispatch_operation_count, List.countP_append, Action.is_add_dispatch_operation]
        ring
      · exact ih context

theorem add_dispatch_operation_count_append (log more : List Action) :
    add_dispatch_operation_count (log ++ more)
      = add_dispatch_operation_count log + add_dispatch_operation_count more := by
  simp [add_dispatch_operation_count, List.countP_append]

theorem dispatch_completed_count_append (log more : List Action) :
    dispatch_completed_count (log ++ more)
      = dispatch_completed_count log + dispatch_completed_count more := by
  simp [dispatch_completed_count, List.count_append]

theorem add_dispatch_operation_count_of_appends {p : Action → Bool}
    {a b : McdDispatcherContext}
    (hp : ∀ action, p action = true → Action.is_add_dispatch_operation action = false)
    (h : appends p a b) :
    add_dispatch_operation_count b.log = add_dispatch_operation_count a.log := by
  obtain ⟨more, h1, h2⟩ := h
  rw [h1, add_dispatch_operation_count_append]
  have : add_dispatch_operation_count more = 0 := by
    unfold add_dispatch_operation_count
    rw [List.countP_eq_zero]
    intro action hmem
    rw [hp action (h2 action hmem)]
    simp
  omega

theorem dispatch_completed_count_of_appends {p : Action → Bool}
    {a b : McdDispatcherContext}
    (hp : p Action.dispatch_completed = false)
    (h : appends p a b) :
    dispatch_completed_count b.log = dispatch_completed_count a.log := by
  obtain ⟨more, h1, h2⟩ := h
  rw [h1, dispatch_completed_count_append]
  have : dispatch_completed_count more = 0 := by
    unfold dispatch_completed_count
    rw [List.count_eq_zero]
    intro hmem
    rw [h2 _ hmem] at hp
    exact Bool.noConfusion hp
  omega

theorem of_run_handlers_not_add (action : Action)
    (h : Action.of_run_handlers action = true) :
    Action.is_add_dispatch_operation action = false := by
  cases action <;> simp_all [Action.of_run_handlers, Action.is_add_dispatch_operation]

theorem after_clients_not_add (action : Action)
    (h : Action.after_clients action = true) :
    Action.is_add_dispatch_operation action = false := by
  cases action <;> simp_all [Action.after_clients, Action.is_add_dispatch_operation]

theorem after_clients_not_observe (action : Action)
    (h : Action.after_clients action = true) :
    Action.is_observe_channels action = false := by
  cases action <;> simp_all [Action.after_clients, Action.is_observe_channels]

theorem approver_not_invoked_appends (priv : McdDispatcherPrivate)
    (context : McdDispatcherContext) :
    appends Action.of_run_handlers context
        (mcd_dispatcher_context_approver_not_invoked priv context) ∧
      (mcd_dispatcher_context_approver_not_invoked priv context).finished
        = context.finished := by
  unfold mcd_dispatcher_context_approver_not_invoked
  dsimp only
  split_ifs <;>
    first
    | exact ⟨appends_refl _ _, rfl⟩
    | exact ⟨appends_of_log_eq rfl, rfl⟩
    | exact ⟨appends_trans (appends_of_log_eq rfl) (release_client_lock_appends priv _),
        (release_client_lock_frame priv _).1⟩

theorem add_dispatch_operation_cb_appends (priv : McdDispatcherPrivate)
    (context : McdDispatcherContext) (error : Bool) :
    appends Action.of_run_handlers context (add_dispatch_operation_cb priv context error) ∧
      (add_dispatch_operation_cb priv context error).finished = context.finished := by
  unfold add_dispatch_operation_cb
  dsimp only
  have key : appends Action.of_run_handlers context
      (if error = true then
        if context.approvers_invoked - 1 = 0 then
          mcd_dispatcher_context_release_client_lock priv
            { context with approvers_invoked := context.approvers_invoked - 1 }
        else { context with approvers_invoked := context.approvers_invoked - 1 }
      else context) ∧
      (if error = true then
        if context.approvers_invoked - 1 = 0 then
          mcd_dispatcher_context_release_client_lock priv
            { context with approvers_invoked := context.approvers_invoked - 1 }
        else { context with approvers_invoked := context.approvers_invoked - 1 }
      else context).finished = context.finished := by
    split_ifs <;>
      first
      | exact ⟨appends_refl _ _, rfl⟩
      | exact ⟨appends_of_log_eq rfl, rfl⟩
      | exact ⟨appends_trans (appends_of_log_eq rfl) (release_client_lock_appends priv _),
          (release_client_lock_frame priv _).1⟩
  split
  · exact ⟨appends_trans key.1 (appends_of_log_eq rfl), key.2⟩
  · exact key

/-! ## Theorems: the handler the approver chose -/

theorem run_handler_select_most (channels : List McdChannel)
    (clients : List McdClient) (best : HandlerChoice) :
    best.num_channels_best
        ≤ (run_handler_select none channels clients best).num_channels_best ∧
    (∀ client ∈ clients, client.proxy = true →
      client.implements MCD_CLIENT_HANDLER = true →
      ((run_handler_handled client channels []).length : Int)
        ≤ (run_handler_select none channels clients best).num_channels_best) ∧
    (run_handler_select none channels clients best = best ∨
      ∃ chosen ∈ clients, chosen.proxy = true ∧
        chosen.implements MCD_CLIENT_HANDLER = true ∧
        run_handler_select none channels clients best
          = { handler := some chosen,
              handled_best := run_handler_handled chosen channels [],
              num_channels_best :=
                ((run_handler_handled chosen channels []).length : Int) }) := by
  induction clients generalizing best with
  | nil => simp [run_handler_select]
  | cons client rest ih =>
    simp only [run_handler_select]
    by_cases hel : client.proxy = true ∧ client.implements MCD_CLIENT_HANDLER = true
    · have hskip : (!client.proxy || !client.implements MCD_CLIENT_HANDLER) = false := by
        simp [hel.1, hel.2]
      rw [hskip]
      have hne : ¬ ((none : Option String) = some client.name) := by simp
      simp only [hne, Bool.false_eq_true, if_false, decide_False, Bool.or_false,
        decide_eq_true_eq]
      by_cases hgt : ((run_handler_handled client channels []).length : Int)
          > best.num_channels_best
      · rw [if_pos hgt]
        obtain ⟨h1, h2, h3⟩ := ih
          { handler := some client,
            handled_best := run_handler_handled client channels [],
            num_channels_best := ((run_handler_handled client channels []).length : Int) }
        dsimp only at h1
        refine ⟨by omega, ?_, ?_⟩
        · intro c hmem hp hi
          rcases List.mem_cons.mp hmem with h | h
          · subst h; exact h1
          · exact h2 c h hp hi
        · right
          rcases h3 with h | ⟨chosen, hmem, hc⟩
          · exact ⟨client, List.mem_cons_self _ _, hel.1, hel.2, h⟩
          · exact ⟨chosen, List.mem_cons_of_mem _ hmem, hc⟩
      · rw [if_neg hgt]
        obtain ⟨h1, h2, h3⟩ := ih best
        refine ⟨h1, ?_, ?_⟩
        · intro c hmem hp hi
          rcases List.mem_cons.mp hmem with h | h
          · subst h; omega
          · exact h2 c h hp hi
        · rcases h3 with h | ⟨chosen, hmem, hc⟩
          · exact Or.inl h
          · exact Or.inr ⟨chosen, List.mem_cons_of_mem _ hmem, hc⟩
    · have hskip : (!client.proxy || !client.implements MCD_CLIENT_HANDLER) = true := by
        cases hp : client.proxy <;> cases hi : client.implements MCD_CLIENT_HANDLER <;>
          simp [hp, hi] at hel ⊢
      rw [hskip]
      simp only [if_true]
      obtain ⟨h1, h2, h3⟩ := ih best
      refine ⟨h1, ?_, ?_⟩
      · intro c hmem hp hi
        rcases List.mem_cons.mp hmem with h | h
        · subst h; exact absurd ⟨hp, hi⟩ hel
        · exact h2 c h hp hi
      · rcases h3 with h | ⟨chosen, hmem, hc⟩
        · exact Or.inl h
        · exact Or.inr ⟨chosen, List.mem_cons_of_mem _ hmem, hc⟩

theorem run_handler_choice_unnamed (priv : McdDispatcherPrivate)
    (context : McdDispatcherContext) (channels : List McdChannel) :
    ((∀ operation, context.operation = some operation → operation.handler = none) →
      (∀ client ∈ priv.clients, client.proxy = true →
        client.implements MCD_CLIENT_HANDLER = true →
        ((run_handler_handled client channels []).length : Int)
          ≤ (run_handler_choice priv context channels).num_channels_best) ∧
      (((run_handler_choice priv context channels).handler = none ∧
          (run_handler_choice priv context channels).num_channels_best = 0 ∧
          (mcd_dispatcher_run_handler priv context channels).1 = context) ∨
        ∃ chosen ∈ priv.clients, chosen.proxy = true ∧
          chosen.implements MCD_CLIENT_HANDLER = true ∧
          (run_handler_choice priv context channels).handler = some chosen ∧
          (run_handler_choice priv context channels).num_channels_best
            = ((run_handler_handled chosen channels []).length : Int) ∧
          (mcd_dispatcher_run_handler priv context channels).1.log
            = context.log ++ [Action.handle_channels chosen.name
                ((run_handler_handled chosen channels []).map (fun channel => channel.id))
                (((run_handler_handled chosen channels []).map
                  (fun channel => channel.satisfied_requests)).flatten)
                (handle_channels_user_action_time
                  (run_handler_handled chosen channels []) 0)])) := by
  intro hnone
  have hchoice : run_handler_choice priv context channels
      = run_handler_select none channels priv.clients
          { handler := none, handled_best := [], num_channels_best := 0 } := by
    unfold run_handler_choice
    cases hop : context.operation with
    | none => rfl
    | some operation =>
      dsimp only
      rw [hnone operation hop]
  obtain ⟨_, h2, h3⟩ := run_handler_select_most channels priv.clients
    { handler := none, handled_best := [], num_channels_best := 0 }
  rw [← hchoice] at h2 h3
  refine ⟨h2, ?_⟩
  rcases h3 with h | ⟨chosen, hmem, hp, hi, h⟩
  · left
    refine ⟨by rw [h], by rw [h], ?_⟩
    unfold mcd_dispatcher_run_handler
    dsimp only
    rw [h]
  · right
    refine ⟨chosen, hmem, hp, hi, by rw [h], by rw [h], ?_⟩
    unfold mcd_dispatcher_run_handler
    dsimp only
    rw [h]
    rfl

theorem clients_lookup_some (clients : List McdClient) (name : String) (client : McdClient)
    (h : clients_lookup clients name = some client) :
    client ∈ clients ∧ client_bus_name client = name := by
  unfold clients_lookup at h
  have h1 := List.find?_some h
  have h2 := List.mem_of_find?_eq_some h
  exact ⟨h2, by simpa using h1⟩

theorem clients_lookup_remove_self (clients : List McdClient) (name : String) :
    clients_lookup (clients_remove clients name) name = none := by
  unfold clients_lookup clients_remove
  rw [List.find?_eq_none]
  intro client hmem
  have := (List.mem_filter.mp hmem).2
  simpa using this

theorem clients_lookup_remove_other (clients : List McdClient) (name other : String)
    (hne : other ≠ name) :
    clients_lookup (clients_remove clients name) other = clients_lookup clients other := by
  unfold clients_lookup clients_remove
  induction clients with
  | nil => rfl
  | cons client rest ih =>
    by_cases hk : client_bus_name client = name
    · have hb : (client_bus_name client != name) = false := by simp [hk]
      have ho : (client_bus_name client == other) = false := by
        simp only [beq_eq_false_iff_ne]
        exact fun h => hne (h.symm.trans hk)
      rw [List.filter_cons, hb, List.find?_cons, ho]
      exact ih
    · have hb : (client_bus_name client != name) = true := by simp [hk]
      rw [List.filter_cons, hb]
      simp only [if_true, List.find?_cons]
      split
      · rfl
      · exact ih

theorem clients_lookup_map_update (clients : List McdClient) (name other : String)
    (update : McdClient → McdClient)
    (hkey : ∀ client, client_bus_name (update client) = client_bus_name client) :
    clients_lookup
        (clients.map (fun known => if client_bus_name known = name then update known else known))
        other
      = (clients_lookup clients other).map
          (fun known => if client_bus_name known = name then update known else known) := by
  unfold clients_lookup
  induction clients with
  | nil => rfl
  | cons client rest ih =>
    simp only [List.map_cons, List.find?_cons]
    have hk : client_bus_name
        (if client_bus_name client = name then update client else client)
        = client_bus_name client := by
      split_ifs
      · exact hkey client
      · rfl
    rw [hk]
    split
    · rfl
    · exact ih

theorem clients_map_update_filter (clients : List McdClient) (name : String)
    (update : McdClient → McdClient)
    (hkey : ∀ client, client_bus_name (update client) = client_bus_name client) :
    (clients.map (fun known => if client_bus_name known = name then update known else known)).filter
        (fun known => client_bus_name known != name)
      = clients.filter (fun known => client_bus_name known != name) := by
  induction clients with
  | nil => rfl
  | cons client rest ih =>
    simp only [List.map_cons, List.filter_cons]
    by_cases hk : client_bus_name client = name
    · simp only [hk, if_true]
      rw [hkey client, hk]
      simpa using ih
    · simp only [hk, if_false]
      rw [ih]

theorem clients_remove_filter (clients : List McdClient) (name : String) :
    (clients_remove clients name).filter (fun known => client_bus_name known != name)
      = clients.filter (fun known => client_bus_name known != name) := by
  unfold clients_remove
  rw [List.filter_filter]
  simp

/-- C20: when the bus tells that the name `arg0`, under which the registry
holds `client`, lost its owner (`arg1` is not empty, the new owner is), an
activatable client stays in the registry under its name with its interfaces,
its bypass flag and its three filter lists as they were, with `active` cleared
and the handled channels discarded, and no client leaves or joins; a client
that is not activatable is no longer found. The clients under every other
name are the same as before, in the same order, and nothing else of the
dispatcher changes. -/
theorem C20_name_owner_lost (descriptor : String → Option GKeyFile)
    (priv : McdDispatcherPrivate) (arg0 arg1 : String) (client : McdClient)
    (howner : arg1 ≠ "")
    (hknown : clients_lookup priv.clients arg0 = some client) :
    (client.activatable = true →
      (∃ kept, clients_lookup (name_owner_changed_cb descriptor priv arg0 arg1 "").clients arg0
          = some kept ∧
        kept.name = client.name ∧ kept.interfaces = client.interfaces ∧
        kept.approver_filters = client.approver_filters ∧
        kept.handler_filters = client.handler_filters ∧
        kept.observer_filters = client.observer_filters ∧
        kept.bypass_approver = client.bypass_approver ∧
        kept.activatable = true ∧
        kept.active = false ∧ kept.handled_channels = none) ∧
      (name_owner_changed_cb descriptor priv arg0 arg1 "").clients.map client_bus_name
        = priv.clients.map client_bus_name) ∧
    (client.activatable = false →
      clients_lookup (name_owner_changed_cb descriptor priv arg0 arg1 "").clients arg0 = none ∧
      (name_owner_changed_cb descriptor priv arg0 arg1 "").clients
        = clients_remove priv.clients arg0) ∧
    (∀ other, other ≠ arg0 →
      clients_lookup (name_owner_changed_cb descriptor priv arg0 arg1 "").clients other
        = clients_lookup priv.clients other) ∧
    (name_owner_changed_cb descriptor priv arg0 arg1 "").clients.filter
        (fun known => client_bus_name known != arg0)
      = priv.clients.filter (fun known => client_bus_name known != arg0) ∧
    (name_owner_changed_cb descriptor priv arg0 arg1 "").contexts = priv.contexts ∧
    (name_owner_changed_cb descriptor priv arg0 arg1 "").log = priv.log := by
  have hkey : ∀ known : McdClient,
      client_bus_name { known with active := false, handled_channels := none }
        = client_bus_name known := fun _ => rfl
  have h1 : ¬ (arg1 = "" ∧ ("" : String) ≠ "") := by simp
  have h2 : arg1 ≠ "" ∧ ("" : String) = "" := ⟨howner, rfl⟩
  have hclient := clients_lookup_some priv.clients arg0 client hknown
  unfold name_owner_changed_cb
  rw [if_neg h1, if_pos h2, hknown]
  dsimp only
  cases hact : client.activatable with
  | true =>
    rw [if_neg (by decide)]
    refine ⟨?_, ?_, ?_, ?_, rfl, rfl⟩
    · intro _
      constructor
      · rw [clients_lookup_map_update priv.clients arg0 arg0
          (fun known => { known with active := false, handled_channels := none }) hkey,
          hknown]
        simp only [Option.map_some', hclient.2, if_true]
        exact ⟨_, rfl, rfl, rfl, rfl, rfl, rfl, rfl, hact, rfl, rfl⟩
      · rw [List.map_map]
        apply List.map_congr_left
        intro known _
        simp only [Function.comp]
        split_ifs <;> rfl
    · intro h
      cases h
    · intro other hne
      rw [clients_lookup_map_update priv.clients arg0 other
        (fun known => { known with active := false, handled_channels := none }) hkey]
      cases hl : clients_lookup priv.clients other with
      | none => rfl
      | some found =>
        have hf := clients_lookup_some priv.clients other found hl
        have : ¬ client_bus_name found = arg0 := fun h => hne (hf.2.symm.trans h)
        simp [this]
    · exact clients_map_update_filter priv.clients arg0
        (fun known => { known with active := false, handled_channels := none }) hkey
  | false =>
    rw [if_pos (by decide)]
    refine ⟨?_, ?_, ?_, ?_, rfl, rfl⟩
    · intro h
      cases h
    · intro _
      exact ⟨clients_lookup_remove_self priv.clients arg0, rfl⟩
    · intro other hne
      exact clients_lookup_remove_other priv.clients arg0 other hne
    · exact clients_remove_filter priv.clients arg0

/-! ## Theorems: completion of a context -/

theorem of_run_handlers_not_completed :
    Action.of_run_handlers Action.dispatch_completed = false := rfl

theorem run_approvers_appends (priv : McdDispatcherPrivate)
    (context : McdDispatcherContext) :
    appends (fun action => action.is_add_dispatch_operation || action.of_run_handlers)
        context (mcd_dispatcher_run_approvers priv context) ∧
      (mcd_dispatcher_run_approvers priv context).finished = context.finished := by
  unfold mcd_dispatcher_run_approvers
  cases hop : context.operation with
  | none => exact ⟨appends_refl _ _, rfl⟩
  | some op =>
    dsimp only
    rw [← hop]
    have hloop := run_approvers_loop_appends context.channels priv.clients
      { context with approvers_invoked := 1, client_locks := context.client_locks + 1 }
    have hnot := approver_not_invoked_appends priv
      (mcd_dispatcher_run_approvers_loop context.channels priv.clients
        { context with approvers_invoked := 1, client_locks := context.client_locks + 1 })
    constructor
    · have h1 : appends
          (fun action => action.is_add_dispatch_operation || action.of_run_handlers)
          { context with approvers_invoked := 1, client_locks := context.client_locks + 1 }
          (mcd_dispatcher_run_approvers_loop context.channels priv.clients
            { context with approvers_invoked := 1, client_locks := context.client_locks + 1 }) :=
        appends_mono (fun action h => by simp [h]) hloop.1
      have h2 := appends_trans h1 (appends_mono (fun action h => by simp [h]) hnot.1)
      exact appends_trans (appends_of_log_eq rfl) h2
    · rw [hnot.2, hloop.2.1]

theorem run_clients_shape (priv : McdDispatcherPrivate) (context : McdDispatcherContext) :
    appends Action.is_observe_channels context
        (mcd_dispatcher_run_observers priv { context with client_locks := 1 }) ∧
      same_frame context (mcd_dispatcher_run_observers priv { context with client_locks := 1 }) ∧
      appends (fun action => action.is_add_dispatch_operation || action.of_run_handlers)
        (mcd_dispatcher_run_observers priv { context with client_locks := 1 })
        (mcd_dispatcher_run_clients priv context) ∧
      (mcd_dispatcher_run_clients priv context).finished = context.finished := by
  have hobs := run_observers_loop_appends
    ({ context with client_locks := 1 } : McdDispatcherContext).channels priv.clients
    { context with client_locks := 1 }
  have hobs1 : appends Action.is_observe_channels context
      (mcd_dispatcher_run_observers priv { context with client_locks := 1 }) :=
    appends_trans (appends_of_log_eq rfl) hobs.1
  have hobs2 : same_frame context
      (mcd_dispatcher_run_observers priv { context with client_locks := 1 }) :=
    same_frame_trans ⟨rfl, rfl, rfl, rfl, rfl⟩ hobs.2
  refine ⟨hobs1, hobs2, ?_, ?_⟩
  · unfold mcd_dispatcher_run_clients
    dsimp only
    have hrel : ∀ c : McdDispatcherContext,
        appends (fun action => action.is_add_dispatch_operation || action.of_run_handlers) c
          (mcd_dispatcher_context_release_client_lock priv c) := fun c =>
      appends_mono (fun action h => by simp [h]) (release_client_lock_appends priv c)
    refine appends_trans ?_ (hrel _)
    split
    · split
      · exact (run_approvers_appends priv _).1
      · exact appends_refl _ _
    · exact appends_refl _ _
  · unfold mcd_dispatcher_run_clients
    dsimp only
    rw [(release_client_lock_frame priv _).1]
    split
    · split
      · rw [(run_approvers_appends priv _).2]
        exact hobs2.1
      · exact hobs2.1
    · exact hobs2.1

theorem handle_channels_cb_failed_finished (mc_error : GError) (channels : List McdChannel)
    (context : McdDispatcherContext) :
    (handle_channels_cb_failed mc_error channels context).finished = context.finished := by
  induction channels generalizing context with
  | nil => rfl
  | cons ch rest ih =>
    simp only [handle_channels_cb_failed]
    rw [ih]
    rfl

theorem on_operation_finished_appends (priv : McdDispatcherPrivate)
    (operation : McdDispatchOperation) (context : McdDispatcherContext) :
    appends Action.after_clients context (on_operation_finished priv operation context) := by
  have hdone : ∀ c : McdDispatcherContext,
      appends Action.after_clients c (mcd_dispatcher_context_handler_done c) := fun c =>
    appends_mono of_handler_reply_after_clients (handler_done_appends c)
  have hrel : ∀ c : McdDispatcherContext,
      appends Action.after_clients c (mcd_dispatcher_context_release_client_lock priv c) :=
    fun c => appends_mono of_run_handlers_after_clients (release_client_lock_appends priv c)
  have hmap : ∀ (c d : McdDispatcherContext) (ids : List Nat),
      d.log = c.log ++ ids.map Action.dispatched → appends Action.after_clients c d :=
    fun c d ids h => ⟨_, h, fun action hmem =>
      of_handler_reply_after_clients action (map_dispatched_of_handler_reply _ action hmem)⟩
  unfold on_operation_finished
  dsimp only
  by_cases hactive : priv.operation_list_active = true
  · have hfirst : appends Action.after_clients context
        { context with operation := some operation,
                       log := context.log ++ [Action.dispatch_operation_finished] } :=
      appends_single Action.dispatch_operation_finished rfl rfl
    rw [if_pos hactive]
    split_ifs <;>
      first
      | exact appends_trans hfirst (hdone _)
      | exact appends_trans hfirst (hrel _)
      | exact appends_trans hfirst (appends_trans (hmap _ _ _ rfl) (hdone _))
  · have hfirst : appends Action.after_clients context
        { context with operation := some operation } := appends_of_log_eq rfl
    rw [if_neg hactive]
    split_ifs <;>
      first
      | exact appends_trans hfirst (hdone _)
      | exact appends_trans hfirst (hrel _)
      | exact appends_trans hfirst (appends_trans (hmap _ _ _ rfl) (hdone _))

theorem pipeline_step_appends (priv : McdDispatcherPrivate)
    (context : McdDispatcherContext) (event : PipelineEvent) :
    appends Action.after_clients context (pipeline_step priv context event) := by
  cases event with
  | observe_channels_reply error =>
    exact appends_mono of_run_handlers_after_clients (release_client_lock_appends priv context)
  | add_dispatch_operation_reply error =>
    exact appends_mono of_run_handlers_after_clients
      (add_dispatch_operation_cb_appends priv context error).1
  | operation_finished operation =>
    simp only [pipeline_step]
    split
    · exact on_operation_finished_appends priv operation context
    · exact appends_refl _ _
  | channel_abort channel => exact appends_of_log_eq rfl
  | handle_channels_reply channels error =>
    exact appends_mono of_handler_reply_after_clients
      (handle_channels_cb_appends context channels error)

theorem pipeline_run_appends (priv : McdDispatcherPrivate) (events : List PipelineEvent) :
    ∀ context : McdDispatcherContext,
      appends Action.after_clients context (pipeline_run priv context events) := by
  induction events with
  | nil => intro context; exact appends_refl _ _
  | cons event rest ih =>
    intro context
    simp only [pipeline_run, List.foldl_cons]
    exact appends_trans (pipeline_step_appends priv context event) (ih _)

theorem completion_step_of_same {a b : McdDispatcherContext}
    (hf : b.finished = a.finished)
    (hc : dispatch_completed_count b.log = dispatch_completed_count a.log) :
    completion_step a b := by
  refine ⟨fun h => by rw [hf, h], ?_⟩
  rw [hc, hf]
  cases a.finished <;> simp

theorem completion_step_trans {a b c : McdDispatcherContext}
    (hab : completion_step a b) (hbc : completion_step b c) : completion_step a c := by
  obtain ⟨h1, h2⟩ := hab
  obtain ⟨k1, k2⟩ := hbc
  refine ⟨fun h => k1 (h1 h), ?_⟩
  rw [k2, h2]
  cases ha : a.finished <;> cases hb : b.finished <;> cases hc : c.finished <;>
    simp_all

theorem handler_done_eq (context : McdDispatcherContext) :
    mcd_dispatcher_context_handler_done context
      = if context.finished = false ∧
          ∀ channel ∈ context.channels, channel.status ≠ McdChannelStatus.DISPATCHING ∧
            channel.status ≠ McdChannelStatus.HANDLER_INVOKED
        then { context with finished := true,
                            log := context.log ++ [Action.dispatch_completed] }
        else context := by
  unfold mcd_dispatcher_context_handler_done
  dsimp only
  cases hf : context.finished with
  | true => simp
  | false =>
    simp only [Bool.false_eq_true, if_false, true_and]
    have hiff : (context.channels.countP
        (fun channel => decide (channel.status = McdChannelStatus.DISPATCHING ∨
          channel.status = McdChannelStatus.HANDLER_INVOKED)) = 0) ↔
        ∀ channel ∈ context.channels, channel.status ≠ McdChannelStatus.DISPATCHING ∧
          channel.status ≠ McdChannelStatus.HANDLER_INVOKED := by
      rw [List.countP_eq_zero]
      constructor
      · intro h channel hmem
        have := h channel hmem
        simpa [not_or] using this
      · intro h channel hmem
        have := h channel hmem
        simpa [not_or] using this
    by_cases hall : ∀ channel ∈ context.channels,
        channel.status ≠ McdChannelStatus.DISPATCHING ∧
          channel.status ≠ McdChannelStatus.HANDLER_INVOKED
    · rw [if_pos (hiff.mpr hall), if_pos hall]
    · rw [if_neg (fun h => hall (hiff.mp h)), if_neg hall]

theorem handler_done_completion (context : McdDispatcherContext) :
    completion_step context (mcd_dispatcher_context_handler_done context) := by
  rw [handler_done_eq]
  split_ifs with h
  · refine ⟨fun _ => rfl, ?_⟩
    simp [dispatch_completed_count, h.1]
  · exact completion_step_of_same rfl rfl

theorem handler_done_channels (context : McdDispatcherContext) :
    (mcd_dispatcher_context_handler_done context).channels = context.channels := by
  unfold mcd_dispatcher_context_handler_done
  dsimp only
  split_ifs <;> rfl

theorem completion_step_of_run_handlers {a b : McdDispatcherContext}
    (hf : b.finished = a.finished) (h : appends Action.of_run_handlers a b) :
    completion_step a b :=
  completion_step_of_same hf (dispatch_completed_count_of_appends rfl h)

theorem dispatch_completed_count_map_dispatched (ids : List Nat) :
    dispatch_completed_count (ids.map Action.dispatched) = 0 := by
  unfold dispatch_completed_count
  rw [List.count_eq_zero]
  intro hmem
  obtain ⟨id, _, h⟩ := List.mem_map.mp hmem
  cases h

theorem handle_channels_cb_failed_completed (mc_error : GError) (channels : List McdChannel)
    (context : McdDispatcherContext) :
    dispatch_completed_count (handle_channels_cb_failed mc_error channels context).log
      = dispatch_completed_count context.log := by
  induction channels generalizing context with
  | nil => rfl
  | cons ch rest ih =>
    simp only [handle_channels_cb_failed]
    rw [ih]
    simp [mcd_mission_abort, on_channel_abort_context, take_error_in_context,
      dispatch_completed_count, List.count_append]

theorem handle_channels_cb_completion (context : McdDispatcherContext)
    (channels : List McdChannel) (error : Bool) :
    completion_step context (handle_channels_cb context channels error) := by
  unfold handle_channels_cb
  dsimp only
  refine completion_step_trans ?_ (handler_done_completion _)
  split_ifs
  · exact completion_step_of_same (handle_channels_cb_failed_finished _ _ _)
      (handle_channels_cb_failed_completed _ _ _)
  · refine completion_step_of_same rfl ?_
    show dispatch_completed_count (context.log ++
      (channels.map (fun channel => channel.id)).map Action.dispatched) = _
    rw [dispatch_completed_count_append, dispatch_completed_count_map_dispatched]
    rfl

theorem on_operation_finished_completion (priv : McdDispatcherPrivate)
    (operation : McdDispatchOperation) (context : McdDispatcherContext) :
    completion_step context (on_operation_finished priv operation context) := by
  have hrel : ∀ c : McdDispatcherContext,
      completion_step c (mcd_dispatcher_context_release_client_lock priv c) := fun c =>
    completion_step_of_run_handlers (release_client_lock_frame priv c).1
      (release_client_lock_appends priv c)
  have hmap : ∀ (c d : McdDispatcherContext) (ids : List Nat),
      d.finished = c.finished → d.log = c.log ++ ids.map Action.dispatched →
      completion_step c d := fun c d ids hf h =>
    completion_step_of_same hf (by
      rw [h, dispatch_completed_count_append, dispatch_completed_count_map_dispatched]
      rfl)
  unfold on_operation_finished
  dsimp only
  by_cases hactive : priv.operation_list_active = true
  · have hfirst : completion_step context
        { context with operation := some operation,
                       log := context.log ++ [Action.dispatch_operation_finished] } :=
      completion_step_of_same rfl (by simp [dispatch_completed_count, List.count_append])
    rw [if_pos hactive]
    split_ifs <;>
      first
      | exact completion_step_trans hfirst (handler_done_completion _)
      | exact completion_step_trans hfirst (hrel _)
      | exact completion_step_trans hfirst
          (completion_step_trans (hmap _ _ _ (by rfl) (by rfl)) (handler_done_completion _))
  · have hfirst : completion_step context
        { context with operation := some operation } := completion_step_of_same rfl rfl
    rw [if_neg hactive]
    split_ifs <;>
      first
      | exact completion_step_trans hfirst (handler_done_completion _)
      | exact completion_step_trans hfirst (hrel _)
      | exact completion_step_trans hfirst
          (completion_step_trans (hmap _ _ _ (by rfl) (by rfl)) (handler_done_completion _))

theorem pipeline_step_completion (priv : McdDispatcherPrivate)
    (context : McdDispatcherContext) (event : PipelineEvent) :
    completion_step context (pipeline_step priv context event) := by
  cases event with
  | observe_channels_reply error =>
    exact completion_step_of_run_handlers (release_client_lock_frame priv context).1
      (release_client_lock_appends priv context)
  | add_dispatch_operation_reply error =>
    exact completion_step_of_run_handlers
      (add_dispatch_operation_cb_appends priv context error).2
      (add_dispatch_operation_cb_appends priv context error).1
  | operation_finished operation =>
    simp only [pipeline_step]
    split
    · exact on_operation_finished_completion priv operation context
    · exact completion_step_of_same rfl rfl
  | channel_abort channel => exact completion_step_of_same rfl rfl
  | handle_channels_reply channels error =>
    exact handle_channels_cb_completion context channels error

theorem pipeline_run_completion (priv : McdDispatcherPrivate) (events : List PipelineEvent) :
    ∀ context : McdDispatcherContext,
      completion_step context (pipeline_run priv context events) := by
  induction events with
  | nil => intro context; exact completion_step_of_same rfl rfl
  | cons event rest ih =>
    intro context
    simp only [pipeline_run, List.foldl_cons]
    exact completion_step_trans (pipeline_step_completion priv context event) (ih _)

theorem run_clients_completion (priv : McdDispatcherPrivate)
    (context : McdDispatcherContext) :
    completion_step context (mcd_dispatcher_run_clients priv context) := by
  obtain ⟨h1, _, h3, h4⟩ := run_clients_shape priv context
  refine completion_step_of_same h4 ?_
  rw [dispatch_completed_count_of_appends (by rfl) h3,
    dispatch_completed_count_of_appends (by rfl) h1]

/-- C15: `mcd_dispatcher_context_handler_done` sets `finished` and emits
`dispatch-completed` exactly when the context is not finished yet and none of
its channels has the status `DISPATCHING` or `HANDLER_INVOKED`, and leaves the
context as it is otherwise, so also when it is called on a finished context.
Through `mcd_dispatcher_run_clients` and any sequence of events after it a
finished context stays finished and `dispatch-completed` is emitted once if
the context becomes finished and never otherwise: at most once per context. -/
theorem C15_dispatch_completed_at_most_once (priv : McdDispatcherPrivate)
    (context : McdDispatcherContext) (events : List PipelineEvent) :
    (mcd_dispatcher_context_handler_done context
      = if context.finished = false ∧
          ∀ channel ∈ context.channels, channel.status ≠ McdChannelStatus.DISPATCHING ∧
            channel.status ≠ McdChannelStatus.HANDLER_INVOKED
        then { context with finished := true,
                            log := context.log ++ [Action.dispatch_completed] }
        else context) ∧
    mcd_dispatcher_context_handler_done { context with finished := true }
      = { context with finished := true } ∧
    completion_step context
      (pipeline_run priv (mcd_dispatcher_run_clients priv context) events) ∧
    dispatch_completed_count
        (pipeline_run priv (mcd_dispatcher_run_clients priv context) events).log
      ≤ dispatch_completed_count context.log + 1 := by
  have hstep := completion_step_trans (run_clients_completion priv context)
    (pipeline_run_completion priv events (mcd_dispatcher_run_clients priv context))
  refine ⟨handler_done_eq context, ?_, hstep, ?_⟩
  · rfl
  · rw [hstep.2]
    split_ifs <;> omega

theorem set_status_in_context_all (context : McdDispatcherContext)
    (status : McdChannelStatus) :
    (set_status_in_context context (context.channels.map (fun channel => channel.id))
        status).channels
      = context.channels.map (fun channel => { channel with status := status }) := by
  unfold set_status_in_context
  dsimp only
  apply List.map_congr_left
  intro channel hmem
  have : channel.id ∈ context.channels.map (fun channel => channel.id) :=
    List.mem_map.mpr ⟨channel, hmem, rfl⟩
  rw [if_pos this]

theorem handler_done_of_all (context : McdDispatcherContext)
    (hall : ∀ channel ∈ context.channels, channel.status ≠ McdChannelStatus.DISPATCHING ∧
      channel.status ≠ McdChannelStatus.HANDLER_INVOKED) :
    (mcd_dispatcher_context_handler_done context).finished = true ∧
    (mcd_dispatcher_context_handler_done context).log
      = context.log ++ (if context.finished then [] else [Action.dispatch_completed]) := by
  rw [handler_done_eq]
  cases hf : context.finished with
  | true => simp [hf]
  | false => rw [if_pos ⟨rfl, hall⟩]; simp

theorem on_operation_finished_claimed (priv : McdDispatcherPrivate)
    (operation : McdDispatchOperation) (context : McdDispatcherContext)
    (hclaimed : operation.claimed = true) (hchannels : context.channels ≠ []) :
    on_operation_finished priv operation context
      = mcd_dispatcher_context_handler_done
          { set_status_in_context
              (if priv.operation_list_active then
                { context with operation := some operation,
                               log := context.log ++ [Action.dispatch_operation_finished] }
              else { context with operation := some operation })
              (context.channels.map (fun channel => channel.id))
              McdChannelStatus.DISPATCHED with
            log := (if priv.operation_list_active then
                { context with operation := some operation,
                               log := context.log ++ [Action.dispatch_operation_finished] }
              else { context with operation := some operation }).log
              ++ (context.channels.map (fun channel => channel.id)).map Action.dispatched } := by
  unfold on_operation_finished
  dsimp only
  by_cases hactive : priv.operation_list_active = true
  · rw [if_pos hactive, if_neg hchannels, if_pos hclaimed]
    rfl
  · rw [if_neg hactive, if_neg hchannels, if_pos hclaimed]
    rfl

/-- C14: when the operation of a context that still has channels finishes as
claimed, `on_operation_finished` sets every channel of the context to
`DISPATCHED` and reports each as dispatched, leaves `client_locks` as it is,
so that the lock of the approvers is kept, does not enter
`mcd_dispatcher_run_handlers` and calls no handler, and the context is
finished: `dispatch-completed` is emitted, unless the context was finished
before. -/
theorem C14_claimed_operation_completes (priv : McdDispatcherPrivate)
    (operation : McdDispatchOperation) (context : McdDispatcherContext)
    (hclaimed : operation.claimed = true) (hchannels : context.channels ≠ []) :
    (on_operation_finished priv operation context).channels
      = context.channels.map
          (fun channel => { channel with status := McdChannelStatus.DISPATCHED }) ∧
    (on_operation_finished priv operation context).client_locks = context.client_locks ∧
    (on_operation_finished priv operation context).finished = true ∧
    (on_operation_finished priv operation context).log
      = context.log
        ++ (if priv.operation_list_active then [Action.dispatch_operation_finished] else [])
        ++ context.channels.map (fun channel => Action.dispatched channel.id)
        ++ (if context.finished then [] else [Action.dispatch_completed]) ∧
    run_handlers_count (on_operation_finished priv operation context).log
      = run_handlers_count context.log ∧
    (∀ action ∈ (on_operation_finished priv operation context).log,
      action.is_handle_channels = true → action ∈ context.log) := by
  have heq := on_operation_finished_claimed priv operation context hclaimed hchannels
  have hchan : (on_operation_finished priv operation context).channels
      = context.channels.map
          (fun channel => { channel with status := McdChannelStatus.DISPATCHED }) := by
    rw [heq, handler_done_channels]
    have h := set_status_in_context_all context McdChannelStatus.DISPATCHED
    unfold set_status_in_context at h ⊢
    dsimp only at h ⊢
    split_ifs <;> exact h
  have hall : ∀ channel ∈ (on_operation_finished priv operation context).channels,
      channel.status ≠ McdChannelStatus.DISPATCHING ∧
        channel.status ≠ McdChannelStatus.HANDLER_INVOKED := by
    intro channel hmem
    rw [hchan] at hmem
    obtain ⟨c0, _, rfl⟩ := List.mem_map.mp hmem
    exact ⟨by simp, by simp⟩
  rw [heq, handler_done_channels] at hall
  have hdone := handler_done_of_all _ hall
  rw [← heq] at hdone
  have hlog : (on_operation_finished priv operation context).log
      = context.log
        ++ (if priv.operation_list_active then [Action.dispatch_operation_finished] else [])
        ++ context.channels.map (fun channel => Action.dispatched channel.id)
        ++ (if context.finished then [] else [Action.dispatch_completed]) := by
    rw [hdone.2]
    dsimp only
    have hfin : (set_status_in_context
        (if priv.operation_list_active then
          { context with operation := some operation,
                         log := context.log ++ [Action.dispatch_operation_finished] }
        else { context with operation := some operation })
        (context.channels.map (fun channel => channel.id))
        McdChannelStatus.DISPATCHED).finished = context.finished := by
      unfold set_status_in_context
      split_ifs <;> rfl
    rw [hfin, List.map_map]
    by_cases hactive : priv.operation_list_active = true
    · rw [if_pos hactive, if_pos hactive]
      rfl
    · rw [if_neg hactive, if_neg hactive, List.append_nil]
      rfl
  refine ⟨hchan, ?_, hdone.1, hlog, ?_, ?_⟩
  · rw [heq, handler_done_locks]
    unfold set_status_in_context
    dsimp only
    split_ifs <;> rfl
  · rw [hlog]
    simp only [run_handlers_count_append]
    have h1 : run_handlers_count
        (context.channels.map (fun channel => Action.dispatched channel.id)) = 0 :=
      run_handlers_count_map_dispatched_comp (fun channel : McdChannel => channel.id) _
    rw [h1]
    split_ifs <;> simp [run_handlers_count]
  · intro action hmem hh
    rw [hlog] at hmem
    simp only [List.mem_append, List.mem_map] at hmem
    rcases hmem with ((h | h) | ⟨ch, _, h⟩) | h
    · exact h
    · split_ifs at h
      · simp only [List.mem_singleton] at h
        subst h
        cases hh
      · cases h
    · subst h
      cases hh
    · split_ifs at h
      · cases h
      · simp only [List.mem_singleton] at h
        subst h
        cases hh


/-! ## Theorems: reply of the handler -/

theorem g_list_remove_channel_mem (x c : McdChannel) (l : List McdChannel)
    (h : c ∈ g_list_remove_channel x l) : c ∈ l := by
  induction l with
  | nil => cases h
  | cons head rest ih =>
    simp only [g_list_remove_channel] at h
    split_ifs at h
    · exact List.mem_cons_of_mem _ h
    · rcases List.mem_cons.mp h with h1 | h1
      · rw [h1]; exact List.mem_cons_self _ _
      · exact List.mem_cons_of_mem _ (ih h1)

theorem g_list_remove_channel_filter (x : McdChannel) (l : List McdChannel)
    (p : McdChannel → Bool) (hp : ∀ c, c.id = x.id → p c = false) :
    (g_list_remove_channel x l).filter p = l.filter p := by
  induction l with
  | nil => rfl
  | cons head rest ih =>
    simp only [g_list_remove_channel]
    split_ifs with h
    · rw [List.filter_cons, hp head h]
      rfl
    · rw [List.filter_cons, List.filter_cons, ih]

theorem take_error_map_filter (l : List McdChannel) (id : Nat) (error : GError)
    (p : McdChannel → Bool) (hp : ∀ c, c.id = id → p c = false) :
    (l.map (fun channel => if channel.id = id then mcd_channel_take_error channel error
        else channel)).filter p = l.filter p := by
  induction l with
  | nil => rfl
  | cons head rest ih =>
    simp only [List.map_cons, List.filter_cons]
    by_cases h : head.id = id
    · rw [if_pos h, hp head h, hp (mcd_channel_take_error head error) h, ih]
      rfl
    · rw [if_neg h, ih]

theorem handle_channels_cb_failed_step_channels (mc_error : GError) (channel : McdChannel)
    (context : McdDispatcherContext) :
    (mcd_mission_abort (mcd_channel_take_error channel mc_error)
      { take_error_in_context context channel.id mc_error with
        log := (take_error_in_context context channel.id mc_error).log
          ++ [Action.dispatch_failed channel.id mc_error] }).channels
      = g_list_remove_channel (mcd_channel_take_error channel mc_error)
          (context.channels.map (fun known =>
            if known.id = channel.id then mcd_channel_take_error known mc_error else known)) :=
  rfl

theorem handle_channels_cb_failed_channels (mc_error : GError) (channels : List McdChannel)
    (context : McdDispatcherContext) :
    (∀ c ∈ (handle_channels_cb_failed mc_error channels context).channels,
      ∃ c0 ∈ context.channels, c0.id = c.id ∧ c0.status = c.status) ∧
    (handle_channels_cb_failed mc_error channels context).channels.filter
        (fun c => decide (c.id ∉ channels.map (fun channel => channel.id)))
      = context.channels.filter
        (fun c => decide (c.id ∉ channels.map (fun channel => channel.id))) := by
  induction channels generalizing context with
  | nil => exact ⟨fun c hc => ⟨c, hc, rfl, rfl⟩, rfl⟩
  | cons ch rest ih =>
    simp only [handle_channels_cb_failed]
    obtain ⟨h1, h2⟩ := ih (mcd_mission_abort (mcd_channel_take_error ch mc_error)
      { take_error_in_context context ch.id mc_error with
        log := (take_error_in_context context ch.id mc_error).log
          ++ [Action.dispatch_failed ch.id mc_error] })
    rw [handle_channels_cb_failed_step_channels] at h1 h2
    constructor
    · intro c hc
      obtain ⟨c1, hc1, hid, hst⟩ := h1 c hc
      have hc2 := g_list_remove_channel_mem _ _ _ hc1
      obtain ⟨c0, hc0, hmap⟩ := List.mem_map.mp hc2
      refine ⟨c0, hc0, ?_, ?_⟩
      · rw [← hid, ← hmap]
        split_ifs <;> rfl
      · rw [← hst, ← hmap]
        split_ifs <;> rfl
    · have hsplit : ∀ l : List McdChannel,
          l.filter (fun c => decide (c.id ∉ (ch :: rest).map (fun channel => channel.id)))
            = (l.filter (fun c => decide (c.id ∉ rest.map (fun channel => channel.id)))).filter
                (fun c => decide (c.id ≠ ch.id)) := by
        intro l
        rw [List.filter_filter]
        apply List.filter_congr
        intro c _
        simp [not_or]
      rw [hsplit, hsplit, h2, ← hsplit, ← hsplit]
      rw [g_list_remove_channel_filter, take_error_map_filter]
      · intro c hc
        simp [hc]
      · intro c hc
        have hid : c.id = ch.id := hc
        simp [hid]

theorem handle_channels_cb_failed_log (mc_error : GError) (channels : List McdChannel)
    (context : McdDispatcherContext) :
    (handle_channels_cb_failed mc_error channels context).log
      = context.log ++ (channels.map (fun channel =>
          [Action.dispatch_failed channel.id mc_error,
           Action.mission_abort channel.id (some mc_error)])).flatten := by
  induction channels generalizing context with
  | nil => simp [handle_channels_cb_failed]
  | cons ch rest ih =>
    simp only [handle_channels_cb_failed]
    rw [ih]
    simp [mcd_mission_abort, on_channel_abort_context, take_error_in_context,
      mcd_channel_take_error]

theorem handler_done_log (context : McdDispatcherContext) :
    ∃ tail, (mcd_dispatcher_context_handler_done context).log = context.log ++ tail ∧
      (tail = [] ∨ tail = [Action.dispatch_completed]) := by
  unfold mcd_dispatcher_context_handler_done
  dsimp only
  split_ifs
  · exact ⟨[], by simp, Or.inl rfl⟩
  · exact ⟨[Action.dispatch_completed], rfl, Or.inr rfl⟩
  · exact ⟨[], by simp, Or.inl rfl⟩

theorem handle_channels_cb_error_eq (context : McdDispatcherContext)
    (channels : List McdChannel) :
    handle_channels_cb context channels true
      = mcd_dispatcher_context_handler_done
          (handle_channels_cb_failed { code := MC_CHANNEL_REQUEST_GENERIC_ERROR }
            channels context) := rfl

theorem handle_channels_cb_success_eq (context : McdDispatcherContext)
    (channels : List McdChannel) :
    handle_channels_cb context channels false
      = mcd_dispatcher_context_handler_done
          { set_status_in_context context (channels.map (fun channel => channel.id))
              McdChannelStatus.DISPATCHED with
            log := context.log
              ++ (channels.map (fun channel => channel.id)).map Action.dispatched } := rfl

/-- C16: when the reply of the handler is an error, `handle_channels_cb`
reports every channel of the call as failed with the error it attaches to it
and aborts it, in the order of the call, and emits nothing else but, at most,
`dispatch-completed`: no channel is reported as dispatched and no handler is
called. Every channel left in the context has the status it had, and the
channels that were not part of the call are all still there, unchanged. When
the reply is a success, every channel of the call is set to `DISPATCHED` and
reported as dispatched, and the other channels of the context are
unchanged. -/
theorem C16_handle_channels_reply (context : McdDispatcherContext)
    (channels : List McdChannel) :
    (∃ tail, (handle_channels_cb context channels true).log
        = context.log ++ (channels.map (fun channel =>
            [Action.dispatch_failed channel.id { code := MC_CHANNEL_REQUEST_GENERIC_ERROR },
             Action.mission_abort channel.id
               (some { code := MC_CHANNEL_REQUEST_GENERIC_ERROR })])).flatten ++ tail ∧
      (tail = [] ∨ tail = [Action.dispatch_completed])) ∧
    (∀ c ∈ (handle_channels_cb context channels true).channels,
      ∃ c0 ∈ context.channels, c0.id = c.id ∧ c0.status = c.status) ∧
    (handle_channels_cb context channels true).channels.filter
        (fun c => decide (c.id ∉ channels.map (fun channel => channel.id)))
      = context.channels.filter
        (fun c => decide (c.id ∉ channels.map (fun channel => channel.id))) ∧
    (∃ tail, (handle_channels_cb context channels false).log
        = context.log ++ channels.map (fun channel => Action.dispatched channel.id) ++ tail ∧
      (tail = [] ∨ tail = [Action.dispatch_completed])) ∧
    (handle_channels_cb context channels false).channels
      = context.channels.map (fun c =>
          if c.id ∈ channels.map (fun channel => channel.id)
          then { c with status := McdChannelStatus.DISPATCHED } else c) := by
  have hfailed := handle_channels_cb_failed_channels
    { code := MC_CHANNEL_REQUEST_GENERIC_ERROR } channels context
  refine ⟨?_, ?_, ?_, ?_, ?_⟩
  · obtain ⟨tail, h1, h2⟩ := handler_done_log
      (handle_channels_cb_failed { code := MC_CHANNEL_REQUEST_GENERIC_ERROR } channels context)
    refine ⟨tail, ?_, h2⟩
    rw [handle_channels_cb_error_eq, h1, handle_channels_cb_failed_log]
  · rw [handle_channels_cb_error_eq, handler_done_channels]
    exact hfailed.1
  · rw [handle_channels_cb_error_eq, handler_done_channels]
    exact hfailed.2
  · obtain ⟨tail, h1, h2⟩ := handler_done_log
      { set_status_in_context context (channels.map (fun channel => channel.id))
          McdChannelStatus.DISPATCHED with
        log := context.log
          ++ (channels.map (fun channel => channel.id)).map Action.dispatched }
    refine ⟨tail, ?_, h2⟩
    rw [handle_channels_cb_success_eq, h1, List.map_map]
    rfl
  · rw [handle_channels_cb_success_eq, handler_done_channels]
    rfl

/-! ## Theorems: replies of the approvers -/

theorem run_approvers_loop_exact (channels : List McdChannel) (clients : List McdClient)
    (context : McdDispatcherContext) :
    (mcd_dispatcher_run_approvers_loop channels clients context).log
      = context.log ++ (matching_approvers clients channels).map
          (fun client => Action.add_dispatch_operation client.name) ∧
    (mcd_dispatcher_run_approvers_loop channels clients context).approvers_invoked
      = context.approvers_invoked + ((matching_approvers clients channels).length : Int) ∧
    (mcd_dispatcher_run_approvers_loop channels clients context).client_locks
      = context.client_locks ∧
    (matching_approvers clients channels = [] →
      mcd_dispatcher_run_approvers_loop channels clients context = context) := by
  induction clients generalizing context with
  | nil => simp [mcd_dispatcher_run_approvers_loop, matching_approvers]
  | cons client rest ih =>
    simp only [mcd_dispatcher_run_approvers_loop]
    by_cases hskip : (!client.proxy || !client.implements MCD_CLIENT_APPROVER) = true
    · have hfilter : matching_approvers (client :: rest) channels
          = matching_approvers rest channels := by
        unfold matching_approvers
        rw [List.filter_cons]
        have : (client.proxy && client.implements MCD_CLIENT_APPROVER &&
            channels.any (fun channel =>
              match_filters channel client.approver_filters != 0)) = false := by
          cases hp : client.proxy <;> cases hi : client.implements MCD_CLIENT_APPROVER <;>
            simp [hp, hi] at hskip ⊢
        rw [this]
        rfl
      rw [if_pos hskip, hfilter]
      exact ih context
    · rw [if_neg hskip]
      have hel : client.proxy = true ∧ client.implements MCD_CLIENT_APPROVER = true := by
        cases hp : client.proxy <;> cases hi : client.implements MCD_CLIENT_APPROVER <;>
          simp [hp, hi] at hskip ⊢
      by_cases hany : channels.any (fun channel =>
          match_filters channel client.approver_filters != 0) = true
      · have hfilter : matching_approvers (client :: rest) channels
            = client :: matching_approvers rest channels := by
          unfold matching_approvers
          rw [List.filter_cons, hel.1, hel.2, hany]
          rfl
        rw [if_pos hany, hfilter]
        obtain ⟨h1, h2, h3, _⟩ := ih
          { context with
            approvers_invoked := context.approvers_invoked + 1
            operation := context.operation.map _mcd_dispatch_operation_block_finished
            log := context.log ++ [Action.add_dispatch_operation client.name] }
        refine ⟨?_, ?_, h3, ?_⟩
        · rw [h1]
          simp
        · rw [h2]
          simp only [List.length_cons]
          push_cast
          ring
        · intro h
          cases h
      · have hfilter : matching_approvers (client :: rest) channels
            = matching_approvers rest channels := by
          unfold matching_approvers
          rw [List.filter_cons]
          have : (client.proxy && client.implements MCD_CLIENT_APPROVER &&
              channels.any (fun channel =>
                match_filters channel client.approver_filters != 0)) = false := by
            simp only [Bool.not_eq_true] at hany
            rw [hany]
            simp
          rw [this]
          rfl
        rw [if_neg hany, hfilter]
        exact ih context

theorem run_approvers_some (priv : McdDispatcherPrivate) (context : McdDispatcherContext)
    (hop : context.operation ≠ none) :
    mcd_dispatcher_run_approvers priv context
      = mcd_dispatcher_context_approver_not_invoked priv
          (mcd_dispatcher_run_approvers_loop context.channels priv.clients
            { context with approvers_invoked := 1, client_locks := context.client_locks + 1 }) := by
  unfold mcd_dispatcher_run_approvers
  cases h : context.operation with
  | none => exact absurd h hop
  | some op => rfl

theorem run_approvers_called (priv : McdDispatcherPrivate) (context : McdDispatcherContext)
    (hop : context.operation ≠ none)
    (hsome : matching_approvers priv.clients context.channels ≠ []) :
    (mcd_dispatcher_run_approvers priv context).approvers_invoked
      = ((matching_approvers priv.clients context.channels).length : Int) ∧
    (mcd_dispatcher_run_approvers priv context).client_locks = context.client_locks + 1 ∧
    (mcd_dispatcher_run_approvers priv context).log
      = context.log ++ (matching_approvers priv.clients context.channels).map
          (fun client => Action.add_dispatch_operation client.name) := by
  obtain ⟨h1, h2, h3, _⟩ := run_approvers_loop_exact context.channels priv.clients
    { context with approvers_invoked := 1, client_locks := context.client_locks + 1 }
  dsimp only at h1 h2 h3
  have hlen : 0 < (matching_approvers priv.clients context.channels).length :=
    List.length_pos.mpr hsome
  rw [run_approvers_some priv context hop]
  unfold mcd_dispatcher_context_approver_not_invoked
  dsimp only
  have hpos : (mcd_dispatcher_run_approvers_loop context.channels priv.clients
      { context with approvers_invoked := 1,
                     client_locks := context.client_locks + 1 }).approvers_invoked > 0 := by
    rw [h2]; omega
  have hne : ¬ (mcd_dispatcher_run_approvers_loop context.channels priv.clients
      { context with approvers_invoked := 1,
                     client_locks := context.client_locks + 1 }).approvers_invoked - 1 = 0 := by
    rw [h2]; omega
  rw [if_neg (not_not.mpr hpos), if_neg hne]
  dsimp only
  exact ⟨by rw [h2]; ring, h3, h1⟩

theorem run_approvers_none_called (priv : McdDispatcherPrivate)
    (context : McdDispatcherContext) (hop : context.operation ≠ none)
    (hnone : matching_approvers priv.clients context.channels = []) :
    mcd_dispatcher_run_approvers priv context
      = mcd_dispatcher_context_release_client_lock priv
          { context with approvers_invoked := 0, client_locks := context.client_locks + 1 } := by
  obtain ⟨_, _, _, h4⟩ := run_approvers_loop_exact context.channels priv.clients
    { context with approvers_invoked := 1, client_locks := context.client_locks + 1 }
  rw [run_approvers_some priv context hop, h4 hnone]
  unfold mcd_dispatcher_context_approver_not_invoked
  dsimp only
  rw [if_neg (by decide), if_pos (by decide)]
  rfl

theorem handler_done_approvers (context : McdDispatcherContext) :
    (mcd_dispatcher_context_handler_done context).approvers_invoked
      = context.approvers_invoked := by
  unfold mcd_dispatcher_context_handler_done
  dsimp only
  split_ifs <;> rfl

theorem handle_channels_cb_failed_approvers (mc_error : GError) (channels : List McdChannel)
    (context : McdDispatcherContext) :
    (handle_channels_cb_failed mc_error channels context).approvers_invoked
      = context.approvers_invoked := by
  induction channels generalizing context with
  | nil => rfl
  | cons ch rest ih =>
    simp only [handle_channels_cb_failed]
    rw [ih]
    rfl

theorem handle_channels_cb_approvers (context : McdDispatcherContext)
    (channels : List McdChannel) (error : Bool) :
    (handle_channels_cb context channels error).approvers_invoked
      = context.approvers_invoked := by
  cases error with
  | true =>
    rw [handle_channels_cb_error_eq, handler_done_approvers,
      handle_channels_cb_failed_approvers]
  | false =>
    rw [handle_channels_cb_success_eq, handler_done_approvers]
    rfl

theorem on_operation_finished_approvers (priv : McdDispatcherPrivate)
    (operation : McdDispatchOperation) (context : McdDispatcherContext) :
    (on_operation_finished priv operation context).approvers_invoked
      = context.approvers_invoked := by
  unfold on_operation_finished
  dsimp only
  split_ifs <;>
    simp only [handler_done_approvers, (release_client_lock_frame priv _).2.2.2.2] <;> rfl

theorem add_dispatch_operation_cb_approvers (priv : McdDispatcherPrivate)
    (context : McdDispatcherContext) (error : Bool) :
    (add_dispatch_operation_cb priv context error).approvers_invoked
      = context.approvers_invoked - (if error then 1 else 0) := by
  unfold add_dispatch_operation_cb
  dsimp only
  split <;> split_ifs <;>
    (try simp only [(release_client_lock_frame priv _).2.2.2.2]) <;>
    (try simp)

theorem pipeline_step_approvers (priv : McdDispatcherPrivate)
    (context : McdDispatcherContext) (event : PipelineEvent) :
    (pipeline_step priv context event).approvers_invoked
      = context.approvers_invoked - approver_error_replies [event] := by
  cases event with
  | observe_channels_reply error =>
    simp only [pipeline_step, observe_channels_cb, approver_error_replies]
    rw [(release_client_lock_frame priv context).2.2.2.2]
    simp
  | add_dispatch_operation_reply error =>
    simp only [pipeline_step, approver_error_replies]
    rw [add_dispatch_operation_cb_approvers]
    cases error <;> simp
  | operation_finished operation =>
    simp only [pipeline_step, approver_error_replies]
    split
    · rw [on_operation_finished_approvers]; simp
    · simp
  | channel_abort channel =>
    simp [pipeline_step, approver_error_replies, on_channel_abort_context]
  | handle_channels_reply channels error =>
    simp only [pipeline_step, approver_error_replies]
    rw [handle_channels_cb_approvers]
    simp

theorem pipeline_run_approvers (priv : McdDispatcherPrivate) (events : List PipelineEvent) :
    ∀ context : McdDispatcherContext,
      (pipeline_run priv context events).approvers_invoked
        = context.approvers_invoked - approver_error_replies events := by
  induction events with
  | nil => intro context; simp [pipeline_run, approver_error_replies]
  | cons event rest ih =>
    intro context
    simp only [pipeline_run, List.foldl_cons]
    have h := ih (pipeline_step priv context event)
    simp only [pipeline_run] at h
    rw [h, pipeline_step_approvers]
    simp only [approver_error_replies, List.countP_cons, List.countP_nil]
    push_cast
    ring

theorem add_dispatch_operation_cb_last_error (priv : McdDispatcherPrivate)
    (context : McdDispatcherContext) (hlast : context.approvers_invoked = 1) :
    (add_dispatch_operation_cb priv context true).approvers_invoked = 0 ∧
    (add_dispatch_operation_cb priv context true).client_locks
      = (if 0 < context.client_locks then context.client_locks - 1
         else context.client_locks) ∧
    run_handlers_count (add_dispatch_operation_cb priv context true).log
      = run_handlers_count context.log + (if context.client_locks = 1 then 1 else 0) := by
  have hai := add_dispatch_operation_cb_approvers priv context true
  rw [hlast] at hai
  refine ⟨by simpa using hai, ?_, ?_⟩
  · unfold add_dispatch_operation_cb
    dsimp only
    rw [if_pos rfl, if_pos (by omega)]
    split <;> (try dsimp only) <;> rw [release_client_lock_locks]
  · unfold add_dispatch_operation_cb
    dsimp only
    rw [if_pos rfl, if_pos (by omega)]
    split <;> (try dsimp only) <;> rw [release_client_lock_runs]

theorem add_dispatch_operation_cb_other (priv : McdDispatcherPrivate)
    (context : McdDispatcherContext) (error : Bool)
    (hother : ¬ (error = true ∧ context.approvers_invoked = 1)) :
    (add_dispatch_operation_cb priv context error).client_locks = context.client_locks ∧
    (add_dispatch_operation_cb priv context error).log = context.log := by
  unfold add_dispatch_operation_cb
  dsimp only
  cases error with
  | true =>
    have hne : ¬ context.approvers_invoked - 1 = 0 := by
      intro h
      exact hother ⟨rfl, by omega⟩
    rw [if_pos rfl, if_neg hne]
    split <;> exact ⟨rfl, rfl⟩
  | false =>
    rw [if_neg (by decide)]
    split <;> exact ⟨rfl, rfl⟩

theorem approver_error_replies_replies (errors : List Bool) :
    approver_error_replies (approver_replies errors) = errors.count true := by
  induction errors with
  | nil => rfl
  | cons error rest ih =>
    simp only [approver_replies, approver_error_replies, List.map_cons,
      List.countP_cons, List.count_cons] at ih ⊢
    rw [ih]
    cases error <;> simp

theorem approver_replies_keep_lock (priv : McdDispatcherPrivate) (errors : List Bool) :
    ∀ context : McdDispatcherContext,
      (errors.count true : Int) < context.approvers_invoked →
      (pipeline_run priv context (approver_replies errors)).client_locks
          = context.client_locks ∧
        (pipeline_run priv context (approver_replies errors)).log = context.log := by
  induction errors with
  | nil => intro context _; exact ⟨rfl, rfl⟩
  | cons error rest ih =>
    intro context hlt
    simp only [approver_replies, List.map_cons, pipeline_run, List.foldl_cons, pipeline_step]
    have hother : ¬ (error = true ∧ context.approvers_invoked = 1) := by
      rintro ⟨he, h1⟩
      rw [he, h1] at hlt
      simp only [List.count_cons_self] at hlt
      omega
    obtain ⟨h1, h2⟩ := add_dispatch_operation_cb_other priv context error hother
    have hai := add_dispatch_operation_cb_approvers priv context error
    have hrest := ih (add_dispatch_operation_cb priv context error) (by
      rw [hai]
      cases error with
      | true =>
        simp only [List.count_cons_self] at hlt
        simp only [if_true]
        push_cast at hlt
        omega
      | false =>
        have : (false :: rest).count true = rest.count true := by simp
        rw [this] at hlt
        simp only [Bool.false_eq_true, if_false]
        omega)
    simp only [approver_replies, pipeline_run] at hrest
    exact ⟨hrest.1.trans h1, hrest.2.trans h2⟩

/-- C11: for a context with a dispatch operation, `mcd_dispatcher_run_approvers`
takes one lock and calls the approvers whose filters match a channel; when
there are `n > 0` of them, `approvers_invoked` is `n` and the lock is held
when the function returns; when there is none, the function itself releases
the lock, as `mcd_dispatcher_context_release_client_lock` does. Through any
sequence of events `approvers_invoked` goes down by one per approver reply
with an error and is not changed otherwise. While fewer approvers have
replied with an error than were called, `approvers_invoked` stays above 0 and
the replies of the approvers leave the lock counter and the log as they are;
the error reply that brings the number of error replies to the number of
approvers called sets `approvers_invoked` to 0 and releases one lock, which
runs the handlers when it was the last lock. -/
theorem C11_approver_replies (priv : McdDispatcherPrivate)
    (context pending : McdDispatcherContext) (events : List PipelineEvent)
    (errors : List Bool) :
    (context.operation ≠ none →
      matching_approvers priv.clients context.channels ≠ [] →
      (mcd_dispatcher_run_approvers priv context).approvers_invoked
        = ((matching_approvers priv.clients context.channels).length : Int) ∧
      (mcd_dispatcher_run_approvers priv context).client_locks = context.client_locks + 1 ∧
      (mcd_dispatcher_run_approvers priv context).log
        = context.log ++ (matching_approvers priv.clients context.channels).map
            (fun client => Action.add_dispatch_operation client.name)) ∧
    (context.operation ≠ none →
      matching_approvers priv.clients context.channels = [] →
      mcd_dispatcher_run_approvers priv context
        = mcd_dispatcher_context_release_client_lock priv
            { context with approvers_invoked := 0,
                           client_locks := context.client_locks + 1 } ∧
      (1 ≤ context.client_locks →
        (mcd_dispatcher_run_approvers priv context).client_locks = context.client_locks ∧
        (mcd_dispatcher_run_approvers priv context).approvers_invoked = 0 ∧
        run_handlers_count (mcd_dispatcher_run_approvers priv context).log
          = run_handlers_count context.log)) ∧
    (pipeline_run priv pending events).approvers_invoked
      = pending.approvers_invoked - approver_error_replies events ∧
    ((errors.count true : Int) < pending.approvers_invoked →
      0 < (pipeline_run priv pending (approver_replies errors)).approvers_invoked ∧
      (pipeline_run priv pending (approver_replies errors)).client_locks
        = pending.client_locks ∧
      (pipeline_run priv pending (approver_replies errors)).log = pending.log) ∧
    ((errors.count true : Int) + 1 = pending.approvers_invoked →
      (pipeline_run priv pending (approver_replies (errors ++ [true]))).approvers_invoked = 0 ∧
      (pipeline_run priv pending (approver_replies (errors ++ [true]))).client_locks
        = (if 0 < pending.client_locks then pending.client_locks - 1
           else pending.client_locks) ∧
      run_handlers_count (pipeline_run priv pending (approver_replies (errors ++ [true]))).log
        = run_handlers_count pending.log
          + (if pending.client_locks = 1 then 1 else 0)) := by
  refine ⟨run_approvers_called priv context, ?_,
    pipeline_run_approvers priv events pending, ?_, ?_⟩
  · intro hop hnone
    have heq := run_approvers_none_called priv context hop hnone
    refine ⟨heq, fun hlocks => ?_⟩
    rw [heq, release_client_lock_locks, release_client_lock_runs,
      (release_client_lock_frame priv _).2.2.2.2]
    dsimp only
    have h1 : 0 < context.client_locks + 1 := by omega
    have h2 : ¬ context.client_locks + 1 = 1 := by omega
    rw [if_pos h1, if_neg h2]
    exact ⟨by omega, rfl, rfl⟩
  · intro hlt
    refine ⟨?_, approver_replies_keep_lock priv errors pending hlt⟩
    rw [pipeline_run_approvers, approver_error_replies_replies]
    omega
  · intro heq
    have hkeep := approver_replies_keep_lock priv errors pending (by omega)
    have hai := pipeline_run_approvers priv (approver_replies errors) pending
    rw [approver_error_replies_replies] at hai
    have hlast := add_dispatch_operation_cb_last_error priv
      (pipeline_run priv pending (approver_replies errors)) (by rw [hai]; omega)
    have hrun : pipeline_run priv pending (approver_replies (errors ++ [true]))
        = add_dispatch_operation_cb priv
            (pipeline_run priv pending (approver_replies errors)) true := by
      simp [pipeline_run, approver_replies, pipeline_step]
    rw [hrun]
    rw [hkeep.1, hkeep.2] at hlast
    exact hlast

/-! ## Theorems: when the approvers are called -/

theorem handlers_can_bypass_approval_iff (priv : McdDispatcherPrivate)
    (channels : List McdChannel) :
    handlers_can_bypass_approval priv channels = true ↔
      ∀ channel ∈ channels, ∃ handler,
        get_default_handler priv.clients channel = some handler ∧
          handler.bypass_approver = true := by
  induction channels with
  | nil => simp [handlers_can_bypass_approval]
  | cons channel rest ih =>
    simp only [handlers_can_bypass_approval]
    cases hd : get_default_handler priv.clients channel with
    | none =>
      simp only [List.mem_cons, forall_eq_or_imp]
      constructor
      · intro h; cases h
      · rintro ⟨⟨handler, h, _⟩, _⟩
        rw [hd] at h
        cases h
    | some handler =>
      dsimp only
      cases hb : handler.bypass_approver with
      | false =>
        simp only [List.mem_cons, forall_eq_or_imp]
        constructor
        · intro h; simp at h
        · rintro ⟨⟨other, h, hbo⟩, _⟩
          rw [hd] at h
          cases h
          rw [hb] at hbo
          cases hbo
      | true =>
        simp only [Bool.not_true, Bool.false_eq_true, if_false, List.mem_cons,
          forall_eq_or_imp]
        rw [ih]
        constructor
        · intro h
          exact ⟨⟨handler, hd, hb⟩, h⟩
        · intro h
          exact h.2

theorem run_observers_loop_channels (channels : List McdChannel) (clients : List McdClient)
    (context : McdDispatcherContext) :
    (mcd_dispatcher_run_observers_loop channels clients context).channels
      = context.channels := by
  induction clients generalizing context with
  | nil => rfl
  | cons client rest ih =>
    simp only [mcd_dispatcher_run_observers_loop]
    split
    · exact ih context
    · split
      · exact ih context
      · rw [ih]

theorem run_clients_skipped (priv : McdDispatcherPrivate) (context : McdDispatcherContext)
    (hskip : context.operation = none ∨ context.skip_approval = true ∨
      handlers_can_bypass_approval priv context.channels = true) :
    mcd_dispatcher_run_clients priv context
      = mcd_dispatcher_context_release_client_lock priv
          (mcd_dispatcher_run_observers priv { context with client_locks := 1 }) := by
  obtain ⟨_, hframe, _, _⟩ := run_clients_shape priv context
  have hch : (mcd_dispatcher_run_observers priv { context with client_locks := 1 }).channels
      = context.channels := by
    unfold mcd_dispatcher_run_observers
    rw [run_observers_loop_channels]
  unfold mcd_dispatcher_run_clients
  dsimp only
  rw [hch]
  cases hop : (mcd_dispatcher_run_observers priv { context with client_locks := 1 }).operation with
  | none => rfl
  | some operation =>
    dsimp only
    have hcond : (!(mcd_dispatcher_run_observers priv
        { context with client_locks := 1 }).skip_approval &&
        !handlers_can_bypass_approval priv context.channels) = false := by
      rw [hframe.2.2.1]
      rcases hskip with h | h | h
      · rw [hframe.2.2.2.1, h] at hop
        cases hop
      · rw [h]; rfl
      · rw [h]; simp
    rw [hcond]
    rfl

theorem run_clients_entered (priv : McdDispatcherPrivate) (context : McdDispatcherContext)
    (henter : ¬ (context.operation = none ∨ context.skip_approval = true ∨
      handlers_can_bypass_approval priv context.channels = true)) :
    mcd_dispatcher_run_clients priv context
      = mcd_dispatcher_context_release_client_lock priv
          (mcd_dispatcher_run_approvers priv
            (mcd_dispatcher_run_observers priv { context with client_locks := 1 })) := by
  obtain ⟨_, hframe, _, _⟩ := run_clients_shape priv context
  have hch : (mcd_dispatcher_run_observers priv { context with client_locks := 1 }).channels
      = context.channels := by
    unfold mcd_dispatcher_run_observers
    rw [run_observers_loop_channels]
  simp only [not_or] at henter
  unfold mcd_dispatcher_run_clients
  dsimp only
  rw [hch]
  cases hop : (mcd_dispatcher_run_observers priv { context with client_locks := 1 }).operation with
  | none =>
    rw [hframe.2.2.2.1] at hop
    exact absurd hop henter.1
  | some operation =>
    dsimp only
    have hcond : (!(mcd_dispatcher_run_observers priv
        { context with client_locks := 1 }).skip_approval &&
        !handlers_can_bypass_approval priv context.channels) = true := by
      rw [hframe.2.2.1]
      have h1 : context.skip_approval = false := by
        cases h : context.skip_approval
        · rfl
        · exact absurd h henter.2.1
      have h2 : handlers_can_bypass_approval priv context.channels = false := by
        cases h : handlers_can_bypass_approval priv context.channels
        · rfl
        · exact absurd h henter.2.2
      rw [h1, h2]
      rfl
    rw [hcond]
    rfl

theorem is_observe_not_add (action : Action)
    (h : Action.is_observe_channels action = true) :
    Action.is_add_dispatch_operation action = false := by
  cases action <;> simp_all [Action.is_observe_channels, Action.is_add_dispatch_operation]

theorem run_clients_skipped_calls (priv : McdDispatcherPrivate)
    (context : McdDispatcherContext)
    (hskip : context.operation = none ∨ context.skip_approval = true ∨
      handlers_can_bypass_approval priv context.channels = true) :
    appends Action.is_observe_channels context
        (mcd_dispatcher_run_observers priv { context with client_locks := 1 }) ∧
      appends Action.of_run_handlers
        (mcd_dispatcher_run_observers priv { context with client_locks := 1 })
        (mcd_dispatcher_run_clients priv context) ∧
      same_frame context (mcd_dispatcher_run_clients priv context) := by
  obtain ⟨h1, hframe, _, _⟩ := run_clients_shape priv context
  rw [run_clients_skipped priv context hskip]
  exact ⟨h1, release_client_lock_appends priv _,
    same_frame_trans hframe (release_client_lock_frame priv _)⟩

theorem pipeline_run_no_approver_call (priv : McdDispatcherPrivate)
    (context : McdDispatcherContext) (events : List PipelineEvent) :
    add_dispatch_operation_count (pipeline_run priv context events).log
      = add_dispatch_operation_count context.log :=
  add_dispatch_operation_count_of_appends after_clients_not_add
    (pipeline_run_appends priv events context)

theorem run_clients_skipped_no_approver_call (priv : McdDispatcherPrivate)
    (context : McdDispatcherContext)
    (hskip : context.operation = none ∨ context.skip_approval = true ∨
      handlers_can_bypass_approval priv context.channels = true) :
    add_dispatch_operation_count (mcd_dispatcher_run_clients priv context).log
      = add_dispatch_operation_count context.log := by
  obtain ⟨h1, h2, _⟩ := run_clients_skipped_calls priv context hskip
  rw [add_dispatch_operation_count_of_appends of_run_handlers_not_add h2,
    add_dispatch_operation_count_of_appends is_observe_not_add h1]

theorem run_approvers_loop_operation (channels : List McdChannel) (clients : List McdClient)
    (context : McdDispatcherContext) :
    (mcd_dispatcher_run_approvers_loop channels clients context).operation.isSome
      = context.operation.isSome := by
  induction clients generalizing context with
  | nil => rfl
  | cons client rest ih =>
    simp only [mcd_dispatcher_run_approvers_loop]
    split
    · exact ih context
    · split
      · rw [ih]
        simp
      · exact ih context

theorem run_approvers_operation (priv : McdDispatcherPrivate)
    (context : McdDispatcherContext) :
    (mcd_dispatcher_run_approvers priv context).operation.isSome
      = context.operation.isSome := by
  unfold mcd_dispatcher_run_approvers
  cases hop : context.operation with
  | none => simp [hop]
  | some op =>
    dsimp only
    unfold mcd_dispatcher_context_approver_not_invoked
    dsimp only
    split_ifs <;>
      (try simp only [(release_client_lock_frame priv _).2.2.2.1]) <;>
      rw [run_approvers_loop_operation]

theorem run_clients_operation (priv : McdDispatcherPrivate)
    (context : McdDispatcherContext) :
    (mcd_dispatcher_run_clients priv context).operation.isSome
      = context.operation.isSome := by
  obtain ⟨_, hframe, _, _⟩ := run_clients_shape priv context
  unfold mcd_dispatcher_run_clients
  dsimp only
  rw [(release_client_lock_frame priv _).2.2.2.1]
  split
  · split
    · rw [run_approvers_operation, hframe.2.2.2.1]
    · rw [hframe.2.2.2.1]
  · rw [hframe.2.2.2.1]

theorem context_process_operation (priv : McdDispatcherPrivate)
    (context : McdDispatcherContext) (hlive : context.cancelled = false) :
    (mcd_dispatcher_context_process priv context true).operation.isSome
        = context.operation.isSome ∧
      (context.operation = none →
        add_dispatch_operation_count (mcd_dispatcher_context_process priv context true).log
          = add_dispatch_operation_count context.log) := by
  unfold mcd_dispatcher_context_process
  have hcond : (true && !context.cancelled) = true := by rw [hlive]; rfl
  rw [if_pos hcond]
  cases hget : context.chain.get? context.next_func_index with
  | some filter =>
    refine ⟨rfl, fun _ => ?_⟩
    simp [add_dispatch_operation_count, List.countP_append, Action.is_add_dispatch_operation]
  | none =>
    exact ⟨run_clients_operation priv context, fun hnone =>
      run_clients_skipped_no_approver_call priv context (Or.inl hnone)⟩

theorem enter_state_machine_operation (priv : McdDispatcherPrivate)
    (first : McdChannel) (rest : List McdChannel) (possible_handlers : List String)
    (requested : Bool) (account : String) (haccount : first.account = some account) :
    ∃ created,
      (_mcd_dispatcher_enter_state_machine priv (first :: rest) possible_handlers
        requested).contexts = created :: priv.contexts ∧
      created.operation.isSome = !requested ∧
      (requested = true → add_dispatch_operation_count created.log = 0) := by
  unfold _mcd_dispatcher_enter_state_machine
  dsimp only
  rw [haccount]
  dsimp only
  refine ⟨_, rfl, ?_, ?_⟩
  · cases requested with
    | true =>
      simp only [Bool.not_true, Bool.false_eq_true, if_false]
      split
      · rw [(context_process_operation priv _ rfl).1]
        rfl
      · rw [run_clients_operation]
        rfl
    | false =>
      simp only [Bool.not_false, if_true]
      split
      · rw [(context_process_operation priv _ (by split <;> rfl)).1]
        split <;> rfl
      · rw [run_clients_operation]
        split <;> rfl
  · intro hreq
    subst hreq
    simp only [Bool.not_true, Bool.false_eq_true, if_false]
    split
    · rw [(context_process_operation priv _ rfl).2 rfl]
      rfl
    · rw [run_clients_skipped_no_approver_call priv _ (Or.inl rfl)]
      rfl

/-- C12: `mcd_dispatcher_run_clients` skips the approvers when the context has
no dispatch operation, as it is for a requested batch, when `skip_approval` is
set, or when `handlers_can_bypass_approval` holds, which is the case exactly
when every channel of the batch has a default handler, the first handler of
the registry that matches it, and that handler has BypassApproval; then no
approver is called, neither by this function nor by any event after it. In
every other case the function goes through `mcd_dispatcher_run_approvers`.
The context `_mcd_dispatcher_enter_state_machine` makes for a requested batch
has no dispatch operation and no approver has been called for it; and no
event at all makes a call to an approver. -/
theorem C12_approver_phase_entered (priv : McdDispatcherPrivate)
    (context : McdDispatcherContext) (events : List PipelineEvent) :
    (handlers_can_bypass_approval priv context.channels = true ↔
      ∀ channel ∈ context.channels, ∃ handler,
        get_default_handler priv.clients channel = some handler ∧
          handler.bypass_approver = true) ∧
    ((context.operation = none ∨ context.skip_approval = true ∨
        handlers_can_bypass_approval priv context.channels = true) →
      mcd_dispatcher_run_clients priv context
        = mcd_dispatcher_context_release_client_lock priv
            (mcd_dispatcher_run_observers priv { context with client_locks := 1 }) ∧
      add_dispatch_operation_count
          (pipeline_run priv (mcd_dispatcher_run_clients priv context) events).log
        = add_dispatch_operation_count context.log) ∧
    (¬ (context.operation = none ∨ context.skip_approval = true ∨
        handlers_can_bypass_approval priv context.channels = true) →
      mcd_dispatcher_run_clients priv context
        = mcd_dispatcher_context_release_client_lock priv
            (mcd_dispatcher_run_approvers priv
              (mcd_dispatcher_run_observers priv { context with client_locks := 1 }))) ∧
    (∀ (first : McdChannel) (rest : List McdChannel) (possible_handlers : List String)
        (account : String), first.account = some account →
      ∃ created,
        (_mcd_dispatcher_enter_state_machine priv (first :: rest) possible_handlers
          true).contexts = created :: priv.contexts ∧
        created.operation = none ∧ add_dispatch_operation_count created.log = 0) ∧
    add_dispatch_operation_count (pipeline_run priv context events).log
      = add_dispatch_operation_count context.log := by
  refine ⟨handlers_can_bypass_approval_iff priv context.channels, ?_,
    run_clients_entered priv context, ?_, pipeline_run_no_approver_call priv context events⟩
  · intro hskip
    refine ⟨run_clients_skipped priv context hskip, ?_⟩
    rw [pipeline_run_no_approver_call, run_clients_skipped_no_approver_call priv context hskip]
  · intro first rest possible_handlers account haccount
    obtain ⟨created, h1, h2, h3⟩ := enter_state_machine_operation priv first rest
      possible_handlers true account haccount
    refine ⟨created, h1, ?_, h3 rfl⟩
    cases hop : created.operation with
    | none => rfl
    | some op => rw [hop] at h2; cases h2

/-! ## Theorems: a sole handler with BypassApproval -/

theorem get_default_handler_sole (clients : List McdClient) (channel : McdChannel)
    (handler : McdClient) (hmem : handler ∈ clients) (hproxy : handler.proxy = true)
    (himpl : handler.implements MCD_CLIENT_HANDLER = true)
    (hmatch : match_filters channel handler.handler_filters ≠ 0)
    (hsole : ∀ client ∈ clients, client.proxy = true →
      client.implements MCD_CLIENT_HANDLER = true →
      match_filters channel client.handler_filters ≠ 0 → client = handler) :
    get_default_handler clients channel = some handler := by
  induction clients with
  | nil => cases hmem
  | cons client rest ih =>
    have hrest : ∀ c ∈ rest, c.proxy = true → c.implements MCD_CLIENT_HANDLER = true →
        match_filters channel c.handler_filters ≠ 0 → c = handler :=
      fun c hc => hsole c (List.mem_cons_of_mem _ hc)
    simp only [get_default_handler]
    by_cases hel : client.proxy = true ∧ client.implements MCD_CLIENT_HANDLER = true
    · have hskip : (!client.proxy || !client.implements MCD_CLIENT_HANDLER) = false := by
        simp [hel.1, hel.2]
      rw [hskip]
      simp only [Bool.false_eq_true, if_false]
      by_cases hm : match_filters channel client.handler_filters > 0
      · rw [if_pos hm]
        rw [hsole client (List.mem_cons_self _ _) hel.1 hel.2 (by omega)]
      · rw [if_neg hm]
        rcases List.mem_cons.mp hmem with h | h
        · subst h
          exact absurd (Nat.pos_of_ne_zero hmatch) hm
        · exact ih h hrest
    · have hskip : (!client.proxy || !client.implements MCD_CLIENT_HANDLER) = true := by
        cases hp : client.proxy <;> cases hi : client.implements MCD_CLIENT_HANDLER <;>
          simp [hp, hi] at hel ⊢
      rw [hskip]
      simp only [if_true]
      rcases List.mem_cons.mp hmem with h | h
      · subst h
        exact absurd ⟨hproxy, himpl⟩ hel
      · exact ih h hrest

theorem run_handler_choice_sole (priv : McdDispatcherPrivate)
    (context : McdDispatcherContext) (channels : List McdChannel) (handler : McdClient)
    (hmem : handler ∈ priv.clients) (hproxy : handler.proxy = true)
    (himpl : handler.implements MCD_CLIENT_HANDLER = true)
    (hne : channels ≠ [])
    (hall : ∀ channel ∈ channels, match_filters channel handler.handler_filters ≠ 0)
    (hsole : ∀ client ∈ priv.clients, client.proxy = true →
      client.implements MCD_CLIENT_HANDLER = true →
      (∃ channel ∈ channels, match_filters channel client.handler_filters ≠ 0) →
      client = handler)
    (hunnamed : ∀ operation, context.operation = some operation → operation.handler = none) :
    (run_handler_choice priv context channels).handler = some handler := by
  obtain ⟨first, hfirst⟩ := List.exists_mem_of_ne_nil channels hne
  have hlen : 0 < (run_handler_handled handler channels []).length := by
    apply List.length_pos_of_mem
    exact (mem_run_handler_handled handler channels [] first).mpr
      (Or.inr ⟨hfirst, hall first hfirst⟩)
  obtain ⟨hmost, hchoice⟩ := run_handler_choice_unnamed priv context channels hunnamed
  have hbest := hmost handler hmem hproxy himpl
  rcases hchoice with ⟨_, hzero, _⟩ | ⟨chosen, hcm, hcp, hci, hch, hnum, _⟩
  · omega
  · rw [hch]
    have hpos : 0 < (run_handler_handled chosen channels []).length := by
      have : (0 : Int) < ((run_handler_handled chosen channels []).length : Int) := by
        rw [← hnum]; omega
      exact_mod_cast this
    obtain ⟨c, hc⟩ := List.exists_mem_of_length_pos hpos
    have hc2 := (mem_run_handler_handled chosen channels [] c).mp hc
    rcases hc2 with h | ⟨h1, h2⟩
    · cases h
    · rw [hsole chosen hcm hcp hci ⟨c, h1, h2⟩]

/-- C13: take a batch whose channels all match the handler filters of a
handler `H` that has BypassApproval, no other handler of the registry
matching any of them. When the batch is inbound,
`_mcd_dispatcher_enter_state_machine` gives its context a dispatch operation
all the same. In `mcd_dispatcher_run_clients` and through every sequence of
events after it no approver is called, and the log of the context grows by
calls to observers followed by actions that are no calls to observers: every
ObserveChannels call comes before every HandleChannels call. The handler
`mcd_dispatcher_run_handler` selects for the batch, when the operation names
none, is `H`. -/
theorem C13_sole_handler_bypasses_approval (priv : McdDispatcherPrivate)
    (context : McdDispatcherContext) (handler : McdClient) (events : List PipelineEvent)
    (hmem : handler ∈ priv.clients) (hproxy : handler.proxy = true)
    (himpl : handler.implements MCD_CLIENT_HANDLER = true)
    (hbypass : handler.bypass_approver = true)
    (hne : context.channels ≠ [])
    (hall : ∀ channel ∈ context.channels,
      match_filters channel handler.handler_filters ≠ 0)
    (hsole : ∀ client ∈ priv.clients, client.proxy = true →
      client.implements MCD_CLIENT_HANDLER = true →
      (∃ channel ∈ context.channels, match_filters channel client.handler_filters ≠ 0) →
      client = handler) :
    (∀ (first : McdChannel) (rest : List McdChannel) (possible_handlers : List String)
        (account : String), context.channels = first :: rest →
      first.account = some account →
      ∃ created,
        (_mcd_dispatcher_enter_state_machine priv context.channels possible_handlers
          false).contexts = created :: priv.contexts ∧
        created.operation ≠ none) ∧
    add_dispatch_operation_count
        (pipeline_run priv (mcd_dispatcher_run_clients priv context) events).log
      = add_dispatch_operation_count context.log ∧
    (∃ observed later,
      (pipeline_run priv (mcd_dispatcher_run_clients priv context) events).log
        = context.log ++ observed ++ later ∧
      (∀ action ∈ observed, action.is_observe_channels = true) ∧
      (∀ action ∈ later, action.is_observe_channels = false)) ∧
    ((∀ operation, context.operation = some operation → operation.handler = none) →
      (run_handler_choice priv context context.channels).handler = some handler) := by
  have hcan : handlers_can_bypass_approval priv context.channels = true := by
    rw [handlers_can_bypass_approval_iff]
    intro channel hch
    refine ⟨handler, ?_, hbypass⟩
    exact get_default_handler_sole priv.clients channel handler hmem hproxy himpl
      (hall channel hch)
      (fun client hc hp hi hm => hsole client hc hp hi ⟨channel, hch, hm⟩)
  have hskip : context.operation = none ∨ context.skip_approval = true ∨
      handlers_can_bypass_approval priv context.channels = true := Or.inr (Or.inr hcan)
  refine ⟨?_, ?_, ?_, ?_⟩
  · intro first rest possible_handlers account hch haccount
    obtain ⟨created, h1, h2, _⟩ := enter_state_machine_operation priv first rest
      possible_handlers false account haccount
    refine ⟨created, by rw [hch]; exact h1, ?_⟩
    intro hnone
    rw [hnone] at h2
    cases h2
  · rw [pipeline_run_no_approver_call,
      run_clients_skipped_no_approver_call priv context hskip]
  · obtain ⟨⟨observed, ho1, ho2⟩, ⟨handled, hh1, hh2⟩, _⟩ :=
      run_clients_skipped_calls priv context hskip
    obtain ⟨after, ha1, ha2⟩ := pipeline_run_appends priv events
      (mcd_dispatcher_run_clients priv context)
    refine ⟨observed, handled ++ after, ?_, ho2, ?_⟩
    · rw [ha1, hh1, ho1]
      simp only [List.append_assoc]
    · intro action haction
      rcases List.mem_append.mp haction with h | h
      · exact after_clients_not_observe action
          (of_run_handlers_after_clients action (hh2 action h))
      · exact after_clients_not_observe action (ha2 action h)
  · exact run_handler_choice_sole priv context context.channels handler hmem hproxy himpl
      hne hall hsole

/-! ## Theorems: filter chain -/

theorem chain_add_filter_eq (chain : List McdFilter) (filter priority : Nat) :
    chain_add_filter chain filter priority
      = chain.takeWhile (fun elem => decide (elem.priority < priority))
        ++ { func := filter, priority := priority }
          :: chain.dropWhile (fun elem => decide (elem.priority < priority)) := by
  induction chain with
  | nil => rfl
  | cons elem rest ih =>
    simp only [chain_add_filter]
    by_cases h : elem.priority ≥ priority
    · have hlt : decide (elem.priority < priority) = false := by
        simp only [decide_eq_false_iff_not]; omega
      rw [if_pos h, List.takeWhile_cons, List.dropWhile_cons, hlt]
      rfl
    · have hlt : decide (elem.priority < priority) = true := by
        simp only [decide_eq_true_eq]; omega
      rw [if_neg h, List.takeWhile_cons, List.dropWhile_cons, hlt, ih]
      rfl

theorem chain_add_filter_sorted (chain : List McdFilter) (filter priority : Nat)
    (hsorted : chain_sorted chain) :
    chain_sorted (chain_add_filter chain filter priority) := by
  unfold chain_sorted at hsorted ⊢
  induction chain with
  | nil => simp [chain_add_filter]
  | cons elem rest ih =>
    simp only [chain_add_filter]
    rw [List.pairwise_cons] at hsorted
    by_cases h : elem.priority ≥ priority
    · rw [if_pos h, List.pairwise_cons]
      refine ⟨?_, List.pairwise_cons.mpr hsorted⟩
      intro other hmem
      rcases List.mem_cons.mp hmem with h1 | h1
      · rw [h1]; exact h
      · have := hsorted.1 other h1
        show priority ≤ other.priority
        omega
    · rw [if_neg h, List.pairwise_cons]
      refine ⟨?_, ih hsorted.2⟩
      intro other hmem
      rw [chain_add_filter_eq] at hmem
      rcases List.mem_append.mp hmem with h1 | h1
      · exact hsorted.1 other ((List.takeWhile_sublist _).subset h1)
      · rcases List.mem_cons.mp h1 with h2 | h2
        · rw [h2]
          show elem.priority ≤ priority
          omega
        · exact hsorted.1 other ((List.dropWhile_sublist _).subset h2)

theorem add_filter_calls_sorted (calls : List (Nat × Nat)) :
    ∀ priv : McdDispatcherPrivate, chain_sorted priv.filters →
      chain_sorted (calls.foldl
        (fun priv call => mcd_dispatcher_add_filter priv call.1 call.2) priv).filters := by
  induction calls with
  | nil => intro priv h; exact h
  | cons call rest ih =>
    intro priv h
    simp only [List.foldl_cons]
    apply ih
    exact chain_add_filter_sorted priv.filters call.1 call.2 h

/-- C28: for a chain in the order of its priorities, `chain_add_filter` gives
a chain in the order of its priorities. The new chain is the old one with the
new filter put in: first the old filters of lower priority that come before
any other, then the new filter, then the rest of the old chain, so that the
old filters keep their order and every old filter whose priority is not lower
than the new one comes after the new filter. The chain that any sequence of
`mcd_dispatcher_add_filter` calls builds on a sorted chain, the empty chain of
a new dispatcher included, is sorted. -/
theorem C28_chain_add_filter_sorted (priv : McdDispatcherPrivate) (filter priority : Nat)
    (calls : List (Nat × Nat)) (hsorted : chain_sorted priv.filters) :
    chain_sorted (chain_add_filter priv.filters filter priority) ∧
    chain_add_filter priv.filters filter priority
      = priv.filters.takeWhile (fun elem => decide (elem.priority < priority))
        ++ { func := filter, priority := priority }
          :: priv.filters.dropWhile (fun elem => decide (elem.priority < priority)) ∧
    priv.filters.takeWhile (fun elem => decide (elem.priority < priority))
        ++ priv.filters.dropWhile (fun elem => decide (elem.priority < priority))
      = priv.filters ∧
    (∀ elem ∈ priv.filters.takeWhile (fun elem => decide (elem.priority < priority)),
      elem.priority < priority) ∧
    (∀ elem ∈ priv.filters.dropWhile (fun elem => decide (elem.priority < priority)),
      priority ≤ elem.priority) ∧
    chain_sorted (calls.foldl
      (fun priv call => mcd_dispatcher_add_filter priv call.1 call.2) priv).filters ∧
    chain_sorted (calls.foldl
      (fun priv call => mcd_dispatcher_add_filter priv call.1 call.2)
      mcd_dispatcher_init).filters := by
  refine ⟨chain_add_filter_sorted _ _ _ hsorted, chain_add_filter_eq _ _ _,
    List.takeWhile_append_dropWhile _ _, ?_, ?_, add_filter_calls_sorted calls priv hsorted,
    add_filter_calls_sorted calls mcd_dispatcher_init List.Pairwise.nil⟩
  · intro elem hmem
    have := List.mem_takeWhile_imp hmem
    simpa using this
  · intro elem hmem
    have hsub : elem ∈ chain_add_filter priv.filters filter priority := by
      rw [chain_add_filter_eq]
      exact List.mem_append_right _ (List.mem_cons_of_mem _ hmem)
    have hs := chain_add_filter_sorted priv.filters filter priority hsorted
    unfold chain_sorted at hs
    rw [chain_add_filter_eq, List.pairwise_append] at hs
    have := (List.pairwise_cons.mp hs.2.1).1 elem hmem
    exact this

/-! ## Theorems: the loop of the handlers ends -/

theorem run_handlers_calls_le (priv : McdDispatcherPrivate) (fuel : Nat) :
    ∀ (context : McdDispatcherContext) (channels : List McdChannel),
      mcd_dispatcher_run_handlers_calls priv fuel context channels ≤ channels.length := by
  induction fuel with
  | zero => intro context channels; simp [mcd_dispatcher_run_handlers_calls]
  | succ fuel ih =>
    intro context channels
    simp only [mcd_dispatcher_run_handlers_calls]
    split
    · omega
    · rename_i hne
      have hpos : 0 < channels.length := List.length_pos.mpr hne
      split
      · omega
      · have := ih (mcd_dispatcher_run_handler priv context channels).1
          (mcd_dispatcher_run_handler priv context channels).2
        omega

theorem run_handlers_calls_fuel_enough (priv : McdDispatcherPrivate) (fuel : Nat) :
    ∀ (context : McdDispatcherContext) (channels : List McdChannel),
      channels.length ≤ fuel →
      mcd_dispatcher_run_handlers_calls priv fuel context channels
        = mcd_dispatcher_run_handlers_calls priv channels.length context channels := by
  induction fuel using Nat.strong_induction_on with
  | _ fuel ih =>
    intro context channels hlen
    cases channels with
    | nil =>
      cases fuel with
      | zero => rfl
      | succ f => simp [mcd_dispatcher_run_handlers_calls]
    | cons ch rest =>
      cases fuel with
      | zero => simp at hlen
      | succ f =>
        simp only [mcd_dispatcher_run_handlers_calls, List.length_cons]
        split
        · rfl
        · split
          · rfl
          · rename_i hlt
            simp only [List.length_cons] at hlt hlen
            have h1 : (mcd_dispatcher_run_handler priv context (ch :: rest)).2.length ≤ f := by
              omega
            have h2 : (mcd_dispatcher_run_handler priv context (ch :: rest)).2.length
                ≤ rest.length := by omega
            rw [ih f (by omega) _ _ h1]
            by_cases hf : rest.length < f + 1
            · rw [ih rest.length hf _ _ h2]
            · have : rest.length = f + 1 := by omega
              omega

/-- C27: the loop of `mcd_dispatcher_run_handlers` ends. A round on an empty
list does nothing; a round on channels calls `mcd_dispatcher_run_handler` once
and either stops with the warning, when the unhandled channels are not fewer
than the channels it started with, or goes on with the unhandled channels,
which are fewer. So as many rounds as there are channels are enough: with
more rounds allowed the loop gives the same context and makes the same number
of calls, and that number is at most the number of channels. -/
theorem C27_run_handlers_terminates (priv : McdDispatcherPrivate)
    (context : McdDispatcherContext) (channels : List McdChannel) (fuel extra : Nat) :
    mcd_dispatcher_run_handlers_loop priv (channels.length + extra) context channels
      = mcd_dispatcher_run_handlers_loop priv channels.length context channels ∧
    mcd_dispatcher_run_handlers_calls priv (channels.length + extra) context channels
      = mcd_dispatcher_run_handlers_calls priv channels.length context channels ∧
    mcd_dispatcher_run_handlers_calls priv fuel context channels ≤ channels.length ∧
    mcd_dispatcher_run_handlers_loop priv (fuel + 1) context []  = context ∧
    mcd_dispatcher_run_handlers_calls priv (fuel + 1) context [] = 0 ∧
    (channels ≠ [] →
      (mcd_dispatcher_run_handler priv context channels).2.length ≥ channels.length →
      mcd_dispatcher_run_handlers_loop priv (fuel + 1) context channels
        = { (mcd_dispatcher_run_handler priv context channels).1 with
            log := (mcd_dispatcher_run_handler priv context channels).1.log ++
              [Action.warning "Number of unhandled channels not decreasing!"] } ∧
      mcd_dispatcher_run_handlers_calls priv (fuel + 1) context channels = 1) ∧
    (channels ≠ [] →
      (mcd_dispatcher_run_handler priv context channels).2.length < channels.length →
      mcd_dispatcher_run_handlers_loop priv (fuel + 1) context channels
        = mcd_dispatcher_run_handlers_loop priv fuel
            (mcd_dispatcher_run_handler priv context channels).1
            (mcd_dispatcher_run_handler priv context channels).2 ∧
      mcd_dispatcher_run_handlers_calls priv (fuel + 1) context channels
        = 1 + mcd_dispatcher_run_handlers_calls priv fuel
            (mcd_dispatcher_run_handler priv context channels).1
            (mcd_dispatcher_run_handler priv context channels).2) ∧
    mcd_dispatcher_run_handlers priv context
      = mcd_dispatcher_run_handlers_loop priv (context.channels.length + extra)
          { context with log := context.log ++ [Action.run_handlers] } context.channels := by
  refine ⟨run_handlers_loop_fuel_enough priv _ context channels (by omega),
    run_handlers_calls_fuel_enough priv _ context channels (by omega),
    run_handlers_calls_le priv fuel context channels, ?_, ?_, ?_, ?_, ?_⟩
  · simp [mcd_dispatcher_run_handlers_loop]
  · simp [mcd_dispatcher_run_handlers_calls]
  · intro hne hge
    simp only [mcd_dispatcher_run_handlers_loop, mcd_dispatcher_run_handlers_calls]
    rw [if_neg hne, if_pos hge, if_neg hne, if_pos hge]
    exact ⟨rfl, rfl⟩
  · intro hne hlt
    have hge : ¬ (mcd_dispatcher_run_handler priv context channels).2.length
        ≥ channels.length := by omega
    simp only [mcd_dispatcher_run_handlers_loop, mcd_dispatcher_run_handlers_calls]
    rw [if_neg hne, if_neg hge, if_neg hne, if_neg hge]
    exact ⟨rfl, rfl⟩
  · unfold mcd_dispatcher_run_handlers
    exact (run_handlers_loop_fuel_enough priv _ _ context.channels (by omega)).symm

/-! ## Theorems: channels handed over and channels left -/

theorem run_handler_handled_eq (client : McdClient) (channels acc : List McdChannel) :
    run_handler_handled client channels acc
      = (channels.filter (fun channel =>
          decide (match_filters channel client.handler_filters ≠ 0))).reverse ++ acc := by
  induction channels generalizing acc with
  | nil => rfl
  | cons ch rest ih =>
    simp only [run_handler_handled]
    by_cases hm : match_filters ch client.handler_filters ≠ 0
    · rw [if_pos hm, ih, List.filter_cons]
      simp [hm]
    · rw [if_neg hm, ih, List.filter_cons]
      simp [hm]

theorem run_handler_unhandled_eq (handled_best channels acc : List McdChannel) :
    run_handler_unhandled handled_best channels acc
      = (channels.filter (fun channel =>
          handled_best.all (fun handled => handled.id != channel.id))).reverse ++ acc := by
  induction channels generalizing acc with
  | nil => rfl
  | cons ch rest ih =>
    simp only [run_handler_unhandled]
    by_cases hm : handled_best.all (fun handled => handled.id != ch.id) = true
    · rw [if_pos hm, ih, List.filter_cons, hm]
      simp
    · rw [if_neg hm, ih, List.filter_cons]
      simp only [Bool.not_eq_true] at hm
      rw [hm]
      simp

theorem run_handler_select_handled (approved : Option String) (channels : List McdChannel)
    (clients : List McdClient) (best : HandlerChoice)
    (hbest : ∀ handler, best.handler = some handler →
      best.handled_best = run_handler_handled handler channels []) :
    ∀ handler, (run_handler_select approved channels clients best).handler = some handler →
      (run_handler_select approved channels clients best).handled_best
        = run_handler_handled handler channels [] := by
  induction clients generalizing best with
  | nil => simpa [run_handler_select] using hbest
  | cons client rest ih =>
    simp only [run_handler_select]
    have hnew : ∀ handler,
        ({ handler := some client, handled_best := run_handler_handled client channels [],
           num_channels_best := ((run_handler_handled client channels []).length : Int) }
          : HandlerChoice).handler = some handler →
        ({ handler := some client, handled_best := run_handler_handled client channels [],
           num_channels_best := ((run_handler_handled client channels []).length : Int) }
          : HandlerChoice).handled_best = run_handler_handled handler channels [] := by
      intro handler hh
      simp only [Option.some.injEq] at hh
      subst hh
      rfl
    split
    · exact ih best hbest
    · split
      · split
        · exact hnew
        · exact ih _ hnew
      · exact ih best hbest

theorem run_handler_select_no_handler (approved : Option String) (channels : List McdChannel)
    (clients : List McdClient) (best : HandlerChoice)
    (hnone : ∀ client ∈ clients,
      client.proxy = false ∨ client.implements MCD_CLIENT_HANDLER = false) :
    run_handler_select approved channels clients best = best := by
  induction clients generalizing best with
  | nil => rfl
  | cons client rest ih =>
    simp only [run_handler_select]
    have hskip : (!client.proxy || !client.implements MCD_CLIENT_HANDLER) = true := by
      rcases hnone client (List.mem_cons_self _ _) with h | h <;> simp [h]
    rw [if_pos hskip]
    exact ih best (fun c hc => hnone c (List.mem_cons_of_mem _ hc))

theorem unhandled_of_distinct (channels : List McdChannel) (p : McdChannel → Bool)
    (hdistinct : channels_distinct channels) :
    channels.filter (fun channel =>
        ((channels.filter p).reverse).all (fun handled => handled.id != channel.id))
      = channels.filter (fun channel => !p channel) := by
  apply List.filter_congr
  intro c hc
  cases hp : p c with
  | true =>
    simp only [Bool.not_true, List.all_eq_false]
    refine ⟨c, ?_, by simp⟩
    rw [List.mem_reverse]
    exact List.mem_filter.mpr ⟨hc, hp⟩
  | false =>
    simp only [Bool.not_false, List.all_eq_true]
    intro h hh
    rw [List.mem_reverse] at hh
    have hmem := List.mem_filter.mp hh
    simp only [bne_iff_ne, ne_eq]
    intro hid
    have heq := channels_distinct_eq_of_id channels hdistinct h c hmem.1 hc hid
    rw [heq, hp] at hmem
    exact Bool.noConfusion hmem.2

theorem filter_length_add (channels : List McdChannel) (p : McdChannel → Bool) :
    (channels.filter p).length + (channels.filter (fun channel => !p channel)).length
      = channels.length := by
  induction channels with
  | nil => rfl
  | cons ch rest ih =>
    simp only [List.filter_cons]
    cases hp : p ch <;> simp <;> omega

/-- C30: for channels that are distinct objects and a handler that
`mcd_dispatcher_run_handler` selects, the channels handed to the handler are
the channels of the input that the handler's filters match and the unhandled
channels returned are the other channels of the input, both in the reverse of
their order in the input: every channel of the input is in one of the two
lists and not in the other, the two lists together are as long as the input,
and no other channel is in them. When no client of the registry has its proxy
and the Handler interface, nothing is called and the list returned is
empty. -/
theorem C30_run_handler_partition (priv : McdDispatcherPrivate)
    (context : McdDispatcherContext) (channels : List McdChannel) (handler : McdClient)
    (hdistinct : channels_distinct channels)
    (hsel : (run_handler_choice priv context channels).handler = some handler) :
    (run_handler_choice priv context channels).handled_best
      = (channels.filter (fun channel =>
          decide (match_filters channel handler.handler_filters ≠ 0))).reverse ∧
    (mcd_dispatcher_run_handler priv context channels).2
      = (channels.filter (fun channel =>
          !decide (match_filters channel handler.handler_filters ≠ 0))).reverse ∧
    (mcd_dispatcher_run_handler priv context channels).1
      = mcd_dispatcher_handle_channels context
          (run_handler_choice priv context channels).handled_best handler ∧
    (∀ channel ∈ channels,
      (channel ∈ (run_handler_choice priv context channels).handled_best ∧
        channel ∉ (mcd_dispatcher_run_handler priv context channels).2) ∨
      (channel ∉ (run_handler_choice priv context channels).handled_best ∧
        channel ∈ (mcd_dispatcher_run_handler priv context channels).2)) ∧
    (∀ channel, channel ∈ (run_handler_choice priv context channels).handled_best ∨
        channel ∈ (mcd_dispatcher_run_handler priv context channels).2 →
      channel ∈ channels) ∧
    (run_handler_choice priv context channels).handled_best.length
        + (mcd_dispatcher_run_handler priv context channels).2.length
      = channels.length ∧
    ((∀ client ∈ priv.clients,
        client.proxy = false ∨ client.implements MCD_CLIENT_HANDLER = false) →
      ∀ (other : McdDispatcherContext) (batch : List McdChannel),
        mcd_dispatcher_run_handler priv other batch = (other, [])) := by
  have hhandled : (run_handler_choice priv context channels).handled_best
      = (channels.filter (fun channel =>
          decide (match_filters channel handler.handler_filters ≠ 0))).reverse := by
    have h : ∀ chosen, (run_handler_choice priv context channels).handler = some chosen →
        (run_handler_choice priv context channels).handled_best
          = run_handler_handled chosen channels [] := by
      unfold run_handler_choice
      exact run_handler_select_handled _ channels priv.clients _ (fun _ hh => by cases hh)
    rw [h handler hsel, run_handler_handled_eq, List.append_nil]
  have hun : (mcd_dispatcher_run_handler priv context channels).2
      = (channels.filter (fun channel =>
          !decide (match_filters channel handler.handler_filters ≠ 0))).reverse := by
    unfold mcd_dispatcher_run_handler
    dsimp only
    rw [hsel]
    dsimp only
    rw [run_handler_unhandled_eq, List.append_nil, hhandled,
      unhandled_of_distinct channels _ hdistinct]
  refine ⟨hhandled, hun, ?_, ?_, ?_, ?_, ?_⟩
  · unfold mcd_dispatcher_run_handler
    dsimp only
    rw [hsel]
  · intro channel hch
    rw [hhandled, hun]
    simp only [List.mem_reverse, List.mem_filter]
    by_cases hm : match_filters channel handler.handler_filters ≠ 0
    · left
      exact ⟨⟨hch, by simpa using hm⟩, fun h => by simp [hm] at h⟩
    · right
      exact ⟨fun h => by simp [hm] at h, ⟨hch, by simpa using hm⟩⟩
  · intro channel hch
    rw [hhandled, hun] at hch
    simp only [List.mem_reverse, List.mem_filter] at hch
    rcases hch with h | h <;> exact h.1
  · rw [hhandled, hun, List.length_reverse, List.length_reverse]
    exact filter_length_add channels _
  · intro hnone other batch
    have hchoice : run_handler_choice priv other batch
        = { handler := none, handled_best := [], num_channels_best := 0 } := by
      unfold run_handler_choice
      exact run_handler_select_no_handler _ batch priv.clients _ hnone
    unfold mcd_dispatcher_run_handler
    dsimp only
    rw [hchoice]

/-! ## Theorems: filter walker and abort -/

theorem context_abort_channel_effect (error : GError) (channel : McdChannel)
    (context : McdDispatcherContext) :
    (_mcd_dispatcher_context_abort_channel error channel context).log
      = context.log
        ++ [Action.mission_abort channel.id (some (channel.error.getD error))] ∧
    (_mcd_dispatcher_context_abort_channel error channel context).freed_link_next
      = context.freed_link_next ∧
    (_mcd_dispatcher_context_abort_channel error channel context).next_func_index
      = context.next_func_index ∧
    (_mcd_dispatcher_context_abort_channel error channel context).client_locks
      = context.client_locks := by
  unfold _mcd_dispatcher_context_abort_channel
  cases herr : channel.error with
  | none =>
    refine ⟨?_, rfl, rfl, rfl⟩
    simp [mcd_mission_abort, on_channel_abort_context, take_error_in_context,
      mcd_channel_take_error]
  | some e =>
    refine ⟨?_, rfl, rfl, rfl⟩
    simp [mcd_mission_abort, on_channel_abort_context, herr]

theorem context_abort_channel_channels (error : GError) (channel head : McdChannel)
    (tail : List McdChannel) (context : McdDispatcherContext)
    (hctx : context.channels = head :: tail) (hhead : head.id = channel.id) :
    (_mcd_dispatcher_context_abort_channel error channel context).channels.map
        (fun channel => channel.id)
      = tail.map (fun channel => channel.id) := by
  unfold _mcd_dispatcher_context_abort_channel
  cases herr : channel.error with
  | none =>
    simp only [mcd_mission_abort, on_channel_abort_context, take_error_in_context, hctx,
      List.map_cons, mcd_channel_take_error, g_list_remove_channel]
    rw [if_pos hhead, if_pos hhead, List.map_map]
    apply List.map_congr_left
    intro c _
    simp only [Function.comp]
    split_ifs <;> rfl
  | some e =>
    simp only [mcd_mission_abort, on_channel_abort_context, hctx, g_list_remove_channel]
    rw [if_pos hhead]

theorem context_abort_loop_appends (error : GError) (channels : List McdChannel) :
    ∀ context : McdDispatcherContext,
      appends Action.of_handler_reply context
        (_mcd_dispatcher_context_abort_loop error channels context) := by
  induction channels with
  | nil => intro context; exact appends_refl _ _
  | cons channel rest ih =>
    intro context
    have hstep : appends Action.of_handler_reply context
        (_mcd_dispatcher_context_abort_channel error channel context) :=
      appends_single (Action.mission_abort channel.id (some (channel.error.getD error)))
        (context_abort_channel_effect error channel context).1 rfl
    simp only [_mcd_dispatcher_context_abort_loop]
    split
    · exact appends_trans hstep (ih _)
    · exact hstep

theorem context_abort_loop_cleared (error : GError) (channel : McdChannel)
    (rest : List McdChannel) (context : McdDispatcherContext)
    (hfreed : context.freed_link_next = FreedLinkRead.cleared) :
    _mcd_dispatcher_context_abort_loop error (channel :: rest) context
      = _mcd_dispatcher_context_abort_channel error channel context := by
  simp only [_mcd_dispatcher_context_abort_loop]
  rw [(context_abort_channel_effect error channel context).2.1, hfreed]

theorem context_abort_loop_stale (error : GError) (channels : List McdChannel) :
    ∀ context : McdDispatcherContext,
      context.freed_link_next = FreedLinkRead.stale →
      context.channels.map (fun channel => channel.id)
        = channels.map (fun channel => channel.id) →
      (_mcd_dispatcher_context_abort_loop error channels context).log
        = context.log ++ channels.map (fun channel =>
            Action.mission_abort channel.id (some (channel.error.getD error))) ∧
      (_mcd_dispatcher_context_abort_loop error channels context).channels = [] ∧
      (_mcd_dispatcher_context_abort_loop error channels context).next_func_index
        = context.next_func_index := by
  induction channels with
  | nil =>
    intro context _ hsame
    simp only [_mcd_dispatcher_context_abort_loop, List.map_nil, List.append_nil]
    simpa using hsame
  | cons channel rest ih =>
    intro context hfreed hsame
    cases hctx : context.channels with
    | nil => rw [hctx] at hsame; simp at hsame
    | cons head tail =>
      rw [hctx] at hsame
      simp only [List.map_cons, List.cons.injEq] at hsame
      obtain ⟨hlog, hkeep, hindex, _⟩ := context_abort_channel_effect error channel context
      have hchannels := context_abort_channel_channels error channel head tail context hctx
        hsame.1
      obtain ⟨h1, h2, h3⟩ := ih (_mcd_dispatcher_context_abort_channel error channel context)
        (hkeep.trans hfreed) (hchannels.trans hsame.2)
      simp only [_mcd_dispatcher_context_abort_loop]
      rw [hkeep, hfreed]
      refine ⟨?_, h2, h3.trans hindex⟩
      rw [h1, hlog, List.append_assoc]
      rfl

theorem context_process_rounds_filters (priv : McdDispatcherPrivate) (rounds : Nat) :
    ∀ context : McdDispatcherContext, context.cancelled = false →
      context.next_func_index + rounds ≤ context.chain.length →
      context_process_rounds priv rounds context
        = { context with
            next_func_index := context.next_func_index + rounds
            log := context.log ++
              ((context.chain.drop context.next_func_index).take rounds).map
                (fun filter => Action.filter_func filter.func) } := by
  induction rounds with
  | zero =>
    intro context _ _
    simp [context_process_rounds]
  | succ rounds ih =>
    intro context hlive hlen
    have hlt : context.next_func_index < context.chain.length := by omega
    have hget : context.chain.get? context.next_func_index
        = some (context.chain.get ⟨context.next_func_index, hlt⟩) := List.get?_eq_get hlt
    have hstep : mcd_dispatcher_context_process priv context true
        = { context with
            next_func_index := context.next_func_index + 1
            log := context.log ++
              [Action.filter_func (context.chain.get ⟨context.next_func_index, hlt⟩).func] } := by
      unfold mcd_dispatcher_context_process
      have hcond : (true && !context.cancelled) = true := by rw [hlive]; rfl
      rw [if_pos hcond, hget]
    simp only [context_process_rounds]
    have hrest := ih (mcd_dispatcher_context_process priv context true)
      (by rw [hstep]; exact hlive) (by rw [hstep]; dsimp only; omega)
    rw [hrest, hstep]
    dsimp only
    have hdrop : context.chain.drop context.next_func_index
        = context.chain.get ⟨context.next_func_index, hlt⟩
          :: context.chain.drop (context.next_func_index + 1) :=
      List.drop_eq_getElem_cons hlt
    rw [hdrop, List.take_succ_cons, List.map_cons, List.append_assoc]
    have hadd : context.next_func_index + 1 + rounds
        = context.next_func_index + (rounds + 1) := by omega
    rw [hadd]
    rfl

/-- C29: a call of `mcd_dispatcher_context_process` with a failure, or on a
cancelled context, does nothing but abort through
`_mcd_dispatcher_context_abort`, with Cancelled for a cancelled context and
NotAvailable otherwise; and a call with a success on a context that is not
cancelled runs the next filter of the chain, or `mcd_dispatcher_run_clients`
when the chain is exhausted, so that as many successes as the chain has
filters run all of them in the order of the chain. The abort loop, however, reads the link it stands
on after the abort of its channel has freed it. When that read gives the
`NULL` stored in the link, the loop ends after the first channel: that channel
alone is aborted (with its own error if it had one, with the given error
otherwise) and the other channels stay in the context. Only when the read
still gives the old successor is every channel aborted and the context left
without channels. On the example, the failure of the filter aborts the first
channel and leaves the second in the context. -/
theorem C29_abort_stops_at_the_freed_link (priv : McdDispatcherPrivate)
    (context : McdDispatcherContext) (result : Bool) (error : GError)
    (first : McdChannel) (rest : List McdChannel) :
    mcd_dispatcher_context_process priv context false
      = _mcd_dispatcher_context_abort context
          (if context.cancelled then { code := TP_ERROR_CANCELLED }
           else { code := TP_ERROR_NOT_AVAILABLE }) ∧
    mcd_dispatcher_context_process priv { context with cancelled := true } result
      = _mcd_dispatcher_context_abort { context with cancelled := true }
          { code := TP_ERROR_CANCELLED } ∧
    mcd_dispatcher_context_process priv { context with cancelled := false } true
      = (match context.chain.get? context.next_func_index with
         | some filter =>
           { context with
             cancelled := false
             next_func_index := context.next_func_index + 1
             log := context.log ++ [Action.filter_func filter.func] }
         | none => mcd_dispatcher_run_clients priv { context with cancelled := false }) ∧
    context_process_rounds priv context.chain.length
        { context with cancelled := false, next_func_index := 0 }
      = { context with
          cancelled := false
          next_func_index := context.chain.length
          log := context.log
            ++ context.chain.map (fun filter => Action.filter_func filter.func) } ∧
    (_mcd_dispatcher_context_abort
        { context with channels := first :: rest, freed_link_next := FreedLinkRead.cleared }
        error).log
      = context.log ++ [Action.mission_abort first.id (some (first.error.getD error))] ∧
    (_mcd_dispatcher_context_abort
        { context with channels := first :: rest, freed_link_next := FreedLinkRead.cleared }
        error).channels.map (fun channel => channel.id)
      = rest.map (fun channel => channel.id) ∧
    (_mcd_dispatcher_context_abort
        { context with freed_link_next := FreedLinkRead.stale } error).log
      = context.log ++ context.channels.map (fun channel =>
          Action.mission_abort channel.id (some (channel.error.getD error))) ∧
    (_mcd_dispatcher_context_abort
        { context with freed_link_next := FreedLinkRead.stale } error).channels = [] ∧
    (mcd_dispatcher_context_process (example_priv []) filtering_context false).log
      = [Action.filter_func 10,
         Action.mission_abort 1 (some { code := TP_ERROR_CANCELLED })] ∧
    (mcd_dispatcher_context_process (example_priv []) filtering_context false).channels
      = [example_channel 2] := by
  refine ⟨?_, ?_, ?_, ?_, ?_, ?_, ?_, ?_, ?_, ?_⟩
  · unfold mcd_dispatcher_context_process
    rw [if_neg (by simp)]
  · unfold mcd_dispatcher_context_process
    rw [if_neg (by simp)]
    rfl
  · unfold mcd_dispatcher_context_process
    rw [if_pos (by simp)]
  · rw [context_process_rounds_filters priv context.chain.length
      { context with cancelled := false, next_func_index := 0 } rfl
      (by show 0 + context.chain.length ≤ context.chain.length; omega)]
    simp
  · unfold _mcd_dispatcher_context_abort
    rw [context_abort_loop_cleared error first rest _ rfl]
    exact (context_abort_channel_effect error first _).1
  · unfold _mcd_dispatcher_context_abort
    rw [context_abort_loop_cleared error first rest _ rfl]
    exact context_abort_channel_channels error first first rest _ rfl rfl
  · unfold _mcd_dispatcher_context_abort
    exact (context_abort_loop_stale error context.channels
      { context with freed_link_next := FreedLinkRead.stale } rfl rfl).1
  · unfold _mcd_dispatcher_context_abort
    exact (context_abort_loop_stale error context.channels
      { context with freed_link_next := FreedLinkRead.stale } rfl rfl).2.1
  · decide
  · decide

/-! ## Theorems: filter lists fetched over the bus -/

theorem get_channel_filter_value_none (property_value : GValue) :
    get_channel_filter_value property_value = none
      ↔ ∃ type_name, property_value = GValue.other type_name := by
  cases property_value <;> simp [get_channel_filter_value]

theorem get_channel_filter_class_invalid (channel_class : GHashTable) :
    ∀ new_channel_class : GHashTable,
      (∃ entry ∈ channel_class, get_channel_filter_value entry.2 = none) →
      get_channel_filter_class channel_class new_channel_class = none := by
  induction channel_class with
  | nil => intro _ h; obtain ⟨_, hmem, _⟩ := h; cases hmem
  | cons entry rest ih =>
    intro new_channel_class h
    obtain ⟨property_name, property_value⟩ := entry
    cases hvalue : get_channel_filter_value property_value with
    | none => simp only [get_channel_filter_class, hvalue]
    | some filter_value =>
      simp only [get_channel_filter_class, hvalue]
      apply ih
      obtain ⟨bad, hmem, hbad⟩ := h
      rcases List.mem_cons.mp hmem with heq | hrest
      · subst heq
        rw [hvalue] at hbad
        cases hbad
      · exact ⟨bad, hrest, hbad⟩

theorem get_channel_filter_class_valid (channel_class : GHashTable) :
    ∀ new_channel_class : GHashTable,
      (∀ entry ∈ channel_class, get_channel_filter_value entry.2 ≠ none) →
      ((new_channel_class ++ channel_class).map Prod.fst).Nodup →
      get_channel_filter_class channel_class new_channel_class
        = some (new_channel_class ++ channel_class.map (fun entry =>
            (entry.1, (get_channel_filter_value entry.2).getD entry.2))) := by
  induction channel_class with
  | nil => intro new_channel_class _ _; simp [get_channel_filter_class]
  | cons entry rest ih =>
    intro new_channel_class hvalid hkeys
    obtain ⟨property_name, property_value⟩ := entry
    cases hvalue : get_channel_filter_value property_value with
    | none => exact absurd hvalue (hvalid _ (List.mem_cons_self _ _))
    | some filter_value =>
      simp only [get_channel_filter_class, hvalue]
      have hfresh : new_channel_class.filter (fun x => x.1 != property_name)
          = new_channel_class := by
        apply List.filter_eq_self.mpr
        intro x hx
        simp only [List.map_append, List.map_cons, List.nodup_append, List.nodup_cons] at hkeys
        have hne : x.1 ≠ property_name := by
          intro heq
          exact hkeys.2.2 (List.mem_map_of_mem Prod.fst hx) (by rw [heq]; exact List.mem_cons_self _ _)
        simpa using hne
      have hinsert : g_hash_table_insert new_channel_class property_name filter_value
          = new_channel_class ++ [(property_name, filter_value)] := by
        unfold g_hash_table_insert
        rw [hfresh]
      rw [hinsert, ih _ (fun e he => hvalid e (List.mem_cons_of_mem _ he))
        (by simpa [List.append_assoc] using hkeys)]
      simp [List.append_assoc, hvalue]

theorem get_channel_filter_loop_eq (filters : List GHashTable) :
    ∀ client_filters : List GHashTable,
      get_channel_filter_loop filters client_filters
        = (filters.filterMap (fun channel_class =>
            get_channel_filter_class channel_class [])).reverse ++ client_filters := by
  induction filters with
  | nil => intro _; rfl
  | cons channel_class rest ih =>
    intro client_filters
    cases hclass : get_channel_filter_class channel_class [] with
    | none => simp only [get_channel_filter_loop, hclass, ih, List.filterMap_cons]
    | some new_channel_class =>
      simp only [get_channel_filter_loop, hclass, ih, List.filterMap_cons, List.reverse_cons,
        List.append_assoc, List.singleton_append]

/-- C22 (amended): the reply of `get_channel_filter_cb` prepends to the filter
list of the client, in turn, every filter of the reply that is valid, and
nothing else of the client is touched. A filter in which some property has a
value of a type that is not supported is not valid and is dropped as a whole,
with all its other entries; a filter in which every value has a supported
type is added with every one of its properties, each value converted to the
variant of its type. -/
theorem C22_invalid_filter_is_dropped (client_filters filters : List GHashTable) :
    get_channel_filter_cb client_filters (some filters)
      = (filters.filterMap (fun channel_class =>
          get_channel_filter_class channel_class [])).reverse ++ client_filters ∧
    ∀ channel_class : GHashTable,
      ((∃ entry ∈ channel_class, ∃ type_name, entry.2 = GValue.other type_name) →
        get_channel_filter_class channel_class [] = none) ∧
      ((∀ entry ∈ channel_class, ∀ type_name, entry.2 ≠ GValue.other type_name) →
        (channel_class.map Prod.fst).Nodup →
        get_channel_filter_class channel_class []
          = some (channel_class.map (fun entry =>
              (entry.1, (get_channel_filter_value entry.2).getD entry.2)))) := by
  refine ⟨get_channel_filter_loop_eq filters client_filters, ?_⟩
  intro channel_class
  refine ⟨?_, ?_⟩
  · intro h
    obtain ⟨entry, hmem, hother⟩ := h
    exact get_channel_filter_class_invalid channel_class []
      ⟨entry, hmem, (get_channel_filter_value_none _).mpr hother⟩
  · intro hvalid hkeys
    have h := get_channel_filter_class_valid channel_class []
      (fun entry hmem hnone => by
        obtain ⟨type_name, hother⟩ := (get_channel_filter_value_none _).mp hnone
        exact hvalid entry hmem type_name hother)
      (by simpa using hkeys)
    simpa using h

/-! ## Theorems: filters of a client file -/

theorem g_strrstr_space_last (c : Char) (hc : c.toNat ≠ 32) :
    ∀ name : List Char, g_strrstr_space (name ++ [' ', c]) = some (name, [c]) := by
  intro name
  induction name with
  | nil =>
    have hspace : (' ' : Char).toNat = 32 := by decide
    simp [g_strrstr_space, hc, hspace]
  | cons a rest ih =>
    show g_strrstr_space (a :: (rest ++ [' ', c])) = some (a :: rest, [c])
    rw [g_strrstr_space, ih]

theorem parse_client_filter_key_typed (name : String) (c : Char) (hc : c.toNat ≠ 32) :
    parse_client_filter_key (name ++ String.mk [' ', c]) = some (name, c) := by
  unfold parse_client_filter_key
  rw [String.data_append, g_strrstr_space_last c hc]

theorem parse_client_filter_entry_signed (file : GKeyFile) (group : String)
    (filter : GHashTable) (name : String) (c : Char)
    (hc : c = 'y' ∨ c = 'n' ∨ c = 'i' ∨ c = 'x') :
    parse_client_filter_entry file group filter (name ++ String.mk [' ', c])
      = (if (g_ascii_strtoll
            ((g_key_file_get_string file group (name ++ String.mk [' ', c])).getD "")).2
         then filter
         else g_hash_table_insert filter name (GValue.int64 0)) := by
  have hkey := parse_client_filter_key_typed name c
    (by rcases hc with h | h | h | h <;> rw [h] <;> decide)
  unfold parse_client_filter_entry
  rw [hkey]
  dsimp only
  rw [if_neg (by rcases hc with h | h | h | h <;> rw [h] <;> decide), if_pos hc]
  split_ifs <;> rfl

/-- C23: what `parse_client_filter` stores for the integer type codes. A key
of an unsigned code (here `t`, the 64-bit one) stores the parsed number
reduced modulo 2^32, the number going through a `guint`; a key of a code of
the signed branch, to which the byte code `y` belongs with `n`, `i` and `x`,
stores a signed-64 value that is 0 whatever the number is, the value being set
with `g_value_set_uint64`. On the example file the unsigned property of value
2^32 and the signed properties of values 5 and 200 all come out as 0. -/
theorem C23_integers_are_not_kept (file : GKeyFile) (group : String) (filter : GHashTable)
    (name : String) :
    parse_client_filter_entry file group filter (name ++ " t")
      = (if (g_ascii_strtoull ((g_key_file_get_string file group (name ++ " t")).getD "")).2
         then filter
         else g_hash_table_insert filter name (GValue.uint64
          ((g_ascii_strtoull
            ((g_key_file_get_string file group (name ++ " t")).getD "")).1 % 2 ^ 32))) ∧
    parse_client_filter_entry file group filter (name ++ " y")
      = (if (g_ascii_strtoll ((g_key_file_get_string file group (name ++ " y")).getD "")).2
         then filter
         else g_hash_table_insert filter name (GValue.int64 0)) ∧
    parse_client_filter_entry file group filter (name ++ " n")
      = (if (g_ascii_strtoll ((g_key_file_get_string file group (name ++ " n")).getD "")).2
         then filter
         else g_hash_table_insert filter name (GValue.int64 0)) ∧
    parse_client_filter_entry file group filter (name ++ " i")
      = (if (g_ascii_strtoll ((g_key_file_get_string file group (name ++ " i")).getD "")).2
         then filter
         else g_hash_table_insert filter name (GValue.int64 0)) ∧
    parse_client_filter_entry file group filter (name ++ " x")
      = (if (g_ascii_strtoll ((g_key_file_get_string file group (name ++ " x")).getD "")).2
         then filter
         else g_hash_table_insert filter name (GValue.int64 0)) ∧
    parse_client_filter example_filter_file
        "org.freedesktop.Telepathy.Client.Handler.HandlerChannelFilter 0"
      = [("Count", GValue.uint64 0), ("Level", GValue.int64 0), ("Small", GValue.int64 0),
         ("Name", GValue.string "Text")] := by
  refine ⟨?_, parse_client_filter_entry_signed file group filter name 'y' (Or.inl rfl),
    parse_client_filter_entry_signed file group filter name 'n' (Or.inr (Or.inl rfl)),
    parse_client_filter_entry_signed file group filter name 'i' (Or.inr (Or.inr (Or.inl rfl))),
    parse_client_filter_entry_signed file group filter name 'x' (Or.inr (Or.inr (Or.inr rfl))),
    ?_⟩
  · have hkey := parse_client_filter_key_typed name 't' (by decide)
    have hstr : name ++ String.mk [' ', 't'] = name ++ " t" := rfl
    rw [hstr] at hkey
    unfold parse_client_filter_entry
    rw [hkey]
    dsimp only
    rw [if_pos (Or.inr (Or.inr rfl))]
    split_ifs with herr
    · rfl
    · have hmod : ∀ n : Nat, n % 2 ^ 32 % 2 ^ 64 = n % 2 ^ 32 := fun n =>
        Nat.mod_eq_of_lt (by have := Nat.mod_lt n (show 0 < 2 ^ 32 by norm_num); omega)
      simp only [g_value_set_uint64, guint_of_guint64, hmod]
  · decide

/-! ## Theorems: AddRequest goes to the default handler -/

/-- C26 (amended): `_mcd_dispatcher_add_request` calls AddRequest on the
default handler of the channel, the first handler of the registry whose
filters match it, when that client implements the Requests interface, and on
no other client; the preferred handler of the request is only passed on in
the call and has no part in the choice. When the default handler lacks the
Requests interface, or when no handler matches the channel, no call is made.
Nothing but the call is done to the dispatcher. -/
theorem C26_add_request_default_handler (priv : McdDispatcherPrivate) (channel : McdChannel)
    (request_path : String) (preferred_handler : Option String) :
    (∀ handler, get_default_handler priv.clients channel = some handler →
      handler.implements MCD_CLIENT_INTERFACE_REQUESTS = true →
      _mcd_dispatcher_add_request priv channel request_path preferred_handler
        = { priv with
            log := priv.log ++
              [Action.add_request handler.name request_path preferred_handler] }) ∧
    (∀ handler, get_default_handler priv.clients channel = some handler →
      handler.implements MCD_CLIENT_INTERFACE_REQUESTS = false →
      _mcd_dispatcher_add_request priv channel request_path preferred_handler = priv) ∧
    (get_default_handler priv.clients channel = none →
      _mcd_dispatcher_add_request priv channel request_path preferred_handler = priv) := by
  refine ⟨?_, ?_, ?_⟩
  · intro handler hdefault himpl
    unfold _mcd_dispatcher_add_request
    rw [hdefault]
    simp [himpl]
  · intro handler hdefault himpl
    unfold _mcd_dispatcher_add_request
    rw [hdefault]
    simp [himpl]
  · intro hdefault
    unfold _mcd_dispatcher_add_request
    rw [hdefault]

/-! ## Theorems: the list of dispatch operations and its signals -/

theorem take_channels_preserves (P : McdDispatcherPrivate → Prop)
    (hund : ∀ priv channel, P priv → P (_mcd_channel_undispatchable priv channel))
    (henter : ∀ priv channels possible_handlers requested, P priv →
      P (_mcd_dispatcher_enter_state_machine priv channels possible_handlers requested))
    (priv : McdDispatcherPrivate) (channels : List McdChannel) (requested : Bool)
    (h : P priv) : P (_mcd_dispatcher_take_channels priv channels requested) := by
  have hone : ∀ (priv : McdDispatcherPrivate) (c : McdChannel), P priv →
      P (_mcd_dispatcher_take_channels priv [c] requested) := by
    intro priv c hp
    rw [take_channels_single]
    split
    · exact hund _ _ hp
    · exact henter _ _ _ _ hp
  have hfold : ∀ (l : List McdChannel) (priv : McdDispatcherPrivate), P priv →
      P (l.foldl (fun priv channel => _mcd_dispatcher_take_channels priv [channel] requested)
        priv) := by
    intro l
    induction l with
    | nil => intro priv hp; exact hp
    | cons c rest ih => intro priv hp; exact ih _ (hone priv c hp)
  match channels with
  | [] => rw [take_channels_nil]; exact h
  | [c] => exact hone priv c h
  | a :: b :: rest =>
    rw [take_channels_batch]
    split
    · exact hfold _ priv h
    · exact henter _ _ _ _ h

theorem new_names_cb_frame (descriptor : String → Option GKeyFile) (names : List String)
    (activatable : Bool) :
    ∀ priv : McdDispatcherPrivate,
      (new_names_cb descriptor priv names activatable).operation_list_active
        = priv.operation_list_active ∧
      (new_names_cb descriptor priv names activatable).contexts = priv.contexts ∧
      (new_names_cb descriptor priv names activatable).log = priv.log ∧
      (new_names_cb descriptor priv names activatable).filters = priv.filters := by
  induction names with
  | nil => intro priv; exact ⟨rfl, rfl, rfl, rfl⟩
  | cons name rest ih =>
    intro priv
    simp only [new_names_cb]
    by_cases hbase : (!MC_CLIENT_BUS_NAME_BASE.data.isPrefixOf name.data) = true
    · rw [if_pos hbase]
      exact ih priv
    · rw [if_neg hbase]
      cases hlook : clients_lookup priv.clients name with
      | some known => exact ih _
      | none => exact ih _

theorem name_owner_changed_cb_frame (descriptor : String → Option GKeyFile)
    (priv : McdDispatcherPrivate) (arg0 arg1 arg2 : String) :
    (name_owner_changed_cb descriptor priv arg0 arg1 arg2).operation_list_active
      = priv.operation_list_active ∧
    (name_owner_changed_cb descriptor priv arg0 arg1 arg2).contexts = priv.contexts := by
  unfold name_owner_changed_cb
  split_ifs
  · exact ⟨(new_names_cb_frame descriptor _ _ priv).1, (new_names_cb_frame descriptor _ _ priv).2.1⟩
  · split
    · split_ifs <;> exact ⟨rfl, rfl⟩
    · exact ⟨rfl, rfl⟩
  · exact ⟨rfl, rfl⟩
  · exact ⟨rfl, rfl⟩

theorem add_request_frame (priv : McdDispatcherPrivate) (channel : McdChannel)
    (request_path : String) (preferred_handler : Option String) :
    (_mcd_dispatcher_add_request priv channel request_path
      preferred_handler).operation_list_active = priv.operation_list_active ∧
    (_mcd_dispatcher_add_request priv channel request_path preferred_handler).contexts
      = priv.contexts := by
  unfold _mcd_dispatcher_add_request
  split
  · exact ⟨rfl, rfl⟩
  · split_ifs <;> exact ⟨rfl, rfl⟩

theorem release_lock_preserves (P : McdDispatcherPrivate → Prop)
    (hstable : ∀ p q : McdDispatcherPrivate,
      q.operation_list_active = p.operation_list_active → q.contexts = p.contexts → P p → P q)
    (henter : ∀ priv channels possible_handlers requested, P priv →
      P (_mcd_dispatcher_enter_state_machine priv channels possible_handlers requested))
    (is_requested : McdChannel → Bool) (state : RecoverState) (h : P state.priv) :
    P (channel_recover_release_lock is_requested state).priv := by
  unfold channel_recover_release_lock
  dsimp only
  split_ifs
  · exact take_channels_preserves P (fun p c hp => hstable p _ rfl rfl hp) henter _ _ _
      (hstable state.priv _ rfl rfl h)
  · exact h
  · exact h

theorem check_handled_channels_preserves (P : McdDispatcherPrivate → Prop)
    (hstable : ∀ p q : McdDispatcherPrivate,
      q.operation_list_active = p.operation_list_active → q.contexts = p.contexts → P p → P q)
    (henter : ∀ priv channels possible_handlers requested, P priv →
      P (_mcd_dispatcher_enter_state_machine priv channels possible_handlers requested))
    (object_path : McdChannel → String) (is_requested : McdChannel → Bool)
    (client : McdClient) (error : Bool) (state : RecoverState) (h : P state.priv) :
    P (check_handled_channels object_path is_requested client error state).priv := by
  unfold check_handled_channels
  dsimp only
  apply release_lock_preserves P hstable henter
  split_ifs <;> exact h

theorem recover_channel_loop_preserves (P : McdDispatcherPrivate → Prop)
    (hstable : ∀ p q : McdDispatcherPrivate,
      q.operation_list_active = p.operation_list_active → q.contexts = p.contexts → P p → P q)
    (henter : ∀ priv channels possible_handlers requested, P priv →
      P (_mcd_dispatcher_enter_state_machine priv channels possible_handlers requested))
    (object_path : McdChannel → String) (is_requested : McdChannel → Bool)
    (clients : List McdClient) :
    ∀ (state : RecoverState) (waiting : List McdClient), P state.priv →
      P (recover_channel_loop object_path is_requested clients state waiting).1.priv := by
  induction clients with
  | nil => intro state waiting h; exact h
  | cons client rest ih =>
    intro state waiting h
    simp only [recover_channel_loop]
    split_ifs
    · exact ih _ _ h
    · exact ih _ _ (check_handled_channels_preserves P hstable henter _ _ _ _ _ h)
    · exact ih _ _ (hstable state.priv _ rfl rfl h)

theorem recover_channel_answers_preserves (P : McdDispatcherPrivate → Prop)
    (hstable : ∀ p q : McdDispatcherPrivate,
      q.operation_list_active = p.operation_list_active → q.contexts = p.contexts → P p → P q)
    (henter : ∀ priv channels possible_handlers requested, P priv →
      P (_mcd_dispatcher_enter_state_machine priv channels possible_handlers requested))
    (object_path : McdChannel → String) (is_requested : McdChannel → Bool)
    (answers : List (McdClient × Bool)) :
    ∀ state : RecoverState, P state.priv →
      P (recover_channel_answers object_path is_requested state answers).priv := by
  induction answers with
  | nil => intro state h; exact h
  | cons answer rest ih =>
    intro state h
    simp only [recover_channel_answers, List.foldl_cons]
    exact ih _ (check_handled_channels_preserves P hstable henter _ _ _ _ _ h)

theorem dispatcher_call_preserves (P : McdDispatcherPrivate → Prop)
    (hstable : ∀ p q : McdDispatcherPrivate,
      q.operation_list_active = p.operation_list_active → q.contexts = p.contexts → P p → P q)
    (henter : ∀ priv channels possible_handlers requested, P priv →
      P (_mcd_dispatcher_enter_state_machine priv channels possible_handlers requested))
    (descriptor : String → Option GKeyFile) (object_path : McdChannel → String)
    (is_requested : McdChannel → Bool) (priv : McdDispatcherPrivate) (call : DispatcherCall)
    (hcall : call.reads_operations = false) (h : P priv) :
    P (dispatcher_call descriptor object_path is_requested priv call) := by
  cases call with
  | get_property prop_id =>
    cases prop_id
    · exact h
    · exact h
    · exact h
    · cases hcall
    · exact h
  | take_channels channels requested =>
    exact take_channels_preserves P (fun p c hp => hstable p _ rfl rfl hp) henter _ _ _ h
  | add_filter filter priority => exact hstable priv _ rfl rfl h
  | add_request channel request_path preferred_handler =>
    exact hstable priv _ (add_request_frame _ _ _ _).1 (add_request_frame _ _ _ _).2 h
  | new_names names activatable =>
    exact hstable priv _ (new_names_cb_frame _ _ _ _).1 (new_names_cb_frame _ _ _ _).2.1 h
  | name_owner_changed arg0 arg1 arg2 =>
    exact hstable priv _ (name_owner_changed_cb_frame _ _ _ _ _).1
      (name_owner_changed_cb_frame _ _ _ _ _).2 h
  | recover_channel channel answers =>
    simp only [dispatcher_call]
    apply recover_channel_answers_preserves P hstable henter
    unfold _mcd_dispatcher_recover_channel
    dsimp only
    apply release_lock_preserves P hstable henter
    exact recover_channel_loop_preserves P hstable henter _ _ _ _ _ h

theorem quiet_of_appends {before after : McdDispatcherContext}
    (h : appends (fun action => !Action.is_operation_list_signal action) before after)
    (hbefore : ∀ action ∈ before.log, Action.is_operation_list_signal action = false) :
    ∀ action ∈ after.log, Action.is_operation_list_signal action = false := by
  obtain ⟨more, hlog, hmore⟩ := h
  intro action hmem
  rw [hlog] at hmem
  rcases List.mem_append.mp hmem with hold | hnew
  · exact hbefore action hold
  · simpa using hmore action hnew

theorem of_run_handlers_quiet (action : Action)
    (h : Action.of_run_handlers action = true) :
    (!Action.is_operation_list_signal action) = true := by
  cases action <;> simp_all [Action.of_run_handlers, Action.is_operation_list_signal]

theorem of_handler_reply_quiet (action : Action)
    (h : Action.of_handler_reply action = true) :
    (!Action.is_operation_list_signal action) = true := by
  cases action <;> simp_all [Action.of_handler_reply, Action.is_operation_list_signal]

theorem run_clients_quiet (priv : McdDispatcherPrivate) (context : McdDispatcherContext) :
    appends (fun action => !Action.is_operation_list_signal action) context
      (mcd_dispatcher_run_clients priv context) := by
  obtain ⟨hobs, _, hrest, _⟩ := run_clients_shape priv context
  refine appends_trans (appends_mono ?_ hobs) (appends_mono ?_ hrest)
  · intro action h
    cases action <;> simp_all [Action.is_observe_channels, Action.is_operation_list_signal]
  · intro action h
    cases action <;>
      simp_all [Action.is_add_dispatch_operation, Action.of_run_handlers,
        Action.is_operation_list_signal]

theorem context_process_quiet (priv : McdDispatcherPrivate) (context : McdDispatcherContext)
    (result : Bool) :
    appends (fun action => !Action.is_operation_list_signal action) context
      (mcd_dispatcher_context_process priv context result) := by
  have habort : ∀ error : GError,
      appends (fun action => !Action.is_operation_list_signal action) context
        (_mcd_dispatcher_context_abort context error) := by
    intro error
    unfold _mcd_dispatcher_context_abort
    exact appends_mono of_handler_reply_quiet
      (context_abort_loop_appends error context.channels context)
  unfold mcd_dispatcher_context_process
  by_cases hgo : (result && !context.cancelled) = true
  · rw [if_pos hgo]
    split
    · exact appends_single (Action.filter_func _) rfl rfl
    · exact run_clients_quiet priv context
  · rw [if_neg hgo]
    exact habort _

theorem on_operation_finished_quiet (priv : McdDispatcherPrivate)
    (hquiet : priv.operation_list_active = false)
    (operation : McdDispatchOperation) (context : McdDispatcherContext) :
    appends (fun action => !Action.is_operation_list_signal action) context
      (on_operation_finished priv operation context) := by
  have hdone : ∀ c : McdDispatcherContext,
      appends (fun action => !Action.is_operation_list_signal action) c
        (mcd_dispatcher_context_handler_done c) := fun c =>
    appends_mono of_handler_reply_quiet (handler_done_appends c)
  have hrel : ∀ c : McdDispatcherContext,
      appends (fun action => !Action.is_operation_list_signal action) c
        (mcd_dispatcher_context_release_client_lock priv c) :=
    fun c => appends_mono of_run_handlers_quiet (release_client_lock_appends priv c)
  have hmap : ∀ (c d : McdDispatcherContext) (ids : List Nat),
      d.log = c.log ++ ids.map Action.dispatched →
      appends (fun action => !Action.is_operation_list_signal action) c d :=
    fun c d ids h => ⟨_, h, fun action hmem =>
      of_handler_reply_quiet action (map_dispatched_of_handler_reply _ action hmem)⟩
  have hfirst : appends (fun action => !Action.is_operation_list_signal action) context
      { context with operation := some operation } := appends_of_log_eq rfl
  unfold on_operation_finished
  dsimp only
  rw [hquiet]
  simp only [Bool.false_eq_true, if_false]
  split_ifs <;>
    first
    | exact appends_trans hfirst (hdone _)
    | exact appends_trans hfirst (hrel _)
    | exact appends_trans hfirst (appends_trans (hmap _ _ _ rfl) (hdone _))

theorem pipeline_step_quiet (priv : McdDispatcherPrivate)
    (hquiet : priv.operation_list_active = false)
    (context : McdDispatcherContext) (event : PipelineEvent) :
    appends (fun action => !Action.is_operation_list_signal action) context
      (pipeline_step priv context event) := by
  cases event with
  | observe_channels_reply error =>
    exact appends_mono of_run_handlers_quiet (release_client_lock_appends priv context)
  | add_dispatch_operation_reply error =>
    exact appends_mono of_run_handlers_quiet
      (add_dispatch_operation_cb_appends priv context error).1
  | operation_finished operation =>
    simp only [pipeline_step]
    split
    · exact on_operation_finished_quiet priv hquiet operation context
    · exact appends_refl _ _
  | channel_abort channel => exact appends_of_log_eq rfl
  | handle_channels_reply channels error =>
    exact appends_mono of_handler_reply_quiet
      (handle_channels_cb_appends context channels error)

theorem pipeline_run_quiet (priv : McdDispatcherPrivate)
    (hquiet : priv.operation_list_active = false) (events : List PipelineEvent) :
    ∀ context : McdDispatcherContext,
      appends (fun action => !Action.is_operation_list_signal action) context
        (pipeline_run priv context events) := by
  induction events with
  | nil => intro context; exact appends_refl _ _
  | cons event rest ih =>
    intro context
    simp only [pipeline_run, List.foldl_cons]
    exact appends_trans (pipeline_step_quiet priv hquiet context event) (ih _)

theorem enter_state_machine_flag (priv : McdDispatcherPrivate)
    (channels : List McdChannel) (possible_handlers : List String) (requested : Bool) :
    (_mcd_dispatcher_enter_state_machine priv channels possible_handlers
      requested).operation_list_active = priv.operation_list_active := by
  unfold _mcd_dispatcher_enter_state_machine
  cases channels with
  | nil => rfl
  | cons first rest =>
    dsimp only
    cases first.account <;> rfl

theorem enter_state_machine_quiet (priv : McdDispatcherPrivate)
    (channels : List McdChannel) (possible_handlers : List String) (requested : Bool)
    (h : operation_list_quiet priv) :
    operation_list_quiet
      (_mcd_dispatcher_enter_state_machine priv channels possible_handlers requested) := by
  refine ⟨(enter_state_machine_flag priv channels possible_handlers requested).trans h.1, ?_⟩
  unfold _mcd_dispatcher_enter_state_machine
  cases channels with
  | nil => exact h.2
  | cons first rest =>
    dsimp only
    cases first.account with
    | none => exact h.2
    | some account =>
      dsimp only
      intro context hmem
      rcases List.mem_cons.mp hmem with hnew | hold
      · rw [hnew]
        have hstart : ∀ start : McdDispatcherContext,
            (∀ action ∈ start.log, Action.is_operation_list_signal action = false) →
            ∀ action ∈ (if priv.filters ≠ [] then mcd_dispatcher_context_process priv start true
                else mcd_dispatcher_run_clients priv start).log,
              Action.is_operation_list_signal action = false := by
          intro start hlog
          split_ifs
          · exact quiet_of_appends (context_process_quiet priv start true) hlog
          · exact quiet_of_appends (run_clients_quiet priv start) hlog
        apply hstart
        rw [h.1]
        cases requested <;> simp
      · exact h.2 context hold

theorem operation_list_quiet_stable (p q : McdDispatcherPrivate)
    (hflag : q.operation_list_active = p.operation_list_active)
    (hcontexts : q.contexts = p.contexts) (h : operation_list_quiet p) :
    operation_list_quiet q := by
  unfold operation_list_quiet
  rw [hflag, hcontexts]
  exact h

theorem dispatcher_call_flag (descriptor : String → Option GKeyFile)
    (object_path : McdChannel → String) (is_requested : McdChannel → Bool)
    (priv : McdDispatcherPrivate) (call : DispatcherCall) :
    (dispatcher_call descriptor object_path is_requested priv call).operation_list_active
      = (priv.operation_list_active || call.reads_operations) := by
  cases hread : call.reads_operations with
  | true =>
    rw [Bool.or_true]
    cases call with
    | get_property prop_id => cases prop_id <;> first | rfl | cases hread
    | _ => cases hread
  | false =>
    rw [Bool.or_false]
    exact dispatcher_call_preserves
      (fun p => p.operation_list_active = priv.operation_list_active)
      (fun p q hflag _ hp => hflag.trans hp)
      (fun p channels possible_handlers requested hp =>
        (enter_state_machine_flag p channels possible_handlers requested).trans hp)
      descriptor object_path is_requested priv call hread rfl

theorem dispatcher_run_flag (descriptor : String → Option GKeyFile)
    (object_path : McdChannel → String) (is_requested : McdChannel → Bool)
    (calls : List DispatcherCall) :
    ∀ priv : McdDispatcherPrivate,
      (dispatcher_run descriptor object_path is_requested priv calls).operation_list_active
        = (priv.operation_list_active || calls.any DispatcherCall.reads_operations) := by
  induction calls with
  | nil => intro priv; simp [dispatcher_run]
  | cons call rest ih =>
    intro priv
    have hrest := ih (dispatcher_call descriptor object_path is_requested priv call)
    unfold dispatcher_run at hrest ⊢
    rw [List.foldl_cons, hrest, dispatcher_call_flag, List.any_cons, Bool.or_assoc]

theorem dispatcher_run_quiet (descriptor : String → Option GKeyFile)
    (object_path : McdChannel → String) (is_requested : McdChannel → Bool)
    (calls : List DispatcherCall) :
    ∀ priv : McdDispatcherPrivate, operation_list_quiet priv →
      (∀ call ∈ calls, DispatcherCall.reads_operations call = false) →
      operation_list_quiet (dispatcher_run descriptor object_path is_requested priv calls) := by
  induction calls with
  | nil => intro priv h _; exact h
  | cons call rest ih =>
    intro priv h hcalls
    unfold dispatcher_run
    rw [List.foldl_cons]
    exact ih _
      (dispatcher_call_preserves operation_list_quiet operation_list_quiet_stable
        enter_state_machine_quiet descriptor object_path is_requested priv call
        (hcalls call (List.mem_cons_self _ _)) h)
      (fun c hc => hcalls c (List.mem_cons_of_mem _ hc))

/-- C24: the flag `operation_list_active` is clear in a new dispatcher; after
any sequence of calls it is set exactly when it was set before or one of the
calls was a read of the DispatchOperations property, so that only such a read
sets it and nothing clears it. The read returns one entry for every context
that has a dispatch operation, in the order of the contexts, so the empty
list when no context has one. In a dispatcher made by `mcd_dispatcher_init`
and called any number of times without such a read, no context has
NewDispatchOperation or DispatchOperationFinished in its log, whatever events
reach it afterwards; and whenever the flag is clear, the events that reach a
context add neither of the two signals. -/
theorem C24_operation_list_active (descriptor : String → Option GKeyFile)
    (object_path : McdChannel → String) (is_requested : McdChannel → Bool)
    (priv : McdDispatcherPrivate) (calls : List DispatcherCall) :
    mcd_dispatcher_init.operation_list_active = false ∧
    (dispatcher_run descriptor object_path is_requested priv calls).operation_list_active
      = (priv.operation_list_active || calls.any DispatcherCall.reads_operations) ∧
    _mcd_dispatcher_get_property priv McdDispatcherProperty.PROP_DISPATCH_OPERATIONS
      = ({ priv with operation_list_active := true },
         some (priv.contexts.filterMap (fun context => context.operation))) ∧
    ((∀ context ∈ priv.contexts, context.operation = none) →
      (_mcd_dispatcher_get_property priv McdDispatcherProperty.PROP_DISPATCH_OPERATIONS).2
        = some []) ∧
    ((∀ call ∈ calls, DispatcherCall.reads_operations call = false) →
      ∀ context ∈ (dispatcher_run descriptor object_path is_requested
          mcd_dispatcher_init calls).contexts,
        ∀ events : List PipelineEvent,
          ∀ action ∈ (pipeline_run
              (dispatcher_run descriptor object_path is_requested mcd_dispatcher_init calls)
              context events).log,
            Action.is_operation_list_signal action = false) ∧
    (priv.operation_list_active = false →
      ∀ (context : McdDispatcherContext) (events : List PipelineEvent),
        ∀ action ∈ (pipeline_run priv context events).log,
          Action.is_operation_list_signal action = true → action ∈ context.log) := by
  refine ⟨rfl, dispatcher_run_flag descriptor object_path is_requested calls priv, rfl,
    ?_, ?_, ?_⟩
  · intro hnone
    show some (priv.contexts.filterMap (fun context => context.operation)) = some []
    rw [List.filterMap_eq_nil_iff.mpr hnone]
  · intro hcalls context hmem events
    have hquiet := dispatcher_run_quiet descriptor object_path is_requested calls
      mcd_dispatcher_init ⟨rfl, fun c hc => by cases hc⟩ hcalls
    exact quiet_of_appends (pipeline_run_quiet _ hquiet.1 events context)
      (hquiet.2 context hmem)
  · intro hflag context events action hmem hsignal
    obtain ⟨more, hlog, hmore⟩ := pipeline_run_quiet priv hflag events context
    rw [hlog] at hmem
    rcases List.mem_append.mp hmem with hold | hnew
    · exact hold
    · have := hmore action hnew
      simp [hsignal] at this

/-! ## Theorems: a name gets an owner -/

theorem parse_client_file_groups_frame (file : GKeyFile) (groups : List String) :
    ∀ client : McdClient,
      (parse_client_file_groups file client groups).name = client.name ∧
      (parse_client_file_groups file client groups).active = client.active ∧
      (parse_client_file_groups file client groups).activatable = client.activatable := by
  induction groups with
  | nil => intro client; exact ⟨rfl, rfl, rfl⟩
  | cons group rest ih =>
    intro client
    simp only [parse_client_file_groups]
    split_ifs <;> exact ih _

theorem parse_client_file_frame (client : McdClient) (file : GKeyFile) :
    (parse_client_file client file).name = client.name ∧
    (parse_client_file client file).active = client.active ∧
    (parse_client_file client file).activatable = client.activatable := by
  unfold parse_client_file
  split
  · exact ⟨rfl, rfl, rfl⟩
  · exact parse_client_file_groups_frame file _ _

theorem create_mcd_client_frame (descriptor : String → Option GKeyFile) (name : String)
    (activatable : Bool) :
    (create_mcd_client descriptor name activatable).name
      = name.drop MC_CLIENT_BUS_NAME_BASE.length ∧
    (create_mcd_client descriptor name activatable).active = !activatable ∧
    (create_mcd_client descriptor name activatable).activatable = activatable := by
  unfold create_mcd_client
  dsimp only
  split
  · exact parse_client_file_frame _ _
  · exact ⟨rfl, rfl, rfl⟩

theorem bus_name_of_base (name : String)
    (hbase : MC_CLIENT_BUS_NAME_BASE.data.isPrefixOf name.data = true) :
    MC_CLIENT_BUS_NAME_BASE ++ name.drop MC_CLIENT_BUS_NAME_BASE.length = name := by
  obtain ⟨rest, hrest⟩ := List.isPrefixOf_iff_prefix.mp hbase
  apply String.ext
  rw [String.data_append, String.data_drop, ← hrest]
  show MC_CLIENT_BUS_NAME_BASE.data
    ++ List.drop MC_CLIENT_BUS_NAME_BASE.data.length (MC_CLIENT_BUS_NAME_BASE.data ++ rest) = _
  rw [List.drop_left]

theorem new_names_cb_single (descriptor : String → Option GKeyFile)
    (priv : McdDispatcherPrivate) (name : String) (activatable : Bool) :
    new_names_cb descriptor priv [name] activatable
      = if !MC_CLIENT_BUS_NAME_BASE.data.isPrefixOf name.data then priv
        else
          match clients_lookup priv.clients name with
          | some _ =>
            { priv with
              clients := priv.clients.map (fun client =>
                if client_bus_name client = name then
                  if activatable then { client with activatable := true }
                  else { client with active := true }
                else client) }
          | none =>
            { priv with
              clients := create_mcd_client descriptor name activatable :: priv.clients } := by
  by_cases hbase : (!MC_CLIENT_BUS_NAME_BASE.data.isPrefixOf name.data) = true
  · rw [new_names_cb, if_pos hbase, if_pos hbase]
    rfl
  · rw [new_names_cb, if_neg hbase, if_neg hbase]
    cases clients_lookup priv.clients name <;> rfl

/-- C21: when a name gets an owner (`name_owner_changed_cb` with no old owner
and a new one), a name with the prefix of the clients that is not in the
registry is registered with the client `create_mcd_client` makes for it, which
is stored under that name, is active and is not activatable; for a name with
the prefix that is known no client is added, the keys of the registry stay
the same and the client under the name only gets its active flag set, its
activatable flag, its interfaces and its filters being kept; for a name
without the prefix the dispatcher is unchanged. -/
theorem C21_name_owner_gained (descriptor : String → Option GKeyFile)
    (priv : McdDispatcherPrivate) (arg0 arg2 : String) (hnew : arg2 ≠ "") :
    (MC_CLIENT_BUS_NAME_BASE.data.isPrefixOf arg0.data = true →
      clients_lookup priv.clients arg0 = none →
      name_owner_changed_cb descriptor priv arg0 "" arg2
        = { priv with clients := create_mcd_client descriptor arg0 false :: priv.clients } ∧
      client_bus_name (create_mcd_client descriptor arg0 false) = arg0 ∧
      (create_mcd_client descriptor arg0 false).active = true ∧
      (create_mcd_client descriptor arg0 false).activatable = false ∧
      clients_lookup (name_owner_changed_cb descriptor priv arg0 "" arg2).clients arg0
        = some (create_mcd_client descriptor arg0 false)) ∧
    (∀ known, MC_CLIENT_BUS_NAME_BASE.data.isPrefixOf arg0.data = true →
      clients_lookup priv.clients arg0 = some known →
      name_owner_changed_cb descriptor priv arg0 "" arg2
        = { priv with
            clients := priv.clients.map (fun client =>
              if client_bus_name client = arg0 then { client with active := true }
              else client) } ∧
      (name_owner_changed_cb descriptor priv arg0 "" arg2).clients.map client_bus_name
        = priv.clients.map client_bus_name ∧
      clients_lookup (name_owner_changed_cb descriptor priv arg0 "" arg2).clients arg0
        = some { known with active := true }) ∧
    (MC_CLIENT_BUS_NAME_BASE.data.isPrefixOf arg0.data = false →
      name_owner_changed_cb descriptor priv arg0 "" arg2 = priv) := by
  have hcb : name_owner_changed_cb descriptor priv arg0 "" arg2
      = new_names_cb descriptor priv [arg0] false := by
    unfold name_owner_changed_cb
    rw [if_pos ⟨rfl, hnew⟩]
  rw [hcb, new_names_cb_single]
  refine ⟨?_, ?_, ?_⟩
  · intro hbase hlookup
    have hname : client_bus_name (create_mcd_client descriptor arg0 false) = arg0 := by
      unfold client_bus_name
      rw [(create_mcd_client_frame descriptor arg0 false).1]
      exact bus_name_of_base arg0 hbase
    rw [if_neg (by rw [hbase]; decide), hlookup]
    refine ⟨rfl, hname, (create_mcd_client_frame descriptor arg0 false).2.1,
      (create_mcd_client_frame descriptor arg0 false).2.2, ?_⟩
    show clients_lookup (create_mcd_client descriptor arg0 false :: priv.clients) arg0 = _
    unfold clients_lookup
    rw [List.find?_cons, hname]
    simp
  · intro known hbase hlookup
    rw [if_neg (by rw [hbase]; decide), hlookup]
    refine ⟨rfl, ?_, ?_⟩
    · show (priv.clients.map _).map client_bus_name = _
      rw [List.map_map]
      apply List.map_congr_left
      intro client _
      simp only [Function.comp]
      split_ifs <;> rfl
    · show clients_lookup (priv.clients.map _) arg0 = _
      have hupdate := clients_lookup_map_update priv.clients arg0 arg0
        (fun client => { client with active := true }) (fun _ => rfl)
      simp only [Bool.false_eq_true, if_false]
      rw [hupdate, hlookup, Option.map_some', if_pos (clients_lookup_some _ _ _ hlookup).2]
  · intro hbase
    rw [if_pos (by rw [hbase]; decide)]

/-! ## Theorems: recovery of a channel -/

theorem take_channels_keeps_calls (priv : McdDispatcherPrivate) (channels : List McdChannel)
    (requested : Bool) :
    take_channels_calls (_mcd_dispatcher_take_channels priv channels requested).log
      = take_channels_calls priv.log := by
  apply take_channels_preserves
    (fun p => take_channels_calls p.log = take_channels_calls priv.log)
  · intro p c hp
    rw [← hp]
    simp [take_channels_calls, _mcd_channel_undispatchable, Action.is_take_channels]
  · intro p chs possible_handlers req hp
    obtain ⟨_, ⟨more, hlog, hmore⟩, _⟩ := enter_state_machine_effect p chs possible_handlers req
    rw [← hp, hlog]
    unfold take_channels_calls
    rw [List.filter_append]
    have hnone : more.filter Action.is_take_channels = [] := by
      rw [List.filter_eq_nil_iff]
      intro action hmem
      obtain ⟨text, rfl⟩ := hmore action hmem
      simp [Action.is_take_channels]
    rw [hnone, List.append_nil]
  · rfl

theorem release_lock_step (is_requested : McdChannel → Bool) (channel : McdChannel)
    (calls : List Action) (state : RecoverState) (locks : Int) (handled : Bool)
    (h : recover_invariant channel calls state locks handled) (hlocks : locks ≠ 1) :
    recover_invariant channel calls (channel_recover_release_lock is_requested state)
      (locks - 1) handled := by
  obtain ⟨h1, h2, h3, h4, h5⟩ := h
  unfold channel_recover_release_lock
  dsimp only
  have hne : ¬ (state.cr.handler_locks - 1 = 0) := by rw [h1]; omega
  rw [if_neg hne]
  exact ⟨by rw [← h1], h2, h3, h4, h5⟩

theorem release_lock_last (is_requested : McdChannel → Bool) (channel : McdChannel)
    (calls : List Action) (state : RecoverState) (handled : Bool)
    (h : recover_invariant channel calls state 1 handled) :
    recover_invariant channel
      (if handled then calls
       else calls ++ [Action.take_channels [channel.id] (is_requested channel)])
      (channel_recover_release_lock is_requested state) 0 handled := by
  obtain ⟨h1, h2, h3, h4, h5⟩ := h
  unfold channel_recover_release_lock
  dsimp only
  have hzero : state.cr.handler_locks - 1 = 0 := by rw [h1]; rfl
  rw [if_pos hzero]
  cases handled with
  | true =>
    rw [h2]
    exact ⟨hzero, rfl, h3, h4, h5⟩
  | false =>
    rw [h2]
    refine ⟨hzero, rfl, h3, h4, ?_⟩
    show take_channels_calls (_mcd_dispatcher_take_channels _ _ _).log = _
    rw [take_channels_keeps_calls, h3 rfl]
    show take_channels_calls (state.priv.log ++ _) = _
    unfold take_channels_calls at h5 ⊢
    rw [List.filter_append, h5]
    rfl

theorem check_handled_channels_marks (object_path : McdChannel → String)
    (channel : McdChannel) (calls : List Action) (client : McdClient) (error : Bool)
    (state : RecoverState) (locks : Int) (handled : Bool)
    (h : recover_invariant channel calls state locks handled) :
    recover_invariant channel calls
      (if (match client.handled_channels with
          | some handled_channels =>
            !error && handled_channels.contains (object_path state.cr.channel)
          | none => false) = true then
        { state with
          cr := { state.cr with
                  handled := true
                  channel := { state.cr.channel with status := McdChannelStatus.DISPATCHED } } }
       else state)
      locks (handled || client_handles object_path channel client error) := by
  obtain ⟨h1, h2, h3, h4, h5⟩ := h
  cases handled with
  | true =>
    rw [Bool.true_or]
    split_ifs
    · exact ⟨h1, rfl, (fun hf => by cases hf), (fun _ => rfl), h5⟩
    · exact ⟨h1, h2, h3, h4, h5⟩
  | false =>
    rw [Bool.false_or]
    have hch := h3 rfl
    have htest : (match client.handled_channels with
          | some handled_channels =>
            !error && handled_channels.contains (object_path state.cr.channel)
          | none => false) = client_handles object_path channel client error := by
      rw [hch]
      rfl
    rw [htest]
    cases hhere : client_handles object_path channel client error with
    | true =>
      rw [if_pos rfl]
      exact ⟨h1, rfl, (fun hf => by cases hf), (fun _ => rfl), h5⟩
    | false =>
      rw [if_neg (by decide)]
      exact ⟨h1, h2, h3, h4, h5⟩

theorem check_handled_channels_step (object_path : McdChannel → String)
    (is_requested : McdChannel → Bool) (channel : McdChannel) (calls : List Action)
    (client : McdClient) (error : Bool) (state : RecoverState) (locks : Int) (handled : Bool)
    (h : recover_invariant channel calls state locks handled) (hlocks : locks ≠ 1) :
    recover_invariant channel calls
      (check_handled_channels object_path is_requested client error state)
      (locks - 1) (handled || client_handles object_path channel client error) := by
  unfold check_handled_channels
  dsimp only
  exact release_lock_step is_requested channel calls _ locks _
    (check_handled_channels_marks object_path channel calls client error state locks handled h)
    hlocks

theorem check_handled_channels_last (object_path : McdChannel → String)
    (is_requested : McdChannel → Bool) (channel : McdChannel) (calls : List Action)
    (client : McdClient) (error : Bool) (state : RecoverState) (handled : Bool)
    (h : recover_invariant channel calls state 1 handled) :
    recover_invariant channel
      (if (handled || client_handles object_path channel client error) then calls
       else calls ++ [Action.take_channels [channel.id] (is_requested channel)])
      (check_handled_channels object_path is_requested client error state)
      0 (handled || client_handles object_path channel client error) := by
  unfold check_handled_channels
  dsimp only
  exact release_lock_last is_requested channel calls _ _
    (check_handled_channels_marks object_path channel calls client error state 1 handled h)

theorem recover_channel_loop_effect (object_path : McdChannel → String)
    (is_requested : McdChannel → Bool) (channel : McdChannel) (calls : List Action)
    (clients : List McdClient) :
    ∀ (state : RecoverState) (waiting : List McdClient) (locks : Int) (handled : Bool),
      recover_invariant channel calls state locks handled → 1 ≤ locks →
      recover_invariant channel calls
        (recover_channel_loop object_path is_requested clients state waiting).1
        (locks + ((clients.filter (fun client =>
          is_active_handler client && !client.got_handled_channels)).length : Int))
        (handled || clients.any (fun client =>
          is_active_handler client && client.got_handled_channels &&
            client_handles object_path channel client false)) ∧
      (recover_channel_loop object_path is_requested clients state waiting).2
        = waiting ++ clients.filter (fun client =>
            is_active_handler client && !client.got_handled_channels) := by
  induction clients with
  | nil =>
    intro state waiting locks handled h _
    simp only [recover_channel_loop, List.filter_nil, List.length_nil, List.any_nil,
      Bool.or_false, List.append_nil, Int.Nat.cast_ofNat_Int, add_zero]
    exact ⟨by simpa using h, trivial⟩
  | cons client rest ih =>
    intro state waiting locks handled h hlocks
    have hskip : (!client.proxy || !client.active || !client.implements MCD_CLIENT_HANDLER)
        = !is_active_handler client := by
      unfold is_active_handler
      cases client.proxy <;> cases client.active <;>
        cases client.implements MCD_CLIENT_HANDLER <;> rfl
    simp only [recover_channel_loop]
    rw [hskip]
    cases hactive : is_active_handler client with
    | false =>
      simp only [Bool.not_false, if_true, List.filter_cons, hactive, Bool.false_and,
        Bool.false_eq_true, if_false, List.any_cons, Bool.false_or]
      exact ih state waiting locks handled h hlocks
    | true =>
      simp only [Bool.not_true, Bool.false_eq_true, if_false]
      obtain ⟨h1, h2, h3, h4, h5⟩ := h
      have hlocked : recover_invariant channel calls
          { state with cr := { state.cr with handler_locks := state.cr.handler_locks + 1 } }
          (locks + 1) handled := ⟨by rw [← h1], h2, h3, h4, h5⟩
      cases hgot : client.got_handled_channels with
      | true =>
        simp only [if_true, List.filter_cons, hactive, hgot, Bool.not_true, Bool.and_false,
          Bool.false_eq_true, if_false, List.any_cons, Bool.true_and]
        have hstep := check_handled_channels_step object_path is_requested channel calls
          client false _ (locks + 1) handled hlocked (by omega)
        rw [show locks + 1 - 1 = locks by omega] at hstep
        have hrest := ih _ waiting locks _ hstep hlocks
        rw [Bool.or_assoc] at hrest
        exact hrest
      | false =>
        simp only [Bool.false_eq_true, if_false, List.filter_cons, hactive, hgot,
          Bool.not_false, Bool.and_true, if_true, List.any_cons, Bool.false_and,
          Bool.and_false, Bool.false_or, List.length_cons]
        have hasked : recover_invariant channel calls
            { state with
              cr := { state.cr with handler_locks := state.cr.handler_locks + 1 }
              priv := { state.priv with
                clients := state.priv.clients.map (fun known =>
                  if client_bus_name known = client_bus_name client then
                    { known with getting_handled_channels := true }
                  else known) } }
            (locks + 1) handled := ⟨by rw [← h1], h2, h3, h4, h5⟩
        have hrest := ih _ (waiting ++ [client]) (locks + 1) handled hasked (by omega)
        refine ⟨?_, ?_⟩
        · have hcast : locks + 1 + ((rest.filter (fun client =>
              is_active_handler client && !client.got_handled_channels)).length : Int)
              = locks + (((rest.filter (fun client =>
                is_active_handler client && !client.got_handled_channels)).length + 1 : Nat)
                  : Int) := by
            push_cast
            omega
          rw [← hcast]
          exact hrest.1
        · rw [hrest.2, List.append_assoc]
          rfl

theorem recover_channel_answers_pending (object_path : McdChannel → String)
    (is_requested : McdChannel → Bool) (channel : McdChannel) (calls : List Action)
    (answers : List (McdClient × Bool)) :
    ∀ (state : RecoverState) (locks : Int) (handled : Bool),
      recover_invariant channel calls state locks handled →
      (answers.length : Int) < locks →
      recover_invariant channel calls
        (recover_channel_answers object_path is_requested state answers)
        (locks - answers.length)
        (handled || answers.any (fun answer =>
          client_handles object_path channel answer.1 answer.2)) := by
  induction answers with
  | nil =>
    intro state locks handled h _
    simpa [recover_channel_answers] using h
  | cons answer rest ih =>
    intro state locks handled h hlen
    simp only [List.length_cons] at hlen
    push_cast at hlen
    have hstep := check_handled_channels_step object_path is_requested channel calls
      answer.1 answer.2 state locks handled h (by omega)
    have hrest := ih _ (locks - 1) _ hstep (by omega)
    simp only [recover_channel_answers, List.foldl_cons, List.length_cons, List.any_cons]
      at hrest ⊢
    rw [Bool.or_assoc] at hrest
    have hcast : locks - ((rest.length + 1 : Nat) : Int) = locks - 1 - (rest.length : Int) := by
      push_cast
      omega
    rw [hcast]
    exact hrest

theorem recover_channel_answers_all (object_path : McdChannel → String)
    (is_requested : McdChannel → Bool) (channel : McdChannel) (calls : List Action)
    (answers : List (McdClient × Bool)) :
    ∀ (state : RecoverState) (handled : Bool),
      recover_invariant channel calls state answers.length handled → answers ≠ [] →
      recover_invariant channel
        (if (handled || answers.any (fun answer =>
            client_handles object_path channel answer.1 answer.2)) then calls
         else calls ++ [Action.take_channels [channel.id] (is_requested channel)])
        (recover_channel_answers object_path is_requested state answers) 0
        (handled || answers.any (fun answer =>
          client_handles object_path channel answer.1 answer.2)) := by
  induction answers with
  | nil => intro _ _ _ hne; exact absurd rfl hne
  | cons answer rest ih =>
    intro state handled h _
    cases rest with
    | nil =>
      have hlast := check_handled_channels_last object_path is_requested channel calls
        answer.1 answer.2 state handled (by simpa using h)
      simpa [recover_channel_answers] using hlast
    | cons second rest =>
      have hstep := check_handled_channels_step object_path is_requested channel calls
        answer.1 answer.2 state _ handled h
        (by simp only [List.length_cons]; push_cast; omega)
      have hlen : (((answer :: second :: rest).length : Nat) : Int) - 1
          = ((second :: rest).length : Nat) := by
        simp only [List.length_cons]
        push_cast
        omega
      rw [hlen] at hstep
      have hrest := ih _ _ hstep (by simp)
      rw [Bool.or_assoc] at hrest
      simpa only [recover_channel_answers, List.foldl_cons, List.any_cons] using hrest

theorem recover_channel_effect (object_path : McdChannel → String)
    (is_requested : McdChannel → Bool) (priv : McdDispatcherPrivate) (channel : McdChannel) :
    (_mcd_dispatcher_recover_channel object_path is_requested priv channel).2
      = priv.clients.filter (fun client =>
          is_active_handler client && !client.got_handled_channels) ∧
    ((priv.clients.filter (fun client =>
        is_active_handler client && !client.got_handled_channels)).length = 0 →
      recover_invariant channel
        (if priv.clients.any (fun client =>
            is_active_handler client && client.got_handled_channels &&
              client_handles object_path channel client false)
         then take_channels_calls priv.log
         else take_channels_calls priv.log
           ++ [Action.take_channels [channel.id] (is_requested channel)])
        (_mcd_dispatcher_recover_channel object_path is_requested priv channel).1 0
        (priv.clients.any (fun client =>
          is_active_handler client && client.got_handled_channels &&
            client_handles object_path channel client false))) ∧
    ((priv.clients.filter (fun client =>
        is_active_handler client && !client.got_handled_channels)).length ≠ 0 →
      recover_invariant channel (take_channels_calls priv.log)
        (_mcd_dispatcher_recover_channel object_path is_requested priv channel).1
        ((priv.clients.filter (fun client =>
          is_active_handler client && !client.got_handled_channels)).length : Int)
        (priv.clients.any (fun client =>
          is_active_handler client && client.got_handled_channels &&
            client_handles object_path channel client false))) := by
  have hstart : recover_invariant channel (take_channels_calls priv.log)
      { priv := priv, cr := { channel := channel, handler_locks := 1, handled := false } }
      1 false := ⟨rfl, rfl, (fun _ => rfl), (fun hf => by cases hf), rfl⟩
  obtain ⟨hloop, hwaiting⟩ := recover_channel_loop_effect object_path is_requested channel
    (take_channels_calls priv.log) priv.clients _ [] 1 false hstart (le_refl 1)
  rw [Bool.false_or] at hloop
  unfold _mcd_dispatcher_recover_channel
  dsimp only
  refine ⟨by rw [hwaiting, List.nil_append], ?_, ?_⟩
  · intro hnone
    rw [hnone] at hloop
    exact release_lock_last is_requested channel _ _ _ (by simpa using hloop)
  · intro hsome
    have hstep := release_lock_step is_requested channel _ _ _ _ hloop
      (by
        have : 0 < (priv.clients.filter (fun client =>
          is_active_handler client && !client.got_handled_channels)).length :=
          Nat.pos_of_ne_zero hsome
        omega)
    rw [show (1 : Int) + ((priv.clients.filter (fun client =>
          is_active_handler client && !client.got_handled_channels)).length : Int) - 1
        = ((priv.clients.filter (fun client =>
          is_active_handler client && !client.got_handled_channels)).length : Int) by omega]
      at hstep
    exact hstep

/-- C25: `_mcd_dispatcher_recover_channel` asks the active handlers whose
handled channels are not known yet, and awaits one answer from each. As long
as fewer answers than that have come in, no batch is handed to
`_mcd_dispatcher_take_channels`. Once all of them have come in (at once, when
no handler had to be asked): if the object path of the channel is in the
handled channels of an active handler that had them already, or in those of
an answer without an error, the channel is marked handled, its status is
Dispatched and no batch is handed over; otherwise the channel is handed over
exactly once, as a batch of its own, and is the channel as it was given. -/
theorem C25_recover_channel (object_path : McdChannel → String)
    (is_requested : McdChannel → Bool) (priv : McdDispatcherPrivate) (channel : McdChannel)
    (answers : List (McdClient × Bool)) :
    (_mcd_dispatcher_recover_channel object_path is_requested priv channel).2
      = priv.clients.filter (fun client =>
          is_active_handler client && !client.got_handled_channels) ∧
    (answers.length
        < (_mcd_dispatcher_recover_channel object_path is_requested priv channel).2.length →
      take_channels_calls (recover_channel_answers object_path is_requested
          (_mcd_dispatcher_recover_channel object_path is_requested priv channel).1
          answers).priv.log
        = take_channels_calls priv.log) ∧
    (answers.length
        = (_mcd_dispatcher_recover_channel object_path is_requested priv channel).2.length →
      ((priv.clients.any (fun client =>
            is_active_handler client && client.got_handled_channels &&
              client_handles object_path channel client false) ||
          answers.any (fun answer =>
            client_handles object_path channel answer.1 answer.2)) = true →
        (recover_channel_answers object_path is_requested
          (_mcd_dispatcher_recover_channel object_path is_requested priv channel).1
          answers).cr.handled = true ∧
        (recover_channel_answers object_path is_requested
          (_mcd_dispatcher_recover_channel object_path is_requested priv channel).1
          answers).cr.channel.status = McdChannelStatus.DISPATCHED ∧
        take_channels_calls (recover_channel_answers object_path is_requested
            (_mcd_dispatcher_recover_channel object_path is_requested priv channel).1
            answers).priv.log
          = take_channels_calls priv.log) ∧
      ((priv.clients.any (fun client =>
            is_active_handler client && client.got_handled_channels &&
              client_handles object_path channel client false) ||
          answers.any (fun answer =>
            client_handles object_path channel answer.1 answer.2)) = false →
        (recover_channel_answers object_path is_requested
          (_mcd_dispatcher_recover_channel object_path is_requested priv channel).1
          answers).cr.handled = false ∧
        (recover_channel_answers object_path is_requested
          (_mcd_dispatcher_recover_channel object_path is_requested priv channel).1
          answers).cr.channel = channel ∧
        take_channels_calls (recover_channel_answers object_path is_requested
            (_mcd_dispatcher_recover_channel object_path is_requested priv channel).1
            answers).priv.log
          = take_channels_calls priv.log
            ++ [Action.take_channels [channel.id] (is_requested channel)])) := by
  obtain ⟨hwaiting, hnone, hsome⟩ :=
    recover_channel_effect object_path is_requested priv channel
  rw [hwaiting]
  refine ⟨rfl, ?_, ?_⟩
  · intro hless
    have hpending := recover_channel_answers_pending object_path is_requested channel
      (take_channels_calls priv.log) answers _ _ _ (hsome (by omega))
      (by exact_mod_cast hless)
    exact hpending.2.2.2.2
  · intro hall
    have hfinal : recover_invariant channel
        (if (priv.clients.any (fun client =>
              is_active_handler client && client.got_handled_channels &&
                client_handles object_path channel client false) ||
            answers.any (fun answer =>
              client_handles object_path channel answer.1 answer.2))
         then take_channels_calls priv.log
         else take_channels_calls priv.log
           ++ [Action.take_channels [channel.id] (is_requested channel)])
        (recover_channel_answers object_path is_requested
          (_mcd_dispatcher_recover_channel object_path is_requested priv channel).1 answers)
        0
        (priv.clients.any (fun client =>
            is_active_handler client && client.got_handled_channels &&
              client_handles object_path channel client false) ||
          answers.any (fun answer =>
            client_handles object_path channel answer.1 answer.2)) := by
      cases answers with
      | nil =>
        have h := hnone hall.symm
        simpa [recover_channel_answers] using h
      | cons answer rest =>
        have hne : (priv.clients.filter (fun client =>
            is_active_handler client && !client.got_handled_channels)).length ≠ 0 := by
          rw [← hall]
          simp
        have h := hsome hne
        rw [← hall] at h
        exact recover_channel_answers_all object_path is_requested channel _
          (answer :: rest) _ _ h (by simp)
    obtain ⟨_, f2, f3, f4, f5⟩ := hfinal
    refine ⟨?_, ?_⟩
    · intro hhandled
      rw [hhandled] at f2 f4 f5
      exact ⟨f2, f4 rfl, by simpa using f5⟩
    · intro hunhandled
      rw [hunhandled] at f2 f3 f5
      exact ⟨f2, f3 rfl, by simpa using f5⟩

/-! ## Theorems: the proxies of the registry -/

theorem create_mcd_client_proxy (descriptor : String → Option GKeyFile) (name : String)
    (activatable : Bool) : (create_mcd_client descriptor name activatable).proxy = true := by
  unfold create_mcd_client
  rfl

theorem have_proxy_map (clients : List McdClient) (update : McdClient → McdClient)
    (hupdate : ∀ client, (update client).proxy = client.proxy)
    (h : clients_have_proxy clients) : clients_have_proxy (clients.map update) := by
  intro client hmem
  obtain ⟨known, hknown, rfl⟩ := List.mem_map.mp hmem
  rw [hupdate]
  exact h known hknown

theorem new_names_cb_have_proxy (descriptor : String → Option GKeyFile)
    (names : List String) (activatable : Bool) :
    ∀ priv : McdDispatcherPrivate, clients_have_proxy priv.clients →
      clients_have_proxy (new_names_cb descriptor priv names activatable).clients := by
  induction names with
  | nil => intro priv h; exact h
  | cons name rest ih =>
    intro priv h
    rw [new_names_cb]
    by_cases hbase : (!MC_CLIENT_BUS_NAME_BASE.data.isPrefixOf name.data) = true
    · rw [if_pos hbase]
      exact ih priv h
    · rw [if_neg hbase]
      cases hlook : clients_lookup priv.clients name with
      | some known =>
        apply ih
        apply have_proxy_map _ _ _ h
        intro client
        split_ifs <;> rfl
      | none =>
        apply ih
        intro client hmem
        rcases List.mem_cons.mp hmem with hnew | hold
        · rw [hnew]
          exact create_mcd_client_proxy descriptor name activatable
        · exact h client hold

theorem name_owner_changed_cb_have_proxy (descriptor : String → Option GKeyFile)
    (priv : McdDispatcherPrivate) (arg0 arg1 arg2 : String)
    (h : clients_have_proxy priv.clients) :
    clients_have_proxy (name_owner_changed_cb descriptor priv arg0 arg1 arg2).clients := by
  unfold name_owner_changed_cb
  split_ifs
  · exact new_names_cb_have_proxy descriptor _ _ priv h
  · split
    · split_ifs
      · intro client hmem
        exact h client (List.mem_filter.mp hmem).1
      · apply have_proxy_map _ _ _ h
        intro client
        split_ifs <;> rfl
    · exact h
  · exact h
  · exact h

theorem take_channels_have_proxy (priv : McdDispatcherPrivate) (channels : List McdChannel)
    (requested : Bool) (h : clients_have_proxy priv.clients) :
    clients_have_proxy (_mcd_dispatcher_take_channels priv channels requested).clients := by
  apply take_channels_preserves (fun p => clients_have_proxy p.clients)
  · intro p c hp
    exact hp
  · intro p chs possible_handlers req hp
    rw [(enter_state_machine_effect p chs possible_handlers req).1]
    exact hp
  · exact h

theorem release_lock_have_proxy (is_requested : McdChannel → Bool) (state : RecoverState)
    (h : clients_have_proxy state.priv.clients) :
    clients_have_proxy (channel_recover_release_lock is_requested state).priv.clients := by
  unfold channel_recover_release_lock
  dsimp only
  split_ifs
  · exact take_channels_have_proxy _ _ _ h
  · exact h
  · exact h

theorem check_handled_channels_have_proxy (object_path : McdChannel → String)
    (is_requested : McdChannel → Bool) (client : McdClient) (error : Bool)
    (state : RecoverState) (h : clients_have_proxy state.priv.clients) :
    clients_have_proxy
      (check_handled_channels object_path is_requested client error state).priv.clients := by
  unfold check_handled_channels
  dsimp only
  apply release_lock_have_proxy
  split_ifs <;> exact h

theorem recover_channel_loop_have_proxy (object_path : McdChannel → String)
    (is_requested : McdChannel → Bool) (clients : List McdClient) :
    ∀ (state : RecoverState) (waiting : List McdClient),
      clients_have_proxy state.priv.clients →
      clients_have_proxy
        (recover_channel_loop object_path is_requested clients state waiting).1.priv.clients := by
  induction clients with
  | nil => intro state waiting h; exact h
  | cons client rest ih =>
    intro state waiting h
    simp only [recover_channel_loop]
    split_ifs
    · exact ih _ _ h
    · exact ih _ _ (check_handled_channels_have_proxy _ _ _ _ _ h)
    · apply ih
      apply have_proxy_map _ _ _ h
      intro known
      split_ifs <;> rfl

theorem recover_channel_answers_have_proxy (object_path : McdChannel → String)
    (is_requested : McdChannel → Bool) (answers : List (McdClient × Bool)) :
    ∀ state : RecoverState, clients_have_proxy state.priv.clients →
      clients_have_proxy
        (recover_channel_answers object_path is_requested state answers).priv.clients := by
  induction answers with
  | nil => intro state h; exact h
  | cons answer rest ih =>
    intro state h
    simp only [recover_channel_answers, List.foldl_cons]
    exact ih _ (check_handled_channels_have_proxy _ _ _ _ _ h)

theorem dispatcher_call_have_proxy (descriptor : String → Option GKeyFile)
    (object_path : McdChannel → String) (is_requested : McdChannel → Bool)
    (priv : McdDispatcherPrivate) (call : DispatcherCall)
    (h : clients_have_proxy priv.clients) :
    clients_have_proxy
      (dispatcher_call descriptor object_path is_requested priv call).clients := by
  cases call with
  | get_property prop_id => cases prop_id <;> exact h
  | take_channels channels requested => exact take_channels_have_proxy _ _ _ h
  | add_filter filter priority => exact h
  | add_request channel request_path preferred_handler =>
    simp only [dispatcher_call]
    unfold _mcd_dispatcher_add_request
    split
    · exact h
    · split_ifs <;> exact h
  | new_names names activatable => exact new_names_cb_have_proxy _ _ _ _ h
  | name_owner_changed arg0 arg1 arg2 => exact name_owner_changed_cb_have_proxy _ _ _ _ _ h
  | recover_channel channel answers =>
    simp only [dispatcher_call]
    apply recover_channel_answers_have_proxy
    unfold _mcd_dispatcher_recover_channel
    dsimp only
    apply release_lock_have_proxy
    exact recover_channel_loop_have_proxy _ _ _ _ _ h

/-- Every client of a registry that the dispatcher has built has its proxy,
`g_object_new` in `create_client_proxy` being taken not to fail:
`create_mcd_client` gives a proxy to every client it makes, and no call takes
it away. -/
theorem dispatcher_run_have_proxy (descriptor : String → Option GKeyFile)
    (object_path : McdChannel → String) (is_requested : McdChannel → Bool)
    (calls : List DispatcherCall) :
    ∀ priv : McdDispatcherPrivate, clients_have_proxy priv.clients →
      clients_have_proxy
        (dispatcher_run descriptor object_path is_requested priv calls).clients := by
  induction calls with
  | nil => intro priv h; exact h
  | cons call rest ih =>
    intro priv h
    unfold dispatcher_run
    rw [List.foldl_cons]
    exact ih _ (dispatcher_call_have_proxy descriptor object_path is_requested priv call h)

theorem dispatcher_init_have_proxy (descriptor : String → Option GKeyFile)
    (object_path : McdChannel → String) (is_requested : McdChannel → Bool)
    (calls : List DispatcherCall) :
    clients_have_proxy
      (dispatcher_run descriptor object_path is_requested mcd_dispatcher_init calls).clients :=
  dispatcher_run_have_proxy descriptor object_path is_requested calls mcd_dispatcher_init
    (fun _ hmem => by cases hmem)

/-! ## Witnesses and counterexamples -/

/-- C4 at a concrete input: one text handler, which has its proxy, and a
batch of one text channel. -/
theorem C4_possible_handlers_membership_witness :
    ([example_channel 1] ≠ [] ∧ clients_have_proxy [example_handler]) ∧
    (mcd_dispatcher_get_possible_handlers [example_handler] [example_channel 1] = none ↔
      ∀ client ∈ [example_handler], ¬ (client.implements MCD_CLIENT_HANDLER = true ∧
        ∀ ch ∈ [example_channel 1], 0 < match_filters ch client.handler_filters)) :=
  ⟨⟨by decide, by decide⟩,
    ((C4_possible_handlers_membership [example_handler] [example_channel 1]
      (by decide)).2.2.2 (by decide)).2⟩

/-- C4 fails as stated: a client without its proxy that has the Handler
capability and whose filters match the channel of the batch is not listed; it
being the only client, the result is `NULL`. -/
theorem C4_handler_without_proxy_is_not_listed :
    ({ example_handler with proxy := false } : McdClient).implements MCD_CLIENT_HANDLER
      = true ∧
    (∀ ch ∈ [example_channel 1],
      0 < match_filters ch
        ({ example_handler with proxy := false } : McdClient).handler_filters) ∧
    mcd_dispatcher_get_possible_handlers [{ example_handler with proxy := false }]
      [example_channel 1] = none :=
  ⟨by decide, by decide,
    (possible_handlers_none_iff _ _).mpr (by decide)⟩

/-- C6 at a concrete input: a batch of a text channel and a call channel with
a registry that only holds a text handler. -/
theorem C6_take_channels_without_handler_witness :
    channels_distinct [example_channel 1, example_call_channel 2] ∧
    (2 ≤ [example_channel 1, example_call_channel 2].length →
      mcd_dispatcher_get_possible_handlers (example_priv [example_handler]).clients
        [example_channel 1, example_call_channel 2] = none →
      _mcd_dispatcher_take_channels (example_priv [example_handler])
          [example_channel 1, example_call_channel 2] false
        = [example_channel 1, example_call_channel 2].foldl
            (fun priv channel => _mcd_dispatcher_take_channels priv [channel] false)
            (example_priv [example_handler])) :=
  ⟨by decide,
    (C6_take_channels_without_handler (example_priv [example_handler])
      [example_channel 1, example_call_channel 2] false (by decide)).2.1⟩

/-- C7 at a concrete input: the text handler is selected for a batch of a text
channel and a call channel, and is handed the text channel. -/
theorem C7_selected_handler_matches_witness :
    (run_handler_choice (example_priv [example_handler])
        (example_context [example_channel 1, example_call_channel 2] none)
        [example_channel 1, example_call_channel 2]).handler = some example_handler ∧
    ∀ c ∈ (run_handler_choice (example_priv [example_handler])
        (example_context [example_channel 1, example_call_channel 2] none)
        [example_channel 1, example_call_channel 2]).handled_best,
      c ∈ [example_channel 1, example_call_channel 2] ∧
      0 < match_filters c example_handler.handler_filters :=
  ⟨by decide,
    (C7_selected_handler_matches (example_priv [example_handler])
      (example_context [example_channel 1, example_call_channel 2] none)
      [example_channel 1, example_call_channel 2] example_handler (by decide)).2.2⟩

/-- C9 fails as stated: the context of an inbound channel whose dispatch
operation is claimed enters `mcd_dispatcher_run_clients` and completes (its
channel is dispatched and dispatch-completed is emitted) without the handlers
ever running. -/
theorem C9_claimed_context_never_runs_handlers :
    (_mcd_dispatcher_enter_state_machine (example_priv [example_handler, example_approver])
        [example_channel 1] ["org.freedesktop.Telepathy.Client.Handler"] false).contexts
      = [mcd_dispatcher_run_clients (example_priv [example_handler, example_approver])
          claimed_context] ∧
    (pipeline_run (example_priv [example_handler, example_approver])
      (mcd_dispatcher_run_clients (example_priv [example_handler, example_approver])
        claimed_context) claimed_events).finished = true ∧
    (pipeline_run (example_priv [example_handler, example_approver])
      (mcd_dispatcher_run_clients (example_priv [example_handler, example_approver])
        claimed_context) claimed_events).log
      = [Action.add_dispatch_operation "Approver", Action.dispatched 1,
         Action.dispatch_completed] ∧
    run_handlers_count (pipeline_run (example_priv [example_handler, example_approver])
      (mcd_dispatcher_run_clients (example_priv [example_handler, example_approver])
        claimed_context) claimed_events).log = 0 := by
  decide

theorem g_list_sort_singleton {α : Type} (compare_func : α → α → Int) (a : α) :
    g_list_sort compare_func [a] = [a] := by
  rw [g_list_sort]
  simp

/-- C10, the code at the failing input: a requested batch of two text channels
is taken and waits for its observer; the first channel is aborted with the
cancellation error, which flags the context cancelled; when the observer
replies the lock counter reaches 0 and HandleChannels is called on the handler
for the second channel all the same. -/
theorem C10_cancelled_context_still_invokes_handler :
    (_mcd_dispatcher_take_channels (example_priv [example_handler, example_observer])
        [example_requested_channel 1, example_requested_channel 2] true).contexts
      = [mcd_dispatcher_run_clients (example_priv [example_handler, example_observer])
          cancelled_context] ∧
    (pipeline_run (example_priv [example_handler, example_observer])
      (mcd_dispatcher_run_clients (example_priv [example_handler, example_observer])
        cancelled_context) (cancelled_events.take 1)).cancelled = true ∧
    (pipeline_run (example_priv [example_handler, example_observer])
      (mcd_dispatcher_run_clients (example_priv [example_handler, example_observer])
        cancelled_context) (cancelled_events.take 1)).client_locks = 1 ∧
    (pipeline_run (example_priv [example_handler, example_observer])
      (mcd_dispatcher_run_clients (example_priv [example_handler, example_observer])
        cancelled_context) cancelled_events).cancelled = true ∧
    (pipeline_run (example_priv [example_handler, example_observer])
      (mcd_dispatcher_run_clients (example_priv [example_handler, example_observer])
        cancelled_context) cancelled_events).log
      = [Action.observe_channels "Observer" [2, 1], Action.run_handlers,
         Action.handle_channels "Handler" [2] [] 0] := by
  have hcollect : possible_handlers_collect
      [example_requested_channel 1, example_requested_channel 2]
      [example_handler, example_observer] []
      = [{ client := example_handler, quality := 4 }] := by decide
  have hget : mcd_dispatcher_get_possible_handlers
      (example_priv [example_handler, example_observer]).clients
      [example_requested_channel 1, example_requested_channel 2]
      = some ["org.freedesktop.Telepathy.Client.Handler"] := by
    unfold mcd_dispatcher_get_possible_handlers
    simp only [example_priv]
    rw [hcollect]
    simp only [g_list_sort_singleton]
    decide
  refine ⟨?_, by decide, by decide, by decide, by decide⟩
  rw [take_channels_batch, hget]
  decide

theorem g_list_sort_pair {α : Type} (compare_func : α → α → Int) (a b : α) :
    g_list_sort compare_func [a, b] = g_list_sort_merge compare_func [a] [b] := by
  rw [g_list_sort]
  simp [g_list_sort_singleton]

/-- C19, the code at the failing input: HandleChannels for two channels whose
requests carry the user action times 5 and 3, in this order, is called with
the time 3, the one of the channel that comes last in the list, and not with
5, the latest of the two. -/
theorem C19_user_action_time_of_the_last_channel :
    handle_channels_user_action_time
      [example_timed_channel 1 5, example_timed_channel 2 3] 0 = 3 ∧
    (mcd_dispatcher_handle_channels
        (example_context [example_timed_channel 1 5, example_timed_channel 2 3] none)
        [example_timed_channel 1 5, example_timed_channel 2 3] example_handler).log
      = [Action.handle_channels "Handler" [1, 2] [] 3] ∧
    (([example_timed_channel 1 5, example_timed_channel 2 3].map
        (fun channel => channel.request_user_action_time)).foldl max 0) = 5 := by
  decide

/-- C17, the code at the failing input: with a registry that holds a handler
without BypassApproval before one with it, both matching the text channel of
the batch, the list of `mcd_dispatcher_get_possible_handlers` starts with the
handler that has BypassApproval, and `mcd_dispatcher_run_handler`, for a
context whose operation names no handler, calls HandleChannels on the other
one. -/
theorem C17_run_handler_ignores_the_ranking :
    mcd_dispatcher_get_possible_handlers [example_handler, example_bypass_handler]
        [example_channel 1]
      = some ["org.freedesktop.Telepathy.Client.Bypass",
          "org.freedesktop.Telepathy.Client.Handler"] ∧
    (run_handler_choice (example_priv [example_handler, example_bypass_handler])
        unnamed_context [example_channel 1]).handler = some example_handler ∧
    (mcd_dispatcher_run_handler (example_priv [example_handler, example_bypass_handler])
        unnamed_context [example_channel 1]).1.log
      = [Action.handle_channels "Handler" [1] [] 0] := by
  have hcollect : possible_handlers_collect [example_channel 1]
      [example_handler, example_bypass_handler] []
      = [{ client := example_bypass_handler, quality := 2 },
         { client := example_handler, quality := 2 }] := by decide
  refine ⟨?_, by decide, by decide⟩
  unfold mcd_dispatcher_get_possible_handlers
  rw [hcollect]
  have hcmp : ¬ possible_handler_cmp
      { client := example_bypass_handler, quality := 2 }
      { client := example_handler, quality := 2 } ≤ 0 := by decide
  simp only [g_list_sort_pair, g_list_sort_merge, if_neg hcmp]
  decide

theorem C14_claimed_operation_completes_witness :
    (claimed_operation.claimed = true ∧ awaiting_context.channels ≠ []) ∧
    (on_operation_finished (example_priv [example_handler, example_approver])
        claimed_operation awaiting_context).client_locks = awaiting_context.client_locks ∧
    (on_operation_finished (example_priv [example_handler, example_approver])
        claimed_operation awaiting_context).finished = true ∧
    (on_operation_finished (example_priv [example_handler, example_approver])
        claimed_operation awaiting_context).log
      = [Action.add_dispatch_operation "Approver", Action.dispatched 1, Action.dispatched 2,
         Action.dispatch_completed] :=
  ⟨by decide,
    (C14_claimed_operation_completes (example_priv [example_handler, example_approver])
      claimed_operation awaiting_context (by decide) (by decide)).2.1,
    (C14_claimed_operation_completes (example_priv [example_handler, example_approver])
      claimed_operation awaiting_context (by decide) (by decide)).2.2.1,
    (C14_claimed_operation_completes (example_priv [example_handler, example_approver])
      claimed_operation awaiting_context (by decide) (by decide)).2.2.2.1⟩

theorem C20_name_owner_lost_witness :
    (":1.5" ≠ "" ∧
      clients_lookup (example_priv [example_handler, example_activatable_observer]).clients
        "org.freedesktop.Telepathy.Client.Observer" = some example_activatable_observer ∧
      clients_lookup (example_priv [example_handler, example_activatable_observer]).clients
        "org.freedesktop.Telepathy.Client.Handler" = some example_handler) ∧
    (name_owner_changed_cb (fun _ => none)
        (example_priv [example_handler, example_activatable_observer])
        "org.freedesktop.Telepathy.Client.Observer" ":1.5" "").clients.map client_bus_name
      = (example_priv [example_handler, example_activatable_observer]).clients.map
          client_bus_name ∧
    clients_lookup (name_owner_changed_cb (fun _ => none)
        (example_priv [example_handler, example_activatable_observer])
        "org.freedesktop.Telepathy.Client.Handler" ":1.5" "").clients
      "org.freedesktop.Telepathy.Client.Handler" = none :=
  ⟨by decide,
    ((C20_name_owner_lost (fun _ => none)
      (example_priv [example_handler, example_activatable_observer])
      "org.freedesktop.Telepathy.Client.Observer" ":1.5" example_activatable_observer
      (by decide) (by decide)).1 rfl).2,
    ((C20_name_owner_lost (fun _ => none)
      (example_priv [example_handler, example_activatable_observer])
      "org.freedesktop.Telepathy.Client.Handler" ":1.5" example_handler
      (by decide) (by decide)).2.1 rfl).1⟩

theorem C11_approver_replies_witness :
    (approval_context.operation ≠ none ∧
      matching_approvers
        (example_priv [example_handler, example_approver, example_second_approver]).clients
        approval_context.channels ≠ [] ∧
      (([true] : List Bool).count true : Int) + 1
        = (mcd_dispatcher_run_approvers
            (example_priv [example_handler, example_approver, example_second_approver])
            approval_context).approvers_invoked) ∧
    ((mcd_dispatcher_run_approvers
        (example_priv [example_handler, example_approver, example_second_approver])
        approval_context).approvers_invoked
        = ((matching_approvers
            (example_priv [example_handler, example_approver, example_second_approver]).clients
            approval_context.channels).length : Int) ∧
      (mcd_dispatcher_run_approvers
        (example_priv [example_handler, example_approver, example_second_approver])
        approval_context).client_locks = approval_context.client_locks + 1 ∧
      (mcd_dispatcher_run_approvers
        (example_priv [example_handler, example_approver, example_second_approver])
        approval_context).log
        = approval_context.log ++ (matching_approvers
            (example_priv [example_handler, example_approver, example_second_approver]).clients
            approval_context.channels).map
            (fun client => Action.add_dispatch_operation client.name)) ∧
    (pipeline_run (example_priv [example_handler, example_approver, example_second_approver])
        (mcd_dispatcher_run_approvers
          (example_priv [example_handler, example_approver, example_second_approver])
          approval_context)
        (approver_replies ([true] ++ [true]))).approvers_invoked = 0 :=
  ⟨by decide,
    (C11_approver_replies
      (example_priv [example_handler, example_approver, example_second_approver])
      approval_context
      (mcd_dispatcher_run_approvers
        (example_priv [example_handler, example_approver, example_second_approver])
        approval_context) [] [true]).1 (by decide) (by decide),
    ((C11_approver_replies
      (example_priv [example_handler, example_approver, example_second_approver])
      approval_context
      (mcd_dispatcher_run_approvers
        (example_priv [example_handler, example_approver, example_second_approver])
        approval_context) [] [true]).2.2.2.2 (by decide)).1⟩

theorem C12_approver_phase_entered_witness :
    (bypass_context.operation = none ∨ bypass_context.skip_approval = true ∨
      handlers_can_bypass_approval
        (example_priv [example_bypass_handler, example_approver])
        bypass_context.channels = true) ∧
    mcd_dispatcher_run_clients (example_priv [example_bypass_handler, example_approver])
        bypass_context
      = mcd_dispatcher_context_release_client_lock
          (example_priv [example_bypass_handler, example_approver])
          (mcd_dispatcher_run_observers
            (example_priv [example_bypass_handler, example_approver])
            { bypass_context with client_locks := 1 }) ∧
    add_dispatch_operation_count
        (pipeline_run (example_priv [example_bypass_handler, example_approver])
          (mcd_dispatcher_run_clients
            (example_priv [example_bypass_handler, example_approver]) bypass_context)
          [PipelineEvent.handle_channels_reply [example_channel 1] false]).log
      = add_dispatch_operation_count bypass_context.log :=
  ⟨by decide,
    (C12_approver_phase_entered (example_priv [example_bypass_handler, example_approver])
      bypass_context [PipelineEvent.handle_channels_reply [example_channel 1] false]).2.1
      (by decide)⟩

/-- C12, the claim at a concrete input: the registry holds a handler of text
channels without BypassApproval, then one with it, and an approver. For an
inbound text channel the most preferred possible handler is the one with
BypassApproval, and the approver is called all the same, because the default
handler of the channel is the first one. -/
theorem C12_bypass_of_the_preferred_handler_is_not_enough :
    (possible_handlers_ranked [example_handler, example_bypass_handler, example_approver]
        [example_channel 1]).head?
      = some { client := example_bypass_handler, quality := 2 } ∧
    example_bypass_handler.bypass_approver = true ∧
    get_default_handler [example_handler, example_bypass_handler, example_approver]
        (example_channel 1) = some example_handler ∧
    (mcd_dispatcher_run_clients
        (example_priv [example_handler, example_bypass_handler, example_approver])
        unnamed_context).log
      = [Action.add_dispatch_operation "Approver"] := by
  have hcollect : possible_handlers_collect [example_channel 1]
      [example_handler, example_bypass_handler, example_approver] []
      = [{ client := example_bypass_handler, quality := 2 },
         { client := example_handler, quality := 2 }] := by decide
  have hcmp : ¬ possible_handler_cmp
      { client := example_bypass_handler, quality := 2 }
      { client := example_handler, quality := 2 } ≤ 0 := by decide
  refine ⟨?_, by decide, by decide, by decide⟩
  unfold possible_handlers_ranked
  rw [hcollect]
  simp only [g_list_sort_pair, g_list_sort_merge, if_neg hcmp]
  rfl

/-- C13, the claim at a concrete input: the registry holds one handler, which
matches the inbound text channel and has BypassApproval, and an observer. The
context of the channel gets a dispatch operation; the observer is called and,
after its reply, the handler. -/
theorem C13_dispatch_operation_is_created :
    (_mcd_dispatcher_enter_state_machine
        (example_priv [example_bypass_handler, example_observer, example_approver])
        [example_channel 1] ["org.freedesktop.Telepathy.Client.Bypass"] false).contexts.map
        (fun created => created.operation)
      = [some (_mcd_dispatch_operation_new ["org.freedesktop.Telepathy.Client.Bypass"])] ∧
    (_mcd_dispatcher_enter_state_machine
        (example_priv [example_bypass_handler, example_observer, example_approver])
        [example_channel 1] ["org.freedesktop.Telepathy.Client.Bypass"] false).contexts.map
        (fun created =>
          (pipeline_run
            (example_priv [example_bypass_handler, example_observer, example_approver])
            created [PipelineEvent.observe_channels_reply false]).log)
      = [[Action.observe_channels "Observer" [1], Action.run_handlers,
          Action.handle_channels "Bypass" [1] [] 0]] := by
  decide

theorem C13_sole_handler_bypasses_approval_witness :
    (example_bypass_handler
        ∈ (example_priv [example_bypass_handler, example_observer, example_approver]).clients ∧
      example_bypass_handler.bypass_approver = true ∧ bypass_context.channels ≠ []) ∧
    add_dispatch_operation_count
        (pipeline_run
          (example_priv [example_bypass_handler, example_observer, example_approver])
          (mcd_dispatcher_run_clients
            (example_priv [example_bypass_handler, example_observer, example_approver])
            bypass_context)
          [PipelineEvent.observe_channels_reply false]).log
      = add_dispatch_operation_count bypass_context.log ∧
    (pipeline_run
        (example_priv [example_bypass_handler, example_observer, example_approver])
        (mcd_dispatcher_run_clients
          (example_priv [example_bypass_handler, example_observer, example_approver])
          bypass_context)
        [PipelineEvent.observe_channels_reply false]).log
      = [Action.observe_channels "Observer" [1], Action.run_handlers,
         Action.handle_channels "Bypass" [1] [] 0] :=
  ⟨by decide,
    (C13_sole_handler_bypasses_approval
      (example_priv [example_bypass_handler, example_observer, example_approver])
      bypass_context example_bypass_handler [PipelineEvent.observe_channels_reply false]
      (by decide) (by decide) (by decide) (by decide) (by decide) (by decide)
      (by decide)).2.1,
    by decide⟩

theorem C28_chain_add_filter_sorted_witness :
    chain_sorted (example_priv []).filters ∧
    chain_sorted ({ example_priv [] with filters := example_chain }).filters ∧
    chain_add_filter ({ example_priv [] with filters := example_chain }).filters 13 3
      = ({ example_priv [] with filters := example_chain }).filters.takeWhile
          (fun elem => decide (elem.priority < 3))
        ++ { func := 13, priority := 3 }
          :: ({ example_priv [] with filters := example_chain }).filters.dropWhile
            (fun elem => decide (elem.priority < 3)) ∧
    chain_add_filter example_chain 13 3
      = [{ func := 10, priority := 1 }, { func := 13, priority := 3 },
         { func := 11, priority := 3 }, { func := 12, priority := 3 }] :=
  ⟨by decide, by decide,
    (C28_chain_add_filter_sorted { example_priv [] with filters := example_chain } 13 3 []
      (by decide)).2.1,
    by decide⟩

theorem C27_run_handlers_terminates_witness :
    ([example_channel 1, example_call_channel 2] ≠ [] ∧
      (mcd_dispatcher_run_handler (example_priv [example_handler])
        (example_context [example_channel 1, example_call_channel 2] none)
        [example_channel 1, example_call_channel 2]).2.length
        < [example_channel 1, example_call_channel 2].length) ∧
    mcd_dispatcher_run_handlers_calls (example_priv [example_handler]) (1 + 1)
        (example_context [example_channel 1, example_call_channel 2] none)
        [example_channel 1, example_call_channel 2]
      = 1 + mcd_dispatcher_run_handlers_calls (example_priv [example_handler]) 1
          (mcd_dispatcher_run_handler (example_priv [example_handler])
            (example_context [example_channel 1, example_call_channel 2] none)
            [example_channel 1, example_call_channel 2]).1
          (mcd_dispatcher_run_handler (example_priv [example_handler])
            (example_context [example_channel 1, example_call_channel 2] none)
            [example_channel 1, example_call_channel 2]).2 ∧
    mcd_dispatcher_run_handlers_calls (example_priv [example_handler]) 2
        (example_context [example_channel 1, example_call_channel 2] none)
        [example_channel 1, example_call_channel 2] = 2 :=
  ⟨by decide,
    ((C27_run_handlers_terminates (example_priv [example_handler])
      (example_context [example_channel 1, example_call_channel 2] none)
      [example_channel 1, example_call_channel 2] 1 0).2.2.2.2.2.2.1
      (by decide) (by decide)).2,
    by decide⟩

theorem C30_run_handler_partition_witness :
    (channels_distinct [example_channel 1, example_call_channel 2, example_channel 3] ∧
      (run_handler_choice (example_priv [example_handler])
        (example_context [example_channel 1, example_call_channel 2, example_channel 3] none)
        [example_channel 1, example_call_channel 2, example_channel 3]).handler
        = some example_handler) ∧
    (run_handler_choice (example_priv [example_handler])
        (example_context [example_channel 1, example_call_channel 2, example_channel 3] none)
        [example_channel 1, example_call_channel 2, example_channel 3]).handled_best
      = ([example_channel 1, example_call_channel 2, example_channel 3].filter
          (fun channel =>
            decide (match_filters channel example_handler.handler_filters ≠ 0))).reverse ∧
    (mcd_dispatcher_run_handler (example_priv [example_handler])
        (example_context [example_channel 1, example_call_channel 2, example_channel 3] none)
        [example_channel 1, example_call_channel 2, example_channel 3]).2
      = [example_call_channel 2] :=
  ⟨by decide,
    (C30_run_handler_partition (example_priv [example_handler])
      (example_context [example_channel 1, example_call_channel 2, example_channel 3] none)
      [example_channel 1, example_call_channel 2, example_channel 3] example_handler
      (by decide) (by decide)).1,
    by decide⟩

/-- C22 on a reply of two filters: the first filter, which has a property of
an unsupported type, is dropped; the second is added with its value widened. -/
theorem C22_invalid_filter_is_dropped_witness :
    get_channel_filter_class
        [("org.freedesktop.Telepathy.Channel.ChannelType", GValue.string "Text"),
         ("org.freedesktop.Telepathy.Channel.Interfaces", GValue.other "GStrv")] [] = none ∧
    get_channel_filter_class
        [("org.freedesktop.Telepathy.Channel.TargetHandleType", GValue.uint 1)] []
      = some [("org.freedesktop.Telepathy.Channel.TargetHandleType", GValue.uint64 1)] :=
  ⟨((C22_invalid_filter_is_dropped [] example_filters_reply).2 _).1
     ⟨("org.freedesktop.Telepathy.Channel.Interfaces", GValue.other "GStrv"),
      by simp, "GStrv", rfl⟩,
   ((C22_invalid_filter_is_dropped [] example_filters_reply).2
      [("org.freedesktop.Telepathy.Channel.TargetHandleType", GValue.uint 1)]).2
     (by simp) (by simp)⟩

/-- C22 as stated fails: the string property of the first filter of the reply
is lost with the property of the unsupported type, the list of the client
gets the second filter only. -/
theorem C22_valid_entries_of_the_filter_are_lost :
    get_channel_filter_cb [] (some example_filters_reply)
      = [[("org.freedesktop.Telepathy.Channel.TargetHandleType", GValue.uint64 1)]] ∧
    [("org.freedesktop.Telepathy.Channel.ChannelType", GValue.string "Text")]
      ∉ get_channel_filter_cb [] (some example_filters_reply) := by
  decide

/-- C26 on a registry of two handlers of text channels with the Requests
interface: the call goes to the first of them. -/
theorem C26_add_request_default_handler_witness :
    _mcd_dispatcher_add_request
        (example_priv [example_requests_handler "First", example_requests_handler "Preferred"])
        (example_channel 1) "/request0" (some "org.freedesktop.Telepathy.Client.Preferred")
      = { example_priv [example_requests_handler "First", example_requests_handler "Preferred"]
          with log := [Action.add_request "First" "/request0"
            (some "org.freedesktop.Telepathy.Client.Preferred")] } :=
  (C26_add_request_default_handler
    (example_priv [example_requests_handler "First", example_requests_handler "Preferred"])
    (example_channel 1) "/request0" (some "org.freedesktop.Telepathy.Client.Preferred")).1
    (example_requests_handler "First") (by decide) (by decide)

/-- C26 as stated fails: with two handlers of text channels that implement the
Requests interface, a request whose preferred handler is the second one has
its AddRequest call made to the first one, and none to the preferred
handler. -/
theorem C26_add_request_misses_the_preferred_handler :
    client_bus_name (example_requests_handler "Preferred")
      = "org.freedesktop.Telepathy.Client.Preferred" ∧
    (example_requests_handler "Preferred").implements MCD_CLIENT_INTERFACE_REQUESTS = true ∧
    (_mcd_dispatcher_add_request
        (example_priv [example_requests_handler "First", example_requests_handler "Preferred"])
        (example_channel 1) "/request0"
        (some "org.freedesktop.Telepathy.Client.Preferred")).log
      = [Action.add_request "First" "/request0"
          (some "org.freedesktop.Telepathy.Client.Preferred")] := by
  decide

/-- C24 on a new dispatcher, where the read of DispatchOperations gives the
empty list, and on the claimed operation of the example, whose finished
signal is not announced while the flag is clear. -/
theorem C24_operation_list_active_witness :
    (_mcd_dispatcher_get_property mcd_dispatcher_init
      McdDispatcherProperty.PROP_DISPATCH_OPERATIONS).2 = some [] ∧
    Action.dispatch_operation_finished ∉
      (pipeline_run (example_priv [example_handler, example_approver]) claimed_context
        claimed_events).log :=
  ⟨(C24_operation_list_active (fun _ => none) (fun _ => "/channel") (fun _ => false)
      mcd_dispatcher_init []).2.2.2.1 (fun _ hmem => by cases hmem),
   fun hmem => by
    have h := (C24_operation_list_active (fun _ => none) (fun _ => "/channel")
      (fun _ => false) (example_priv [example_handler, example_approver]) []).2.2.2.2.2
      rfl claimed_context claimed_events _ hmem rfl
    cases h⟩

/-- C21 on a registry that holds the example handler: the name of a new
client is registered, the name of the handler adds nothing. -/
theorem C21_name_owner_gained_witness :
    name_owner_changed_cb (fun _ => none) (example_priv [example_handler])
        "org.freedesktop.Telepathy.Client.Other" "" ":1.42"
      = { example_priv [example_handler] with
          clients := [create_mcd_client (fun _ => none)
            "org.freedesktop.Telepathy.Client.Other" false, example_handler] } ∧
    (name_owner_changed_cb (fun _ => none) (example_priv [example_handler])
        "org.freedesktop.Telepathy.Client.Handler" "" ":1.42").clients.map client_bus_name
      = ["org.freedesktop.Telepathy.Client.Handler"] :=
  ⟨((C21_name_owner_gained (fun _ => none) (example_priv [example_handler])
      "org.freedesktop.Telepathy.Client.Other" ":1.42" (by decide)).1
      (by decide) (by decide)).1,
   ((C21_name_owner_gained (fun _ => none) (example_priv [example_handler])
      "org.freedesktop.Telepathy.Client.Handler" ":1.42" (by decide)).2.1
      example_handler (by decide) (by decide)).2.1⟩

/-- C25 on a registry with one active handler that has to be asked: its answer
holds the path of the channel, which is then dispatched and not handed over;
with an answer that does not hold it, the channel is handed over once. -/
theorem C25_recover_channel_witness :
    (recover_channel_answers (fun _ => "/channel/1") (fun _ => false)
        (_mcd_dispatcher_recover_channel (fun _ => "/channel/1") (fun _ => false)
          (example_priv [example_recovering_handler]) (example_channel 1)).1
        [({ example_recovering_handler with handled_channels := some ["/channel/1"] },
          false)]).cr.channel.status = McdChannelStatus.DISPATCHED ∧
    take_channels_calls
      (recover_channel_answers (fun _ => "/channel/1") (fun _ => false)
        (_mcd_dispatcher_recover_channel (fun _ => "/channel/1") (fun _ => false)
          (example_priv [example_recovering_handler]) (example_channel 1)).1
        [({ example_recovering_handler with handled_channels := some [] },
          false)]).priv.log
      = [Action.take_channels [1] false] :=
  ⟨(((C25_recover_channel (fun _ => "/channel/1") (fun _ => false)
      (example_priv [example_recovering_handler]) (example_channel 1)
      [({ example_recovering_handler with handled_channels := some ["/channel/1"] },
        false)]).2.2 (by decide)).1 (by decide)).2.1,
   (((C25_recover_channel (fun _ => "/channel/1") (fun _ => false)
      (example_priv [example_recovering_handler]) (example_channel 1)
      [({ example_recovering_handler with handled_channels := some [] },
        false)]).2.2 (by decide)).2 (by decide)).2.2⟩

end Mcd
